import Mathlib

/-! # General purpose block preconditioners of oomph-lib

A shallow embedding of `src/generic/general_purpose_block_preconditioners.h`.

* Objects created with `new` live in typed stores of a `World`; a pointer is a
  natural number and `0` is the null pointer.
* A member function becomes a function from the world and the object to the
  world and the object after the call, inside `Except Failure`.
* Arithmetic on vector entries is exact: entries come from a commutative ring.
* Code of the library that is declared in other headers (the block lookup
  scheme, vectors, dense matrices, matrix-vector products) is modelled next to
  the code that uses it and is marked as such.
-/

namespace oomph

/-! ## Failures -/

/-- How a call can fail: an exception thrown by the library, or a step whose
behaviour C++ leaves undefined (null dereference, delete of a dead pointer,
access outside a container). -/
inductive Failure where
  | OomphLibError (message : String) (function_name : String)
  | undefined_behaviour (what : String)
  | out_of_fuel
  deriving DecidableEq, Repr

/-! ## Vectors and matrices -/

/-- Modelled from the spec: `DoubleVector` (declared in `double_vector.h`), "a
distributed vector type supporting construction against a target size,
indexed read/write, and elementwise subtraction". A vector is either not built
or holds its values. -/
inductive DoubleVector (K : Type) where
  | unbuilt
  | built (values : List K)
  deriving DecidableEq, Repr

namespace DoubleVector

variable {K : Type}

/-- Whether the vector has been built. -/
def is_built : DoubleVector K → Bool
  | unbuilt => false
  | built _ => true

/-- Number of rows (zero for a vector that is not built). -/
def nrow : DoubleVector K → ℕ
  | unbuilt => 0
  | built vs => vs.length

/-- Modelled from the spec: `z.build(r)`, the copy the Dummy strategy is
specified by ("`z := r`"): afterwards the vector is a copy of the argument. -/
def build_copy (_self : DoubleVector K) (old : DoubleVector K) : DoubleVector K :=
  old

/-- Modelled from the spec: `z.build(dist, v)`, construction "to the correct
global distribution/length": a built vector of `n` rows, every entry `v`. -/
def build_fill (_self : DoubleVector K) (n : ℕ) (v : K) : DoubleVector K :=
  built (List.replicate n v)

end DoubleVector

/-- The vector of length `n` whose `k`-th entry is `f k`. -/
def vec {K : Type} (n : ℕ) (f : ℕ → K) : List K :=
  (List.range n).map f

/-- Entry `k` of a vector of values; reading past the end gives zero. -/
def vget {K : Type} [Zero K] (v : List K) (k : ℕ) : K :=
  v.getD k 0

/-- Modelled from the spec: `a -= b` on vectors, "elementwise subtraction":
every entry of `a` has the matching entry of `b` subtracted. -/
def vsub {K : Type} [Zero K] [Sub K] (a b : List K) : List K :=
  vec a.length (fun k => vget a k - vget b k)

/-- Modelled from the spec: a sparse matrix (`CRDoubleMatrix`, declared in
`matrices.h`), given by its number of rows and columns and its entries. -/
structure CRDoubleMatrix (K : Type) where
  nrow : ℕ
  ncol : ℕ
  entry : ℕ → ℕ → K

/-- Modelled from the spec: matrix-vector product `M x` ("a
matrix-vector-multiply-only capability"): entry `k` of the result is
`Σ_l M(k,l) x_l`. -/
def CRDoubleMatrix.multiply {K : Type} [CommRing K] (m : CRDoubleMatrix K) (x : List K) : List K :=
  vec m.nrow (fun k => ∑ l in Finset.range m.ncol, m.entry k l * vget x l)

/-- A matrix handed to `setup` through a `DoubleMatrixBase*`: either of the
block-capable type `MATRIX` (here `CRDoubleMatrix`) or of some other type. -/
inductive DoubleMatrixBase (K : Type) where
  | block_capable (m : CRDoubleMatrix K)
  | other_type (nrow ncol : ℕ)

/-- The cast `dynamic_cast<MATRIX*>(matrix_pt)`: the matrix if it has the
block-capable type, null otherwise (and null for a null pointer). -/
def dynamic_cast_MATRIX {K : Type} : Option (DoubleMatrixBase K) → Option (CRDoubleMatrix K)
  | some (DoubleMatrixBase.block_capable m) => some m
  | _ => none

/-! ## Block lookup scheme -/

/-- Modelled from the spec: the block lookup scheme, "per unknown, the pair
(block type, position within block)", together with the map back from a block
and a position to the unknown. -/
structure BlockLookup where
  nrow : ℕ
  nblock_types : ℕ
  block_dimension : ℕ → ℕ
  block_number : ℕ → ℕ
  index_in_block : ℕ → ℕ
  global_index : ℕ → ℕ → ℕ

/-- A valid block setup: every unknown has exactly one block and one position
in it, and every position of every block belongs to exactly one unknown. -/
def BlockLookup.Valid (L : BlockLookup) : Prop :=
  (∀ g, g < L.nrow → L.block_number g < L.nblock_types ∧
      L.index_in_block g < L.block_dimension (L.block_number g) ∧
      L.global_index (L.block_number g) (L.index_in_block g) = g) ∧
  (∀ b, b < L.nblock_types → ∀ k, k < L.block_dimension b →
      L.global_index b k < L.nrow ∧
      L.block_number (L.global_index b k) = b ∧
      L.index_in_block (L.global_index b k) = k)

instance (L : BlockLookup) : Decidable L.Valid := by
  unfold BlockLookup.Valid; infer_instance

/-- Modelled from the spec: `get_block_vectors(v, s)`, "splitting a global
vector according to the lookup scheme": block `b` has one entry per position,
taken from the unknown at that position. -/
def BlockLookup.get_block_vectors {K : Type} [Zero K] (L : BlockLookup) (v : List K) :
    List (List K) :=
  vec L.nblock_types (fun b => vec (L.block_dimension b) (fun k => vget v (L.global_index b k)))

/-- Modelled from the spec: `return_block_vectors(s, v)`, the block vectors
"re-assembled into global ordering": every unknown of `v` receives the entry
of its block at its position. -/
def BlockLookup.return_block_vectors {K : Type} [Zero K] (L : BlockLookup) (s : List (List K))
    (v : List K) : List K :=
  vec v.length (fun g =>
    if g < L.nrow then vget (s.getD (L.block_number g) []) (L.index_in_block g) else vget v g)

/-! ## Typed stores of objects created with `new` -/

/-- The objects of one type that are alive: `obj p` is the object a pointer
`p` refers to, `next` is the next address handed out. Address `0` is the null
pointer and addresses from `next` on have not been handed out. The field
`peak` is a ghost of the execution: the largest number of objects that have
been live at the same time. -/
structure Store (α : Type) where
  next : ℕ
  obj : ℕ → Option α
  peak : ℕ
  next_pos : 0 < next
  null_free : obj 0 = none
  fresh : ∀ p, next ≤ p → obj p = none

namespace Store

variable {α : Type}

/-- The store with no object. -/
def empty : Store α :=
  ⟨1, fun _ => none, 0, Nat.one_pos, rfl, fun _ _ => rfl⟩

/-- Run `new`: the object is placed at a fresh address, which is returned. -/
def new (s : Store α) (a : α) : ℕ × Store α :=
  (s.next,
   { next := s.next + 1
     obj := Function.update s.obj s.next (some a)
     peak := max s.peak ((List.range (s.next + 1)).countP
       (fun p => (Function.update s.obj s.next (some a) p).isSome))
     next_pos := Nat.succ_pos _
     null_free := by
       rw [Function.update_noteq (Nat.pos_iff_ne_zero.mp s.next_pos).symm]
       exact s.null_free
     fresh := fun p hp => by
       rw [Function.update_noteq (by omega)]
       exact s.fresh p (by omega) })

/-- Run `delete p`: nothing happens for the null pointer, a live object is
destroyed, and deleting anything else is undefined behaviour. -/
def delete (s : Store α) (p : ℕ) : Except Failure (Store α) :=
  if hp : p = 0 then Except.ok s
  else if (s.obj p).isSome then
    Except.ok
      { next := s.next
        obj := Function.update s.obj p none
        peak := s.peak
        next_pos := s.next_pos
        null_free := by
          rw [Function.update_noteq (Ne.symm hp)]
          exact s.null_free
        fresh := fun q hq => by
          by_cases h : q = p
          · subst h; simp
          · rw [Function.update_noteq h]; exact s.fresh q hq }
  else Except.error (Failure.undefined_behaviour "delete of a pointer that is not live")

/-- Overwrite the state of the live object at `p`. -/
def set (s : Store α) (p : ℕ) (a : α) : Except Failure (Store α) :=
  if hp : p = 0 then Except.error (Failure.undefined_behaviour "null pointer dereferenced")
  else if hl : (s.obj p).isSome then
    Except.ok
      { next := s.next
        obj := Function.update s.obj p (some a)
        peak := s.peak
        next_pos := s.next_pos
        null_free := by
          rw [Function.update_noteq (Ne.symm hp)]
          exact s.null_free
        fresh := fun q hq => by
          by_cases h : q = p
          · subst h
            have := s.fresh q hq
            simp [this] at hl
          · rw [Function.update_noteq h]; exact s.fresh q hq }
  else Except.error (Failure.undefined_behaviour "dangling pointer dereferenced")

/-- Read the object at `p`; null and dangling pointers are undefined behaviour. -/
def deref (s : Store α) (p : ℕ) : Except Failure α :=
  match s.obj p with
  | some a => Except.ok a
  | none => Except.error (Failure.undefined_behaviour "null or dangling pointer dereferenced")

/-- Number of live objects. -/
def live (s : Store α) : ℕ :=
  (List.range s.next).countP (fun p => (s.obj p).isSome)

end Store

/-! ## Loops -/

/-- The loop `for (unsigned i = lo; ...; i++)` run for `count` rounds from `i`. -/
def for_loop {σ : Type} (body : ℕ → σ → Except Failure σ) : ℕ → ℕ → σ → Except Failure σ
  | _, 0, s => Except.ok s
  | i, count + 1, s =>
    match body i s with
    | Except.ok s1 => for_loop body (i + 1) count s1
    | Except.error e => Except.error e

/-- The loop `for (unsigned i = lo; i < hi; i++) body`. -/
def for_range {σ : Type} (lo hi : ℕ) (body : ℕ → σ → Except Failure σ) (s : σ) :
    Except Failure σ :=
  for_loop body lo (hi - lo) s

/-- The loop `for (int i = start; i != stop; i += step) body`, with a bound
`fuel` on the number of rounds. -/
def sweep {σ : Type} (body : ℤ → σ → Except Failure σ) (stop step : ℤ) :
    ℕ → ℤ → σ → Except Failure σ
  | 0, i, s => if i = stop then Except.ok s else Except.error Failure.out_of_fuel
  | fuel + 1, i, s =>
    if i = stop then Except.ok s
    else
      match body i s with
      | Except.ok s1 => sweep body stop step fuel (i + step) s1
      | Except.error e => Except.error e

/-! ## Machine integers -/

/-- Value of an `unsigned` expression: reduction modulo `2^32`. -/
def to_unsigned (x : ℤ) : ℕ :=
  (x % 4294967296).toNat

/-- Conversion of an `unsigned` value to `int` (two's complement). -/
def unsigned_to_int (u : ℕ) : ℤ :=
  if u % 4294967296 < 2147483648 then ((u % 4294967296 : ℕ) : ℤ)
  else ((u % 4294967296 : ℕ) : ℤ) - 4294967296

/-! ## Containers -/

/-- `std::vector::resize(n)` on a `Vector` of pointers or numbers: cut to `n`
entries or pad with zeros. -/
def Vector_resize (v : List ℕ) (n : ℕ) : List ℕ :=
  v.take n ++ List.replicate (n - v.length) 0

/-- Read `v[i]`; an index outside the vector is undefined behaviour. -/
def Vector_at {α : Type} (v : List α) (i : ℤ) : Except Failure α :=
  if 0 ≤ i then
    match v.get? i.toNat with
    | some a => Except.ok a
    | none => Except.error (Failure.undefined_behaviour "Vector index out of range")
  else Except.error (Failure.undefined_behaviour "Vector index out of range")

/-- Write `v[i] = a`; an index outside the vector is undefined behaviour. -/
def Vector_assign {α : Type} (v : List α) (i : ℤ) (a : α) : Except Failure (List α) :=
  if 0 ≤ i ∧ i.toNat < v.length then Except.ok (v.set i.toNat a)
  else Except.error (Failure.undefined_behaviour "Vector index out of range")

/-- Modelled from the spec: `DenseMatrix<T>` (declared in `matrices.h`), the
"cached operators" table of the triangular strategy: `N` rows, `M` columns and
one entry per pair of indices. -/
structure DenseMatrix (α : Type) where
  N : ℕ
  M : ℕ
  data : ℕ → ℕ → α

namespace DenseMatrix

variable {α : Type}

/-- The matrix with no rows and no columns (default construction). -/
def empty (a : α) : DenseMatrix α :=
  ⟨0, 0, fun _ _ => a⟩

/-- Modelled from the spec: `resize(n, m, initial_value)`: the matrix becomes
`n` by `m`; entries present before are kept and new entries get the initial
value. -/
def resize (d : DenseMatrix α) (n m : ℕ) (initial_value : α) : DenseMatrix α :=
  ⟨n, m, fun i j => if i < d.N ∧ j < d.M then d.data i j else initial_value⟩

/-- Read entry `(i,j)`; indices outside the matrix are undefined behaviour. -/
def entry (d : DenseMatrix α) (i j : ℤ) : Except Failure α :=
  if 0 ≤ i ∧ i.toNat < d.N ∧ 0 ≤ j ∧ j.toNat < d.M then Except.ok (d.data i.toNat j.toNat)
  else Except.error (Failure.undefined_behaviour "DenseMatrix index out of range")

/-- Write entry `(i,j)`; indices outside the matrix are undefined behaviour. -/
def assign (d : DenseMatrix α) (i j : ℤ) (a : α) : Except Failure (DenseMatrix α) :=
  if 0 ≤ i ∧ i.toNat < d.N ∧ 0 ≤ j ∧ j.toNat < d.M then
    Except.ok ⟨d.N, d.M, fun i1 j1 => if i1 = i.toNat ∧ j1 = j.toNat then a else d.data i1 j1⟩
  else Except.error (Failure.undefined_behaviour "DenseMatrix index out of range")

end DenseMatrix

/-! ## The world: subsidiary preconditioners, operators, extracted matrices -/

/-- Concrete class of a subsidiary preconditioner: the default direct solver,
or whatever the installed factory function builds (told apart by a tag). -/
inductive PrecKind where
  | SuperLUPreconditioner
  | from_factory (tag : ℕ)
  deriving DecidableEq, Repr

/-- A subsidiary preconditioner object: "an opaque capability object bound to
exactly one block"; `matrix` is the block its `setup` was last run on. -/
structure Preconditioner (K : Type) where
  kind : PrecKind
  matrix : Option (CRDoubleMatrix K)

/-- A `MatrixVectorProduct` object; `matrix` is the block its `setup` was run on. -/
structure MatrixVectorProduct (K : Type) where
  matrix : Option (CRDoubleMatrix K)

/-- Calls that leave a trace. -/
inductive Event where
  | block_setup (nmesh : ℕ) (meshes : List ℕ) (dof_to_block_map : Option (List ℕ))
  | factory_call
  | get_block (i j : ℕ)
  | build_preconditioner_matrix
  | build_z
  deriving DecidableEq, Repr

/-- Everything outside the preconditioner object itself: the live objects of
each type and the trace of calls. -/
structure World (K : Type) where
  preconditioners : Store (Preconditioner K)
  matrix_vector_products : Store (MatrixVectorProduct K)
  matrices : Store (CRDoubleMatrix K)
  log : List Event

/-- The type `SubsidiaryPreconditionerFctPt`: a function without arguments
returning a pointer to a new preconditioner. The model gives, for the number
of calls made so far, the class of the object built, or `none` when the
function returns a null pointer. -/
abbrev SubsidiaryPreconditionerFctPt := ℕ → Option ℕ

/-- What the embedding takes from outside the sources: whether the library is
compiled with `PARANOID`, the lookup scheme the base class `block_setup`
derives from meshes, DOF-to-block map and matrix, and what a subsidiary
preconditioner of a given class, set up on a matrix, returns for a residual. -/
structure Env (K : Type) where
  PARANOID : Bool
  block_scheme : List ℕ → Option (List ℕ) → CRDoubleMatrix K → BlockLookup
  solve : PrecKind → CRDoubleMatrix K → List K → List K

/-- Class of the subsidiary preconditioner a `setup` creates when `calls`
calls of the factory function have been made before: the default direct
solver without a function, what the function builds otherwise (`none` if it
returns the null pointer). -/
def created_kind (fct_pt : Option SubsidiaryPreconditionerFctPt) (calls : ℕ) : Option PrecKind :=
  match fct_pt with
  | none => some PrecKind.SuperLUPreconditioner
  | some f => (f calls).map PrecKind.from_factory

namespace World

variable {K : Type}

/-- The world before anything has been created. -/
def empty : World K :=
  ⟨Store.empty, Store.empty, Store.empty, []⟩

/-- Append an event to the trace. -/
def record (w : World K) (e : Event) : World K :=
  { w with log := w.log ++ [e] }

/-- Number of calls of the factory function so far. -/
def factory_calls (w : World K) : ℕ :=
  w.log.count Event.factory_call

/-- The expression `new SuperLUPreconditioner`. -/
def new_SuperLUPreconditioner (w : World K) : ℕ × World K :=
  let r := w.preconditioners.new ⟨PrecKind.SuperLUPreconditioner, none⟩
  (r.1, { w with preconditioners := r.2 })

/-- The call `(*Subsidiary_preconditioner_function_pt)()`: a new object of the
class the function builds, or the null pointer. -/
def call_factory (w : World K) (f : SubsidiaryPreconditionerFctPt) : ℕ × World K :=
  match f w.factory_calls with
  | some tag =>
    let r := w.preconditioners.new ⟨PrecKind.from_factory tag, none⟩
    (r.1, { (w.record Event.factory_call) with preconditioners := r.2 })
  | none => (0, w.record Event.factory_call)

/-- The creation of a subsidiary preconditioner in every `setup`:
`new SuperLUPreconditioner` if the function pointer is null, a call of the
function otherwise. -/
def create_subsidiary_preconditioner (w : World K)
    (fct_pt : Option SubsidiaryPreconditionerFctPt) : ℕ × World K :=
  match fct_pt with
  | none => w.new_SuperLUPreconditioner
  | some f => w.call_factory f

/-- The statement `delete p` for a subsidiary preconditioner. -/
def delete_preconditioner (w : World K) (p : ℕ) : Except Failure (World K) :=
  match w.preconditioners.delete p with
  | Except.ok s => Except.ok { w with preconditioners := s }
  | Except.error e => Except.error e

/-- The statement `delete p` for a matrix-vector product operator. -/
def delete_matrix_vector_product (w : World K) (p : ℕ) : Except Failure (World K) :=
  match w.matrix_vector_products.delete p with
  | Except.ok s => Except.ok { w with matrix_vector_products := s }
  | Except.error e => Except.error e

/-- The statement `delete p` for an extracted or assembled matrix. -/
def delete_matrix (w : World K) (p : ℕ) : Except Failure (World K) :=
  match w.matrices.delete p with
  | Except.ok s => Except.ok { w with matrices := s }
  | Except.error e => Except.error e

/-- A matrix created with `new` by block extraction or assembly. -/
def new_matrix (w : World K) (m : CRDoubleMatrix K) : ℕ × World K :=
  let r := w.matrices.new m
  (r.1, { w with matrices := r.2 })

/-- The call `p->setup(problem_pt, block_pt)` on a subsidiary preconditioner:
the object is bound to the matrix `block_pt` points to. -/
def preconditioner_setup (w : World K) (p block_pt : ℕ) : Except Failure (World K) :=
  match w.preconditioners.deref p, w.matrices.deref block_pt with
  | Except.ok pre, Except.ok m =>
    match w.preconditioners.set p { pre with matrix := some m } with
    | Except.ok s => Except.ok { w with preconditioners := s }
    | Except.error e => Except.error e
  | Except.error e, _ => Except.error e
  | _, Except.error e => Except.error e

/-- The call `p->preconditioner_solve(r, z)` on a subsidiary preconditioner:
the values of `z` afterwards. -/
def subsidiary_solve (env : Env K) (w : World K) (p : ℕ) (r : List K) : Except Failure (List K) :=
  match w.preconditioners.deref p with
  | Except.ok pre =>
    match pre.matrix with
    | some m => Except.ok (env.solve pre.kind m r)
    | none => Except.error (Failure.undefined_behaviour "preconditioner used before its setup")
  | Except.error e => Except.error e

/-- The expression `new MatrixVectorProduct()`. -/
def new_MatrixVectorProduct (w : World K) : ℕ × World K :=
  let r := w.matrix_vector_products.new ⟨none⟩
  (r.1, { w with matrix_vector_products := r.2 })

/-- The call `p->setup(block_pt)` on a matrix-vector product operator. -/
def matrix_vector_product_setup (w : World K) (p block_pt : ℕ) : Except Failure (World K) :=
  match w.matrix_vector_products.deref p, w.matrices.deref block_pt with
  | Except.ok _, Except.ok m =>
    match w.matrix_vector_products.set p ⟨some m⟩ with
    | Except.ok s => Except.ok { w with matrix_vector_products := s }
    | Except.error e => Except.error e
  | Except.error e, _ => Except.error e
  | _, Except.error e => Except.error e

/-- The call `p->multiply(x, y)` on a matrix-vector product operator: the
values of `y` afterwards. -/
def multiply [CommRing K] (w : World K) (p : ℕ) (x : List K) : Except Failure (List K) :=
  match w.matrix_vector_products.deref p with
  | Except.ok op =>
    match op.matrix with
    | some m => Except.ok (m.multiply x)
    | none => Except.error (Failure.undefined_behaviour "operator used before its setup")
  | Except.error e => Except.error e

end World

/-! ## Block order -/

namespace BlockLookup

/-- Position in block order of the first entry of block `b`: the sizes of the
blocks before it added up. -/
def block_offset (L : BlockLookup) (b : ℕ) : ℕ :=
  ∑ c in Finset.range b, L.block_dimension c

/-- Search, from block `b` on and through `count` blocks, for the block and the
position in it that lie `p` entries further in block order. -/
def locate_from (L : BlockLookup) : ℕ → ℕ → ℕ → ℕ × ℕ
  | 0, b, p => (b, p)
  | count + 1, b, p =>
    if p < L.block_dimension b then (b, p)
    else locate_from L count (b + 1) (p - L.block_dimension b)

/-- Block and position in the block of entry `p` of a block-ordered vector. -/
def locate (L : BlockLookup) (p : ℕ) : ℕ × ℕ :=
  L.locate_from L.nblock_types 0 p

/-- The unknown stored at entry `p` of a block-ordered vector. -/
def unknown_at (L : BlockLookup) (p : ℕ) : ℕ :=
  L.global_index (L.locate p).1 (L.locate p).2

/-- Entry of a block-ordered vector that holds unknown `g`. -/
def block_order_index (L : BlockLookup) (g : ℕ) : ℕ :=
  L.block_offset (L.block_number g) + L.index_in_block g

/-- Modelled from the spec: block `(i,j)` of a matrix, "the sub-matrix of the
global system restricted to rows of block type `i` and columns of block type
`j`". -/
def block {K : Type} (L : BlockLookup) (A : CRDoubleMatrix K) (i j : ℕ) : CRDoubleMatrix K :=
  ⟨L.block_dimension i, L.block_dimension j,
   fun k l => A.entry (L.global_index i k) (L.global_index j l)⟩

/-- Modelled from the spec: `get_block_ordered_preconditioner_vector`, "reorder
the input residual into block order": the block vectors one after the other. -/
def get_block_ordered_preconditioner_vector {K : Type} [Zero K] (L : BlockLookup) (v : List K) :
    List K :=
  vec (L.block_offset L.nblock_types) (fun p => vget v (L.unknown_at p))

/-- Modelled from the spec: `return_block_ordered_preconditioner_vector`,
"reorder the result back": every unknown of `v` receives the entry that holds
it in the block-ordered vector `x`. -/
def return_block_ordered_preconditioner_vector {K : Type} [Zero K] (L : BlockLookup)
    (x : List K) (v : List K) : List K :=
  vec v.length (fun g => if g < L.nrow then vget x (L.block_order_index g) else vget v g)

/-- Modelled from the spec: `build_preconditioner_matrix`, which will
"assemble them into one single matrix in block order": the entry at a pair of
block-order positions is the entry of the block the two positions select;
the matrix has no entry (the value is zero) outside its rows and columns. -/
def build_preconditioner_matrix {K : Type} [Zero K] (L : BlockLookup)
    (blocks : ℕ → ℕ → CRDoubleMatrix K) : CRDoubleMatrix K :=
  ⟨L.block_offset L.nblock_types, L.block_offset L.nblock_types,
   fun p q =>
    if p < L.block_offset L.nblock_types ∧ q < L.block_offset L.nblock_types then
      (blocks (L.locate p).1 (L.locate q).1).entry (L.locate p).2 (L.locate q).2
    else 0⟩

end BlockLookup

/-! ## The base class `BlockPreconditioner<MATRIX>` -/

/-- Modelled from the spec: the state of the base class `BlockPreconditioner`
(declared in `block_preconditioner.h`): problem, meshes, the matrix handed to
`block_setup` and the lookup scheme it produced ("built once per `setup`
call; invalidated and rebuilt on each new `setup`"). -/
structure BlockPreconditioner (K : Type) where
  Problem_pt : ℕ
  Mesh_pt : List ℕ
  Matrix_pt : Option (CRDoubleMatrix K)
  Lookup : Option BlockLookup

namespace BlockPreconditioner

variable {K : Type}

/-- State after construction. -/
def ctor : BlockPreconditioner K :=
  ⟨0, [], none, none⟩

/-- Modelled from the spec: `set_nmesh(n)`: room for `n` meshes. -/
def set_nmesh (self : BlockPreconditioner K) (n : ℕ) : BlockPreconditioner K :=
  { self with Mesh_pt := Vector_resize self.Mesh_pt n }

/-- Modelled from the spec: `set_mesh(m, mesh_pt)`: mesh number `m`. -/
def set_mesh (self : BlockPreconditioner K) (m : ℕ) (mesh_pt : ℕ) :
    Except Failure (BlockPreconditioner K) :=
  match Vector_assign self.Mesh_pt m mesh_pt with
  | Except.ok v => Except.ok { self with Mesh_pt := v }
  | Except.error e => Except.error e

/-- Modelled from the spec: `block_setup(matrix_pt, dof_to_block_map)` and
`block_setup(matrix_pt)` of the base class: it "consumes the full sparse
matrix plus a DOF-to-block map (or a default one-map-per-DOF-type when none
is supplied) and produces the lookup scheme". It reads the matrix, so a null
matrix pointer is undefined behaviour. -/
def block_setup (env : Env K) (w : World K) (self : BlockPreconditioner K)
    (matrix_pt : Option (CRDoubleMatrix K)) (dof_to_block_map : Option (List ℕ)) :
    Except Failure (World K × BlockPreconditioner K) :=
  match matrix_pt with
  | none =>
    Except.error (Failure.undefined_behaviour "block_setup called with a null matrix pointer")
  | some m =>
    Except.ok
      (w.record (Event.block_setup self.Mesh_pt.length self.Mesh_pt dof_to_block_map),
       { self with
         Matrix_pt := some m
         Lookup := some (env.block_scheme self.Mesh_pt dof_to_block_map m) })

/-- Modelled from the spec: `clear_block_preconditioner_base()`: the lookup
scheme is invalidated. -/
def clear_block_preconditioner_base (self : BlockPreconditioner K) : BlockPreconditioner K :=
  { self with Lookup := none }

/-- The call `nblock_types()`. -/
def nblock_types (self : BlockPreconditioner K) : ℕ :=
  match self.Lookup with
  | some L => L.nblock_types
  | none => 0

/-- The lookup scheme; using it before `block_setup` is a fatal programming
error ("the system reports the condition immediately"). -/
def lookup (self : BlockPreconditioner K) : Except Failure BlockLookup :=
  match self.Lookup with
  | some L => Except.ok L
  | none =>
    Except.error (Failure.OomphLibError "block_setup has not been called" "BlockPreconditioner")

/-- The call `get_block_vectors(r, block_r)`: the vector must be built. -/
def get_block_vectors [Zero K] (self : BlockPreconditioner K) (r : DoubleVector K) :
    Except Failure (List (List K)) :=
  match self.lookup, r with
  | Except.ok L, DoubleVector.built vs => Except.ok (L.get_block_vectors vs)
  | Except.ok _, DoubleVector.unbuilt =>
    Except.error (Failure.OomphLibError "The vector must be built" "get_block_vectors")
  | Except.error e, _ => Except.error e

/-- The call `return_block_vectors(block_z, z)`: it writes into `z`, which
therefore has to be built already, with one row per unknown. -/
def return_block_vectors [Zero K] (self : BlockPreconditioner K) (s : List (List K))
    (z : DoubleVector K) : Except Failure (DoubleVector K) :=
  match self.lookup, z with
  | Except.ok L, DoubleVector.built vs =>
    if vs.length = L.nrow then Except.ok (DoubleVector.built (L.return_block_vectors s vs))
    else Except.error (Failure.OomphLibError "The vector has the wrong distribution"
      "return_block_vectors")
  | Except.ok _, DoubleVector.unbuilt =>
    Except.error (Failure.OomphLibError "The vector must be built" "return_block_vectors")
  | Except.error e, _ => Except.error e

/-- The call `get_block_ordered_preconditioner_vector(r, block_order_r)`. -/
def get_block_ordered_preconditioner_vector [Zero K] (self : BlockPreconditioner K)
    (r : DoubleVector K) : Except Failure (List K) :=
  match self.lookup, r with
  | Except.ok L, DoubleVector.built vs =>
    Except.ok (L.get_block_ordered_preconditioner_vector vs)
  | Except.ok _, DoubleVector.unbuilt =>
    Except.error (Failure.OomphLibError "The vector must be built"
      "get_block_ordered_preconditioner_vector")
  | Except.error e, _ => Except.error e

/-- The call `return_block_ordered_preconditioner_vector(block_order_z, z)`:
it writes into `z`, which has to be built already, with one row per unknown. -/
def return_block_ordered_preconditioner_vector [Zero K] (self : BlockPreconditioner K)
    (x : List K) (z : DoubleVector K) : Except Failure (DoubleVector K) :=
  match self.lookup, z with
  | Except.ok L, DoubleVector.built vs =>
    if vs.length = L.nrow then
      Except.ok (DoubleVector.built (L.return_block_ordered_preconditioner_vector x vs))
    else Except.error (Failure.OomphLibError "The vector has the wrong distribution"
      "return_block_ordered_preconditioner_vector")
  | Except.ok _, DoubleVector.unbuilt =>
    Except.error (Failure.OomphLibError "The vector must be built"
      "return_block_ordered_preconditioner_vector")
  | Except.error e, _ => Except.error e

/-- The call `z.build(this->distribution_pt(), 0.0)`. -/
def build_to_distribution [Zero K] (self : BlockPreconditioner K) (z : DoubleVector K) :
    Except Failure (DoubleVector K) :=
  match self.lookup with
  | Except.ok L => Except.ok (z.build_fill L.nrow 0)
  | Except.error e => Except.error e

/-- The call `get_block(i, j, block_pt)`: the block is extracted into a new
matrix, "owned by the caller", and `block_pt` points to it afterwards. -/
def get_block (w : World K) (self : BlockPreconditioner K) (i j : ℕ) :
    Except Failure (ℕ × World K) :=
  match self.lookup, self.Matrix_pt with
  | Except.ok L, some A =>
    if i < L.nblock_types ∧ j < L.nblock_types then
      Except.ok ((w.record (Event.get_block i j)).new_matrix (L.block A i j))
    else Except.error (Failure.undefined_behaviour "get_block: no such block")
  | Except.ok _, none =>
    Except.error (Failure.undefined_behaviour "get_block: null matrix pointer")
  | Except.error e, _ => Except.error e

/-- One entry of `get_blocks`: block `(i,j)` is extracted if it is required
and its pointer stored in the table. -/
def get_blocks_entry (self : BlockPreconditioner K) (required_blocks : DenseMatrix Bool)
    (i j : ℕ) (st : World K × DenseMatrix ℕ) : Except Failure (World K × DenseMatrix ℕ) :=
  match required_blocks.entry i j with
  | Except.ok true =>
    match self.get_block st.1 i j with
    | Except.ok r =>
      match st.2.assign i j r.1 with
      | Except.ok d => Except.ok (r.2, d)
      | Except.error e => Except.error e
    | Except.error e => Except.error e
  | Except.ok false => Except.ok st
  | Except.error e => Except.error e

/-- One row of `get_blocks`. -/
def get_blocks_row (self : BlockPreconditioner K) (required_blocks : DenseMatrix Bool)
    (i : ℕ) (st : World K × DenseMatrix ℕ) : Except Failure (World K × DenseMatrix ℕ) :=
  for_range 0 self.nblock_types (get_blocks_entry self required_blocks i) st

/-- The call `get_blocks(required_blocks, block_matrix_pt)`: every required
block is extracted and its pointer stored in the table. -/
def get_blocks (w : World K) (self : BlockPreconditioner K) (required_blocks : DenseMatrix Bool)
    (block_matrix_pt : DenseMatrix ℕ) : Except Failure (World K × DenseMatrix ℕ) :=
  for_range 0 self.nblock_types (get_blocks_row self required_blocks) (w, block_matrix_pt)

/-- Read the matrix entry `(i,j)` of a table of pointers refers to. -/
def read_block (w : World K) (block_matrix_pt : DenseMatrix ℕ) (i j : ℕ)
    (d : DenseMatrix (Option (CRDoubleMatrix K))) :
    Except Failure (DenseMatrix (Option (CRDoubleMatrix K))) :=
  match block_matrix_pt.entry i j with
  | Except.ok p =>
    match w.matrices.deref p with
    | Except.ok m => d.assign i j (some m)
    | Except.error e => Except.error e
  | Except.error e => Except.error e

/-- Read the matrices row `i` of a table of pointers refers to. -/
def read_block_row (w : World K) (n : ℕ) (block_matrix_pt : DenseMatrix ℕ) (i : ℕ)
    (d : DenseMatrix (Option (CRDoubleMatrix K))) :
    Except Failure (DenseMatrix (Option (CRDoubleMatrix K))) :=
  for_range 0 n (read_block w block_matrix_pt i) d

/-- Read all the matrices a table of pointers refers to. -/
def read_blocks (w : World K) (n : ℕ) (block_matrix_pt : DenseMatrix ℕ) :
    Except Failure (DenseMatrix (Option (CRDoubleMatrix K))) :=
  for_range 0 n (read_block_row w n block_matrix_pt) ⟨n, n, fun _ _ => none⟩

/-- The call `build_preconditioner_matrix(block_matrix_pt, exact_block_matrix_pt)`:
the blocks are assembled into one new matrix in block order. -/
def build_preconditioner_matrix [Zero K] (w : World K) (self : BlockPreconditioner K)
    (block_matrix_pt : DenseMatrix ℕ) : Except Failure (ℕ × World K) :=
  match self.lookup with
  | Except.ok L =>
    match read_blocks w L.nblock_types block_matrix_pt with
    | Except.ok d =>
      Except.ok ((w.record Event.build_preconditioner_matrix).new_matrix
        (L.build_preconditioner_matrix (fun i j => (d.data i j).getD ⟨0, 0, fun _ _ => 0⟩)))
    | Except.error e => Except.error e
  | Except.error e => Except.error e

end BlockPreconditioner

/-! ## `GeneralPurposeBlockPreconditioner` -/

/-- The helper base class for general purpose block preconditioners. -/
structure GeneralPurposeBlockPreconditioner (K : Type) extends BlockPreconditioner K where
  Subsidiary_preconditioner_function_pt : Option SubsidiaryPreconditionerFctPt
  Prec_mesh_pt : List ℕ
  Dof_to_block_map : List ℕ

namespace GeneralPurposeBlockPreconditioner

variable {K : Type}

/-- The constructor: the subsidiary preconditioner function pointer is null. -/
def ctor : GeneralPurposeBlockPreconditioner K :=
  { toBlockPreconditioner := BlockPreconditioner.ctor
    Subsidiary_preconditioner_function_pt := none
    Prec_mesh_pt := []
    Dof_to_block_map := [] }

/-- Access function to set the subsidiary preconditioner function. -/
def set_subsidiary_preconditioner_function (self : GeneralPurposeBlockPreconditioner K)
    (sub_prec_fn : Option SubsidiaryPreconditionerFctPt) : GeneralPurposeBlockPreconditioner K :=
  { self with Subsidiary_preconditioner_function_pt := sub_prec_fn }

/-- Adds a mesh to this block preconditioner. -/
def add_mesh (self : GeneralPurposeBlockPreconditioner K) (new_mesh_pt : ℕ) :
    GeneralPurposeBlockPreconditioner K :=
  { self with Prec_mesh_pt := self.Prec_mesh_pt ++ [new_mesh_pt] }

/-- Specify a DOF to block map: the stored map is resized and filled entry by
entry from the argument. -/
def set_dof_to_block_map (self : GeneralPurposeBlockPreconditioner K)
    (dof_to_block_map : List ℕ) : GeneralPurposeBlockPreconditioner K :=
  let ndof_type := dof_to_block_map.length
  { self with
    Dof_to_block_map :=
      (List.range ndof_type).foldl (fun m i => m.set i (dof_to_block_map.getD i 0))
        (Vector_resize self.Dof_to_block_map ndof_type) }

/-- Modified block setup for general purpose block preconditioners: the meshes
are registered with the base class and the base class `block_setup` is called
with the DOF-to-block map if there is one, without it otherwise. -/
def block_setup (env : Env K) (w : World K) (self : GeneralPurposeBlockPreconditioner K)
    (matrix_pt : Option (CRDoubleMatrix K)) :
    Except Failure (World K × GeneralPurposeBlockPreconditioner K) :=
  let nmesh := self.Prec_mesh_pt.length
  match for_range 0 nmesh (fun m b =>
      match Vector_at self.Prec_mesh_pt m with
      | Except.ok mesh_pt => BlockPreconditioner.set_mesh b m mesh_pt
      | Except.error e => Except.error e) (self.toBlockPreconditioner.set_nmesh nmesh) with
  | Except.ok b =>
    match (if self.Dof_to_block_map.length > 0 then
        b.block_setup env w matrix_pt (some self.Dof_to_block_map)
      else b.block_setup env w matrix_pt none) with
    | Except.ok r => Except.ok (r.1, { self with toBlockPreconditioner := r.2 })
    | Except.error e => Except.error e
  | Except.error e => Except.error e

end GeneralPurposeBlockPreconditioner

/-- The message of the matrix-type check at the entry of every `setup`. -/
def cast_error : Failure :=
  Failure.OomphLibError "Could not cast matrix_pt to templated type"
    "BlockTriangularPreconditioner::setup()"

/-! ## `DummyBlockPreconditioner` -/

/-- Preconditioner that does not actually do any preconditioning; it just
allows access to the Jacobian blocks. -/
structure DummyBlockPreconditioner (K : Type) extends GeneralPurposeBlockPreconditioner K

namespace DummyBlockPreconditioner

variable {K : Type}

/-- The constructor. -/
def ctor : DummyBlockPreconditioner K :=
  { toGeneralPurposeBlockPreconditioner := GeneralPurposeBlockPreconditioner.ctor }

/-- Apply preconditioner to `r` (just copy `r` to `z`): the call `z.build(r)`.
The result is the pair of `r` and `z` after the call; `r` is passed by
reference to a constant. -/
def preconditioner_solve (_self : DummyBlockPreconditioner K) (r z : DoubleVector K) :
    DoubleVector K × DoubleVector K :=
  (r, z.build_copy r)

/-- Setup the preconditioner: set the problem pointer, cast the matrix, check
the cast if compiled with `PARANOID`, set up the block lookup schemes. -/
def setup (env : Env K) (w : World K) (self : DummyBlockPreconditioner K) (problem_pt : ℕ)
    (matrix_pt : Option (DoubleMatrixBase K)) :
    Except Failure (World K × DummyBlockPreconditioner K) :=
  let self1 : DummyBlockPreconditioner K := { self with Problem_pt := problem_pt }
  let cast_matrix_pt := dynamic_cast_MATRIX matrix_pt
  if env.PARANOID = true ∧ cast_matrix_pt.isNone = true then Except.error cast_error
  else
    match self1.toGeneralPurposeBlockPreconditioner.block_setup env w cast_matrix_pt with
    | Except.ok r => Except.ok (r.1, { self1 with toGeneralPurposeBlockPreconditioner := r.2 })
    | Except.error e => Except.error e

end DummyBlockPreconditioner

/-! ## `BlockDiagonalPreconditioner` (path without two-level parallelisation) -/

/-- Block diagonal preconditioner: one subsidiary preconditioner per diagonal
block. -/
structure BlockDiagonalPreconditioner (K : Type) extends GeneralPurposeBlockPreconditioner K where
  Diagonal_block_preconditioner_pt : List ℕ
  Doc_time_during_preconditioner_solve : Bool

namespace BlockDiagonalPreconditioner

variable {K : Type}

/-- The constructor. -/
def ctor : BlockDiagonalPreconditioner K :=
  { toGeneralPurposeBlockPreconditioner := GeneralPurposeBlockPreconditioner.ctor
    Diagonal_block_preconditioner_pt := []
    Doc_time_during_preconditioner_solve := false }

/-- Body of the loop of `clean_up_memory`: the statements
`delete Diagonal_block_preconditioner_pt[i]; Diagonal_block_preconditioner_pt[i] = 0;`. -/
def delete_diagonal (i : ℕ) (st : World K × BlockDiagonalPreconditioner K) :
    Except Failure (World K × BlockDiagonalPreconditioner K) := do
  let p ← Vector_at st.2.Diagonal_block_preconditioner_pt i
  let w1 ← st.1.delete_preconditioner p
  let v ← Vector_assign st.2.Diagonal_block_preconditioner_pt i 0
  pure (w1, { st.2 with Diagonal_block_preconditioner_pt := v })

/-- Clean up the memory: delete every subsidiary preconditioner, null its
pointer, then clean up the block preconditioner base. -/
def clean_up_memory (w : World K) (self : BlockDiagonalPreconditioner K) :
    Except Failure (World K × BlockDiagonalPreconditioner K) := do
  let n_block := self.Diagonal_block_preconditioner_pt.length
  let st ← for_range 0 n_block delete_diagonal (w, self)
  pure (st.1, { st.2 with
    toBlockPreconditioner := st.2.toBlockPreconditioner.clear_block_preconditioner_base })

/-- The destructor: it calls `clean_up_memory`. -/
def destructor (w : World K) (self : BlockDiagonalPreconditioner K) :
    Except Failure (World K × BlockDiagonalPreconditioner K) :=
  clean_up_memory w self

/-- Body of the first loop of `setup`: create the subsidiary preconditioner
of block `i`. -/
def create_diagonal (i : ℕ) (st : World K × BlockDiagonalPreconditioner K) :
    Except Failure (World K × BlockDiagonalPreconditioner K) := do
  let c := st.1.create_subsidiary_preconditioner st.2.Subsidiary_preconditioner_function_pt
  let v ← Vector_assign st.2.Diagonal_block_preconditioner_pt i c.1
  pure (c.2, { st.2 with Diagonal_block_preconditioner_pt := v })

/-- Body of the second loop of `setup`: get the diagonal block, set up the
preconditioner (i.e. solve the block), delete the block. -/
def setup_diagonal (i : ℕ) (st : World K × BlockDiagonalPreconditioner K) :
    Except Failure (World K × BlockDiagonalPreconditioner K) := do
  let b ← st.2.get_block st.1 i i
  let p ← Vector_at st.2.Diagonal_block_preconditioner_pt i
  let w1 ← b.2.preconditioner_setup p b.1
  -- done with this block now so delete it
  let w2 ← w1.delete_matrix b.1
  pure (w2, st.2)

/-- Setup for the block diagonal preconditioner. -/
def setup (env : Env K) (w : World K) (self : BlockDiagonalPreconditioner K) (problem_pt : ℕ)
    (matrix_pt : Option (DoubleMatrixBase K)) :
    Except Failure (World K × BlockDiagonalPreconditioner K) := do
  -- clean the memory
  let st ← clean_up_memory w self
  -- set the problem pointer
  let self1 : BlockDiagonalPreconditioner K := { st.2 with Problem_pt := problem_pt }
  -- cast to the real type of the matrix
  let cast_matrix_pt := dynamic_cast_MATRIX matrix_pt
  -- check the cast was successful (PARANOID only)
  if env.PARANOID = true ∧ cast_matrix_pt.isNone = true then throw cast_error
  -- set up the block look up schemes
  let r ← self1.toGeneralPurposeBlockPreconditioner.block_setup env st.1 cast_matrix_pt
  let self2 : BlockDiagonalPreconditioner K := { self1 with toGeneralPurposeBlockPreconditioner := r.2 }
  -- number of types of degree of freedom
  let nblock_types := self2.nblock_types
  -- resize the storage for the diagonal blocks
  let self3 : BlockDiagonalPreconditioner K := { self2 with
    Diagonal_block_preconditioner_pt :=
      Vector_resize self2.Diagonal_block_preconditioner_pt nblock_types }
  -- create the subsidiary preconditioners
  let st1 ← for_range 0 nblock_types create_diagonal (r.1, self3)
  -- get the matrices and set up the preconditioners
  for_range 0 nblock_types setup_diagonal st1

/-- Body of the loop of `preconditioner_solve`: apply the preconditioner of
block `i` to `block_r[i]`, the result goes to `block_z[i]`. -/
def solve_diagonal (env : Env K) (w : World K) (self : BlockDiagonalPreconditioner K)
    (block_r : List (List K)) (i : ℕ) (block_z : List (List K)) :
    Except Failure (List (List K)) := do
  let p ← Vector_at self.Diagonal_block_preconditioner_pt i
  let r_i ← Vector_at block_r i
  let z_i ← w.subsidiary_solve env p r_i
  Vector_assign block_z i z_i

/-- Preconditioner solve for the block diagonal preconditioner. (The timing
output switched by `Doc_time_during_preconditioner_solve` changes no value.) -/
def preconditioner_solve [Zero K] (env : Env K) (w : World K)
    (self : BlockDiagonalPreconditioner K) (r z : DoubleVector K) :
    Except Failure (DoubleVector K) := do
  -- cache number of block types
  let n_block := self.nblock_types
  -- rearrange the vector r into the vector of block vectors block_r
  let block_r ← self.get_block_vectors r
  -- if the solution vector is not setup then build it
  let z1 ← if z.is_built = false then self.build_to_distribution z else pure z
  -- vector of vectors for the solution block vectors
  let block_z0 : List (List K) := List.replicate n_block []
  -- solve each diagonal block
  let block_z ← for_range 0 n_block (solve_diagonal env w self block_r) block_z0
  -- copy solution in block vectors back to z
  self.return_block_vectors block_z z1

end BlockDiagonalPreconditioner

/-! ## `BlockTriangularPreconditioner` -/

/-- Modelled from the spec: the clean-up hook `clean_up_memory()` a class
inherits when it does not define its own; the base classes own no subsidiary
preconditioner and no operator, so nothing is destroyed. -/
def BlockPreconditioner.clean_up_memory {K : Type} (self : BlockPreconditioner K) :
    BlockPreconditioner K :=
  self

/-- General purpose block triangular preconditioner. By default this is upper
triangular. -/
structure BlockTriangularPreconditioner (K : Type) extends GeneralPurposeBlockPreconditioner K where
  Diagonal_block_preconditioner_pt : List ℕ
  Off_diagonal_matrix_vector_products : DenseMatrix ℕ
  Upper_triangular : Bool

namespace BlockTriangularPreconditioner

variable {K : Type}

/-- The constructor (by default this preconditioner is upper triangular). -/
def ctor : BlockTriangularPreconditioner K :=
  { toGeneralPurposeBlockPreconditioner := GeneralPurposeBlockPreconditioner.ctor
    Diagonal_block_preconditioner_pt := []
    Off_diagonal_matrix_vector_products := DenseMatrix.empty 0
    Upper_triangular := true }

/-- Use as an upper triangular preconditioner. -/
def upper_triangular (self : BlockTriangularPreconditioner K) : BlockTriangularPreconditioner K :=
  { self with Upper_triangular := true }

/-- Use as a lower triangular preconditioner. -/
def lower_triangular (self : BlockTriangularPreconditioner K) : BlockTriangularPreconditioner K :=
  { self with Upper_triangular := false }

/-- The statements `delete Off_diagonal_matrix_vector_products(i,j);
Off_diagonal_matrix_vector_products(i,j) = 0;`. -/
def delete_off_diagonal (i j : ℕ) (st : World K × BlockTriangularPreconditioner K) :
    Except Failure (World K × BlockTriangularPreconditioner K) := do
  let p ← st.2.Off_diagonal_matrix_vector_products.entry i j
  let w1 ← st.1.delete_matrix_vector_product p
  let d ← st.2.Off_diagonal_matrix_vector_products.assign i j 0
  pure (w1, { st.2 with Off_diagonal_matrix_vector_products := d })

/-- Body of the outer loop of `clean_memory`: delete the preconditioner of
block `i` and null its pointer, then delete the operators of row `i` on the
side selected by `Upper_triangular`. -/
def delete_row (n_block : ℕ) (i : ℕ) (st : World K × BlockTriangularPreconditioner K) :
    Except Failure (World K × BlockTriangularPreconditioner K) := do
  let p ← Vector_at st.2.Diagonal_block_preconditioner_pt i
  let w1 ← st.1.delete_preconditioner p
  let v ← Vector_assign st.2.Diagonal_block_preconditioner_pt i 0
  let st1 : World K × BlockTriangularPreconditioner K :=
    (w1, { st.2 with Diagonal_block_preconditioner_pt := v })
  if st1.2.Upper_triangular = true then
    for_range (i + 1) n_block (delete_off_diagonal i) st1
  else
    for_range 0 i (delete_off_diagonal i) st1

/-- Clean up the memory: for every block the subsidiary preconditioner is
deleted, and the operators of its row on the side selected by
`Upper_triangular`; then the inherited `clean_up_memory()` is called. -/
def clean_memory (w : World K) (self : BlockTriangularPreconditioner K) :
    Except Failure (World K × BlockTriangularPreconditioner K) := do
  let n_block := self.Diagonal_block_preconditioner_pt.length
  let st ← for_range 0 n_block (delete_row n_block) (w, self)
  pure (st.1, { st.2 with toBlockPreconditioner := st.2.toBlockPreconditioner.clean_up_memory })

/-- The destructor: it calls `clean_memory`. -/
def destructor (w : World K) (self : BlockTriangularPreconditioner K) :
    Except Failure (World K × BlockTriangularPreconditioner K) :=
  clean_memory w self

/-- Body of the inner loop of `setup`: extract block `(i,j)`, build a
matrix-vector product operator from it, delete the block. -/
def setup_off_diagonal (i j : ℕ) (st : World K × BlockTriangularPreconditioner K) :
    Except Failure (World K × BlockTriangularPreconditioner K) := do
  let b ← st.2.get_block st.1 i j
  let c := b.2.new_MatrixVectorProduct
  let d ← st.2.Off_diagonal_matrix_vector_products.assign i j c.1
  let w1 ← c.2.matrix_vector_product_setup c.1 b.1
  let w2 ← w1.delete_matrix b.1
  pure (w2, { st.2 with Off_diagonal_matrix_vector_products := d })

/-- Body of the outer loop of `setup`: create the preconditioner of block `i`,
set it up on the diagonal block, then set up the operators of row `i`. -/
def setup_row (nblock_types : ℕ) (i : ℕ) (st : World K × BlockTriangularPreconditioner K) :
    Except Failure (World K × BlockTriangularPreconditioner K) := do
  -- create the preconditioner
  let c := st.1.create_subsidiary_preconditioner st.2.Subsidiary_preconditioner_function_pt
  let v ← Vector_assign st.2.Diagonal_block_preconditioner_pt i c.1
  let self1 : BlockTriangularPreconditioner K := { st.2 with Diagonal_block_preconditioner_pt := v }
  -- get the diagonal block, set up the preconditioner, delete the matrix
  let b ← self1.get_block c.2 i i
  let w1 ← b.2.preconditioner_setup c.1 b.1
  let w2 ← w1.delete_matrix b.1
  -- next set up the off diagonal mat vec operators
  let l := if self1.Upper_triangular = true then i + 1 else 0
  let u := if self1.Upper_triangular = true then nblock_types else i
  for_range l u (setup_off_diagonal i) (w2, self1)

/-- Setup for the block triangular preconditioner. -/
def setup (env : Env K) (w : World K) (self : BlockTriangularPreconditioner K) (problem_pt : ℕ)
    (matrix_pt : Option (DoubleMatrixBase K)) :
    Except Failure (World K × BlockTriangularPreconditioner K) := do
  -- clean the memory
  let st ← clean_memory w self
  -- set the problem pointer
  let self1 : BlockTriangularPreconditioner K := { st.2 with Problem_pt := problem_pt }
  -- cast to the real type of the matrix
  let cast_matrix_pt := dynamic_cast_MATRIX matrix_pt
  -- check the cast was successful (PARANOID only)
  if env.PARANOID = true ∧ cast_matrix_pt.isNone = true then throw cast_error
  -- set up the block look up schemes
  let r ← self1.toGeneralPurposeBlockPreconditioner.block_setup env st.1 cast_matrix_pt
  let self2 : BlockTriangularPreconditioner K :=
    { self1 with toGeneralPurposeBlockPreconditioner := r.2 }
  -- number of types of degree of freedom
  let nblock_types := self2.nblock_types
  -- storage for the diagonal block preconditioners and the off diagonal operators
  let self3 : BlockTriangularPreconditioner K := { self2 with
    Diagonal_block_preconditioner_pt :=
      Vector_resize self2.Diagonal_block_preconditioner_pt nblock_types
    Off_diagonal_matrix_vector_products :=
      self2.Off_diagonal_matrix_vector_products.resize nblock_types nblock_types 0 }
  -- build the preconditioners and matrix vector products
  for_range 0 nblock_types (setup_row nblock_types) (r.1, self3)

/-- Body of the inner loop of `preconditioner_solve` ("substitute"):
`temp = Off_diagonal_matrix_vector_products(j,i) * block_z[i]` and
`block_r[j] -= temp`. -/
def substitute [CommRing K] (w : World K) (self : BlockTriangularPreconditioner K) (i j : ℤ)
    (st : List (List K) × List (List K)) : Except Failure (List (List K) × List (List K)) := do
  let p ← self.Off_diagonal_matrix_vector_products.entry j i
  let z_i ← Vector_at st.2 i
  let temp ← w.multiply p z_i
  let r_j ← Vector_at st.1 j
  let block_r ← Vector_assign st.1 j (vsub r_j temp)
  pure (block_r, st.2)

/-- Body of the outer loop of `preconditioner_solve`: solve block `i`, then
substitute into the blocks still to come. The state is the pair of `block_r`
and `block_z`. -/
def solve_block [CommRing K] (env : Env K) (w : World K) (self : BlockTriangularPreconditioner K)
    (stop step : ℤ) (fuel : ℕ) (i : ℤ) (st : List (List K) × List (List K)) :
    Except Failure (List (List K) × List (List K)) := do
  -- solve
  let p ← Vector_at self.Diagonal_block_preconditioner_pt i
  let r_i ← Vector_at st.1 i
  let z_i ← w.subsidiary_solve env p r_i
  let block_z ← Vector_assign st.2 i z_i
  -- substitute
  sweep (substitute w self i) stop step fuel (i + step) (st.1, block_z)

/-- The block vectors `block_z` computed by `preconditioner_solve`. -/
def solve_blocks [CommRing K] (env : Env K) (w : World K) (self : BlockTriangularPreconditioner K)
    (fuel : ℕ) (r : DoubleVector K) : Except Failure (List (List K)) := do
  -- cache number of block types
  let n_block := self.nblock_types
  let start : ℤ := if self.Upper_triangular = true then unsigned_to_int (to_unsigned ((n_block : ℤ) - 1))
    else 0
  let stop : ℤ := if self.Upper_triangular = true then -1 else unsigned_to_int n_block
  let step : ℤ := if self.Upper_triangular = true then -1 else 1
  -- rearrange the vector r into the vector of block vectors block_r
  let block_r ← self.get_block_vectors r
  -- vector of vectors for the solution block vectors
  let block_z0 : List (List K) := List.replicate n_block []
  let st ← sweep (solve_block env w self stop step fuel) stop step fuel start
    (block_r, block_z0)
  pure st.2

/-- Preconditioner solve for the block triangular preconditioner; `fuel`
bounds the number of rounds of each of the two loops. -/
def preconditioner_solve [CommRing K] (env : Env K) (w : World K)
    (self : BlockTriangularPreconditioner K) (fuel : ℕ) (r z : DoubleVector K) :
    Except Failure (DoubleVector K) := do
  let block_z ← solve_blocks env w self fuel r
  -- copy solution in block vectors back to z
  self.return_block_vectors block_z z

end BlockTriangularPreconditioner

/-! ## `ExactBlockPreconditioner` -/

/-- Exact block preconditioner: one preconditioner for the matrix assembled
from all blocks. -/
structure ExactBlockPreconditioner (K : Type) extends GeneralPurposeBlockPreconditioner K where
  Preconditioner_pt : ℕ

namespace ExactBlockPreconditioner

variable {K : Type}

/-- The constructor: the pointer to the preconditioner is null. -/
def ctor : ExactBlockPreconditioner K :=
  { toGeneralPurposeBlockPreconditioner := GeneralPurposeBlockPreconditioner.ctor
    Preconditioner_pt := 0 }

/-- The destructor: delete the subsidiary preconditioner. -/
def destructor (w : World K) (self : ExactBlockPreconditioner K) :
    Except Failure (World K × ExactBlockPreconditioner K) := do
  let w1 ← w.delete_preconditioner self.Preconditioner_pt
  pure (w1, self)

/-- The statements `delete block_matrix_pt(i,j); block_matrix_pt(i,j) = 0;`. -/
def delete_block (i j : ℕ) (st : World K × DenseMatrix ℕ) :
    Except Failure (World K × DenseMatrix ℕ) := do
  let p ← st.2.entry i j
  let w1 ← st.1.delete_matrix p
  let d ← st.2.assign i j 0
  pure (w1, d)

/-- Inner loop of the deletion of the block matrices, for row `i`. -/
def delete_block_row (nblock_types : ℕ) (i : ℕ) (st : World K × DenseMatrix ℕ) :
    Except Failure (World K × DenseMatrix ℕ) :=
  for_range 0 nblock_types (delete_block i) st

/-- Setup for the exact block preconditioner. -/
def setup [Zero K] (env : Env K) (w : World K) (self : ExactBlockPreconditioner K)
    (problem_pt : ℕ) (matrix_pt : Option (DoubleMatrixBase K)) :
    Except Failure (World K × ExactBlockPreconditioner K) := do
  -- clean up
  let w0 ← w.delete_preconditioner self.Preconditioner_pt
  let self0 : ExactBlockPreconditioner K := { self with Preconditioner_pt := 0 }
  -- set the problem pointer
  let self1 : ExactBlockPreconditioner K := { self0 with Problem_pt := problem_pt }
  -- cast to the real type of the matrix
  let cast_matrix_pt := dynamic_cast_MATRIX matrix_pt
  -- check the cast was successful (PARANOID only)
  if env.PARANOID = true ∧ cast_matrix_pt.isNone = true then throw cast_error
  -- set up the block look up schemes
  let r ← self1.toGeneralPurposeBlockPreconditioner.block_setup env w0 cast_matrix_pt
  let self2 : ExactBlockPreconditioner K := { self1 with toGeneralPurposeBlockPreconditioner := r.2 }
  -- get the number of DOF types
  let nblock_types := self2.nblock_types
  -- every block is required
  let required_blocks : DenseMatrix Bool := ⟨nblock_types, nblock_types, fun _ _ => true⟩
  -- matrix of block pointers
  let block_matrix_pt : DenseMatrix ℕ := ⟨nblock_types, nblock_types, fun _ _ => 0⟩
  -- get pointers to the blocks
  let g ← self2.get_blocks r.1 required_blocks block_matrix_pt
  -- build the preconditioner matrix
  let e ← self2.build_preconditioner_matrix g.1 g.2
  -- need to delete the matrix of block matrices
  let st ← for_range 0 nblock_types (delete_block_row nblock_types) (e.2, g.2)
  -- create the preconditioner
  let c := st.1.create_subsidiary_preconditioner self2.Subsidiary_preconditioner_function_pt
  let self3 : ExactBlockPreconditioner K := { self2 with Preconditioner_pt := c.1 }
  let w1 ← c.2.preconditioner_setup c.1 e.1
  -- delete the exact block preconditioner matrix
  let w2 ← w1.delete_matrix e.1
  pure (w2, self3)

/-- Preconditioner solve for the exact block preconditioner. -/
def preconditioner_solve [Zero K] (env : Env K) (w : World K) (self : ExactBlockPreconditioner K)
    (r z : DoubleVector K) : Except Failure (DoubleVector K) := do
  -- get the block ordered components of the r vector for this preconditioner
  let block_order_r ← self.get_block_ordered_preconditioner_vector r
  -- apply the preconditioner
  let block_order_z ← w.subsidiary_solve env self.Preconditioner_pt block_order_r
  -- copy solution back to z vector
  self.return_block_ordered_preconditioner_vector block_order_z z

end ExactBlockPreconditioner

/-! ## Concrete instances -/

/-- Two unknowns, two blocks of one unknown each, in the order of the unknowns. -/
def two_blocks : BlockLookup :=
  ⟨2, 2, fun _ => 1, fun g => g, fun _ => 0, fun b _ => b⟩

/-- An environment over the integers compiled with `PARANOID`: every matrix
gets the lookup scheme `two_blocks` and a subsidiary solve returns its input. -/
def paranoid_env : Env ℤ :=
  ⟨true, fun _ _ _ => two_blocks, fun _ _ b => b⟩

/-- The same environment compiled without `PARANOID`. -/
def plain_env : Env ℤ :=
  ⟨false, fun _ _ _ => two_blocks, fun _ _ b => b⟩

/-- A matrix of a type that is not block-capable. -/
def dense_matrix : Option (DoubleMatrixBase ℤ) :=
  some (DoubleMatrixBase.other_type 2 2)

/-! ## Ownership of pointers -/

/-- The pointers `f 0, ..., f (n-1)` held by a preconditioner are sound for
the store: every pointer that is not null refers to a live object, and no two
entries hold the same such pointer. -/
def Owned {α : Type} (s : Store α) (n : ℕ) (f : ℕ → ℕ) : Prop :=
  ∀ i, i < n → f i ≠ 0 → (∃ a, s.obj (f i) = some a) ∧ ∀ j, j < n → f j = f i → j = i

/-- Number of pointers among `f 0, ..., f (n-1)` that are not null. -/
def nonnull (n : ℕ) (f : ℕ → ℕ) : ℕ :=
  (List.range n).countP (fun i => decide (f i ≠ 0))

/-! ## The lookup scheme a `setup` produces -/

/-- The DOF-to-block map `block_setup` hands to the base class: the stored map
if it is not empty, none otherwise. -/
def GeneralPurposeBlockPreconditioner.map_in_use {K : Type}
    (self : GeneralPurposeBlockPreconditioner K) : Option (List ℕ) :=
  if self.Dof_to_block_map.length > 0 then some self.Dof_to_block_map else none

/-- The lookup scheme `block_setup` produces for the matrix `m` with the
meshes and the map stored in the preconditioner. -/
def GeneralPurposeBlockPreconditioner.scheme {K : Type} (env : Env K)
    (self : GeneralPurposeBlockPreconditioner K) (m : CRDoubleMatrix K) : BlockLookup :=
  env.block_scheme self.Prec_mesh_pt self.map_in_use m

/-- The pointers a block diagonal preconditioner holds are sound for the
world: the entries of `Diagonal_block_preconditioner_pt` that are not null
refer to live subsidiary preconditioners, each to its own. This holds after
construction and after every `setup`. -/
def BlockDiagonalPreconditioner.Sound {K : Type} (self : BlockDiagonalPreconditioner K)
    (w : World K) : Prop :=
  Owned w.preconditioners self.Diagonal_block_preconditioner_pt.length
    (fun i => self.Diagonal_block_preconditioner_pt.getD i 0)

/-- A matrix over the integers with two unknowns, upper triangular, with
coupling between the two blocks of `two_blocks`. -/
def upper_matrix : CRDoubleMatrix ℤ :=
  ⟨2, 2, fun i j => if i = 0 ∧ j = 0 then 1 else if i = 0 ∧ j = 1 then 3
    else if i = 1 ∧ j = 1 then 1 else 0⟩

/-- The identity matrix on two unknowns. -/
def identity_matrix : CRDoubleMatrix ℤ :=
  ⟨2, 2, fun i j => if i = j then 1 else 0⟩

/-! ## The side of the block triangle in use -/

/-- First column `l` of the operators of row `i`: `i + 1` in upper mode, `0`
in lower mode. -/
def first_column (upper : Bool) (i : ℕ) : ℕ :=
  if upper = true then i + 1 else 0

/-- Column `u` after the last operator of row `i`: the number of blocks in
upper mode, `i` in lower mode. -/
def end_column (upper : Bool) (n i : ℕ) : ℕ :=
  if upper = true then n else i

/-- The entries `D i j`, `i < n`, `first_column i ≤ j < end_column i`, of a
table of operator pointers are sound for the store: every entry that is not
null refers to a live operator, and no two entries hold the same such
pointer. -/
def OwnedOps {α : Type} (s : Store α) (upper : Bool) (n : ℕ) (D : ℕ → ℕ → ℕ) : Prop :=
  ∀ i j, i < n → first_column upper i ≤ j → j < end_column upper n i → D i j ≠ 0 →
    (∃ a, s.obj (D i j) = some a) ∧
    ∀ i1 j1, i1 < n → first_column upper i1 ≤ j1 → j1 < end_column upper n i1 →
      D i1 j1 = D i j → i1 = i ∧ j1 = j

/-- The pointers a block triangular preconditioner will delete at its next
clean-up are sound for the world: the diagonal preconditioners, and the
operators on the side in use; the operator table is as large as the vector of
diagonal preconditioners. This holds after construction and after every
`setup`. -/
def BlockTriangularPreconditioner.Sound {K : Type} (self : BlockTriangularPreconditioner K)
    (w : World K) : Prop :=
  Owned w.preconditioners self.Diagonal_block_preconditioner_pt.length
    (fun i => self.Diagonal_block_preconditioner_pt.getD i 0) ∧
  self.Off_diagonal_matrix_vector_products.N = self.Diagonal_block_preconditioner_pt.length ∧
  self.Off_diagonal_matrix_vector_products.M = self.Diagonal_block_preconditioner_pt.length ∧
  OwnedOps w.matrix_vector_products self.Upper_triangular
    self.Diagonal_block_preconditioner_pt.length self.Off_diagonal_matrix_vector_products.data

/-- Entry `(i,j)` is on the side in use and has been reached by the loops of
`clean_memory` when they are at row `k`, column `m`. -/
abbrev visited (upper : Bool) (n k m i j : ℕ) : Prop :=
  i < n ∧ first_column upper i ≤ j ∧ j < end_column upper n i ∧ (i < k ∨ (i = k ∧ j < m))

/-- The table of operator pointers when the loops of `clean_memory` are at row
`k`, column `m`: the entries reached are null, the others are as before. -/
def cleared (upper : Bool) (n : ℕ) (D : ℕ → ℕ → ℕ) (k m : ℕ) : ℕ → ℕ → ℕ :=
  fun i j => if visited upper n k m i j then 0 else D i j

/-- The operators `setup` has built when its loops are at row `k`, column `m`:
every entry `(i,j)` reached on the side in use points to a live operator that
was set up on block `(i,j)`; the operators are new (their addresses start at
`first`) and no two entries share one. -/
def OpsBuilt {K : Type} (t : Store (MatrixVectorProduct K)) (upper : Bool) (N : ℕ)
    (blk : ℕ → ℕ → CRDoubleMatrix K) (D : ℕ → ℕ → ℕ) (k m first : ℕ) : Prop :=
  ∀ i j, visited upper N k m i j →
    first ≤ D i j ∧ D i j < t.next ∧ t.obj (D i j) = some ⟨some (blk i j)⟩ ∧
    ∀ i1 j1, visited upper N k m i1 j1 → D i1 j1 = D i j → i1 = i ∧ j1 = j

/-- Number of operators on the side in use in the rows before row `k`. -/
def operators_in_rows (upper : Bool) (N k : ℕ) : ℕ :=
  ∑ i in Finset.range k, (end_column upper N i - first_column upper i)

/-! ## The order of the sweep -/

/-- The sweep of `preconditioner_solve` as seen by the proofs: the loop
variable takes the values `start, start + step, ...` until it is `stop`;
`block p` is the block processed in round `p` and `round i` the round in which
block `i` is processed. -/
structure SweepOrder (N : ℕ) (start step stop : ℤ) (block round : ℕ → ℕ) : Prop where
  value : ∀ p, p < N → start + p * step = (block p : ℤ)
  last : start + N * step = stop
  running : ∀ p, p < N → (block p : ℤ) ≠ stop
  block_lt : ∀ p, p < N → block p < N
  round_lt : ∀ i, i < N → round i < N
  round_block : ∀ p, p < N → round (block p) = p
  block_round : ∀ i, i < N → block (round i) = i

/-- A matrix over the integers with two unknowns, lower triangular, with
coupling between the two blocks of `two_blocks`. -/
def lower_matrix : CRDoubleMatrix ℤ :=
  ⟨2, 2, fun i j => if i = 0 ∧ j = 0 then 1 else if i = 1 ∧ j = 0 then 3
    else if i = 1 ∧ j = 1 then 1 else 0⟩

/-- Three unknowns, three blocks of one unknown each, in the order of the
unknowns. -/
def three_blocks : BlockLookup :=
  ⟨3, 3, fun _ => 1, fun g => g, fun _ => 0, fun b _ => b⟩

/-- An environment over the integers: every matrix gets the lookup scheme
`three_blocks` and a subsidiary solve returns its input. -/
def three_env : Env ℤ :=
  ⟨true, fun _ _ _ => three_blocks, fun _ _ b => b⟩

/-- An upper triangular matrix on three unknowns with unit diagonal and the
couplings `A(0,1) = 2`, `A(0,2) = 4`, `A(1,2) = 5`. -/
def upper_matrix3 : CRDoubleMatrix ℤ :=
  ⟨3, 3, fun i j => if i = j then 1 else if i = 0 ∧ j = 1 then 2 else if i = 0 ∧ j = 2 then 4
    else if i = 1 ∧ j = 2 then 5 else 0⟩

/-! ## Double loops over a square table -/

/-- Entry `(i,j)` of an `n` by `n` table has been reached by a loop over the
rows with an inner loop over the columns when the loops are at row `k`,
column `m`. -/
abbrev reached (n k m i j : ℕ) : Prop :=
  i < n ∧ j < n ∧ (i < k ∨ (i = k ∧ j < m))

/-- The block matrices `get_blocks` has extracted when its loops are at row
`k`, column `m`: every entry `(i,j)` reached points to a live matrix that is
block `(i,j)`; the matrices are new (their addresses start at `first`) and no
two entries share one. -/
def BlocksBuilt {K : Type} (s : Store (CRDoubleMatrix K)) (N : ℕ)
    (blk : ℕ → ℕ → CRDoubleMatrix K) (D : ℕ → ℕ → ℕ) (k m first : ℕ) : Prop :=
  ∀ i j, reached N k m i j →
    first ≤ D i j ∧ D i j < s.next ∧ s.obj (D i j) = some (blk i j) ∧
    ∀ i1 j1, reached N k m i1 j1 → D i1 j1 = D i j → i1 = i ∧ j1 = j

/-- The pointer an exact block preconditioner holds is sound for the world:
it is null or refers to a live subsidiary preconditioner. This holds after
construction and after every `setup`. -/
def ExactBlockPreconditioner.Sound {K : Type} (self : ExactBlockPreconditioner K)
    (w : World K) : Prop :=
  self.Preconditioner_pt = 0 ∨ ∃ a, w.preconditioners.obj self.Preconditioner_pt = some a

/-- An environment over the integers whose subsidiary solve inverts matrices
on two unknowns that are upper triangular with unit diagonal, by back
substitution; the lookup scheme is `two_blocks`. -/
def substitution_env : Env ℤ :=
  ⟨true, fun _ _ _ => two_blocks,
   fun _ m b => [vget b 0 - m.entry 0 1 * vget b 1, vget b 1]⟩

/-! ## Two successive setups -/

/-- The store of subsidiary preconditioners over two successive setups and the
destruction of the owner: `s0` is the store before the first `setup`, `s1`
after it, `s2` after the second `setup` and `s3` after the destructor. The
owner held `owned` live subsidiary preconditioners at the start; the first
`setup` creates `n1` subsidiary preconditioners, at the addresses from
`s0.next` on, and the second `n2`, at the addresses from `s1.next` on. Those
of the first `setup` are destroyed in `s2`, those of the second in `s3`, and
the numbers of live objects are the initial number without the `owned` ones
plus `n1`, plus `n2` and plus nothing. -/
structure NoLeak {α : Type} (s0 s1 s2 s3 : Store α) (owned n1 n2 : ℕ) : Prop where
  created_first : ∀ i, i < n1 → ∃ a, s1.obj (s0.next + i) = some a
  destroyed_first : ∀ i, i < n1 → s2.obj (s0.next + i) = none
  created_second : ∀ i, i < n2 → ∃ a, s2.obj (s1.next + i) = some a
  destroyed_second : ∀ i, i < n2 → s3.obj (s1.next + i) = none
  count_first : s1.live + owned = s0.live + n1
  count_second : s2.live + owned = s0.live + n2
  count_end : s3.live + owned = s0.live
  same_count : n1 = n2 → s2.live = s1.live
  not_the_sum : 0 < n1 → s2.live + owned ≠ s0.live + (n1 + n2)

/-- The matrix with no unknown. -/
def empty_matrix : CRDoubleMatrix ℤ :=
  ⟨0, 0, fun _ _ => 0⟩

/-- An environment over the integers in which the matrix with no unknown gets
a lookup scheme with no block and every other matrix the scheme `two_blocks`;
a subsidiary solve returns its input. -/
def sized_env : Env ℤ :=
  ⟨true,
   fun _ _ m => if m.nrow = 0 then ⟨0, 0, fun _ => 0, fun g => g, fun _ => 0, fun b _ => b⟩
     else two_blocks,
   fun _ _ b => b⟩

/-! ## Calls of the mode toggles -/

/-- A call of one of the two mode toggles of the block triangular
preconditioner. -/
inductive ModeCall where
  | upper_triangular
  | lower_triangular
  deriving DecidableEq, Repr

/-- Run one call of a mode toggle. -/
def BlockTriangularPreconditioner.toggle {K : Type} (self : BlockTriangularPreconditioner K) :
    ModeCall → BlockTriangularPreconditioner K
  | ModeCall.upper_triangular => self.upper_triangular
  | ModeCall.lower_triangular => self.lower_triangular

/-- Run a sequence of calls of the mode toggles, in order. -/
def BlockTriangularPreconditioner.toggles {K : Type} (self : BlockTriangularPreconditioner K)
    (calls : List ModeCall) : BlockTriangularPreconditioner K :=
  calls.foldl BlockTriangularPreconditioner.toggle self

/-! ## Inherited configuration calls and concrete factories -/

/-- The inherited `set_subsidiary_preconditioner_function` called on a block
diagonal preconditioner. -/
def BlockDiagonalPreconditioner.set_subsidiary_preconditioner_function {K : Type}
    (self : BlockDiagonalPreconditioner K) (sub_prec_fn : Option SubsidiaryPreconditionerFctPt) :
    BlockDiagonalPreconditioner K :=
  { self with Subsidiary_preconditioner_function_pt := sub_prec_fn }

/-- The inherited `set_subsidiary_preconditioner_function` called on a block
triangular preconditioner. -/
def BlockTriangularPreconditioner.set_subsidiary_preconditioner_function {K : Type}
    (self : BlockTriangularPreconditioner K)
    (sub_prec_fn : Option SubsidiaryPreconditionerFctPt) : BlockTriangularPreconditioner K :=
  { self with Subsidiary_preconditioner_function_pt := sub_prec_fn }

/-- The inherited `set_subsidiary_preconditioner_function` called on an exact
block preconditioner. -/
def ExactBlockPreconditioner.set_subsidiary_preconditioner_function {K : Type}
    (self : ExactBlockPreconditioner K) (sub_prec_fn : Option SubsidiaryPreconditionerFctPt) :
    ExactBlockPreconditioner K :=
  { self with Subsidiary_preconditioner_function_pt := sub_prec_fn }

/-- A factory that returns the null pointer at every call. -/
def null_factory : SubsidiaryPreconditionerFctPt :=
  fun _ => none

/-- A factory that returns a new object at every call, tagged with the number
of the call. -/
def counting_factory : SubsidiaryPreconditionerFctPt :=
  fun calls => some calls

/-- A factory that returns a new object at each of its first `k` calls, tagged
with the number of the call, and the null pointer afterwards. -/
def null_from (k : ℕ) : SubsidiaryPreconditionerFctPt :=
  fun calls => if calls < k then some calls else none

/-! ## The configuration of a general purpose block preconditioner -/

/-- Two states of a general purpose block preconditioner have the same
configuration: the same factory function, the same meshes in the same order
and the same DOF-to-block map. -/
def GeneralPurposeBlockPreconditioner.SameConfiguration {K : Type}
    (a b : GeneralPurposeBlockPreconditioner K) : Prop :=
  a.Subsidiary_preconditioner_function_pt = b.Subsidiary_preconditioner_function_pt ∧
  a.Prec_mesh_pt = b.Prec_mesh_pt ∧
  a.Dof_to_block_map = b.Dof_to_block_map

/-- Run `add_mesh` once for every mesh of a list, in order. -/
def GeneralPurposeBlockPreconditioner.add_meshes {K : Type}
    (self : GeneralPurposeBlockPreconditioner K) (meshes : List ℕ) :
    GeneralPurposeBlockPreconditioner K :=
  meshes.foldl GeneralPurposeBlockPreconditioner.add_mesh self

/-! ## Extracted matrices -/

/-- The event is the extraction of a block with `get_block`. -/
def Event.is_get_block : Event → Bool
  | Event.get_block _ _ => true
  | _ => false

/-- Number of blocks extracted with `get_block` so far. -/
def World.extractions {K : Type} (w : World K) : ℕ :=
  w.log.countP Event.is_get_block

/-- A store `s` in the course of an operation that started from the store
`s0` and creates objects only to delete them again: the live objects are
those of `s0`, no object created since is live, and never more than `bound`
objects created since were live at the same time. -/
structure Transient {α : Type} (s0 s : Store α) (bound : ℕ) : Prop where
  live_eq : s.live = s0.live
  none_new : ∀ q, s0.next ≤ q → s.obj q = none
  frame : ∀ q, q < s0.next → s.obj q = s0.obj q
  next_le : s0.next ≤ s.next
  peak_ge : s0.peak ≤ s.peak
  peak_le : s.peak ≤ max s0.peak (s0.live + bound)

/-- The trace `log1` extends the trace `log0` by events among which there are
exactly `count` extractions of a block with `get_block`, each of a block
`(i,j)` with `P i j`. -/
def Extracted (log0 log1 : List Event) (count : ℕ) (P : ℕ → ℕ → Prop) : Prop :=
  ∃ added, log1 = log0 ++ added ∧ added.countP Event.is_get_block = count ∧
    ∀ i j, Event.get_block i j ∈ added → P i j

/-! ## `FluidInterfaceEdgeElement` (`src/fluid_interface/interface_elements.h`) -/

/-- The type `WallNormalFctPt`: a function that writes the wall normal at the
position `x` into `normal`. The model gives, for `x` and the values of
`normal` before the call, the values of `normal` after it. -/
abbrev WallNormalFctPt (K : Type) := List K → List K → List K

/-- Base class for elements at the edge of free surfaces or interfaces: the
data members the wall normal and the contact angle depend on. A pointer to a
vector or a number is modelled by what it points to, and the null pointer by
`none`. -/
structure FluidInterfaceEdgeElement (K : Type) where
  Wall_normal_pt : Option (List K)
  Wall_normal_fct_pt : Option (WallNormalFctPt K)
  Contact_angle_pt : Option K
  Ca_pt : Option K
  Contact_angle : ℕ

namespace FluidInterfaceEdgeElement

variable {K : Type}

/-- Constructor, set sensible defaults: every pointer is null. -/
def ctor : FluidInterfaceEdgeElement K :=
  ⟨none, none, none, none, 0⟩

/-- Function that returns the unit normal of the bounding wall directed out
of the fluid. The result is the pair of the values of `normal` after the call
and of the positions the wall normal function has been called with. -/
def wall_unit_normal (self : FluidInterfaceEdgeElement K) (x normal : List K) :
    Except Failure (List K × List (List K)) :=
  -- firstly test to see whether a wall normal has been set
  match self.Wall_normal_pt with
  | some wall_normal => Except.ok (wall_normal, [])
  | none =>
    match self.Wall_normal_fct_pt with
    | some fct => Except.ok (fct x normal, [x])
    -- otherwise throw exception
    | none =>
      Except.error (Failure.OomphLibError "Wall normal has not been set"
        "FluidInterfaceEdgeElement::wall_unit_normal()")

end FluidInterfaceEdgeElement

/-! ## Time-harmonic linear elasticity elements
(`src/time_harmonic_linear_elasticity/time_harmonic_linear_elasticity_elements.h`) -/

/-- Modelled from the spec: a node, as far as the functions below read it
(declared in `nodes.h`): the number of stored time levels, `ntstorage()`. -/
structure Node where
  ntstorage : ℕ
  deriving DecidableEq, Repr

/-- Modelled from the spec: what the base class `FiniteElement` provides to
the functions below (declared in `elements.h`): the nodes, the local equation
number of value `i` at node `n` (negative for a pinned value), the global
equation number of a local unknown ("a global equation-numbering service
providing, per local unknown in an element, the associated global index") and
the spatial dimension of the element. -/
structure FiniteElement where
  Node_pt : List Node
  nodal_local_eqn : ℕ → ℕ → ℤ
  eqn_number : ℕ → ℕ
  dim : ℕ

/-- The call `nnode()`. -/
def FiniteElement.nnode (self : FiniteElement) : ℕ :=
  self.Node_pt.length

/-- The call `node_pt(n)`; a node that does not exist is undefined behaviour. -/
def FiniteElement.node_pt (self : FiniteElement) (n : ℕ) : Except Failure Node :=
  Vector_at self.Node_pt n

/-- A base class for elements that solve the equations of time-harmonic
linear elasticity in Cartesian coordinates; `DIM` is the template parameter. -/
structure TimeHarmonicLinearElasticityEquationsBase extends FiniteElement where
  DIM : ℕ

namespace TimeHarmonicLinearElasticityEquationsBase

/-- Return the index at which the `i`-th real or imag unknown displacement
component is stored: the pair of the real and the imaginary part of
`std::complex<unsigned>(i, i + DIM)`. -/
def u_index_time_harmonic_linear_elasticity (self : TimeHarmonicLinearElasticityEquationsBase)
    (i : ℕ) : ℕ × ℕ :=
  (i, to_unsigned ((i : ℤ) + self.DIM))

/-- The number of "blocks" that degrees of freedom in this element are
sub-divided into: for now lump them all into one block. -/
def nblock_types (_self : TimeHarmonicLinearElasticityEquationsBase) : ℕ :=
  1

/-- Body of the inner loop of `get_dof_numbers_for_unknowns`, for value `i`
of node `n`: a value that is not pinned puts the pair of its global equation
number and the block type `0` at the front of the list. -/
def add_dof_number (self : TimeHarmonicLinearElasticityEquationsBase) (n i : ℕ)
    (block_lookup_list : List (ℕ × ℕ)) : Except Failure (List (ℕ × ℕ)) :=
  -- if the variable is free
  let local_unknown := self.nodal_local_eqn n i
  -- ignore pinned values
  if local_unknown ≥ 0 then
    -- first entry in pair is global equation number; second entry is block type
    let block_lookup : ℕ × ℕ := (self.eqn_number (to_unsigned local_unknown), 0)
    -- add to list
    Except.ok (block_lookup :: block_lookup_list)
  else Except.ok block_lookup_list

/-- Body of the loop over the nodes: loop over dimension (real and imag). -/
def add_dof_numbers_of_node (self : TimeHarmonicLinearElasticityEquationsBase) (n : ℕ)
    (block_lookup_list : List (ℕ × ℕ)) : Except Failure (List (ℕ × ℕ)) :=
  for_range 0 (to_unsigned (2 * (self.DIM : ℤ))) (self.add_dof_number n) block_lookup_list

/-- Create a list of pairs for all unknowns in this element, so that the
first entry in each pair contains the global equation number of the unknown,
while the second one contains the number of the "block" that this unknown is
associated with. The result is the list after the call. -/
def get_dof_numbers_for_unknowns (self : TimeHarmonicLinearElasticityEquationsBase)
    (block_lookup_list : List (ℕ × ℕ)) : Except Failure (List (ℕ × ℕ)) :=
  -- number of nodes
  let n_node := self.nnode
  -- loop over the nodes
  for_range 0 n_node self.add_dof_numbers_of_node block_lookup_list

end TimeHarmonicLinearElasticityEquationsBase

/-- Time-harmonic linear elasticity upgraded to become projectable. -/
structure ProjectableTimeHarmonicLinearElasticityElement extends
    TimeHarmonicLinearElasticityEquationsBase

namespace ProjectableTimeHarmonicLinearElasticityElement

/-- Number of fields to be projected: `2*dim`, corresponding to real and imag
parts of the displacement components. -/
def nfields_for_projection (self : ProjectableTimeHarmonicLinearElasticityElement) : ℕ :=
  to_unsigned (2 * (self.dim : ℤ))

/-- Number of history values to be stored for the `fld`-th field (includes
the present value); `PARANOID` tells whether the library is compiled with the
checks enabled. -/
def nhistory_values_for_projection (PARANOID : Bool)
    (self : ProjectableTimeHarmonicLinearElasticityElement) (fld : ℕ) : Except Failure ℕ :=
  if PARANOID = true ∧ fld > 3 then
    Except.error (Failure.OomphLibError
      ("Elements only store four fields so fld can't be" ++ " " ++ toString fld ++ "\n")
      "ProjectableTimeHarmonicLinearElasticityElement::nhistory_values_for_projection()")
  else
    match self.node_pt 0 with
    | Except.ok node => Except.ok node.ntstorage
    | Except.error e => Except.error e

end ProjectableTimeHarmonicLinearElasticityElement

/-- A three-dimensional element with two nodes that store three time levels
each; no value is pinned and local unknown `l` has the global number `l`. -/
def element_3d : ProjectableTimeHarmonicLinearElasticityElement :=
  { Node_pt := [⟨3⟩, ⟨3⟩]
    nodal_local_eqn := fun n i => 6 * n + i
    eqn_number := fun l => l
    dim := 3
    DIM := 3 }

/-- A two-dimensional element with two nodes that store three time levels
each; the values of node `0` are pinned, and the local unknown `l` has the
global number `10 + l`. -/
def element_2d : ProjectableTimeHarmonicLinearElasticityElement :=
  { Node_pt := [⟨3⟩, ⟨3⟩]
    nodal_local_eqn := fun n i => if n = 0 then -1 else i
    eqn_number := fun l => 10 + l
    dim := 2
    DIM := 2 }


/-! ## The clean-up at the head of `ExactBlockPreconditioner::setup` and states after a `setup` -/

/-- The values the loop variable of `for (int i = start; i != stop; i += step)`
takes in at most `fuel` rounds, starting from `i`. -/
def sweep_indices (stop step : ℤ) : ℕ → ℤ → List ℤ
  | 0, _ => []
  | fuel + 1, i => if i = stop then [] else i :: sweep_indices stop step fuel (i + step)

/-- An access of `preconditioner_solve` to the storage that `setup` builds:
the call `Diagonal_block_preconditioner_pt[i]->preconditioner_solve(...)` or
the call `Off_diagonal_matrix_vector_products(j,i)->multiply(...)`. -/
inductive Access where
  | diagonal (i : ℤ)
  | operator (j i : ℤ)
  deriving DecidableEq, Repr

namespace BlockTriangularPreconditioner

variable {K : Type}

/-- The value of `start` in `preconditioner_solve`: `int start = n_block-1;`
with `n_block` an `unsigned`, and `start = 0;` if not `Upper_triangular`. -/
def sweep_start (upper : Bool) (n_block : ℕ) : ℤ :=
  if upper = true then unsigned_to_int (to_unsigned ((n_block : ℤ) - 1)) else 0

/-- The value of `end` in `preconditioner_solve`: `int end = -1;`, and
`end = n_block;` if not `Upper_triangular`. -/
def sweep_end (upper : Bool) (n_block : ℕ) : ℤ :=
  if upper = true then -1 else unsigned_to_int n_block

/-- The value of `step` in `preconditioner_solve`: `int step = -1;`, and
`step = 1;` if not `Upper_triangular`. -/
def sweep_step (upper : Bool) : ℤ :=
  if upper = true then -1 else 1

/-- The body of the inner loop of `preconditioner_solve`, `substitute`, with a
record of the access to the operator `(j,i)`. -/
def substitute_recorded [CommRing K] (w : World K) (self : BlockTriangularPreconditioner K)
    (i j : ℤ) (st : (List (List K) × List (List K)) × List Access) :
    Except Failure ((List (List K) × List (List K)) × List Access) := do
  let st1 ← substitute w self i j st.1
  pure (st1, st.2 ++ [Access.operator j i])

/-- The body of the outer loop of `preconditioner_solve`, `solve_block`, with
a record of the access to the subsidiary preconditioner `i` and of the
accesses of the inner loop. -/
def solve_block_recorded [CommRing K] (env : Env K) (w : World K)
    (self : BlockTriangularPreconditioner K) (stop step : ℤ) (fuel : ℕ) (i : ℤ)
    (st : (List (List K) × List (List K)) × List Access) :
    Except Failure ((List (List K) × List (List K)) × List Access) := do
  -- solve
  let p ← Vector_at self.Diagonal_block_preconditioner_pt i
  let r_i ← Vector_at st.1.1 i
  let z_i ← w.subsidiary_solve env p r_i
  let block_z ← Vector_assign st.1.2 i z_i
  -- substitute
  sweep (substitute_recorded w self i) stop step fuel (i + step)
    ((st.1.1, block_z), st.2 ++ [Access.diagonal i])

/-- The block vectors `block_z` computed by `preconditioner_solve`, with the
record of the accesses to the subsidiary preconditioners and the operators, in
the order in which they are made. -/
def solve_blocks_recorded [CommRing K] (env : Env K) (w : World K)
    (self : BlockTriangularPreconditioner K) (fuel : ℕ) (r : DoubleVector K) :
    Except Failure (List (List K) × List Access) := do
  -- cache number of block types
  let n_block := self.nblock_types
  let start : ℤ := sweep_start self.Upper_triangular n_block
  let stop : ℤ := sweep_end self.Upper_triangular n_block
  let step : ℤ := sweep_step self.Upper_triangular
  -- rearrange the vector r into the vector of block vectors block_r
  let block_r ← self.get_block_vectors r
  -- vector of vectors for the solution block vectors
  let block_z0 : List (List K) := List.replicate n_block []
  let st ← sweep (solve_block_recorded env w self stop step fuel) stop step fuel start
    ((block_r, block_z0), [])
  pure (st.1.2, st.2)

end BlockTriangularPreconditioner

/-- The block processed in round `p` of the outer loop of
`preconditioner_solve` on `n` blocks: the blocks are processed from the last
to the first in upper mode and from the first to the last in lower mode. -/
def block_of_round (upper : Bool) (n p : ℕ) : ℕ :=
  if upper = true then n - 1 - p else p

/-- The accesses of a run of `preconditioner_solve` on `n` blocks in which the
outer loop makes `n` rounds and the inner loop of round `p` makes one round
for each of the `n - 1 - p` blocks that are not yet processed. -/
def accesses_of_rounds (upper : Bool) (n : ℕ) : List Access :=
  (List.range n).flatMap (fun p =>
    Access.diagonal (block_of_round upper n p) ::
      (List.range (n - 1 - p)).map (fun q =>
        Access.operator (block_of_round upper n (p + 1 + q)) (block_of_round upper n p)))


/-! ## Linear combinations of vectors -/

/-- The vector `a x + b y`; an entry beyond the end of a vector counts as zero. -/
def axpby {K : Type} [CommRing K] (a : K) (x : List K) (b : K) (y : List K) : List K :=
  vec (max x.length y.length) (fun k => a * vget x k + b * vget y k)


/-! ## The blocks required by `ExactBlockPreconditioner::setup` -/

/-- The table `required_blocks` of `ExactBlockPreconditioner::setup`:
`DenseMatrix<bool> required_blocks(nblock_types, nblock_types, true);`. -/
def ExactBlockPreconditioner.required_blocks (nblock_types : ℕ) : DenseMatrix Bool :=
  ⟨nblock_types, nblock_types, fun _ _ => true⟩

/-- The extractions of all `n * n` blocks, row by row: the order in which the
loops of `get_blocks` go through the table. -/
def all_blocks_extracted (n : ℕ) : List Event :=
  (List.range (n * n)).map (fun p => Event.get_block (p / n) (p % n))


/-! ## Ownership of the operators whatever the mode -/

/-- The entries `D i j`, `i, j < n`, `i ≠ j`, of a table of operator pointers,
on either side of the diagonal, are sound for the store: every entry that is
not null refers to a live operator, and no two entries hold the same such
pointer. -/
def OwnedTable {α : Type} (s : Store α) (n : ℕ) (D : ℕ → ℕ → ℕ) : Prop :=
  ∀ i j, i < n → j < n → i ≠ j → D i j ≠ 0 →
    (∃ a, s.obj (D i j) = some a) ∧
    ∀ i1 j1, i1 < n → j1 < n → i1 ≠ j1 → D i1 j1 = D i j → i1 = i ∧ j1 = j

/-- The pointers a block triangular preconditioner holds are sound for the
world whatever the mode is and will be: the diagonal preconditioners, and the
operators on both sides of the diagonal; the operator table is as large as the
vector of diagonal preconditioners. This holds after construction, and it is
kept by `upper_triangular()`, by `lower_triangular()` and by every `setup`. -/
def BlockTriangularPreconditioner.SoundInEveryMode {K : Type}
    (self : BlockTriangularPreconditioner K) (w : World K) : Prop :=
  Owned w.preconditioners self.Diagonal_block_preconditioner_pt.length
    (fun i => self.Diagonal_block_preconditioner_pt.getD i 0) ∧
  self.Off_diagonal_matrix_vector_products.N = self.Diagonal_block_preconditioner_pt.length ∧
  self.Off_diagonal_matrix_vector_products.M = self.Diagonal_block_preconditioner_pt.length ∧
  OwnedTable w.matrix_vector_products self.Diagonal_block_preconditioner_pt.length
    self.Off_diagonal_matrix_vector_products.data

/-! ## Theorems -/

section lemmas

variable {K : Type}

@[simp] theorem bind_ok {α β : Type} (a : α) (f : α → Except Failure β) :
    (Except.ok a >>= f) = f a := rfl

@[simp] theorem bind_error {α β : Type} (e : Failure) (f : α → Except Failure β) :
    ((Except.error e : Except Failure α) >>= f) = Except.error e := rfl

@[simp] theorem pure_eq_ok {α : Type} (a : α) : (pure a : Except Failure α) = Except.ok a := rfl

@[simp] theorem throw_eq_error {α : Type} (e : Failure) :
    (throw e : Except Failure α) = Except.error e := rfl

end lemmas

/-! ### Stores -/

namespace Store

variable {α : Type}

theorem count_update (f : ℕ → Option α) (p : ℕ) (v : Option α) (n : ℕ) :
    (List.range n).countP (fun q => (Function.update f p v q).isSome) +
        (if p < n ∧ (f p).isSome = true then 1 else 0) =
      (List.range n).countP (fun q => (f q).isSome) +
        (if p < n ∧ v.isSome = true then 1 else 0) := by
  induction n with
  | zero => simp
  | succ n ih =>
    rw [List.range_succ, List.countP_append, List.countP_append]
    by_cases hp : p = n
    · subst hp
      have h1 : ¬ (p < p) := lt_irrefl p
      simp only [h1, false_and, if_false, add_zero] at ih
      simp only [ih, List.countP_cons, List.countP_nil, Function.update_same, Nat.lt_succ_self,
        true_and, zero_add]
      split_ifs <;> omega
    · have h2 : (p < n + 1) = (p < n) := by
        apply propext; constructor <;> intro h <;> omega
      simp only [h2]
      simp only [List.countP_cons, List.countP_nil, zero_add,
        Function.update_noteq (Ne.symm hp)]
      omega

@[simp] theorem new_fst (s : Store α) (a : α) : (s.new a).1 = s.next := rfl

@[simp] theorem new_next (s : Store α) (a : α) : (s.new a).2.next = s.next + 1 := rfl

theorem new_obj (s : Store α) (a : α) (q : ℕ) :
    (s.new a).2.obj q = if q = s.next then some a else s.obj q := by
  simp [new, Function.update_apply]

theorem new_live (s : Store α) (a : α) : (s.new a).2.live = s.live + 1 := by
  have h := count_update s.obj s.next (some a) s.next
  simp only [lt_irrefl, false_and, if_false, add_zero] at h
  simp only [live, new, List.range_succ, List.countP_append, h]
  simp

theorem obj_lt_next (s : Store α) {p : ℕ} {a : α} (h : s.obj p = some a) : p < s.next := by
  by_contra hn
  rw [s.fresh p (by omega)] at h
  exact Option.noConfusion h

theorem obj_ne_zero (s : Store α) {p : ℕ} {a : α} (h : s.obj p = some a) : p ≠ 0 := by
  rintro rfl
  rw [s.null_free] at h
  exact Option.noConfusion h

@[simp] theorem delete_zero (s : Store α) : s.delete 0 = Except.ok s := by
  simp [delete]

theorem delete_live (s : Store α) {p : ℕ} {a : α} (h : s.obj p = some a) :
    ∃ s1, s.delete p = Except.ok s1 ∧ s1.obj = Function.update s.obj p none ∧
      s1.next = s.next ∧ s1.live + 1 = s.live := by
  have hp : p ≠ 0 := s.obj_ne_zero h
  have hs : (s.obj p).isSome = true := by simp [h]
  unfold delete
  rw [dif_neg hp, if_pos hs]
  refine ⟨_, rfl, rfl, rfl, ?_⟩
  have hc := count_update s.obj p none s.next
  simp only [s.obj_lt_next h, h, true_and, Option.isSome_some, Option.isSome_none, if_true] at hc
  simp only [Bool.false_eq_true, if_false, add_zero] at hc
  simpa [live] using hc

theorem set_live (s : Store α) {p : ℕ} {a : α} (b : α) (h : s.obj p = some a) :
    ∃ s1, s.set p b = Except.ok s1 ∧ s1.obj = Function.update s.obj p (some b) ∧
      s1.next = s.next ∧ s1.live = s.live := by
  have hp : p ≠ 0 := s.obj_ne_zero h
  have hs : (s.obj p).isSome = true := by simp [h]
  unfold set
  rw [dif_neg hp, dif_pos hs]
  refine ⟨_, rfl, rfl, rfl, ?_⟩
  have hc := count_update s.obj p (some b) s.next
  simp only [s.obj_lt_next h, h, true_and, Option.isSome_some, if_true] at hc
  simpa [live] using hc

theorem deref_live (s : Store α) {p : ℕ} {a : α} (h : s.obj p = some a) :
    s.deref p = Except.ok a := by
  simp [deref, h]

@[simp] theorem empty_live : (Store.empty : Store α).live = 0 := by
  simp [live, empty]

end Store

/-- C7. `DummyBlockPreconditioner::preconditioner_solve` is the identity: for
every residual `r`, every prior state of `z` and every state of the
preconditioner, after the call `z` equals `r` (same build state, same length,
same entries) and `r` is unchanged. -/
theorem DummyBlockPreconditioner.preconditioner_solve_is_identity {K : Type}
    (self : DummyBlockPreconditioner K) (r z : DoubleVector K) :
    (self.preconditioner_solve r z).2 = r ∧
    (self.preconditioner_solve r z).2.nrow = r.nrow ∧
    (self.preconditioner_solve r z).1 = r :=
  ⟨rfl, rfl, rfl⟩

/-! ### Loops -/

theorem for_loop_inv {σ : Type} (body : ℕ → σ → Except Failure σ) (I : ℕ → σ → Prop) :
    ∀ (count lo : ℕ) (s : σ), I lo s →
      (∀ i s, lo ≤ i → i < lo + count → I i s → ∃ s1, body i s = Except.ok s1 ∧ I (i + 1) s1) →
      ∃ s1, for_loop body lo count s = Except.ok s1 ∧ I (lo + count) s1 := by
  intro count
  induction count with
  | zero => intro lo s h0 _; exact ⟨s, rfl, h0⟩
  | succ n ih =>
    intro lo s h0 hstep
    obtain ⟨s1, hb, h1⟩ := hstep lo s le_rfl (by omega) h0
    obtain ⟨s2, hl, h2⟩ := ih (lo + 1) s1 h1 (fun i t hi1 hi2 hI => hstep i t (by omega) (by omega) hI)
    refine ⟨s2, ?_, ?_⟩
    · simp only [for_loop, hb]; exact hl
    · have : lo + (n + 1) = lo + 1 + n := by omega
      rw [this]; exact h2

theorem for_range_inv {σ : Type} (body : ℕ → σ → Except Failure σ) (I : ℕ → σ → Prop)
    (lo hi : ℕ) (s : σ) (hle : lo ≤ hi) (h0 : I lo s)
    (hstep : ∀ i s, lo ≤ i → i < hi → I i s → ∃ s1, body i s = Except.ok s1 ∧ I (i + 1) s1) :
    ∃ s1, for_range lo hi body s = Except.ok s1 ∧ I hi s1 := by
  have h := for_loop_inv body I (hi - lo) lo s h0
    (fun i t hi1 hi2 hI => hstep i t hi1 (by omega) hI)
  have e : lo + (hi - lo) = hi := by omega
  rw [e] at h
  exact h

theorem for_range_empty {σ : Type} (body : ℕ → σ → Except Failure σ) (lo hi : ℕ) (s : σ)
    (h : hi ≤ lo) : for_range lo hi body s = Except.ok s := by
  have e : hi - lo = 0 := by omega
  simp [for_range, e, for_loop]

theorem sweep_inv {σ : Type} (body : ℤ → σ → Except Failure σ) (stop step : ℤ)
    (I : ℕ → σ → Prop) :
    ∀ (count fuel : ℕ) (start : ℤ) (s : σ), count ≤ fuel →
      start + count * step = stop →
      (∀ k : ℕ, k < count → start + k * step ≠ stop) →
      I 0 s →
      (∀ (k : ℕ) (t : σ), k < count → I k t →
        ∃ t1, body (start + k * step) t = Except.ok t1 ∧ I (k + 1) t1) →
      ∃ s1, sweep body stop step fuel start s = Except.ok s1 ∧ I count s1 := by
  intro count
  induction count generalizing I with
  | zero =>
    intro fuel start s _ hstop _ h0 _
    have e : start = stop := by simpa using hstop
    refine ⟨s, ?_, h0⟩
    cases fuel <;> simp [sweep, e]
  | succ n ih =>
    intro fuel start s hfuel hstop hne h0 hstep
    obtain ⟨f, rfl⟩ : ∃ f, fuel = f + 1 := ⟨fuel - 1, by omega⟩
    have hne0 : start ≠ stop := by simpa using hne 0 (by omega)
    obtain ⟨t1, hb, h1⟩ := hstep 0 s (by omega) h0
    simp only [Nat.cast_zero, zero_mul, add_zero] at hb
    have hrec := ih (fun k t => I (k + 1) t) f (start + step) t1 (by omega)
      (by rw [← hstop]; push_cast; ring)
      (fun k hk => by
        have := hne (k + 1) (by omega)
        intro hc; apply this; rw [← hc]; push_cast; ring)
      h1
      (fun k t hk hI => by
        obtain ⟨t2, hb2, h2⟩ := hstep (k + 1) t (by omega) hI
        refine ⟨t2, ?_, h2⟩
        rw [← hb2]; congr 1; push_cast; ring)
    obtain ⟨s1, hs, hI⟩ := hrec
    refine ⟨s1, ?_, hI⟩
    simp only [sweep, hne0, if_false, hb]
    exact hs

/-! ### Vectors -/

@[simp] theorem vec_length {α : Type} (n : ℕ) (f : ℕ → α) : (vec n f).length = n := by
  simp [vec]

theorem vec_getElem? {α : Type} (n : ℕ) (f : ℕ → α) (i : ℕ) :
    (vec n f)[i]? = if i < n then some (f i) else none := by
  unfold vec
  by_cases h : i < n
  · simp [h, List.getElem?_range h]
  · simp [h]
    omega

theorem vec_getD {α : Type} (n : ℕ) (f : ℕ → α) (i : ℕ) (d : α) :
    (vec n f).getD i d = if i < n then f i else d := by
  rw [List.getD_eq_getElem?_getD, vec_getElem?]
  split_ifs <;> rfl

theorem vget_vec {K : Type} [Zero K] (n : ℕ) (f : ℕ → K) (i : ℕ) :
    vget (vec n f) i = if i < n then f i else 0 := by
  unfold vget
  exact vec_getD n f i 0

theorem vec_getElem {α : Type} (n : ℕ) (f : ℕ → α) (i : ℕ) (h : i < (vec n f).length) :
    (vec n f)[i] = f i := by
  simp [vec]

theorem vec_congr {α : Type} (n : ℕ) (f g : ℕ → α) (h : ∀ i, i < n → f i = g i) :
    vec n f = vec n g := by
  unfold vec
  apply List.map_congr_left
  intro i hi
  exact h i (List.mem_range.mp hi)

theorem vec_eq_self {α : Type} (l : List α) (d : α) : vec l.length (fun i => l.getD i d) = l := by
  apply List.ext_getElem?
  intro i
  rw [vec_getElem?]
  by_cases h : i < l.length
  · simp [h, List.getD_eq_getElem?_getD, List.getElem?_eq_getElem h]
  · simp [h]
    omega

theorem vec_set {α : Type} (n : ℕ) (f : ℕ → α) (k : ℕ) (a : α) :
    (vec n f).set k a = vec n (Function.update f k a) := by
  apply List.ext_getElem?
  intro i
  rw [List.getElem?_set, vec_getElem?, vec_getElem?]
  by_cases hk : k = i
  · subst hk
    by_cases h : k < n <;> simp [h]
  · simp [hk, Function.update_noteq (Ne.symm hk)]

theorem Vector_at_vec {α : Type} (n : ℕ) (f : ℕ → α) (i : ℕ) (h : i < n) :
    Vector_at (vec n f) (i : ℤ) = Except.ok (f i) := by
  simp [Vector_at, List.get?_eq_getElem?, vec_getElem?, h, vec_getElem]

theorem Vector_assign_vec {α : Type} (n : ℕ) (f : ℕ → α) (i : ℕ) (a : α) (h : i < n) :
    Vector_assign (vec n f) (i : ℤ) a = Except.ok (vec n (Function.update f i a)) := by
  simp [Vector_assign, h, vec_set]

theorem Vector_resize_vec (n : ℕ) (f : ℕ → ℕ) (m : ℕ) :
    Vector_resize (vec n f) m = vec m (fun i => if i < n then f i else 0) := by
  apply List.ext_getElem?
  intro i
  simp only [Vector_resize, vec_getElem?, vec_length]
  by_cases h1 : i < m
  · by_cases h2 : i < n
    · rw [List.getElem?_append_left (by simp; omega), List.getElem?_take]
      simp [h1, h2, vec_getElem?, vec_getElem]
    · rw [List.getElem?_append_right (by simp; omega)]
      simp only [h1, h2, if_true, if_false]
      rw [List.getElem?_replicate]
      simp
      omega
  · simp [h1]
    omega

/-! ### Ownership -/

theorem nonnull_succ (n : ℕ) (f : ℕ → ℕ) :
    nonnull (n + 1) f = nonnull n f + (if f n ≠ 0 then 1 else 0) := by
  simp only [nonnull, List.range_succ, List.countP_append, List.countP_cons, List.countP_nil,
    zero_add]
  by_cases h : f n = 0 <;> simp [h]

theorem nonnull_zero_fun (n : ℕ) : nonnull n (fun _ => 0) = 0 := by
  simp [nonnull]

theorem nonnull_all (n : ℕ) (f : ℕ → ℕ) (h : ∀ i, i < n → f i ≠ 0) : nonnull n f = n := by
  induction n with
  | zero => simp [nonnull]
  | succ n ih =>
    rw [nonnull_succ, ih (fun i hi => h i (by omega))]
    simp [h n (by omega)]

theorem World.delete_preconditioner_zero {K : Type} (w : World K) :
    w.delete_preconditioner 0 = Except.ok w := by
  simp [World.delete_preconditioner]

theorem World.delete_preconditioner_live {K : Type} (w : World K) {p : ℕ} {a : Preconditioner K}
    (h : w.preconditioners.obj p = some a) :
    ∃ s1, w.delete_preconditioner p = Except.ok { w with preconditioners := s1 } ∧
      s1.obj = Function.update w.preconditioners.obj p none ∧
      s1.next = w.preconditioners.next ∧ s1.live + 1 = w.preconditioners.live := by
  obtain ⟨s1, h1, h2, h3, h4⟩ := w.preconditioners.delete_live h
  exact ⟨s1, by simp [World.delete_preconditioner, h1], h2, h3, h4⟩

/-- Deleting, in order, the pointers `f 0, ..., f (n-1)` that a sound table
holds: every deletion succeeds and exactly the objects of the table die. -/
theorem delete_owned {K : Type} (w : World K) (n : ℕ) (f : ℕ → ℕ)
    (hown : Owned w.preconditioners n f) (k : ℕ) (hk : k < n)
    (s1 : Store (Preconditioner K))
    (hnext : s1.next = w.preconditioners.next)
    (hlive : s1.live + nonnull k f = w.preconditioners.live)
    (hdead : ∀ i, i < k → f i ≠ 0 → s1.obj (f i) = none)
    (hframe : ∀ q, (∀ i, i < k → f i ≠ q) → s1.obj q = w.preconditioners.obj q) :
    ∃ s2, World.delete_preconditioner { w with preconditioners := s1 } (f k) =
        Except.ok { w with preconditioners := s2 } ∧
      s2.next = w.preconditioners.next ∧
      s2.live + nonnull (k + 1) f = w.preconditioners.live ∧
      (∀ i, i < k + 1 → f i ≠ 0 → s2.obj (f i) = none) ∧
      (∀ q, (∀ i, i < k + 1 → f i ≠ q) → s2.obj q = w.preconditioners.obj q) := by
  by_cases h0 : f k = 0
  · refine ⟨s1, by rw [h0]; exact World.delete_preconditioner_zero _, hnext, ?_, ?_, ?_⟩
    · rw [nonnull_succ]; simp [h0, hlive]
    · intro i hi hne
      have : i < k := by
        rcases Nat.lt_succ_iff_lt_or_eq.mp hi with h | h
        · exact h
        · subst h; exact absurd h0 hne
      exact hdead i this hne
    · intro q hq
      exact hframe q (fun i hi => hq i (by omega))
  · obtain ⟨⟨a, ha⟩, hinj⟩ := hown k hk h0
    have hs1 : s1.obj (f k) = some a := by
      rw [hframe (f k) (fun i hi heq => by have := hinj i (by omega) heq; omega)]
      exact ha
    obtain ⟨s2, hd, hobj, hn2, hl2⟩ :=
      World.delete_preconditioner_live { w with preconditioners := s1 } hs1
    refine ⟨s2, hd, by rw [hn2]; exact hnext, ?_, ?_, ?_⟩
    · rw [nonnull_succ]; simp only [h0, ne_eq, not_false_eq_true, if_true]
      simp only at hl2; omega
    · intro i hi hne
      simp only at hobj
      rw [hobj]
      by_cases he : f i = f k
      · rw [he]; simp
      · rw [Function.update_noteq he]
        exact hdead i (by
          rcases Nat.lt_succ_iff_lt_or_eq.mp hi with h | h
          · exact h
          · subst h; exact absurd rfl he) hne
    · intro q hq
      simp only at hobj
      rw [hobj, Function.update_noteq (Ne.symm (hq k (by omega)))]
      exact hframe q (fun i hi => hq i (by omega))

/-! ### Block diagonal preconditioner: clean-up -/

theorem BlockDiagonalPreconditioner.clean_up_memory_spec {K : Type} (w : World K)
    (self : BlockDiagonalPreconditioner K) (n : ℕ) (f : ℕ → ℕ)
    (hD : self.Diagonal_block_preconditioner_pt = vec n f)
    (hown : Owned w.preconditioners n f) :
    ∃ s1 : Store (Preconditioner K),
      self.clean_up_memory w = Except.ok
        ({ w with preconditioners := s1 },
         { self with
           Diagonal_block_preconditioner_pt := vec n (fun _ => 0)
           Lookup := none }) ∧
      s1.next = w.preconditioners.next ∧
      s1.live + nonnull n f = w.preconditioners.live ∧
      (∀ i, i < n → f i ≠ 0 → s1.obj (f i) = none) ∧
      (∀ q, (∀ i, i < n → f i ≠ q) → s1.obj q = w.preconditioners.obj q) := by
  have hloop := for_range_inv BlockDiagonalPreconditioner.delete_diagonal
    (fun k st => ∃ s1 : Store (Preconditioner K),
      st = ({ w with preconditioners := s1 },
        { self with Diagonal_block_preconditioner_pt := vec n (fun i => if i < k then 0 else f i) }) ∧
      s1.next = w.preconditioners.next ∧
      s1.live + nonnull k f = w.preconditioners.live ∧
      (∀ i, i < k → f i ≠ 0 → s1.obj (f i) = none) ∧
      (∀ q, (∀ i, i < k → f i ≠ q) → s1.obj q = w.preconditioners.obj q))
    0 n (w, self) (Nat.zero_le n)
    ⟨w.preconditioners, (by
      cases self; simp only at hD; subst hD
      simp only [Nat.not_lt_zero, if_false]), rfl, (by simp [nonnull]), (by intro i hi; omega),
        fun _ _ => rfl⟩
    (by
      rintro k st _ hk ⟨s1, rfl, hnext, hlive, hdead, hframe⟩
      obtain ⟨s2, hd, h1, h2, h3, h4⟩ := delete_owned w n f hown k hk s1 hnext hlive hdead hframe
      let v1 := vec n (fun i => if i < k + 1 then 0 else f i)
      refine ⟨({ w with preconditioners := s2 }, { self with Diagonal_block_preconditioner_pt := v1 }),
        ?_, s2, rfl, h1, h2, h3, h4⟩
      simp only [BlockDiagonalPreconditioner.delete_diagonal, Vector_at_vec _ _ _ hk, lt_irrefl,
        if_false, bind_ok, hd, Vector_assign_vec _ _ _ _ hk, pure_eq_ok]
      congr 3
      apply vec_congr
      intro i _
      by_cases hik : i = k
      · subst hik; simp
      · rw [Function.update_noteq hik]
        by_cases h : i < k
        · rw [if_pos h, if_pos (by omega)]
        · rw [if_neg h, if_neg (by omega)])
  obtain ⟨st, hrun, s1, rfl, h1, h2, h3, h4⟩ := hloop
  refine ⟨s1, ?_, h1, h2, h3, h4⟩
  unfold BlockDiagonalPreconditioner.clean_up_memory
  rw [hD, vec_length]
  simp only [hrun, bind_ok, pure_eq_ok]
  congr 2
  congr 1
  apply vec_congr
  intro i hi
  simp [hi]

/-! ### Block setup -/

theorem GeneralPurposeBlockPreconditioner.register_meshes {K : Type}
    (self : GeneralPurposeBlockPreconditioner K) :
    for_range 0 self.Prec_mesh_pt.length (fun m b =>
      match Vector_at self.Prec_mesh_pt m with
      | Except.ok mesh_pt => BlockPreconditioner.set_mesh b m mesh_pt
      | Except.error e => Except.error e)
      (self.toBlockPreconditioner.set_nmesh self.Prec_mesh_pt.length) =
    Except.ok { self.toBlockPreconditioner with Mesh_pt := self.Prec_mesh_pt } := by
  set n := self.Prec_mesh_pt.length with hn
  set g : ℕ → ℕ := fun i => (Vector_resize self.Mesh_pt n).getD i 0 with hg
  have hP : self.Prec_mesh_pt = vec n (fun i => self.Prec_mesh_pt.getD i 0) :=
    (vec_eq_self _ 0).symm
  obtain ⟨b, hrun, hb⟩ := for_range_inv
    (fun m b =>
      match Vector_at self.Prec_mesh_pt m with
      | Except.ok mesh_pt => BlockPreconditioner.set_mesh b m mesh_pt
      | Except.error e => Except.error e)
    (fun k (b : BlockPreconditioner K) => b = { self.toBlockPreconditioner with
      Mesh_pt := vec n (fun i => if i < k then self.Prec_mesh_pt.getD i 0 else g i) })
    0 n (self.toBlockPreconditioner.set_nmesh n) (Nat.zero_le n)
    (by
      simp only [BlockPreconditioner.set_nmesh, Nat.not_lt_zero, if_false]
      congr 1
      have h1 : (Vector_resize self.Mesh_pt n).length = n := by
        rw [← vec_eq_self self.Mesh_pt 0, Vector_resize_vec, vec_length]
      have h2 := vec_eq_self (Vector_resize self.Mesh_pt n) 0
      rw [h1] at h2
      exact h2.symm)
    (by
      rintro k b _ hk rfl
      refine ⟨_, ?_, rfl⟩
      have hat : Vector_at self.Prec_mesh_pt (k : ℤ) = Except.ok (self.Prec_mesh_pt.getD k 0) := by
        conv_lhs => rw [hP]
        exact Vector_at_vec _ _ _ hk
      simp only [hat, BlockPreconditioner.set_mesh, Vector_assign_vec _ _ _ _ hk]
      congr 2
      apply vec_congr
      intro i _
      by_cases hik : i = k
      · subst hik; simp
      · rw [Function.update_noteq hik]
        by_cases h : i < k
        · rw [if_pos h, if_pos (by omega)]
        · rw [if_neg h, if_neg (by omega)])
  rw [hrun, hb]
  dsimp only
  congr 2
  conv_rhs => rw [hP]
  apply vec_congr
  intro i hi
  simp [hi]

theorem GeneralPurposeBlockPreconditioner.block_setup_spec {K : Type} (env : Env K) (w : World K)
    (self : GeneralPurposeBlockPreconditioner K) (m : CRDoubleMatrix K) :
    self.block_setup env w (some m) = Except.ok
      (w.record (Event.block_setup self.Prec_mesh_pt.length self.Prec_mesh_pt self.map_in_use),
       { self with
         Mesh_pt := self.Prec_mesh_pt
         Matrix_pt := some m
         Lookup := some (self.scheme env m) }) := by
  unfold GeneralPurposeBlockPreconditioner.block_setup
  simp only [self.register_meshes]
  by_cases h : self.Dof_to_block_map.length > 0
  · simp [h, BlockPreconditioner.block_setup, GeneralPurposeBlockPreconditioner.scheme,
      GeneralPurposeBlockPreconditioner.map_in_use]
  · simp [h, BlockPreconditioner.block_setup, GeneralPurposeBlockPreconditioner.scheme,
      GeneralPurposeBlockPreconditioner.map_in_use]

theorem GeneralPurposeBlockPreconditioner.block_setup_null {K : Type} (env : Env K) (w : World K)
    (self : GeneralPurposeBlockPreconditioner K) :
    self.block_setup env w none = Except.error
      (Failure.undefined_behaviour "block_setup called with a null matrix pointer") := by
  unfold GeneralPurposeBlockPreconditioner.block_setup
  simp only [self.register_meshes]
  by_cases h : self.Dof_to_block_map.length > 0 <;> simp [h, BlockPreconditioner.block_setup]

/-! ### Operations on the world -/

namespace World

variable {K : Type}

theorem record_factory_calls (w : World K) (e : Event) :
    (w.record e).factory_calls = w.factory_calls + (if e = Event.factory_call then 1 else 0) := by
  by_cases h : e = Event.factory_call
  · subst h; simp [record, factory_calls]
  · have h2 : ¬ (Event.factory_call = e) := fun h3 => h h3.symm
    simp [record, factory_calls, h, List.count_cons, h2]

/-- Creating a subsidiary preconditioner when the function pointer is null or
the function returns an object: the object is new, nothing else changes. -/
theorem create_spec (w : World K) (fct_pt : Option SubsidiaryPreconditionerFctPt) (kind : PrecKind)
    (h : created_kind fct_pt w.factory_calls = some kind) :
    ∃ log1,
      w.create_subsidiary_preconditioner fct_pt =
        (w.preconditioners.next,
         { w with preconditioners := (w.preconditioners.new ⟨kind, none⟩).2, log := log1 }) ∧
      List.count Event.factory_call log1 =
        w.factory_calls + (if fct_pt.isSome = true then 1 else 0) := by
  cases fct_pt with
  | none =>
    simp only [created_kind, Option.some.injEq] at h
    subst h
    exact ⟨w.log, rfl, by simp [factory_calls]⟩
  | some f =>
    simp only [created_kind, Option.map_eq_some'] at h
    obtain ⟨tag, htag, rfl⟩ := h
    refine ⟨(w.record Event.factory_call).log, ?_, ?_⟩
    · simp [create_subsidiary_preconditioner, call_factory, htag, record]
    · have := record_factory_calls w Event.factory_call
      simpa [factory_calls] using this

theorem get_block_spec (w : World K) (self : BlockPreconditioner K) (L : BlockLookup)
    (A : CRDoubleMatrix K) (hL : self.Lookup = some L) (hA : self.Matrix_pt = some A) (i j : ℕ)
    (hi : i < L.nblock_types) (hj : j < L.nblock_types) :
    self.get_block w i j = Except.ok
      (w.matrices.next,
       { w with
         matrices := (w.matrices.new (L.block A i j)).2
         log := w.log ++ [Event.get_block i j] }) := by
  simp [BlockPreconditioner.get_block, BlockPreconditioner.lookup, hL, hA, hi, hj, new_matrix,
    record]

theorem preconditioner_setup_spec (w : World K) (p b : ℕ) (pre : Preconditioner K)
    (m : CRDoubleMatrix K) (hp : w.preconditioners.obj p = some pre)
    (hb : w.matrices.obj b = some m) :
    ∃ s1, w.preconditioner_setup p b = Except.ok { w with preconditioners := s1 } ∧
      s1.obj = Function.update w.preconditioners.obj p (some ⟨pre.kind, some m⟩) ∧
      s1.next = w.preconditioners.next ∧ s1.live = w.preconditioners.live := by
  obtain ⟨s1, h1, h2, h3, h4⟩ := w.preconditioners.set_live ⟨pre.kind, some m⟩ hp
  refine ⟨s1, ?_, h2, h3, h4⟩
  simp [preconditioner_setup, Store.deref_live _ hp, Store.deref_live _ hb, h1]

theorem delete_matrix_live (w : World K) {p : ℕ} {m : CRDoubleMatrix K}
    (h : w.matrices.obj p = some m) :
    ∃ s1, w.delete_matrix p = Except.ok { w with matrices := s1 } ∧
      s1.obj = Function.update w.matrices.obj p none ∧
      s1.next = w.matrices.next ∧ s1.live + 1 = w.matrices.live := by
  obtain ⟨s1, h1, h2, h3, h4⟩ := w.matrices.delete_live h
  exact ⟨s1, by simp [delete_matrix, h1], h2, h3, h4⟩

theorem subsidiary_solve_spec (env : Env K) (w : World K) (p : ℕ) (kind : PrecKind)
    (m : CRDoubleMatrix K) (hp : w.preconditioners.obj p = some ⟨kind, some m⟩) (r : List K) :
    w.subsidiary_solve env p r = Except.ok (env.solve kind m r) := by
  simp [subsidiary_solve, Store.deref_live _ hp]

end World

/-! ### Block diagonal preconditioner: setup -/

theorem created_kind_calls (fct_pt : Option SubsidiaryPreconditionerFctPt) (c k : ℕ) :
    created_kind fct_pt (c + (if fct_pt.isSome = true then k else 0)) = created_kind fct_pt (c + k) := by
  cases fct_pt <;> simp [created_kind]

theorem BlockDiagonalPreconditioner.create_loop {K : Type} (w : World K)
    (self : BlockDiagonalPreconditioner K) (N : ℕ) (kind : ℕ → PrecKind)
    (hD : self.Diagonal_block_preconditioner_pt = vec N (fun _ => 0))
    (hkind : ∀ i, i < N →
      created_kind self.Subsidiary_preconditioner_function_pt (w.factory_calls + i) = some (kind i)) :
    ∃ s1 log1,
      for_range 0 N BlockDiagonalPreconditioner.create_diagonal (w, self) = Except.ok
        ({ w with preconditioners := s1, log := log1 },
         { self with
           Diagonal_block_preconditioner_pt := vec N (fun i => w.preconditioners.next + i) }) ∧
      s1.next = w.preconditioners.next + N ∧
      s1.live = w.preconditioners.live + N ∧
      (∀ i, i < N → s1.obj (w.preconditioners.next + i) = some ⟨kind i, none⟩) ∧
      (∀ q, q < w.preconditioners.next → s1.obj q = w.preconditioners.obj q) ∧
      List.count Event.factory_call log1 = w.factory_calls +
        (if self.Subsidiary_preconditioner_function_pt.isSome = true then N else 0) := by
  obtain ⟨st, hrun, sk, logk, rfl, h1, h2, h3, h4, h5⟩ := for_range_inv
    BlockDiagonalPreconditioner.create_diagonal
    (fun k st => ∃ (sk : Store (Preconditioner K)) (logk : List Event),
      st = ({ w with preconditioners := sk, log := logk },
        { self with
          Diagonal_block_preconditioner_pt :=
            vec N (fun i => if i < k then w.preconditioners.next + i else 0) }) ∧
      sk.next = w.preconditioners.next + k ∧
      sk.live = w.preconditioners.live + k ∧
      (∀ i, i < k → sk.obj (w.preconditioners.next + i) = some ⟨kind i, none⟩) ∧
      (∀ q, q < w.preconditioners.next → sk.obj q = w.preconditioners.obj q) ∧
      List.count Event.factory_call logk = w.factory_calls +
        (if self.Subsidiary_preconditioner_function_pt.isSome = true then k else 0))
    0 N (w, self) (Nat.zero_le N)
    ⟨w.preconditioners, w.log, (by
      cases self; simp only at hD; subst hD
      simp only [Nat.not_lt_zero, if_false]), rfl, rfl, (by intro i hi; omega), (fun _ _ => rfl),
      (by simp [World.factory_calls])⟩
    (by
      rintro k st _ hk ⟨sk, logk, rfl, h1, h2, h3, h4, h5⟩
      have hc : created_kind self.Subsidiary_preconditioner_function_pt
          (World.factory_calls
            ({ w with preconditioners := sk, log := logk } : World K)) = some (kind k) := by
        simp only [World.factory_calls, h5]
        rw [created_kind_calls]
        exact hkind k hk
      obtain ⟨log1, hcr, hlog⟩ := World.create_spec _ _ _ hc
      let v1 := vec N (fun i => if i < k + 1 then w.preconditioners.next + i else 0)
      refine ⟨({ w with preconditioners := (sk.new ⟨kind k, none⟩).2, log := log1 },
        { self with Diagonal_block_preconditioner_pt := v1 }), ?_,
        (sk.new ⟨kind k, none⟩).2, log1, rfl, ?_, ?_, ?_, ?_, ?_⟩
      · simp only [BlockDiagonalPreconditioner.create_diagonal, hcr,
          Vector_assign_vec _ _ _ _ hk, bind_ok, pure_eq_ok, h1]
        congr 3
        apply vec_congr
        intro i _
        by_cases hik : i = k
        · subst hik; simp
        · rw [Function.update_noteq hik]
          by_cases h : i < k
          · rw [if_pos h, if_pos (by omega)]
          · rw [if_neg h, if_neg (by omega)]
      · simp [h1]; omega
      · rw [Store.new_live, h2]; omega
      · intro i hi
        rw [Store.new_obj, h1]
        by_cases hik : i = k
        · subst hik; simp
        · rw [if_neg (by omega)]
          exact h3 i (by omega)
      · intro q hq
        rw [Store.new_obj, h1, if_neg (by omega)]
        exact h4 q hq
      · rw [hlog]
        simp only [World.factory_calls, h5]
        split_ifs <;> omega)
  refine ⟨sk, logk, ?_, h1, h2, h3, h4, h5⟩
  rw [hrun]
  congr 3
  apply vec_congr
  intro i hi
  simp [hi]

theorem Store.new_then_delete_live {α : Type} (s : Store α) (a : α) (s1 : Store α)
    (h : s1.live + 1 = (s.new a).2.live) : s1.live = s.live := by
  rw [Store.new_live] at h
  omega

theorem BlockDiagonalPreconditioner.setup_loop {K : Type} (w : World K)
    (self : BlockDiagonalPreconditioner K) (L : BlockLookup) (A : CRDoubleMatrix K) (N p0 : ℕ)
    (kind : ℕ → PrecKind) (hL : self.Lookup = some L) (hA : self.Matrix_pt = some A)
    (hN : N = L.nblock_types)
    (hD : self.Diagonal_block_preconditioner_pt = vec N (fun i => p0 + i))
    (hobj : ∀ i, i < N → w.preconditioners.obj (p0 + i) = some ⟨kind i, none⟩) :
    ∃ s1 m1 log1,
      for_range 0 N BlockDiagonalPreconditioner.setup_diagonal (w, self) = Except.ok
        ({ w with preconditioners := s1, matrices := m1, log := log1 }, self) ∧
      s1.next = w.preconditioners.next ∧
      s1.live = w.preconditioners.live ∧
      (∀ i, i < N → s1.obj (p0 + i) = some ⟨kind i, some (L.block A i i)⟩) ∧
      (∀ q, (∀ i, i < N → q ≠ p0 + i) → s1.obj q = w.preconditioners.obj q) ∧
      m1.live = w.matrices.live ∧
      List.count Event.factory_call log1 = List.count Event.factory_call w.log := by
  obtain ⟨st, hrun, sk, mk, logk, rfl, h1, h2, h3, h4, h5, h6⟩ := for_range_inv
    BlockDiagonalPreconditioner.setup_diagonal
    (fun k st => ∃ (sk : Store (Preconditioner K)) (mk : Store (CRDoubleMatrix K))
        (logk : List Event),
      st = ({ w with preconditioners := sk, matrices := mk, log := logk }, self) ∧
      sk.next = w.preconditioners.next ∧
      sk.live = w.preconditioners.live ∧
      (∀ i, i < N → sk.obj (p0 + i) =
        some ⟨kind i, if i < k then some (L.block A i i) else none⟩) ∧
      (∀ q, (∀ i, i < N → q ≠ p0 + i) → sk.obj q = w.preconditioners.obj q) ∧
      mk.live = w.matrices.live ∧
      List.count Event.factory_call logk = List.count Event.factory_call w.log)
    0 N (w, self) (Nat.zero_le N)
    ⟨w.preconditioners, w.matrices, w.log, rfl, rfl, rfl, (by
      intro i hi; simp [hobj i hi]), (fun _ _ => rfl), rfl, rfl⟩
    (by
      rintro k st _ hk ⟨sk, mk, logk, rfl, h1, h2, h3, h4, h5, h6⟩
      have hkL : k < L.nblock_types := by omega
      have hgb := World.get_block_spec
        ({ w with preconditioners := sk, matrices := mk, log := logk } : World K)
        self.toBlockPreconditioner L A hL hA k k hkL hkL
      have hp := h3 k hk
      rw [if_neg (lt_irrefl k)] at hp
      have hb : (mk.new (L.block A k k)).2.obj mk.next = some (L.block A k k) := by
        rw [Store.new_obj, if_pos rfl]
      obtain ⟨s2, hset, ho2, hn2, hl2⟩ := World.preconditioner_setup_spec
        (⟨sk, w.matrix_vector_products, (mk.new (L.block A k k)).2,
          logk ++ [Event.get_block k k]⟩ : World K)
        (p0 + k) mk.next _ _ hp hb
      obtain ⟨m2, hdel, _, _, hml⟩ := World.delete_matrix_live
        (⟨s2, w.matrix_vector_products, (mk.new (L.block A k k)).2,
          logk ++ [Event.get_block k k]⟩ : World K) hb
      refine ⟨((⟨s2, w.matrix_vector_products, m2, logk ++ [Event.get_block k k]⟩ : World K),
        self), ?_, s2, m2, _, rfl, ?_, ?_, ?_, ?_, ?_, ?_⟩
      · simp only [BlockDiagonalPreconditioner.setup_diagonal, hgb, bind_ok, hD,
          Vector_at_vec _ _ _ hk, hset, hdel, pure_eq_ok]
      · rw [hn2]; exact h1
      · rw [hl2]; exact h2
      · intro i hi
        simp only at ho2
        rw [ho2]
        by_cases hik : i = k
        · subst hik; simp
        · rw [Function.update_noteq (by omega), h3 i hi]
          by_cases h : i < k
          · rw [if_pos h, if_pos (by omega)]
          · rw [if_neg h, if_neg (by omega)]
      · intro q hq
        simp only at ho2
        rw [ho2, Function.update_noteq (hq k hk)]
        exact h4 q hq
      · rw [Store.new_then_delete_live mk _ m2 hml]; exact h5
      · simp [h6])
  refine ⟨sk, mk, logk, hrun, h1, h2, ?_, h4, h5, h6⟩
  intro i hi
  rw [h3 i hi, if_pos hi]

/-- What `BlockDiagonalPreconditioner::setup` does on a matrix of the
block-capable type, from any state whose pointers are sound: it succeeds, the
old subsidiary preconditioners are dead, and block `i` has a new subsidiary
preconditioner, at address `next + i`, set up on the diagonal block `(i,i)`. -/
theorem BlockDiagonalPreconditioner.diagonal_setup_spec {K : Type} (env : Env K) (w : World K)
    (self : BlockDiagonalPreconditioner K) (problem_pt : ℕ) (A : CRDoubleMatrix K)
    (n : ℕ) (f : ℕ → ℕ) (kind : ℕ → PrecKind)
    (hD : self.Diagonal_block_preconditioner_pt = vec n f)
    (hown : Owned w.preconditioners n f)
    (hkind : ∀ i, i < (self.toGeneralPurposeBlockPreconditioner.scheme env A).nblock_types →
      created_kind self.Subsidiary_preconditioner_function_pt (w.factory_calls + i) =
        some (kind i)) :
    ∃ w1 self1,
      self.setup env w problem_pt (some (DoubleMatrixBase.block_capable A)) =
        Except.ok (w1, self1) ∧
      self1.Lookup = some (self.toGeneralPurposeBlockPreconditioner.scheme env A) ∧
      self1.Matrix_pt = some A ∧
      self1.Diagonal_block_preconditioner_pt =
        vec (self.toGeneralPurposeBlockPreconditioner.scheme env A).nblock_types
          (fun i => w.preconditioners.next + i) ∧
      self1.Subsidiary_preconditioner_function_pt = self.Subsidiary_preconditioner_function_pt ∧
      self1.Prec_mesh_pt = self.Prec_mesh_pt ∧
      self1.Dof_to_block_map = self.Dof_to_block_map ∧
      (∀ i, i < (self.toGeneralPurposeBlockPreconditioner.scheme env A).nblock_types →
        w1.preconditioners.obj (w.preconditioners.next + i) =
          some ⟨kind i,
            some ((self.toGeneralPurposeBlockPreconditioner.scheme env A).block A i i)⟩) ∧
      w1.preconditioners.next = w.preconditioners.next +
        (self.toGeneralPurposeBlockPreconditioner.scheme env A).nblock_types ∧
      w1.preconditioners.live + nonnull n f = w.preconditioners.live +
        (self.toGeneralPurposeBlockPreconditioner.scheme env A).nblock_types ∧
      (∀ i, i < n → f i ≠ 0 → w1.preconditioners.obj (f i) = none) ∧
      w1.matrices.live = w.matrices.live ∧
      w1.matrix_vector_products = w.matrix_vector_products ∧
      w1.factory_calls = w.factory_calls +
        (if self.Subsidiary_preconditioner_function_pt.isSome = true then
          (self.toGeneralPurposeBlockPreconditioner.scheme env A).nblock_types else 0) := by
  set L := self.toGeneralPurposeBlockPreconditioner.scheme env A with hLdef
  obtain ⟨s1, hclean, hc1, hc2, hc3, hc4⟩ := self.clean_up_memory_spec w n f hD hown
  -- the state at the start of the first loop
  let gp1 : GeneralPurposeBlockPreconditioner K :=
    { self.toGeneralPurposeBlockPreconditioner with
      Problem_pt := problem_pt, Lookup := none }
  have hbs := gp1.block_setup_spec env (⟨s1, w.matrix_vector_products, w.matrices, w.log⟩ : World K) A
  have hLeq : gp1.scheme env A = L := rfl
  rw [hLeq] at hbs
  let wb : World K := ⟨s1, w.matrix_vector_products, w.matrices,
    w.log ++ [Event.block_setup self.Prec_mesh_pt.length self.Prec_mesh_pt gp1.map_in_use]⟩
  let self3 : BlockDiagonalPreconditioner K :=
    { toGeneralPurposeBlockPreconditioner :=
        { gp1 with Mesh_pt := self.Prec_mesh_pt, Matrix_pt := some A, Lookup := some L }
      Diagonal_block_preconditioner_pt := vec L.nblock_types (fun _ => 0)
      Doc_time_during_preconditioner_solve := self.Doc_time_during_preconditioner_solve }
  have hfc : wb.factory_calls = w.factory_calls := by
    simp [wb, World.factory_calls, List.count_append, List.count_cons]
  obtain ⟨s2, log2, hcreate, hn2, hl2, ho2, hf2, hcount2⟩ :=
    BlockDiagonalPreconditioner.create_loop wb self3 L.nblock_types kind rfl
      (by intro i hi; rw [hfc]; exact hkind i hi)
  let self4 : BlockDiagonalPreconditioner K :=
    { self3 with Diagonal_block_preconditioner_pt := vec L.nblock_types (fun i => s1.next + i) }
  obtain ⟨s3, m3, log3, hsetup, hn3, hl3, ho3, hf3, hm3, hcount3⟩ :=
    BlockDiagonalPreconditioner.setup_loop
      (⟨s2, w.matrix_vector_products, w.matrices, log2⟩ : World K) self4 L A L.nblock_types
      s1.next kind rfl rfl rfl rfl ho2
  refine ⟨⟨s3, w.matrix_vector_products, m3, log3⟩, self4, ?_, rfl, rfl, ?_, rfl, rfl, rfl, ?_, ?_,
    ?_, ?_, hm3, rfl, ?_⟩
  · unfold BlockDiagonalPreconditioner.setup
    simp only [hclean, bind_ok, dynamic_cast_MATRIX, Option.isNone_some, Bool.false_eq_true,
      and_false, if_false]
    have e1 : Vector_resize (vec n (fun _ => 0)) L.nblock_types = vec L.nblock_types (fun _ => 0) := by
      rw [Vector_resize_vec]
      apply vec_congr
      intro i _; simp
    simp only [pure_eq_ok, bind_ok]
    erw [hbs]
    simp only [bind_ok, BlockPreconditioner.nblock_types, e1]
    erw [hcreate]
    simp only [bind_ok]
    exact hsetup
  · simp only [self4, hc1]
  · intro i hi
    rw [← hc1]; exact ho3 i hi
  · simp only [hn3, hn2, wb, hc1]
  · simp only [hl3, hl2, wb]
    omega
  · intro i hi hne
    obtain ⟨⟨a, ha⟩, _⟩ := hown i hi hne
    have hlt : f i < s1.next := by rw [hc1]; exact Store.obj_lt_next _ ha
    rw [hf3 (f i) (fun j _ => by omega), hf2 (f i) hlt]
    exact hc3 i hi hne
  · simp only [World.factory_calls, hcount3, hcount2]
    simp [wb, self3, gp1]

/-! ### Block diagonal preconditioner: solve -/

theorem replicate_eq_vec {α : Type} (n : ℕ) (a : α) : List.replicate n a = vec n (fun _ => a) := by
  apply List.ext_getElem?
  intro i
  rw [vec_getElem?, List.getElem?_replicate]

theorem BlockLookup.get_block_vectors_at {K : Type} [Zero K] (L : BlockLookup) (v : List K)
    (i : ℕ) (hi : i < L.nblock_types) :
    Vector_at (L.get_block_vectors v) (i : ℤ) =
      Except.ok (vec (L.block_dimension i) (fun k => vget v (L.global_index i k))) := by
  unfold BlockLookup.get_block_vectors
  exact Vector_at_vec _ _ _ hi

/-- The block vectors computed by the loop of
`BlockDiagonalPreconditioner::preconditioner_solve`: block `i` is the solve of
the `i`-th subsidiary preconditioner applied to block `i` of the residual. -/
theorem BlockDiagonalPreconditioner.solve_loop {K : Type} [Zero K] (env : Env K) (w : World K)
    (self : BlockDiagonalPreconditioner K) (L : BlockLookup) (ps : ℕ → ℕ) (kind : ℕ → PrecKind)
    (M : ℕ → CRDoubleMatrix K) (rv : List K)
    (hD : self.Diagonal_block_preconditioner_pt = vec L.nblock_types ps)
    (hobj : ∀ i, i < L.nblock_types →
      w.preconditioners.obj (ps i) = some ⟨kind i, some (M i)⟩) :
    for_range 0 L.nblock_types
        (BlockDiagonalPreconditioner.solve_diagonal env w self (L.get_block_vectors rv))
        (List.replicate L.nblock_types []) =
      Except.ok (vec L.nblock_types (fun i =>
        env.solve (kind i) (M i) (vec (L.block_dimension i) (fun k => vget rv (L.global_index i k))))) := by
  obtain ⟨bz, hrun, hbz⟩ := for_range_inv
    (BlockDiagonalPreconditioner.solve_diagonal env w self (L.get_block_vectors rv))
    (fun k (bz : List (List K)) => bz = vec L.nblock_types (fun i =>
      if i < k then
        env.solve (kind i) (M i) (vec (L.block_dimension i) (fun k => vget rv (L.global_index i k)))
      else []))
    0 L.nblock_types (List.replicate L.nblock_types []) (Nat.zero_le _)
    (by simp only [Nat.not_lt_zero, if_false]; exact replicate_eq_vec _ _)
    (by
      rintro k bz _ hk rfl
      refine ⟨_, ?_, rfl⟩
      simp only [BlockDiagonalPreconditioner.solve_diagonal, hD, Vector_at_vec _ _ _ hk, bind_ok,
        L.get_block_vectors_at rv k hk, World.subsidiary_solve_spec env w _ _ _ (hobj k hk),
        Vector_assign_vec _ _ _ _ hk]
      congr 1
      apply vec_congr
      intro i _
      by_cases hik : i = k
      · subst hik; simp
      · rw [Function.update_noteq hik]
        by_cases h : i < k
        · rw [if_pos h, if_pos (by omega)]
        · rw [if_neg h, if_neg (by omega)])
  rw [hrun, hbz]
  congr 1
  apply vec_congr
  intro i hi
  rw [if_pos hi]

/-- Block `i` of a residual `rv`: the entries of the unknowns of block `i`. -/
theorem BlockLookup.get_block_vectors_getD {K : Type} [Zero K] (L : BlockLookup) (v : List K)
    (i : ℕ) (hi : i < L.nblock_types) :
    (L.get_block_vectors v).getD i [] =
      vec (L.block_dimension i) (fun k => vget v (L.global_index i k)) := by
  unfold BlockLookup.get_block_vectors
  rw [vec_getD, if_pos hi]

theorem BlockDiagonalPreconditioner.diagonal_preconditioner_solve_spec {K : Type} [Zero K] (env : Env K)
    (w : World K) (self : BlockDiagonalPreconditioner K) (L : BlockLookup) (ps : ℕ → ℕ)
    (kind : ℕ → PrecKind) (M : ℕ → CRDoubleMatrix K) (rv : List K) (z : DoubleVector K)
    (hL : self.Lookup = some L)
    (hD : self.Diagonal_block_preconditioner_pt = vec L.nblock_types ps)
    (hobj : ∀ i, i < L.nblock_types →
      w.preconditioners.obj (ps i) = some ⟨kind i, some (M i)⟩)
    (hz : z = DoubleVector.unbuilt ∨ ∃ zs, z = DoubleVector.built zs ∧ zs.length = L.nrow) :
    ∃ zs : List K, zs.length = L.nrow ∧
      self.preconditioner_solve env w (DoubleVector.built rv) z = Except.ok
        (DoubleVector.built (L.return_block_vectors
          (vec L.nblock_types (fun i => env.solve (kind i) (M i)
            (vec (L.block_dimension i) (fun k => vget rv (L.global_index i k))))) zs)) := by
  have hloop := BlockDiagonalPreconditioner.solve_loop env w self L ps kind M rv hD hobj
  rcases hz with rfl | ⟨zs, rfl, hzs⟩
  · refine ⟨List.replicate L.nrow 0, by simp, ?_⟩
    simp only [BlockDiagonalPreconditioner.preconditioner_solve,
      BlockPreconditioner.get_block_vectors, BlockPreconditioner.lookup, hL, bind_ok,
      DoubleVector.is_built, if_true, BlockPreconditioner.build_to_distribution,
      DoubleVector.build_fill, BlockPreconditioner.nblock_types, hloop,
      BlockPreconditioner.return_block_vectors, List.length_replicate]
  · refine ⟨zs, hzs, ?_⟩
    simp only [BlockDiagonalPreconditioner.preconditioner_solve,
      BlockPreconditioner.get_block_vectors, BlockPreconditioner.lookup, hL, bind_ok,
      DoubleVector.is_built, Bool.true_eq_false, if_false, pure_eq_ok,
      BlockPreconditioner.nblock_types, hloop,
      BlockPreconditioner.return_block_vectors, hzs, if_true]

/-! ### Round trip of block vectors -/

theorem vec_vget_self {K : Type} [Zero K] (v : List K) : vec v.length (fun k => vget v k) = v :=
  vec_eq_self v 0

theorem BlockLookup.return_get_block_vectors {K : Type} [Zero K] (L : BlockLookup)
    (hL : L.Valid) (v zs : List K) (hv : v.length = L.nrow) (hzs : zs.length = L.nrow) :
    L.return_block_vectors (L.get_block_vectors v) zs = v := by
  unfold BlockLookup.return_block_vectors
  have hself : v = vec L.nrow (fun k => vget v k) := by
    rw [← hv]; exact (vec_vget_self v).symm
  rw [hzs]
  conv_rhs => rw [hself]
  apply vec_congr
  intro g hg
  obtain ⟨h1, h2, h3⟩ := hL.1 g hg
  rw [if_pos hg, L.get_block_vectors_getD v _ h1, vget_vec, if_pos h2, h3]

theorem BlockDiagonalPreconditioner.diagonal_ctor_sound {K : Type} (w : World K) :
    (BlockDiagonalPreconditioner.ctor : BlockDiagonalPreconditioner K).Sound w := by
  intro i hi
  simp [BlockDiagonalPreconditioner.ctor] at hi

/-! ### Claims on the block diagonal preconditioner -/

theorem BlockDiagonalPreconditioner.Sound.diagonal_owned {K : Type} {self : BlockDiagonalPreconditioner K}
    {w : World K} (h : self.Sound w) :
    self.Diagonal_block_preconditioner_pt =
      vec self.Diagonal_block_preconditioner_pt.length
        (fun i => self.Diagonal_block_preconditioner_pt.getD i 0) ∧
    Owned w.preconditioners self.Diagonal_block_preconditioner_pt.length
      (fun i => self.Diagonal_block_preconditioner_pt.getD i 0) :=
  ⟨(vec_eq_self _ 0).symm, h⟩

/-- C6. Splitting a global vector `v` with `get_block_vectors` and putting
the pieces back with `return_block_vectors` gives back `v`, entry for entry,
for every valid block setup; consequently, after `setup`,
`BlockDiagonalPreconditioner::preconditioner_solve` with subsidiary solves
that return their input unchanged returns `z` equal to `r`. -/
theorem block_vectors_round_trip {K : Type} [Zero K] (env : Env K) (w : World K)
    (self : BlockDiagonalPreconditioner K) (problem_pt : ℕ) (A : CRDoubleMatrix K)
    (kind : ℕ → PrecKind) (r : List K) (z : DoubleVector K)
    (hsound : self.Sound w)
    (hvalid : (self.toGeneralPurposeBlockPreconditioner.scheme env A).Valid)
    (hr : r.length = (self.toGeneralPurposeBlockPreconditioner.scheme env A).nrow)
    (hz : z = DoubleVector.unbuilt ∨ ∃ zs, z = DoubleVector.built zs ∧
      zs.length = (self.toGeneralPurposeBlockPreconditioner.scheme env A).nrow)
    (hkind : ∀ i, i < (self.toGeneralPurposeBlockPreconditioner.scheme env A).nblock_types →
      created_kind self.Subsidiary_preconditioner_function_pt (w.factory_calls + i) =
        some (kind i))
    (hid : ∀ i, i < (self.toGeneralPurposeBlockPreconditioner.scheme env A).nblock_types →
      ∀ b, env.solve (kind i)
        ((self.toGeneralPurposeBlockPreconditioner.scheme env A).block A i i) b = b) :
    (∀ (L : BlockLookup) (v zs : List K), L.Valid → v.length = L.nrow → zs.length = L.nrow →
      L.return_block_vectors (L.get_block_vectors v) zs = v) ∧
    ∃ w1 self1,
      self.setup env w problem_pt (some (DoubleMatrixBase.block_capable A)) =
        Except.ok (w1, self1) ∧
      (∀ v zs : List K, v.length = (self.toGeneralPurposeBlockPreconditioner.scheme env A).nrow →
        zs.length = (self.toGeneralPurposeBlockPreconditioner.scheme env A).nrow →
        ∃ s, self1.get_block_vectors (DoubleVector.built v) = Except.ok s ∧
          self1.return_block_vectors s (DoubleVector.built zs) =
            Except.ok (DoubleVector.built v)) ∧
      self1.preconditioner_solve env w1 (DoubleVector.built r) z =
        Except.ok (DoubleVector.built r) := by
  refine ⟨fun L v zs hL hv hzs => L.return_get_block_vectors hL v zs hv hzs, ?_⟩
  obtain ⟨hD, hown⟩ := hsound.diagonal_owned
  obtain ⟨w1, self1, hset, hL1, -, hD1, -, -, -, hobj, -⟩ :=
    self.diagonal_setup_spec env w problem_pt A _ _ kind hD hown hkind
  refine ⟨w1, self1, hset, ?_, ?_⟩
  · intro v zs hv hzs
    refine ⟨(self.toGeneralPurposeBlockPreconditioner.scheme env A).get_block_vectors v,
      by simp only [BlockPreconditioner.get_block_vectors, BlockPreconditioner.lookup, hL1], ?_⟩
    simp only [BlockPreconditioner.return_block_vectors, BlockPreconditioner.lookup, hL1, hzs,
      if_true]
    rw [BlockLookup.return_get_block_vectors _ hvalid v zs hv hzs]
  · obtain ⟨zs, hzs, hsolve⟩ := self1.diagonal_preconditioner_solve_spec env w1 _ _ kind _ r z hL1 hD1 hobj hz
    rw [hsolve]
    have hblocks : vec (self.toGeneralPurposeBlockPreconditioner.scheme env A).nblock_types
        (fun i => env.solve (kind i)
          ((self.toGeneralPurposeBlockPreconditioner.scheme env A).block A i i)
          (vec ((self.toGeneralPurposeBlockPreconditioner.scheme env A).block_dimension i)
            (fun k => vget r
              ((self.toGeneralPurposeBlockPreconditioner.scheme env A).global_index i k)))) =
        (self.toGeneralPurposeBlockPreconditioner.scheme env A).get_block_vectors r := by
      unfold BlockLookup.get_block_vectors
      apply vec_congr
      intro i hi
      rw [hid i hi]
    rw [hblocks, BlockLookup.return_get_block_vectors _ hvalid r zs hr hzs]

/-- C6 at a concrete input: the two-block scheme, a coupled matrix, the
residual `[3, 4]` and an output vector that is not built. -/
theorem block_vectors_round_trip_witness :
    (∀ (L : BlockLookup) (v zs : List ℤ), L.Valid → v.length = L.nrow → zs.length = L.nrow →
      L.return_block_vectors (L.get_block_vectors v) zs = v) ∧
    ∃ w1 self1,
      BlockDiagonalPreconditioner.ctor.setup paranoid_env World.empty 0
          (some (DoubleMatrixBase.block_capable upper_matrix)) = Except.ok (w1, self1) ∧
      (∀ v zs : List ℤ, v.length = 2 → zs.length = 2 →
        ∃ s, self1.get_block_vectors (DoubleVector.built v) = Except.ok s ∧
          self1.return_block_vectors s (DoubleVector.built zs) =
            Except.ok (DoubleVector.built v)) ∧
      self1.preconditioner_solve paranoid_env w1 (DoubleVector.built [3, 4])
          DoubleVector.unbuilt = Except.ok (DoubleVector.built [3, 4]) :=
  block_vectors_round_trip paranoid_env World.empty BlockDiagonalPreconditioner.ctor 0
    upper_matrix (fun _ => PrecKind.SuperLUPreconditioner) [3, 4] DoubleVector.unbuilt
    (BlockDiagonalPreconditioner.diagonal_ctor_sound _) (by decide) rfl (Or.inl rfl)
    (fun _ _ => rfl) (fun _ _ _ => rfl)

/-! ### Sums over unknowns and over blocks -/

/-- For a valid block setup, a sum over all unknowns is the sum over the
blocks of the sums over the positions of each block. -/
theorem BlockLookup.sum_unknowns {M : Type} [AddCommMonoid M] (L : BlockLookup) (hL : L.Valid)
    (F : ℕ → M) :
    ∑ g in Finset.range L.nrow, F g =
      ∑ b in Finset.range L.nblock_types, ∑ k in Finset.range (L.block_dimension b),
        F (L.global_index b k) := by
  rw [Finset.sum_sigma']
  refine Finset.sum_bij' (fun g _ => (⟨L.block_number g, L.index_in_block g⟩ : Σ _ : ℕ, ℕ))
    (fun x _ => L.global_index x.1 x.2) ?_ ?_ ?_ ?_ ?_
  · intro g hg
    obtain ⟨h1, h2, _⟩ := hL.1 g (Finset.mem_range.mp hg)
    simp only [Finset.mem_sigma, Finset.mem_range]
    exact ⟨h1, h2⟩
  · intro x hx
    simp only [Finset.mem_sigma, Finset.mem_range] at hx
    exact Finset.mem_range.mpr (hL.2 x.1 hx.1 x.2 hx.2).1
  · intro g hg
    exact (hL.1 g (Finset.mem_range.mp hg)).2.2
  · rintro ⟨b, k⟩ hx
    simp only [Finset.mem_sigma, Finset.mem_range] at hx
    obtain ⟨_, h2, h3⟩ := hL.2 b hx.1 k hx.2
    simp only [h2, h3]
  · intro g hg
    rw [(hL.1 g (Finset.mem_range.mp hg)).2.2]

theorem CRDoubleMatrix.vget_multiply {K : Type} [CommRing K] (m : CRDoubleMatrix K) (x : List K)
    (k : ℕ) (hk : k < m.nrow) :
    vget (m.multiply x) k = ∑ l in Finset.range m.ncol, m.entry k l * vget x l := by
  unfold CRDoubleMatrix.multiply
  rw [vget_vec, if_pos hk]

theorem CRDoubleMatrix.multiply_length {K : Type} [CommRing K] (m : CRDoubleMatrix K)
    (x : List K) : (m.multiply x).length = m.nrow := by
  simp [CRDoubleMatrix.multiply]

theorem BlockLookup.vget_return_block_vectors {K : Type} [Zero K] (L : BlockLookup)
    (hL : L.Valid) (bz : List (List K)) (zs : List K) (hzs : zs.length = L.nrow) (b k : ℕ)
    (hb : b < L.nblock_types) (hk : k < L.block_dimension b) :
    vget (L.return_block_vectors bz zs) (L.global_index b k) = vget (bz.getD b []) k := by
  obtain ⟨h1, h2, h3⟩ := hL.2 b hb k hk
  unfold BlockLookup.return_block_vectors
  rw [vget_vec, hzs, if_pos h1, if_pos h1, h2, h3]

theorem BlockLookup.return_block_vectors_length {K : Type} [Zero K] (L : BlockLookup)
    (bz : List (List K)) (zs : List K) : (L.return_block_vectors bz zs).length = zs.length := by
  simp [BlockLookup.return_block_vectors]

/-- A vector assembled from block vectors `bz` solves the full system as soon
as every block row does: `Σ_j A(i,j) bz_j = r_i` for every block `i`. -/
theorem BlockLookup.multiply_of_block_rows {K : Type} [CommRing K] (L : BlockLookup)
    (hL : L.Valid) (A : CRDoubleMatrix K) (hrow : A.nrow = L.nrow) (hcol : A.ncol = L.nrow)
    (bz : List (List K)) (zs r : List K) (hzs : zs.length = L.nrow) (hr : r.length = L.nrow)
    (h : ∀ i, i < L.nblock_types → ∀ k, k < L.block_dimension i →
      ∑ j in Finset.range L.nblock_types, vget ((L.block A i j).multiply (bz.getD j [])) k =
        vget r (L.global_index i k)) :
    A.multiply (L.return_block_vectors bz zs) = r := by
  have hself : r = vec L.nrow (fun k => vget r k) := by
    rw [← hr]; exact (vec_vget_self r).symm
  unfold CRDoubleMatrix.multiply
  rw [hrow, hcol]
  conv_rhs => rw [hself]
  apply vec_congr
  intro g hg
  obtain ⟨h1, h2, h3⟩ := hL.1 g hg
  rw [L.sum_unknowns hL, ← h3, ← h (L.block_number g) h1 (L.index_in_block g) h2]
  apply Finset.sum_congr rfl
  intro j hj
  have hj2 := Finset.mem_range.mp hj
  rw [CRDoubleMatrix.vget_multiply _ _ _ (by exact h2)]
  apply Finset.sum_congr rfl
  intro l hl
  have hl2 := Finset.mem_range.mp hl
  rw [L.vget_return_block_vectors hL bz zs hzs j l hj2 hl2]
  rfl

theorem CRDoubleMatrix.vget_multiply_zero {K : Type} [CommRing K] (m : CRDoubleMatrix K)
    (x : List K) (k : ℕ) (hz : ∀ l, l < m.ncol → m.entry k l = 0) :
    vget (m.multiply x) k = 0 := by
  unfold CRDoubleMatrix.multiply
  rw [vget_vec]
  split_ifs
  · apply Finset.sum_eq_zero
    intro l hl
    rw [hz l (Finset.mem_range.mp hl), zero_mul]
  · rfl

/-- C3. Block diagonal preconditioning of a block diagonal matrix with exact
subsidiary solves: if every off-diagonal block of `A` is zero and the solve
of the `i`-th subsidiary preconditioner inverts the diagonal block `(i,i)`,
then `setup(A)` succeeds and one `preconditioner_solve(r, z)` returns a `z`
with `A z = r`. -/
theorem BlockDiagonalPreconditioner.exact_on_block_diagonal {K : Type} [CommRing K]
    (env : Env K) (w : World K) (self : BlockDiagonalPreconditioner K) (problem_pt : ℕ)
    (A : CRDoubleMatrix K) (kind : ℕ → PrecKind) (r : List K) (z : DoubleVector K)
    (hsound : self.Sound w)
    (hvalid : (self.toGeneralPurposeBlockPreconditioner.scheme env A).Valid)
    (hrow : A.nrow = (self.toGeneralPurposeBlockPreconditioner.scheme env A).nrow)
    (hcol : A.ncol = (self.toGeneralPurposeBlockPreconditioner.scheme env A).nrow)
    (hr : r.length = (self.toGeneralPurposeBlockPreconditioner.scheme env A).nrow)
    (hz : z = DoubleVector.unbuilt ∨ ∃ zs, z = DoubleVector.built zs ∧
      zs.length = (self.toGeneralPurposeBlockPreconditioner.scheme env A).nrow)
    (hkind : ∀ i, i < (self.toGeneralPurposeBlockPreconditioner.scheme env A).nblock_types →
      created_kind self.Subsidiary_preconditioner_function_pt (w.factory_calls + i) =
        some (kind i))
    (hoff : ∀ i j, i < (self.toGeneralPurposeBlockPreconditioner.scheme env A).nblock_types →
      j < (self.toGeneralPurposeBlockPreconditioner.scheme env A).nblock_types → i ≠ j →
      ∀ k l, k < (self.toGeneralPurposeBlockPreconditioner.scheme env A).block_dimension i →
        l < (self.toGeneralPurposeBlockPreconditioner.scheme env A).block_dimension j →
        ((self.toGeneralPurposeBlockPreconditioner.scheme env A).block A i j).entry k l = 0)
    (hexact : ∀ i, i < (self.toGeneralPurposeBlockPreconditioner.scheme env A).nblock_types →
      ∀ b : List K,
        b.length = (self.toGeneralPurposeBlockPreconditioner.scheme env A).block_dimension i →
        ((self.toGeneralPurposeBlockPreconditioner.scheme env A).block A i i).multiply
          (env.solve (kind i)
            ((self.toGeneralPurposeBlockPreconditioner.scheme env A).block A i i) b) = b) :
    ∃ w1 self1 zv,
      self.setup env w problem_pt (some (DoubleMatrixBase.block_capable A)) =
        Except.ok (w1, self1) ∧
      self1.preconditioner_solve env w1 (DoubleVector.built r) z =
        Except.ok (DoubleVector.built zv) ∧
      A.multiply zv = r := by
  obtain ⟨hD, hown⟩ := hsound.diagonal_owned
  obtain ⟨w1, self1, hset, hL1, -, hD1, -, -, -, hobj, -⟩ :=
    self.diagonal_setup_spec env w problem_pt A _ _ kind hD hown hkind
  obtain ⟨zs, hzs, hsolve⟩ :=
    self1.diagonal_preconditioner_solve_spec env w1 _ _ kind _ r z hL1 hD1 hobj hz
  refine ⟨w1, self1, _, hset, hsolve, ?_⟩
  set L := self.toGeneralPurposeBlockPreconditioner.scheme env A with hLdef
  apply L.multiply_of_block_rows hvalid A hrow hcol _ zs r hzs hr
  intro i hi k hk
  rw [Finset.sum_eq_single i]
  · rw [vec_getD, if_pos hi, hexact i hi _ (vec_length _ _), vget_vec, if_pos hk]
  · intro j _ hji
    exact CRDoubleMatrix.vget_multiply_zero _ _ _ (fun l hl => hoff i j hi
      (by simpa using ‹j ∈ Finset.range L.nblock_types›) (Ne.symm hji) k l hk hl)
  · intro hni
    exact absurd (Finset.mem_range.mpr hi) hni

/-- The identity solve inverts a one-by-one block with entry `1`. -/
theorem unit_block_exact (m : CRDoubleMatrix ℤ) (h1 : m.nrow = 1) (h2 : m.ncol = 1)
    (h3 : m.entry 0 0 = 1) (b : List ℤ) (hb : b.length = 1) : m.multiply b = b := by
  obtain ⟨x, rfl⟩ := List.length_eq_one.mp hb
  simp [CRDoubleMatrix.multiply, vec, h1, h2, h3, vget, List.range_succ]

/-- C3 at a concrete input: the identity matrix on the two-block scheme, the
residual `[3, 4]` and an output vector that is not built. -/
theorem BlockDiagonalPreconditioner.exact_on_block_diagonal_witness :
    ∃ w1 self1 zv,
      BlockDiagonalPreconditioner.ctor.setup paranoid_env World.empty 0
          (some (DoubleMatrixBase.block_capable identity_matrix)) = Except.ok (w1, self1) ∧
      self1.preconditioner_solve paranoid_env w1 (DoubleVector.built [3, 4])
          DoubleVector.unbuilt = Except.ok (DoubleVector.built zv) ∧
      identity_matrix.multiply zv = [3, 4] :=
  BlockDiagonalPreconditioner.exact_on_block_diagonal paranoid_env World.empty
    BlockDiagonalPreconditioner.ctor 0 identity_matrix (fun _ => PrecKind.SuperLUPreconditioner)
    [3, 4] DoubleVector.unbuilt (BlockDiagonalPreconditioner.diagonal_ctor_sound _) (by decide) rfl rfl rfl
    (Or.inl rfl) (fun _ _ => rfl)
    (fun i j hi hj hij k l hk hl => by
      have hi2 : i < 2 := hi
      have hj2 : j < 2 := hj
      have hk2 : k < 1 := hk
      have hl2 : l < 1 := hl
      interval_cases i <;> interval_cases j <;> simp_all [BlockLookup.block, identity_matrix,
        GeneralPurposeBlockPreconditioner.scheme, paranoid_env, two_blocks])
    (fun i hi b hb => by
      have hi2 : i < 2 := hi
      interval_cases i
      · exact unit_block_exact _ rfl rfl rfl b hb
      · exact unit_block_exact _ rfl rfl rfl b hb)

/-! ### Block triangular preconditioner: clean-up -/

theorem end_column_le (upper : Bool) (n i : ℕ) (hi : i < n) : end_column upper n i ≤ n := by
  unfold end_column; split_ifs <;> omega

theorem off_diagonal_ne (upper : Bool) (n i j : ℕ) (h1 : first_column upper i ≤ j)
    (h2 : j < end_column upper n i) : j ≠ i := by
  unfold first_column at h1; unfold end_column at h2
  split_ifs at h1 h2 <;> omega

/-- Deleting a pointer that is null, or live and not among the pointers
deleted before (`V`): the deletion succeeds and everything outside `V` and
the pointer stays as it was in the store `t0` the deletions started from. -/
theorem Store.delete_tracked {α : Type} (t0 t : Store α) (V : ℕ → Prop)
    (hframe : ∀ q, ¬ V q → t.obj q = t0.obj q) (hnext : t.next = t0.next) (p : ℕ)
    (hp : p = 0 ∨ ((∃ a, t0.obj p = some a) ∧ ¬ V p)) :
    ∃ t1, t.delete p = Except.ok t1 ∧ t1.next = t0.next ∧
      (∀ q, ¬ (V q ∨ (q = p ∧ p ≠ 0)) → t1.obj q = t0.obj q) := by
  rcases hp with rfl | ⟨⟨a, ha⟩, hV⟩
  · exact ⟨t, Store.delete_zero t, hnext, fun q hq => hframe q (fun h => hq (Or.inl h))⟩
  · have hlive : t.obj p = some a := by rw [hframe p hV]; exact ha
    obtain ⟨t1, hd, hobj, hn, _⟩ := t.delete_live hlive
    refine ⟨t1, hd, by rw [hn]; exact hnext, ?_⟩
    intro q hq
    have hqp : q ≠ p := fun h => hq (Or.inr ⟨h, t0.obj_ne_zero ha⟩)
    rw [hobj, Function.update_noteq hqp]
    exact hframe q (fun h => hq (Or.inl h))

theorem DenseMatrix.entry_nat {α : Type} (N M : ℕ) (D : ℕ → ℕ → α) (i j : ℕ) (hi : i < N)
    (hj : j < M) : (⟨N, M, D⟩ : DenseMatrix α).entry (i : ℤ) (j : ℤ) = Except.ok (D i j) := by
  simp [DenseMatrix.entry, hi, hj]

theorem DenseMatrix.assign_nat {α : Type} (N M : ℕ) (D : ℕ → ℕ → α) (i j : ℕ) (a : α)
    (hi : i < N) (hj : j < M) :
    (⟨N, M, D⟩ : DenseMatrix α).assign (i : ℤ) (j : ℤ) a =
      Except.ok ⟨N, M, fun i1 j1 => if i1 = i ∧ j1 = j then a else D i1 j1⟩ := by
  simp [DenseMatrix.assign, hi, hj]

theorem first_le_end (upper : Bool) (n k : ℕ) (hk : k < n) :
    first_column upper k ≤ end_column upper n k := by
  unfold first_column end_column; split_ifs <;> omega

theorem cleared_start (upper : Bool) (n : ℕ) (D : ℕ → ℕ → ℕ) :
    cleared upper n D 0 (first_column upper 0) = D := by
  funext i j
  unfold cleared visited
  rw [if_neg]
  rintro ⟨_, h2, _, h4 | ⟨rfl, h5⟩⟩ <;> omega

theorem cleared_next_row (upper : Bool) (n : ℕ) (D : ℕ → ℕ → ℕ) (k : ℕ) :
    cleared upper n D k (end_column upper n k) =
      cleared upper n D (k + 1) (first_column upper (k + 1)) := by
  funext i j
  unfold cleared visited
  apply if_congr _ rfl rfl
  constructor
  · rintro ⟨h1, h2, h3, h4 | ⟨rfl, _⟩⟩
    · exact ⟨h1, h2, h3, Or.inl (by omega)⟩
    · exact ⟨h1, h2, h3, Or.inl (by omega)⟩
  · rintro ⟨h1, h2, h3, h4 | ⟨rfl, h5⟩⟩
    · by_cases h : i = k
      · subst h; exact ⟨h1, h2, h3, Or.inr ⟨rfl, h3⟩⟩
      · exact ⟨h1, h2, h3, Or.inl (by omega)⟩
    · omega

theorem World.delete_matrix_vector_product_eq {K : Type} (s : Store (Preconditioner K))
    (t t1 : Store (MatrixVectorProduct K)) (m : Store (CRDoubleMatrix K)) (log : List Event)
    (p : ℕ) (h : t.delete p = Except.ok t1) :
    World.delete_matrix_vector_product (⟨s, t, m, log⟩ : World K) p =
      Except.ok ⟨s, t1, m, log⟩ := by
  simp [World.delete_matrix_vector_product, h]

/-- The inner loop of `clean_memory` on row `k`: every operator of the row on
the side in use is deleted and its pointer nulled. -/
theorem BlockTriangularPreconditioner.delete_row_ops {K : Type}
    (self : BlockTriangularPreconditioner K) (n : ℕ) (D : ℕ → ℕ → ℕ)
    (t0 : Store (MatrixVectorProduct K)) (hops : OwnedOps t0 self.Upper_triangular n D)
    (s : Store (Preconditioner K)) (mats : Store (CRDoubleMatrix K)) (log : List Event)
    (v : List ℕ) (k : ℕ) (hk : k < n) (t : Store (MatrixVectorProduct K))
    (ht : t.next = t0.next)
    (hframe : ∀ q, ¬ (q ≠ 0 ∧ ∃ i j, visited self.Upper_triangular n k
        (first_column self.Upper_triangular k) i j ∧ D i j = q) → t.obj q = t0.obj q) :
    ∃ t1 : Store (MatrixVectorProduct K),
      for_range (first_column self.Upper_triangular k) (end_column self.Upper_triangular n k)
        (BlockTriangularPreconditioner.delete_off_diagonal k)
        ((⟨s, t, mats, log⟩ : World K),
         { self with
           Diagonal_block_preconditioner_pt := v
           Off_diagonal_matrix_vector_products :=
             ⟨n, n, cleared self.Upper_triangular n D k (first_column self.Upper_triangular k)⟩ })
      = Except.ok
        ((⟨s, t1, mats, log⟩ : World K),
         { self with
           Diagonal_block_preconditioner_pt := v
           Off_diagonal_matrix_vector_products :=
             ⟨n, n, cleared self.Upper_triangular n D k (end_column self.Upper_triangular n k)⟩ }) ∧
      t1.next = t0.next ∧
      (∀ q, ¬ (q ≠ 0 ∧ ∃ i j, visited self.Upper_triangular n k
          (end_column self.Upper_triangular n k) i j ∧ D i j = q) → t1.obj q = t0.obj q) := by
  obtain ⟨st, hrun, t1, rfl, h1, h2⟩ := for_range_inv
    (BlockTriangularPreconditioner.delete_off_diagonal k)
    (fun m st => ∃ t1 : Store (MatrixVectorProduct K),
      st = ((⟨s, t1, mats, log⟩ : World K),
         { self with
           Diagonal_block_preconditioner_pt := v
           Off_diagonal_matrix_vector_products :=
             ⟨n, n, cleared self.Upper_triangular n D k m⟩ }) ∧
      t1.next = t0.next ∧
      (∀ q, ¬ (q ≠ 0 ∧ ∃ i j, visited self.Upper_triangular n k m i j ∧ D i j = q) →
        t1.obj q = t0.obj q))
    (first_column self.Upper_triangular k) (end_column self.Upper_triangular n k) _
    (first_le_end _ _ _ hk) ⟨t, rfl, ht, hframe⟩
    (by
      rintro m st hm1 hm2 ⟨t1, rfl, h1, h2⟩
      have hmn : m < n := lt_of_lt_of_le hm2 (end_column_le _ _ _ hk)
      have hnv : ¬ visited self.Upper_triangular n k m k m := by
        rintro ⟨_, _, _, h | ⟨_, h⟩⟩ <;> omega
      have hentry : cleared self.Upper_triangular n D k m k m = D k m := by
        unfold cleared; rw [if_neg hnv]
      have hp : D k m = 0 ∨ ((∃ a, t0.obj (D k m) = some a) ∧
          ¬ (D k m ≠ 0 ∧ ∃ i j, visited self.Upper_triangular n k m i j ∧ D i j = D k m)) := by
        by_cases h0 : D k m = 0
        · exact Or.inl h0
        · obtain ⟨hl, hinj⟩ := hops k m hk hm1 hm2 h0
          refine Or.inr ⟨hl, ?_⟩
          rintro ⟨_, i, j, hv, he⟩
          obtain ⟨rfl, rfl⟩ := hinj i j hv.1 hv.2.1 hv.2.2.1 he
          exact hnv hv
      obtain ⟨t2, hdel, hn2, hf2⟩ := Store.delete_tracked t0 t1 _ h2 h1 (D k m) hp
      refine ⟨_, ?_, t2, rfl, hn2, ?_⟩
      · simp only [BlockTriangularPreconditioner.delete_off_diagonal,
          DenseMatrix.entry_nat _ _ _ _ _ hk hmn, bind_ok, hentry,
          World.delete_matrix_vector_product_eq _ _ _ _ _ _ hdel,
          DenseMatrix.assign_nat _ _ _ _ _ _ hk hmn, pure_eq_ok]
        congr 4
        funext i j
        unfold cleared
        by_cases hij : i = k ∧ j = m
        · obtain ⟨rfl, rfl⟩ := hij
          rw [if_pos ⟨rfl, rfl⟩, if_pos ⟨hk, hm1, hm2, Or.inr ⟨rfl, by omega⟩⟩]
        · rw [if_neg hij]
          apply if_congr _ rfl rfl
          constructor
          · rintro ⟨a1, a2, a3, a4 | ⟨a5, a6⟩⟩
            · exact ⟨a1, a2, a3, Or.inl a4⟩
            · exact ⟨a1, a2, a3, Or.inr ⟨a5, by omega⟩⟩
          · rintro ⟨a1, a2, a3, a4 | ⟨a5, a6⟩⟩
            · exact ⟨a1, a2, a3, Or.inl a4⟩
            · refine ⟨a1, a2, a3, Or.inr ⟨a5, ?_⟩⟩
              by_contra hc
              exact hij ⟨a5, by omega⟩
      · intro q hq
        apply hf2 q
        rintro (⟨hq0, i, j, hv, he⟩ | ⟨rfl, hq0⟩)
        · exact hq ⟨hq0, i, j, ⟨hv.1, hv.2.1, hv.2.2.1, by
            rcases hv.2.2.2 with a | ⟨a, b⟩
            · exact Or.inl a
            · exact Or.inr ⟨a, by omega⟩⟩, he⟩
        · exact hq ⟨hq0, k, m, ⟨hk, hm1, hm2, Or.inr ⟨rfl, by omega⟩⟩, rfl⟩)
  exact ⟨t1, hrun, h1, h2⟩

theorem visited_next_row (upper : Bool) (n k i j : ℕ) :
    visited upper n k (end_column upper n k) i j ↔
      visited upper n (k + 1) (first_column upper (k + 1)) i j := by
  constructor
  · rintro ⟨h1, h2, h3, h4 | ⟨rfl, _⟩⟩
    · exact ⟨h1, h2, h3, Or.inl (by omega)⟩
    · exact ⟨h1, h2, h3, Or.inl (by omega)⟩
  · rintro ⟨h1, h2, h3, h4 | ⟨rfl, h5⟩⟩
    · by_cases h : i = k
      · subst h; exact ⟨h1, h2, h3, Or.inr ⟨rfl, h3⟩⟩
      · exact ⟨h1, h2, h3, Or.inl (by omega)⟩
    · omega

theorem Store.delete_owned_pointer {α : Type} (s0 : Store α) (n : ℕ) (f : ℕ → ℕ)
    (hown : Owned s0 n f) (k : ℕ) (hk : k < n) (s1 : Store α)
    (hnext : s1.next = s0.next)
    (hlive : s1.live + nonnull k f = s0.live)
    (hdead : ∀ i, i < k → f i ≠ 0 → s1.obj (f i) = none)
    (hframe : ∀ q, (∀ i, i < k → f i ≠ q) → s1.obj q = s0.obj q) :
    ∃ s2, s1.delete (f k) = Except.ok s2 ∧
      s2.next = s0.next ∧
      s2.live + nonnull (k + 1) f = s0.live ∧
      (∀ i, i < k + 1 → f i ≠ 0 → s2.obj (f i) = none) ∧
      (∀ q, (∀ i, i < k + 1 → f i ≠ q) → s2.obj q = s0.obj q) := by
  by_cases h0 : f k = 0
  · refine ⟨s1, by rw [h0]; exact Store.delete_zero _, hnext, ?_, ?_, ?_⟩
    · rw [nonnull_succ]; simp [h0, hlive]
    · intro i hi hne
      have : i < k := by
        rcases Nat.lt_succ_iff_lt_or_eq.mp hi with h | h
        · exact h
        · subst h; exact absurd h0 hne
      exact hdead i this hne
    · intro q hq
      exact hframe q (fun i hi => hq i (by omega))
  · obtain ⟨⟨a, ha⟩, hinj⟩ := hown k hk h0
    have hs1 : s1.obj (f k) = some a := by
      rw [hframe (f k) (fun i hi heq => by have := hinj i (by omega) heq; omega)]
      exact ha
    obtain ⟨s2, hd, hobj, hn2, hl2⟩ := s1.delete_live hs1
    refine ⟨s2, hd, by rw [hn2]; exact hnext, ?_, ?_, ?_⟩
    · rw [nonnull_succ]; simp only [h0, ne_eq, not_false_eq_true, if_true]
      omega
    · intro i hi hne
      rw [hobj]
      by_cases he : f i = f k
      · rw [he]; simp
      · rw [Function.update_noteq he]
        exact hdead i (by
          rcases Nat.lt_succ_iff_lt_or_eq.mp hi with h | h
          · exact h
          · subst h; exact absurd rfl he) hne
    · intro q hq
      rw [hobj, Function.update_noteq (Ne.symm (hq k (by omega)))]
      exact hframe q (fun i hi => hq i (by omega))

theorem World.delete_preconditioner_eq {K : Type} (s s1 : Store (Preconditioner K))
    (t : Store (MatrixVectorProduct K)) (m : Store (CRDoubleMatrix K)) (log : List Event)
    (p : ℕ) (h : s.delete p = Except.ok s1) :
    World.delete_preconditioner (⟨s, t, m, log⟩ : World K) p = Except.ok ⟨s1, t, m, log⟩ := by
  simp [World.delete_preconditioner, h]

theorem BlockTriangularPreconditioner.clean_memory_spec {K : Type} (w : World K)
    (self : BlockTriangularPreconditioner K) (n : ℕ) (f : ℕ → ℕ) (D : ℕ → ℕ → ℕ)
    (hD : self.Diagonal_block_preconditioner_pt = vec n f)
    (hO : self.Off_diagonal_matrix_vector_products = ⟨n, n, D⟩)
    (hown : Owned w.preconditioners n f)
    (hops : OwnedOps w.matrix_vector_products self.Upper_triangular n D) :
    ∃ (s1 : Store (Preconditioner K)) (t1 : Store (MatrixVectorProduct K)),
      self.clean_memory w = Except.ok
        ((⟨s1, t1, w.matrices, w.log⟩ : World K),
         { self with
           Diagonal_block_preconditioner_pt := vec n (fun _ => 0)
           Off_diagonal_matrix_vector_products :=
             ⟨n, n, cleared self.Upper_triangular n D n (first_column self.Upper_triangular n)⟩ }) ∧
      s1.next = w.preconditioners.next ∧
      s1.live + nonnull n f = w.preconditioners.live ∧
      (∀ i, i < n → f i ≠ 0 → s1.obj (f i) = none) ∧
      (∀ q, (∀ i, i < n → f i ≠ q) → s1.obj q = w.preconditioners.obj q) ∧
      t1.next = w.matrix_vector_products.next := by
  obtain ⟨st, hrun, s1, t1, rfl, h1, h2, h3, h4, h5, h6⟩ := for_range_inv
    (BlockTriangularPreconditioner.delete_row n)
    (fun k st => ∃ (s1 : Store (Preconditioner K)) (t1 : Store (MatrixVectorProduct K)),
      st = ((⟨s1, t1, w.matrices, w.log⟩ : World K),
        { self with
          Diagonal_block_preconditioner_pt := vec n (fun i => if i < k then 0 else f i)
          Off_diagonal_matrix_vector_products :=
            ⟨n, n, cleared self.Upper_triangular n D k (first_column self.Upper_triangular k)⟩ }) ∧
      s1.next = w.preconditioners.next ∧
      s1.live + nonnull k f = w.preconditioners.live ∧
      (∀ i, i < k → f i ≠ 0 → s1.obj (f i) = none) ∧
      (∀ q, (∀ i, i < k → f i ≠ q) → s1.obj q = w.preconditioners.obj q) ∧
      t1.next = w.matrix_vector_products.next ∧
      (∀ q, ¬ (q ≠ 0 ∧ ∃ i j, visited self.Upper_triangular n k
          (first_column self.Upper_triangular k) i j ∧ D i j = q) →
        t1.obj q = w.matrix_vector_products.obj q))
    0 n (w, self) (Nat.zero_le n)
    ⟨w.preconditioners, w.matrix_vector_products, (by
      cases self; simp only at hD hO; subst hD; subst hO
      simp only [Nat.not_lt_zero, if_false, cleared_start]), rfl, (by simp [nonnull]),
      (by intro i hi; omega), (fun _ _ => rfl), rfl, (fun _ _ => rfl)⟩
    (by
      rintro k st _ hk ⟨s1, t1, rfl, h1, h2, h3, h4, h5, h6⟩
      obtain ⟨s2, hdel, g1, g2, g3, g4⟩ :=
        Store.delete_owned_pointer w.preconditioners n f hown k hk s1 h1 h2 h3 h4
      obtain ⟨t2, hrow, e1, e2⟩ := BlockTriangularPreconditioner.delete_row_ops self n D
        w.matrix_vector_products hops s2 w.matrices w.log
        (vec n (fun i => if i < k + 1 then 0 else f i)) k hk t1 h5 h6
      refine ⟨_, ?_, s2, t2, rfl, g1, g2, g3, g4, e1, ?_⟩
      · have hv : vec n (Function.update (fun i => if i < k then 0 else f i) k 0) =
            vec n (fun i => if i < k + 1 then 0 else f i) := by
          apply vec_congr
          intro i _
          by_cases hik : i = k
          · subst hik; simp
          · rw [Function.update_noteq hik]
            by_cases h : i < k
            · rw [if_pos h, if_pos (by omega)]
            · rw [if_neg h, if_neg (by omega)]
        simp only [BlockTriangularPreconditioner.delete_row, Vector_at_vec _ _ _ hk, lt_irrefl,
          if_false, bind_ok, World.delete_preconditioner_eq _ _ _ _ _ _ hdel,
          Vector_assign_vec _ _ _ _ hk, hv]
        rw [← cleared_next_row]
        rw [← hrow]
        cases hU : self.Upper_triangular <;> simp [first_column, end_column, hU]
      · intro q hq
        apply e2 q
        rintro ⟨hq0, i, j, hv, he⟩
        exact hq ⟨hq0, i, j, (visited_next_row _ _ _ _ _).mp hv, he⟩)
  refine ⟨s1, t1, ?_, h1, h2, h3, h4, h5⟩
  unfold BlockTriangularPreconditioner.clean_memory
  rw [hD, vec_length]
  simp only [hrun, bind_ok, pure_eq_ok, BlockPreconditioner.clean_up_memory]
  congr 2
  congr 1
  apply vec_congr
  intro i hi
  simp [hi]

/-! ### Block triangular preconditioner: setup -/

theorem World.matrix_vector_product_setup_spec {K : Type} (w : World K) (p b : ℕ)
    (op : MatrixVectorProduct K) (m : CRDoubleMatrix K)
    (hp : w.matrix_vector_products.obj p = some op) (hb : w.matrices.obj b = some m) :
    ∃ t1, w.matrix_vector_product_setup p b = Except.ok { w with matrix_vector_products := t1 } ∧
      t1.obj = Function.update w.matrix_vector_products.obj p (some ⟨some m⟩) ∧
      t1.next = w.matrix_vector_products.next ∧ t1.live = w.matrix_vector_products.live := by
  obtain ⟨t1, h1, h2, h3, h4⟩ := w.matrix_vector_products.set_live ⟨some m⟩ hp
  refine ⟨t1, ?_, h2, h3, h4⟩
  simp [World.matrix_vector_product_setup, Store.deref_live _ hp, Store.deref_live _ hb, h1]

/-- The inner loop of `setup` on row `k`: one operator is built for every
block of the row on the side in use. -/
theorem BlockTriangularPreconditioner.setup_row_ops {K : Type}
    (self : BlockTriangularPreconditioner K) (L : BlockLookup) (A : CRDoubleMatrix K)
    (hL : self.Lookup = some L) (hA : self.Matrix_pt = some A)
    (s : Store (Preconditioner K)) (t0 : Store (MatrixVectorProduct K))
    (mats0 : Store (CRDoubleMatrix K)) (log0 : List Event) (D0 : ℕ → ℕ → ℕ) (k first : ℕ)
    (hk : k < L.nblock_types)
    (hO : self.Off_diagonal_matrix_vector_products = ⟨L.nblock_types, L.nblock_types, D0⟩)
    (hbuilt : OpsBuilt t0 self.Upper_triangular L.nblock_types (L.block A) D0 k
      (first_column self.Upper_triangular k) first)
    (hfirst : first ≤ t0.next) :
    ∃ (t1 : Store (MatrixVectorProduct K)) (D1 : ℕ → ℕ → ℕ) (m1 : Store (CRDoubleMatrix K))
        (log1 : List Event),
      for_range (first_column self.Upper_triangular k)
          (end_column self.Upper_triangular L.nblock_types k)
          (BlockTriangularPreconditioner.setup_off_diagonal k)
          ((⟨s, t0, mats0, log0⟩ : World K), self) =
        Except.ok ((⟨s, t1, m1, log1⟩ : World K),
          { self with
            Off_diagonal_matrix_vector_products := ⟨L.nblock_types, L.nblock_types, D1⟩ }) ∧
      OpsBuilt t1 self.Upper_triangular L.nblock_types (L.block A) D1 k
        (end_column self.Upper_triangular L.nblock_types k) first ∧
      first ≤ t1.next ∧
      t1.live = t0.live + (end_column self.Upper_triangular L.nblock_types k -
        first_column self.Upper_triangular k) ∧
      m1.live = mats0.live ∧
      List.count Event.factory_call log1 = List.count Event.factory_call log0 := by
  have hself : self = { self with
      Off_diagonal_matrix_vector_products := ⟨L.nblock_types, L.nblock_types, D0⟩ } := by
    cases self; simp only at hO; subst hO; rfl
  obtain ⟨st, hrun, t1, D1, m1, log1, rfl, h1, h2, h3, h4, h5⟩ := for_range_inv
    (BlockTriangularPreconditioner.setup_off_diagonal k)
    (fun m st => ∃ (t1 : Store (MatrixVectorProduct K)) (D1 : ℕ → ℕ → ℕ)
        (m1 : Store (CRDoubleMatrix K)) (log1 : List Event),
      st = ((⟨s, t1, m1, log1⟩ : World K),
          { self with
            Off_diagonal_matrix_vector_products := ⟨L.nblock_types, L.nblock_types, D1⟩ }) ∧
      OpsBuilt t1 self.Upper_triangular L.nblock_types (L.block A) D1 k m first ∧
      first ≤ t1.next ∧
      t1.live = t0.live + (m - first_column self.Upper_triangular k) ∧
      m1.live = mats0.live ∧
      List.count Event.factory_call log1 = List.count Event.factory_call log0)
    (first_column self.Upper_triangular k) (end_column self.Upper_triangular L.nblock_types k)
    ((⟨s, t0, mats0, log0⟩ : World K), self) (first_le_end _ _ _ hk)
    ⟨t0, D0, mats0, log0, (by rw [Prod.mk.injEq]; exact ⟨rfl, hself⟩), hbuilt, hfirst,
      (by simp), rfl, rfl⟩
    (by
      rintro m st hm1 hm2 ⟨t1, D1, m1, log1, rfl, h1, h2, h3, h4, h5⟩
      have hmN : m < L.nblock_types := lt_of_lt_of_le hm2 (end_column_le _ _ _ hk)
      have hb : (m1.new (L.block A k m)).2.obj m1.next = some (L.block A k m) := by
        rw [Store.new_obj, if_pos rfl]
      have hp : (t1.new ⟨none⟩).2.obj t1.next = some (⟨none⟩ : MatrixVectorProduct K) := by
        rw [Store.new_obj, if_pos rfl]
      obtain ⟨t2, hset, ho2, hn2, hl2⟩ := World.matrix_vector_product_setup_spec
        (⟨s, (t1.new ⟨none⟩).2, (m1.new (L.block A k m)).2,
          log1 ++ [Event.get_block k m]⟩ : World K) t1.next m1.next _ _ hp hb
      obtain ⟨m2, hdel, _, _, hml⟩ := World.delete_matrix_live
        (⟨s, t2, (m1.new (L.block A k m)).2, log1 ++ [Event.get_block k m]⟩ : World K) hb
      refine ⟨_, ?_, t2, (fun i1 j1 => if i1 = k ∧ j1 = m then t1.next else D1 i1 j1), m2,
        log1 ++ [Event.get_block k m], rfl, ?_, ?_, ?_, ?_, ?_⟩
      · have hgb := World.get_block_spec (⟨s, t1, m1, log1⟩ : World K)
          self.toBlockPreconditioner L A hL hA k m hk hmN
        simp only [BlockTriangularPreconditioner.setup_off_diagonal, hgb, bind_ok,
          World.new_MatrixVectorProduct, Store.new_fst,
          DenseMatrix.assign_nat _ _ _ _ _ _ hk hmN, hset, hdel, pure_eq_ok]
      · -- the operators built so far
        simp only at ho2 hn2
        intro i j hv
        dsimp only
        by_cases hij : i = k ∧ j = m
        · obtain ⟨rfl, rfl⟩ := hij
          simp only [and_self, if_true]
          refine ⟨h2, by rw [hn2]; simp, by rw [ho2]; simp, ?_⟩
          intro i1 j1 hv1 he
          by_contra hne
          rw [if_neg hne] at he
          have hv1' : visited self.Upper_triangular L.nblock_types i j i1 j1 := by
            refine ⟨hv1.1, hv1.2.1, hv1.2.2.1, ?_⟩
            rcases hv1.2.2.2 with a | ⟨a, b⟩
            · exact Or.inl a
            · refine Or.inr ⟨a, ?_⟩
              by_contra hc
              exact hne ⟨a, by omega⟩
          have := (h1 i1 j1 hv1').2.1
          omega
        · have hv' : visited self.Upper_triangular L.nblock_types k m i j := by
            refine ⟨hv.1, hv.2.1, hv.2.2.1, ?_⟩
            rcases hv.2.2.2 with a | ⟨a, b⟩
            · exact Or.inl a
            · refine Or.inr ⟨a, ?_⟩
              by_contra hc
              exact hij ⟨a, by omega⟩
          obtain ⟨g1, g2, g3, g4⟩ := h1 i j hv'
          rw [if_neg hij]
          refine ⟨g1, by rw [hn2]; simp; omega, ?_, ?_⟩
          · rw [ho2, Function.update_noteq (by omega), Store.new_obj, if_neg (by omega)]
            exact g3
          · intro i1 j1 hv1 he
            by_cases hij1 : i1 = k ∧ j1 = m
            · rw [if_pos hij1] at he
              omega
            · rw [if_neg hij1] at he
              have hv1' : visited self.Upper_triangular L.nblock_types k m i1 j1 := by
                refine ⟨hv1.1, hv1.2.1, hv1.2.2.1, ?_⟩
                rcases hv1.2.2.2 with a | ⟨a, b⟩
                · exact Or.inl a
                · refine Or.inr ⟨a, ?_⟩
                  by_contra hc
                  exact hij1 ⟨a, by omega⟩
              exact g4 i1 j1 hv1' he
      · simp only at hn2; rw [hn2]; simp; omega
      · simp only at hl2; rw [hl2, Store.new_live, h3]; omega
      · rw [Store.new_then_delete_live m1 _ m2 hml]; exact h4
      · simp [h5])
  exact ⟨t1, D1, m1, log1, hrun, h1, h2, h3, h4, h5⟩

theorem OpsBuilt.next_row {K : Type} {t : Store (MatrixVectorProduct K)} {upper : Bool} {N : ℕ}
    {blk : ℕ → ℕ → CRDoubleMatrix K} {D : ℕ → ℕ → ℕ} {k first : ℕ}
    (h : OpsBuilt t upper N blk D k (end_column upper N k) first) :
    OpsBuilt t upper N blk D (k + 1) (first_column upper (k + 1)) first := by
  intro i j hv
  obtain ⟨g1, g2, g3, g4⟩ := h i j ((visited_next_row _ _ _ _ _).mpr hv)
  exact ⟨g1, g2, g3, fun i1 j1 hv1 he => g4 i1 j1 ((visited_next_row _ _ _ _ _).mpr hv1) he⟩

/-- The outer loop of `BlockTriangularPreconditioner::setup`: block `i` gets a
new subsidiary preconditioner, at address `next + i`, set up on the diagonal
block, and every block of row `i` on the side in use gets a new operator. -/
theorem BlockTriangularPreconditioner.setup_rows {K : Type}
    (self : BlockTriangularPreconditioner K) (L : BlockLookup) (A : CRDoubleMatrix K)
    (hL : self.Lookup = some L) (hA : self.Matrix_pt = some A)
    (s0 : Store (Preconditioner K)) (t0 : Store (MatrixVectorProduct K))
    (m0 : Store (CRDoubleMatrix K)) (log0 : List Event) (D0 : ℕ → ℕ → ℕ) (kind : ℕ → PrecKind)
    (hD : self.Diagonal_block_preconditioner_pt = vec L.nblock_types (fun _ => 0))
    (hO : self.Off_diagonal_matrix_vector_products = ⟨L.nblock_types, L.nblock_types, D0⟩)
    (hkind : ∀ i, i < L.nblock_types →
      created_kind self.Subsidiary_preconditioner_function_pt
        (List.count Event.factory_call log0 + i) = some (kind i)) :
    ∃ (s1 : Store (Preconditioner K)) (t1 : Store (MatrixVectorProduct K)) (D1 : ℕ → ℕ → ℕ)
        (m1 : Store (CRDoubleMatrix K)) (log1 : List Event),
      for_range 0 L.nblock_types (BlockTriangularPreconditioner.setup_row L.nblock_types)
          ((⟨s0, t0, m0, log0⟩ : World K), self) =
        Except.ok ((⟨s1, t1, m1, log1⟩ : World K),
          { self with
            Diagonal_block_preconditioner_pt := vec L.nblock_types (fun i => s0.next + i)
            Off_diagonal_matrix_vector_products := ⟨L.nblock_types, L.nblock_types, D1⟩ }) ∧
      s1.next = s0.next + L.nblock_types ∧
      s1.live = s0.live + L.nblock_types ∧
      (∀ i, i < L.nblock_types →
        s1.obj (s0.next + i) = some ⟨kind i, some (L.block A i i)⟩) ∧
      (∀ q, q < s0.next → s1.obj q = s0.obj q) ∧
      OpsBuilt t1 self.Upper_triangular L.nblock_types (L.block A) D1 L.nblock_types
        (first_column self.Upper_triangular L.nblock_types) t0.next ∧
      t1.live = t0.live + operators_in_rows self.Upper_triangular L.nblock_types L.nblock_types ∧
      m1.live = m0.live ∧
      List.count Event.factory_call log1 = List.count Event.factory_call log0 +
        (if self.Subsidiary_preconditioner_function_pt.isSome = true then L.nblock_types else 0) := by
  have hself : self = { self with
      Diagonal_block_preconditioner_pt := vec L.nblock_types (fun i => if i < 0 then s0.next + i else 0)
      Off_diagonal_matrix_vector_products := ⟨L.nblock_types, L.nblock_types, D0⟩ } := by
    cases self; simp only at hO hD; subst hO; subst hD; rfl
  obtain ⟨st, hrun, s1, t1, D1, m1, log1, rfl, h1, h2, h3, h4, h5, h6, h7, h8, h9⟩ := for_range_inv
    (BlockTriangularPreconditioner.setup_row L.nblock_types)
    (fun k st => ∃ (s1 : Store (Preconditioner K)) (t1 : Store (MatrixVectorProduct K))
        (D1 : ℕ → ℕ → ℕ) (m1 : Store (CRDoubleMatrix K)) (log1 : List Event),
      st = ((⟨s1, t1, m1, log1⟩ : World K),
          { self with
            Diagonal_block_preconditioner_pt :=
              vec L.nblock_types (fun i => if i < k then s0.next + i else 0)
            Off_diagonal_matrix_vector_products := ⟨L.nblock_types, L.nblock_types, D1⟩ }) ∧
      s1.next = s0.next + k ∧
      s1.live = s0.live + k ∧
      (∀ i, i < k → s1.obj (s0.next + i) = some ⟨kind i, some (L.block A i i)⟩) ∧
      (∀ q, q < s0.next → s1.obj q = s0.obj q) ∧
      OpsBuilt t1 self.Upper_triangular L.nblock_types (L.block A) D1 k
        (first_column self.Upper_triangular k) t0.next ∧
      t0.next ≤ t1.next ∧
      t1.live = t0.live + operators_in_rows self.Upper_triangular L.nblock_types k ∧
      m1.live = m0.live ∧
      List.count Event.factory_call log1 = List.count Event.factory_call log0 +
        (if self.Subsidiary_preconditioner_function_pt.isSome = true then k else 0))
    0 L.nblock_types ((⟨s0, t0, m0, log0⟩ : World K), self) (Nat.zero_le _)
    ⟨s0, t0, D0, m0, log0, (by rw [Prod.mk.injEq]; exact ⟨rfl, hself⟩), rfl, rfl,
      (by intro i hi; omega), (fun _ _ => rfl), (by
        rintro i j ⟨_, a2, _, a4 | ⟨rfl, a5⟩⟩ <;> omega), le_rfl,
      (by simp [operators_in_rows]), rfl, (by simp)⟩
    (by
      rintro k st _ hk ⟨s1, t1, D1, m1, log1, rfl, h1, h2, h3, h4, h5, h6, h7, h8, h9⟩
      -- create the preconditioner
      have hc : created_kind self.Subsidiary_preconditioner_function_pt
          (World.factory_calls (⟨s1, t1, m1, log1⟩ : World K)) = some (kind k) := by
        simp only [World.factory_calls, h9]
        rw [created_kind_calls]
        exact hkind k hk
      obtain ⟨log2, hcr, hlog⟩ := World.create_spec _ _ _ hc
      -- the diagonal block
      have hb : (m1.new (L.block A k k)).2.obj m1.next = some (L.block A k k) := by
        rw [Store.new_obj, if_pos rfl]
      have hp : (s1.new ⟨kind k, none⟩).2.obj s1.next = some (⟨kind k, none⟩ : Preconditioner K) := by
        rw [Store.new_obj, if_pos rfl]
      obtain ⟨s2, hset, ho2, hn2, hl2⟩ := World.preconditioner_setup_spec
        (⟨(s1.new ⟨kind k, none⟩).2, t1, (m1.new (L.block A k k)).2,
          log2 ++ [Event.get_block k k]⟩ : World K) s1.next m1.next _ _ hp hb
      obtain ⟨m2, hdel, _, _, hml⟩ := World.delete_matrix_live
        (⟨s2, t1, (m1.new (L.block A k k)).2, log2 ++ [Event.get_block k k]⟩ : World K) hb
      -- the operators of the row
      let self1 : BlockTriangularPreconditioner K :=
        { self with
          Diagonal_block_preconditioner_pt :=
            vec L.nblock_types (fun i => if i < k + 1 then s0.next + i else 0)
          Off_diagonal_matrix_vector_products := ⟨L.nblock_types, L.nblock_types, D1⟩ }
      obtain ⟨t2, D2, m3, log3, hrow, g1, g2, g3, g4, g5⟩ :=
        BlockTriangularPreconditioner.setup_row_ops self1 L A hL hA s2 t1 m2
          (log2 ++ [Event.get_block k k]) D1 k t0.next hk rfl h5 h6
      have hU1 : self1.Upper_triangular = self.Upper_triangular := rfl
      rw [hU1] at g1 g3 hrow
      dsimp only at hn2 hl2 ho2
      refine ⟨_, ?_, s2, t2, D2, m3, log3, rfl, ?_, ?_, ?_, ?_, g1.next_row, g2, ?_, ?_, ?_⟩
      · have hv : vec L.nblock_types
            (Function.update (fun i => if i < k then s0.next + i else 0) k s1.next) =
            vec L.nblock_types (fun i => if i < k + 1 then s0.next + i else 0) := by
          apply vec_congr
          intro i _
          by_cases hik : i = k
          · subst hik; simp [h1]
          · rw [Function.update_noteq hik]
            by_cases h : i < k
            · rw [if_pos h, if_pos (by omega)]
            · rw [if_neg h, if_neg (by omega)]
        have hgb := World.get_block_spec
          (⟨(s1.new ⟨kind k, none⟩).2, t1, m1, log2⟩ : World K)
          self.toBlockPreconditioner L A hL hA k k hk hk
        simp only [BlockTriangularPreconditioner.setup_row, hcr,
          Vector_assign_vec _ _ _ _ hk, bind_ok, hv, hgb, hset, hdel]
        rw [← hrow]
        cases hU : self.Upper_triangular <;> simp [first_column, end_column, hU, self1]
      · rw [hn2]; simp [h1]; omega
      · rw [hl2, Store.new_live, h2]; omega
      · intro i hi
        rw [ho2]
        by_cases hik : i = k
        · subst hik; rw [← h1, Function.update_same]
        · rw [Function.update_noteq (by omega), Store.new_obj, if_neg (by omega)]
          exact h3 i (by omega)
      · intro q hq
        rw [ho2, Function.update_noteq (by omega), Store.new_obj, if_neg (by omega)]
        exact h4 q hq
      · rw [g3, h7, operators_in_rows, operators_in_rows, Finset.sum_range_succ]
        omega
      · rw [g4, Store.new_then_delete_live m1 _ m2 hml]; exact h8
      · have hlog2 : List.count Event.factory_call log2 = List.count Event.factory_call log1 +
            (if self.Subsidiary_preconditioner_function_pt.isSome = true then 1 else 0) := hlog
        have hcnt : List.count Event.factory_call (log2 ++ [Event.get_block k k]) =
            List.count Event.factory_call log2 := by
          simp [List.count_append, List.count_cons]
        rw [g5, hcnt, hlog2, h9]
        split_ifs <;> omega)
  refine ⟨s1, t1, D1, m1, log1, ?_, h1, h2, h3, h4, h5, h7, h8, h9⟩
  rw [hrun]
  congr 3
  apply vec_congr
  intro i hi
  simp [hi]

/-- What `BlockTriangularPreconditioner::setup` does on a matrix of the
block-capable type, from any state whose pointers are sound: it succeeds, the
old subsidiary preconditioners are dead, block `i` has a new subsidiary
preconditioner set up on the diagonal block `(i,i)`, and every block `(i,j)`
on the side in use has a new operator set up on it. -/
theorem BlockTriangularPreconditioner.triangular_setup_spec {K : Type} (env : Env K) (w : World K)
    (self : BlockTriangularPreconditioner K) (problem_pt : ℕ) (A : CRDoubleMatrix K)
    (n : ℕ) (f : ℕ → ℕ) (D : ℕ → ℕ → ℕ) (kind : ℕ → PrecKind)
    (hD : self.Diagonal_block_preconditioner_pt = vec n f)
    (hO : self.Off_diagonal_matrix_vector_products = ⟨n, n, D⟩)
    (hown : Owned w.preconditioners n f)
    (hops : OwnedOps w.matrix_vector_products self.Upper_triangular n D)
    (hkind : ∀ i, i < (self.toGeneralPurposeBlockPreconditioner.scheme env A).nblock_types →
      created_kind self.Subsidiary_preconditioner_function_pt (w.factory_calls + i) =
        some (kind i)) :
    ∃ w1 self1 D1,
      self.setup env w problem_pt (some (DoubleMatrixBase.block_capable A)) =
        Except.ok (w1, self1) ∧
      self1.Lookup = some (self.toGeneralPurposeBlockPreconditioner.scheme env A) ∧
      self1.Matrix_pt = some A ∧
      self1.Upper_triangular = self.Upper_triangular ∧
      self1.Diagonal_block_preconditioner_pt =
        vec (self.toGeneralPurposeBlockPreconditioner.scheme env A).nblock_types
          (fun i => w.preconditioners.next + i) ∧
      self1.Off_diagonal_matrix_vector_products =
        ⟨(self.toGeneralPurposeBlockPreconditioner.scheme env A).nblock_types,
         (self.toGeneralPurposeBlockPreconditioner.scheme env A).nblock_types, D1⟩ ∧
      self1.Subsidiary_preconditioner_function_pt = self.Subsidiary_preconditioner_function_pt ∧
      self1.Prec_mesh_pt = self.Prec_mesh_pt ∧
      self1.Dof_to_block_map = self.Dof_to_block_map ∧
      (∀ i, i < (self.toGeneralPurposeBlockPreconditioner.scheme env A).nblock_types →
        w1.preconditioners.obj (w.preconditioners.next + i) =
          some ⟨kind i,
            some ((self.toGeneralPurposeBlockPreconditioner.scheme env A).block A i i)⟩) ∧
      w1.preconditioners.next = w.preconditioners.next +
        (self.toGeneralPurposeBlockPreconditioner.scheme env A).nblock_types ∧
      w1.preconditioners.live + nonnull n f = w.preconditioners.live +
        (self.toGeneralPurposeBlockPreconditioner.scheme env A).nblock_types ∧
      (∀ i, i < n → f i ≠ 0 → w1.preconditioners.obj (f i) = none) ∧
      OpsBuilt w1.matrix_vector_products self.Upper_triangular
        (self.toGeneralPurposeBlockPreconditioner.scheme env A).nblock_types
        ((self.toGeneralPurposeBlockPreconditioner.scheme env A).block A) D1
        (self.toGeneralPurposeBlockPreconditioner.scheme env A).nblock_types
        (first_column self.Upper_triangular
          (self.toGeneralPurposeBlockPreconditioner.scheme env A).nblock_types)
        w.matrix_vector_products.next ∧
      w1.matrices.live = w.matrices.live ∧
      w1.factory_calls = w.factory_calls +
        (if self.Subsidiary_preconditioner_function_pt.isSome = true then
          (self.toGeneralPurposeBlockPreconditioner.scheme env A).nblock_types else 0) := by
  set L := self.toGeneralPurposeBlockPreconditioner.scheme env A with hLdef
  obtain ⟨s1, t1, hclean, hc1, hc2, hc3, hc4, hc5⟩ :=
    self.clean_memory_spec w n f D hD hO hown hops
  let gp1 : GeneralPurposeBlockPreconditioner K :=
    { self.toGeneralPurposeBlockPreconditioner with Problem_pt := problem_pt }
  have hbs := gp1.block_setup_spec env (⟨s1, t1, w.matrices, w.log⟩ : World K) A
  have hLeq : gp1.scheme env A = L := rfl
  rw [hLeq] at hbs
  let D0 : ℕ → ℕ → ℕ := fun i j => if i < n ∧ j < n then
    cleared self.Upper_triangular n D n (first_column self.Upper_triangular n) i j else 0
  let self3 : BlockTriangularPreconditioner K :=
    { toGeneralPurposeBlockPreconditioner :=
        { gp1 with Mesh_pt := self.Prec_mesh_pt, Matrix_pt := some A, Lookup := some L }
      Diagonal_block_preconditioner_pt := vec L.nblock_types (fun _ => 0)
      Off_diagonal_matrix_vector_products := ⟨L.nblock_types, L.nblock_types, D0⟩
      Upper_triangular := self.Upper_triangular }
  let log0 := w.log ++ [Event.block_setup self.Prec_mesh_pt.length self.Prec_mesh_pt gp1.map_in_use]
  have hfc : List.count Event.factory_call log0 = w.factory_calls := by
    simp [log0, World.factory_calls, List.count_append, List.count_cons]
  obtain ⟨s2, t2, D2, m2, log2, hrows, g1, g2, g3, g4, g5, g6, g7, g8⟩ :=
    BlockTriangularPreconditioner.setup_rows self3 L A rfl rfl s1 t1 w.matrices log0 D0 kind
      rfl rfl (by intro i hi; rw [hfc]; exact hkind i hi)
  let self4 : BlockTriangularPreconditioner K :=
    { self3 with
      Diagonal_block_preconditioner_pt := vec L.nblock_types (fun i => s1.next + i)
      Off_diagonal_matrix_vector_products := ⟨L.nblock_types, L.nblock_types, D2⟩ }
  refine ⟨⟨s2, t2, m2, log2⟩, self4, D2, ?_, rfl, rfl, rfl, ?_, rfl, rfl, rfl, rfl, ?_, ?_, ?_,
    ?_, ?_, g7, ?_⟩
  · unfold BlockTriangularPreconditioner.setup
    simp only [hclean, bind_ok, dynamic_cast_MATRIX, Option.isNone_some, Bool.false_eq_true,
      and_false, if_false]
    have e1 : Vector_resize (vec n (fun _ => 0)) L.nblock_types = vec L.nblock_types (fun _ => 0) := by
      rw [Vector_resize_vec]
      apply vec_congr
      intro i _; simp
    simp only [pure_eq_ok, bind_ok]
    erw [hbs]
    simp only [bind_ok, BlockPreconditioner.nblock_types, e1, DenseMatrix.resize]
    exact hrows
  · simp only [self4, hc1]
  · intro i hi
    rw [← hc1]; exact g3 i hi
  · rw [g1, hc1]
  · rw [g2]; omega
  · intro i hi hne
    obtain ⟨⟨a, ha⟩, _⟩ := hown i hi hne
    have hlt : f i < s1.next := by rw [hc1]; exact Store.obj_lt_next _ ha
    rw [g4 (f i) hlt]
    exact hc3 i hi hne
  · rw [← hc5]; exact g5
  · simp only [World.factory_calls, g8]
    rw [hfc]
    rfl

/-! ### Block triangular preconditioner: solve -/

theorem World.multiply_spec {K : Type} [CommRing K] (w : World K) (p : ℕ) (m : CRDoubleMatrix K)
    (hp : w.matrix_vector_products.obj p = some ⟨some m⟩) (x : List K) :
    w.multiply p x = Except.ok (m.multiply x) := by
  simp [World.multiply, Store.deref_live _ hp]

theorem vsub_vec {K : Type} [Zero K] [Sub K] (n : ℕ) (f : ℕ → K) (b : List K) :
    vsub (vec n f) b = vec n (fun x => f x - vget b x) := by
  unfold vsub
  rw [vec_length]
  apply vec_congr
  intro x hx
  rw [vget_vec, if_pos hx]

/-- One round of the inner loop of `preconditioner_solve`: the contribution
of block `a` is subtracted from the residual of block `b`. -/
theorem BlockTriangularPreconditioner.substitute_spec {K : Type} [CommRing K] (w : World K)
    (self : BlockTriangularPreconditioner K) (N : ℕ) (D : ℕ → ℕ → ℕ)
    (hO : self.Off_diagonal_matrix_vector_products = ⟨N, N, D⟩) (a b : ℕ) (ha : a < N)
    (hb : b < N) (B : CRDoubleMatrix K)
    (hop : w.matrix_vector_products.obj (D b a) = some ⟨some B⟩) (R Z : ℕ → List K) :
    BlockTriangularPreconditioner.substitute w self (a : ℤ) (b : ℤ) (vec N R, vec N Z) =
      Except.ok (vec N (Function.update R b (vsub (R b) (B.multiply (Z a)))), vec N Z) := by
  simp only [BlockTriangularPreconditioner.substitute, hO, DenseMatrix.entry_nat _ _ _ _ _ hb ha,
    bind_ok, Vector_at_vec _ _ _ ha, World.multiply_spec w _ _ hop, Vector_at_vec _ _ _ hb,
    Vector_assign_vec _ _ _ _ hb, pure_eq_ok]

/-- The inner loop of `preconditioner_solve` in round `k`: the contribution of
the block just solved is subtracted from the residual of every block still to
be processed, and from no other. -/
theorem BlockTriangularPreconditioner.substitute_sweep {K : Type} [CommRing K] (w : World K)
    (self : BlockTriangularPreconditioner K) (N : ℕ) (D : ℕ → ℕ → ℕ)
    (hO : self.Off_diagonal_matrix_vector_products = ⟨N, N, D⟩)
    (start step stop : ℤ) (block round : ℕ → ℕ)
    (ho : SweepOrder N start step stop block round) (B : ℕ → ℕ → CRDoubleMatrix K)
    (hop : ∀ p q, q < p → p < N →
      w.matrix_vector_products.obj (D (block p) (block q)) = some ⟨some (B (block p) (block q))⟩)
    (k : ℕ) (hk : k < N) (fuel : ℕ) (hfuel : N ≤ fuel) (R Z : ℕ → List K) :
    sweep (BlockTriangularPreconditioner.substitute w self (block k : ℤ)) stop step fuel
        ((block k : ℤ) + step) (vec N R, vec N Z) =
      Except.ok
        (vec N (fun j => if k < round j then
            vsub (R j) ((B j (block k)).multiply (Z (block k))) else R j),
         vec N Z) := by
  have hstart : ∀ m : ℕ, (block k : ℤ) + step + m * step = start + ((k + 1 + m : ℕ) : ℤ) * step := by
    intro m
    rw [← ho.value k hk]; push_cast; ring
  obtain ⟨st, hrun, hst⟩ := sweep_inv
    (BlockTriangularPreconditioner.substitute w self (block k : ℤ)) stop step
    (fun m st => st = (vec N (fun j => if k < round j ∧ round j < k + 1 + m then
        vsub (R j) ((B j (block k)).multiply (Z (block k))) else R j), vec N Z))
    (N - 1 - k) fuel ((block k : ℤ) + step) (vec N R, vec N Z) (by omega)
    (by
      rw [hstart]
      have : k + 1 + (N - 1 - k) = N := by omega
      rw [this]; exact ho.last)
    (by
      intro m hm
      rw [hstart, ho.value _ (by omega)]
      exact ho.running _ (by omega))
    (by
      refine Prod.ext ?_ rfl
      dsimp only
      apply vec_congr
      intro j _
      rw [if_neg (by omega)])
    (by
      rintro m st hm rfl
      refine ⟨_, ?_, rfl⟩
      have hp : k + 1 + m < N := by omega
      rw [hstart, ho.value _ hp]
      rw [BlockTriangularPreconditioner.substitute_spec w self N D hO (block k) (block (k + 1 + m))
        (ho.block_lt k hk) (ho.block_lt _ hp) _ (hop (k + 1 + m) k (by omega) hp)]
      refine congrArg Except.ok (Prod.ext ?_ rfl)
      dsimp only
      apply vec_congr
      intro j hj
      by_cases hjb : j = block (k + 1 + m)
      · subst hjb
        rw [Function.update_same, ho.round_block _ hp, if_neg (by omega), if_pos (by omega)]
      · rw [Function.update_noteq hjb]
        have hr : round j ≠ k + 1 + m := by
          intro h
          apply hjb
          rw [← h, ho.block_round j hj]
        by_cases hc : k < round j ∧ round j < k + 1 + m
        · rw [if_pos hc, if_pos ⟨hc.1, by omega⟩]
        · rw [if_neg hc, if_neg (by omega)])
  rw [hrun, hst]
  refine congrArg Except.ok (Prod.ext ?_ rfl)
  dsimp only
  apply vec_congr
  intro j hj
  have := ho.round_lt j hj
  by_cases hc : k < round j
  · rw [if_pos hc, if_pos ⟨hc, by omega⟩]
  · rw [if_neg hc, if_neg (by omega)]

/-- The outer loop of `preconditioner_solve`: in sweep order, the block of
round `p` is the solve of its subsidiary preconditioner applied to its
residual minus the contributions of the blocks of the rounds before. -/
theorem BlockTriangularPreconditioner.solve_sweep {K : Type} [CommRing K] (env : Env K)
    (w : World K) (self : BlockTriangularPreconditioner K) (N : ℕ) (ps : ℕ → ℕ)
    (D : ℕ → ℕ → ℕ) (kind : ℕ → PrecKind) (M : ℕ → CRDoubleMatrix K)
    (B : ℕ → ℕ → CRDoubleMatrix K)
    (hD : self.Diagonal_block_preconditioner_pt = vec N ps)
    (hO : self.Off_diagonal_matrix_vector_products = ⟨N, N, D⟩)
    (hobj : ∀ i, i < N → w.preconditioners.obj (ps i) = some ⟨kind i, some (M i)⟩)
    (start step stop : ℤ) (block round : ℕ → ℕ)
    (ho : SweepOrder N start step stop block round)
    (hop : ∀ p q, q < p → p < N →
      w.matrix_vector_products.obj (D (block p) (block q)) = some ⟨some (B (block p) (block q))⟩)
    (fuel : ℕ) (hfuel : N ≤ fuel) (len : ℕ → ℕ) (ρ : ℕ → ℕ → K) :
    ∃ (R Z : ℕ → List K),
      sweep (BlockTriangularPreconditioner.solve_block env w self stop step fuel) stop step fuel
          start (vec N (fun i => vec (len i) (ρ i)), List.replicate N []) =
        Except.ok (vec N R, vec N Z) ∧
      ∀ p, p < N → Z (block p) = env.solve (kind (block p)) (M (block p))
        (vec (len (block p)) (fun x => ρ (block p) x -
          ∑ q in Finset.range p,
            vget ((B (block p) (block q)).multiply (Z (block q))) x)) := by
  have hinj : ∀ p q, p < N → q < N → block p = block q → p = q := by
    intro p q hp hq h
    rw [← ho.round_block p hp, ← ho.round_block q hq, h]
  obtain ⟨st, hrun, R, Z, rfl, ha, hb⟩ := sweep_inv
    (BlockTriangularPreconditioner.solve_block env w self stop step fuel) stop step
    (fun k st => ∃ (R Z : ℕ → List K), st = (vec N R, vec N Z) ∧
      (∀ p, p < k → Z (block p) = env.solve (kind (block p)) (M (block p))
        (vec (len (block p)) (fun x => ρ (block p) x -
          ∑ q in Finset.range p,
            vget ((B (block p) (block q)).multiply (Z (block q))) x))) ∧
      (∀ p, k ≤ p → p < N → R (block p) =
        vec (len (block p)) (fun x => ρ (block p) x -
          ∑ q in Finset.range k,
            vget ((B (block p) (block q)).multiply (Z (block q))) x)))
    N fuel start (vec N (fun i => vec (len i) (ρ i)), List.replicate N []) hfuel ho.last
    (by
      intro k hk
      rw [ho.value k hk]
      exact ho.running k hk)
    ⟨fun i => vec (len i) (ρ i), fun _ => [], by rw [replicate_eq_vec],
      by intro p hp; omega,
      by intro p _ _; simp⟩
    (by
      rintro k st hk ⟨R, Z, rfl, ha, hb⟩
      have hak := ho.block_lt k hk
      let za := env.solve (kind (block k)) (M (block k)) (R (block k))
      have hZ : ∀ q, q < k → Function.update Z (block k) za (block q) = Z (block q) := by
        intro q hq
        rw [Function.update_noteq]
        intro h
        have := hinj q k (by omega) hk h
        omega
      have hsum : ∀ (j p : ℕ) (x : ℕ), p ≤ k →
          ∑ q in Finset.range p,
            vget ((B j (block q)).multiply (Function.update Z (block k) za (block q))) x =
          ∑ q in Finset.range p, vget ((B j (block q)).multiply (Z (block q))) x := by
        intro j p x hp
        apply Finset.sum_congr rfl
        intro q hq
        rw [hZ q (by have := Finset.mem_range.mp hq; omega)]
      let Z1 := Function.update Z (block k) za
      let R1 : ℕ → List K := fun j => if k < round j then
        vsub (R j) ((B j (block k)).multiply (Z1 (block k))) else R j
      refine ⟨(vec N R1, vec N Z1), ?_, R1, Z1, rfl, ?_, ?_⟩
      · rw [ho.value k hk]
        simp only [BlockTriangularPreconditioner.solve_block, hD, Vector_at_vec _ _ _ hak, bind_ok,
          World.subsidiary_solve_spec env w _ _ _ (hobj _ hak), Vector_assign_vec _ _ _ _ hak]
        exact BlockTriangularPreconditioner.substitute_sweep w self N D hO start step stop block
          round ho B hop k hk fuel hfuel R _
      · intro p hp
        dsimp only [Z1]
        by_cases hpk : p = k
        · subst hpk
          rw [Function.update_same]
          show env.solve _ _ (R (block p)) = _
          rw [hb p le_rfl hk]
          congr 1
          apply vec_congr
          intro x _
          rw [hsum _ p x le_rfl]
        · rw [hZ p (by omega), ha p (by omega)]
          congr 1
          apply vec_congr
          intro x _
          rw [hsum _ p x (by omega)]
      · intro p hp hpN
        dsimp only [Z1, R1]
        rw [ho.round_block p hpN, if_pos (by omega), hb p (by omega) hpN, vsub_vec]
        apply vec_congr
        intro x _
        rw [Finset.sum_range_succ, hsum _ k x le_rfl, Function.update_same]
        ring)
  exact ⟨R, Z, hrun, fun p hp => ha p hp⟩

theorem start_upper (N : ℕ) (h : N < 2147483648) :
    unsigned_to_int (to_unsigned ((N : ℤ) - 1)) = (N : ℤ) - 1 := by
  unfold unsigned_to_int to_unsigned
  rcases Nat.eq_zero_or_pos N with rfl | hpos
  · decide
  · have h1 : ((N : ℤ) - 1) % 4294967296 = (N : ℤ) - 1 := by
      apply Int.emod_eq_of_lt <;> omega
    rw [h1]
    have h2 : ((N : ℤ) - 1).toNat = N - 1 := by omega
    rw [h2]
    have h3 : (N - 1) % 4294967296 = N - 1 := Nat.mod_eq_of_lt (by omega)
    rw [h3, if_pos (by omega)]
    omega

theorem stop_lower (N : ℕ) (h : N < 2147483648) : unsigned_to_int N = (N : ℤ) := by
  unfold unsigned_to_int
  have h3 : N % 4294967296 = N := Nat.mod_eq_of_lt (by omega)
  rw [h3, if_pos h]

theorem sweep_order_upper (N : ℕ) :
    SweepOrder N ((N : ℤ) - 1) (-1) (-1) (fun p => N - 1 - p) (fun i => N - 1 - i) where
  value := by intro p hp; omega
  last := by ring
  running := by intro p hp; omega
  block_lt := by intro p hp; omega
  round_lt := by intro p hp; omega
  round_block := by intro p hp; omega
  block_round := by intro p hp; omega

theorem sweep_order_lower (N : ℕ) : SweepOrder N 0 1 (N : ℤ) (fun p => p) (fun i => i) where
  value := by intro p hp; omega
  last := by ring
  running := by intro p hp; omega
  block_lt := by intro p hp; exact hp
  round_lt := by intro p hp; exact hp
  round_block := by intro p hp; rfl
  block_round := by intro p hp; rfl

theorem sum_range_reflect {M : Type} [AddCommMonoid M] (N i : ℕ) (hi : i < N) (F : ℕ → M) :
    ∑ q in Finset.range (N - 1 - i), F (N - 1 - q) = ∑ j in Finset.Ioo i N, F j := by
  refine Finset.sum_bij' (fun q _ => N - 1 - q) (fun j _ => N - 1 - j) ?_ ?_ ?_ ?_ ?_
  · intro q hq
    have := Finset.mem_range.mp hq
    show N - 1 - q ∈ Finset.Ioo i N
    exact Finset.mem_Ioo.mpr ⟨by omega, by omega⟩
  · intro j hj
    have := Finset.mem_Ioo.mp hj
    show N - 1 - j ∈ Finset.range (N - 1 - i)
    exact Finset.mem_range.mpr (by omega)
  · intro q hq
    have := Finset.mem_range.mp hq
    show N - 1 - (N - 1 - q) = q
    omega
  · intro j hj
    have := Finset.mem_Ioo.mp hj
    show N - 1 - (N - 1 - j) = j
    omega
  · intro q _
    rfl

/-- Upper mode: the block vectors computed by `preconditioner_solve` satisfy
`z_i = P_i(r_i - Σ_{j>i} A(i,j) z_j)`. -/
theorem BlockTriangularPreconditioner.solve_blocks_upper {K : Type} [CommRing K] (env : Env K)
    (w : World K) (self : BlockTriangularPreconditioner K) (L : BlockLookup) (ps : ℕ → ℕ)
    (D : ℕ → ℕ → ℕ) (kind : ℕ → PrecKind) (M : ℕ → CRDoubleMatrix K)
    (B : ℕ → ℕ → CRDoubleMatrix K) (rv : List K) (fuel : ℕ)
    (hL : self.Lookup = some L) (hN : L.nblock_types < 2147483648)
    (hU : self.Upper_triangular = true)
    (hD : self.Diagonal_block_preconditioner_pt = vec L.nblock_types ps)
    (hO : self.Off_diagonal_matrix_vector_products = ⟨L.nblock_types, L.nblock_types, D⟩)
    (hobj : ∀ i, i < L.nblock_types →
      w.preconditioners.obj (ps i) = some ⟨kind i, some (M i)⟩)
    (hop : ∀ i j, i < j → j < L.nblock_types →
      w.matrix_vector_products.obj (D i j) = some ⟨some (B i j)⟩)
    (hfuel : L.nblock_types ≤ fuel) :
    ∃ Z : ℕ → List K,
      self.solve_blocks env w fuel (DoubleVector.built rv) = Except.ok (vec L.nblock_types Z) ∧
      ∀ i, i < L.nblock_types → Z i = env.solve (kind i) (M i)
        (vec (L.block_dimension i) (fun x => vget rv (L.global_index i x) -
          ∑ j in Finset.Ioo i L.nblock_types, vget ((B i j).multiply (Z j)) x)) := by
  obtain ⟨R, Z, hrun, hZ⟩ := BlockTriangularPreconditioner.solve_sweep env w self L.nblock_types
    ps D kind M B hD hO hobj _ _ _ _ _ (sweep_order_upper L.nblock_types)
    (fun p q hqp hp => hop _ _ (by omega) (by omega)) fuel hfuel L.block_dimension
    (fun i x => vget rv (L.global_index i x))
  refine ⟨Z, ?_, ?_⟩
  · simp only [BlockTriangularPreconditioner.solve_blocks, BlockPreconditioner.nblock_types, hL,
      hU, if_true, start_upper _ hN, BlockPreconditioner.get_block_vectors,
      BlockPreconditioner.lookup, bind_ok]
    unfold BlockLookup.get_block_vectors
    rw [hrun]
    rfl
  · intro i hi
    have h := hZ (L.nblock_types - 1 - i) (by omega)
    have e : L.nblock_types - 1 - (L.nblock_types - 1 - i) = i := by omega
    simp only [e] at h
    rw [h]
    congr 1
    apply vec_congr
    intro x _
    rw [sum_range_reflect L.nblock_types i hi (fun j => vget ((B i j).multiply (Z j)) x)]

/-- Lower mode: the block vectors computed by `preconditioner_solve` satisfy
`z_i = P_i(r_i - Σ_{j<i} A(i,j) z_j)`. -/
theorem BlockTriangularPreconditioner.solve_blocks_lower {K : Type} [CommRing K] (env : Env K)
    (w : World K) (self : BlockTriangularPreconditioner K) (L : BlockLookup) (ps : ℕ → ℕ)
    (D : ℕ → ℕ → ℕ) (kind : ℕ → PrecKind) (M : ℕ → CRDoubleMatrix K)
    (B : ℕ → ℕ → CRDoubleMatrix K) (rv : List K) (fuel : ℕ)
    (hL : self.Lookup = some L) (hN : L.nblock_types < 2147483648)
    (hU : self.Upper_triangular = false)
    (hD : self.Diagonal_block_preconditioner_pt = vec L.nblock_types ps)
    (hO : self.Off_diagonal_matrix_vector_products = ⟨L.nblock_types, L.nblock_types, D⟩)
    (hobj : ∀ i, i < L.nblock_types →
      w.preconditioners.obj (ps i) = some ⟨kind i, some (M i)⟩)
    (hop : ∀ i j, j < i → i < L.nblock_types →
      w.matrix_vector_products.obj (D i j) = some ⟨some (B i j)⟩)
    (hfuel : L.nblock_types ≤ fuel) :
    ∃ Z : ℕ → List K,
      self.solve_blocks env w fuel (DoubleVector.built rv) = Except.ok (vec L.nblock_types Z) ∧
      ∀ i, i < L.nblock_types → Z i = env.solve (kind i) (M i)
        (vec (L.block_dimension i) (fun x => vget rv (L.global_index i x) -
          ∑ j in Finset.range i, vget ((B i j).multiply (Z j)) x)) := by
  obtain ⟨R, Z, hrun, hZ⟩ := BlockTriangularPreconditioner.solve_sweep env w self L.nblock_types
    ps D kind M B hD hO hobj _ _ _ _ _ (sweep_order_lower L.nblock_types)
    (fun p q hqp hp => hop _ _ hqp hp) fuel hfuel L.block_dimension
    (fun i x => vget rv (L.global_index i x))
  refine ⟨Z, ?_, fun i hi => hZ i hi⟩
  simp only [BlockTriangularPreconditioner.solve_blocks, BlockPreconditioner.nblock_types, hL,
    hU, Bool.false_eq_true, if_false, stop_lower _ hN, BlockPreconditioner.get_block_vectors,
    BlockPreconditioner.lookup, bind_ok]
  unfold BlockLookup.get_block_vectors
  rw [hrun]
  rfl

/-! ### Claims on the block triangular preconditioner -/

theorem BlockTriangularPreconditioner.triangular_ctor_sound {K : Type} (w : World K) :
    (BlockTriangularPreconditioner.ctor : BlockTriangularPreconditioner K).Sound w := by
  refine ⟨?_, rfl, rfl, ?_⟩
  · intro i hi
    simp [BlockTriangularPreconditioner.ctor] at hi
  · intro i j hi
    simp [BlockTriangularPreconditioner.ctor] at hi

theorem BlockTriangularPreconditioner.lower_sound {K : Type} (w : World K) :
    (BlockTriangularPreconditioner.ctor.lower_triangular :
      BlockTriangularPreconditioner K).Sound w := by
  refine ⟨?_, rfl, rfl, ?_⟩
  · intro i hi
    simp [BlockTriangularPreconditioner.ctor, BlockTriangularPreconditioner.lower_triangular] at hi
  · intro i j hi
    simp [BlockTriangularPreconditioner.ctor, BlockTriangularPreconditioner.lower_triangular] at hi

/-- After `setup` on a matrix `A`, from any sound state, `preconditioner_solve`
returns the vector assembled from block vectors `Z i` that satisfy the block
substitution equations of the mode in use, with the blocks of `A` as
operators and the subsidiary solves as `P_i`. -/
theorem BlockTriangularPreconditioner.setup_then_solve {K : Type} [CommRing K] (env : Env K)
    (w : World K) (self : BlockTriangularPreconditioner K) (problem_pt : ℕ)
    (A : CRDoubleMatrix K) (kind : ℕ → PrecKind) (r zs : List K) (fuel : ℕ)
    (hsound : self.Sound w)
    (hN : (self.toGeneralPurposeBlockPreconditioner.scheme env A).nblock_types < 2147483648)
    (hfuel : (self.toGeneralPurposeBlockPreconditioner.scheme env A).nblock_types ≤ fuel)
    (hzs : zs.length = (self.toGeneralPurposeBlockPreconditioner.scheme env A).nrow)
    (hkind : ∀ i, i < (self.toGeneralPurposeBlockPreconditioner.scheme env A).nblock_types →
      created_kind self.Subsidiary_preconditioner_function_pt (w.factory_calls + i) =
        some (kind i)) :
    ∃ (w1 : World K) (self1 : BlockTriangularPreconditioner K) (Z : ℕ → List K),
      self.setup env w problem_pt (some (DoubleMatrixBase.block_capable A)) =
        Except.ok (w1, self1) ∧
      self1.preconditioner_solve env w1 fuel (DoubleVector.built r) (DoubleVector.built zs) =
        Except.ok (DoubleVector.built
          ((self.toGeneralPurposeBlockPreconditioner.scheme env A).return_block_vectors
            (vec (self.toGeneralPurposeBlockPreconditioner.scheme env A).nblock_types Z) zs)) ∧
      (self.Upper_triangular = true →
        ∀ i, i < (self.toGeneralPurposeBlockPreconditioner.scheme env A).nblock_types →
          Z i = env.solve (kind i)
            ((self.toGeneralPurposeBlockPreconditioner.scheme env A).block A i i)
            (vec ((self.toGeneralPurposeBlockPreconditioner.scheme env A).block_dimension i)
              (fun x =>
                vget r ((self.toGeneralPurposeBlockPreconditioner.scheme env A).global_index i x) -
                ∑ j in Finset.Ioo i
                    (self.toGeneralPurposeBlockPreconditioner.scheme env A).nblock_types,
                  vget (((self.toGeneralPurposeBlockPreconditioner.scheme env A).block A i j).multiply
                    (Z j)) x))) ∧
      (self.Upper_triangular = false →
        ∀ i, i < (self.toGeneralPurposeBlockPreconditioner.scheme env A).nblock_types →
          Z i = env.solve (kind i)
            ((self.toGeneralPurposeBlockPreconditioner.scheme env A).block A i i)
            (vec ((self.toGeneralPurposeBlockPreconditioner.scheme env A).block_dimension i)
              (fun x =>
                vget r ((self.toGeneralPurposeBlockPreconditioner.scheme env A).global_index i x) -
                ∑ j in Finset.range i,
                  vget (((self.toGeneralPurposeBlockPreconditioner.scheme env A).block A i j).multiply
                    (Z j)) x))) := by
  obtain ⟨hown, hN1, hM1, hops⟩ := hsound
  have hD := (vec_eq_self self.Diagonal_block_preconditioner_pt 0).symm
  have hO : self.Off_diagonal_matrix_vector_products =
      ⟨self.Diagonal_block_preconditioner_pt.length, self.Diagonal_block_preconditioner_pt.length,
        self.Off_diagonal_matrix_vector_products.data⟩ := by
    cases hd : self.Off_diagonal_matrix_vector_products with
    | mk N0 M0 data0 =>
      rw [hd] at hN1 hM1
      simp only at hN1 hM1
      subst hN1
      rw [← hM1]
  obtain ⟨w1, self1, D1, hset, hL1, -, hU1, hD1, hO1, -, -, -, hobj, -, -, -, hbuilt, -⟩ :=
    self.triangular_setup_spec env w problem_pt A _ _ _ kind hD hO hown hops hkind
  set L := self.toGeneralPurposeBlockPreconditioner.scheme env A with hLdef
  have hside : ∀ i j, i < L.nblock_types → first_column self.Upper_triangular i ≤ j →
      j < end_column self.Upper_triangular L.nblock_types i →
      w1.matrix_vector_products.obj (D1 i j) = some ⟨some (L.block A i j)⟩ := by
    intro i j hi h1 h2
    exact (hbuilt i j ⟨hi, h1, h2, Or.inl hi⟩).2.2.1
  cases hU : self.Upper_triangular
  · -- lower mode
    obtain ⟨Z, hrun, hZ⟩ := BlockTriangularPreconditioner.solve_blocks_lower env w1 self1 L _ D1
      kind _ (L.block A) r fuel hL1 hN (by rw [hU1, hU]) hD1 hO1 hobj
      (fun i j hji hi => hside i j hi (by simp [first_column, hU])
        (by simp [end_column, hU]; exact hji)) hfuel
    refine ⟨w1, self1, Z, hset, ?_, fun h => by simp at h, fun _ => hZ⟩
    simp only [BlockTriangularPreconditioner.preconditioner_solve, hrun, bind_ok,
      BlockPreconditioner.return_block_vectors, BlockPreconditioner.lookup, hL1, hzs, if_true]
  · -- upper mode
    obtain ⟨Z, hrun, hZ⟩ := BlockTriangularPreconditioner.solve_blocks_upper env w1 self1 L _ D1
      kind _ (L.block A) r fuel hL1 hN (by rw [hU1, hU]) hD1 hO1 hobj
      (fun i j hij hj => hside i j (by omega) (by simp [first_column, hU]; omega)
        (by simp [end_column, hU]; exact hj)) hfuel
    refine ⟨w1, self1, Z, hset, ?_, fun _ => hZ, fun h => by simp at h⟩
    simp only [BlockTriangularPreconditioner.preconditioner_solve, hrun, bind_ok,
      BlockPreconditioner.return_block_vectors, BlockPreconditioner.lookup, hL1, hzs, if_true]

theorem sum_range_split {M : Type} [AddCommMonoid M] (N i : ℕ) (hi : i < N) (F : ℕ → M) :
    ∑ j in Finset.range N, F j =
      ∑ j in Finset.range i, F j + F i + ∑ j in Finset.Ioo i N, F j := by
  rw [← Finset.sum_range_succ, ← Nat.Ico_succ_left,
    Finset.sum_range_add_sum_Ico _ (by omega : i + 1 ≤ N)]

/-- Block back substitution solves a block upper triangular system whose
diagonal solves are exact. -/
theorem upper_rows {K : Type} [CommRing K] (N : ℕ) (dim : ℕ → ℕ)
    (blk : ℕ → ℕ → CRDoubleMatrix K) (P : ℕ → List K → List K) (ρ : ℕ → ℕ → K)
    (Z : ℕ → List K)
    (hzero : ∀ i j, j < i → i < N → ∀ k l, k < dim i → l < (blk i j).ncol →
      (blk i j).entry k l = 0)
    (hexact : ∀ i, i < N → ∀ b : List K, b.length = dim i → (blk i i).multiply (P i b) = b)
    (hZ : ∀ i, i < N → Z i = P i (vec (dim i) (fun x => ρ i x -
      ∑ j in Finset.Ioo i N, vget ((blk i j).multiply (Z j)) x))) :
    ∀ i, i < N → ∀ k, k < dim i →
      ∑ j in Finset.range N, vget ((blk i j).multiply (Z j)) k = ρ i k := by
  intro i hi k hk
  rw [sum_range_split N i hi]
  have h0 : ∑ j in Finset.range i, vget ((blk i j).multiply (Z j)) k = 0 := by
    apply Finset.sum_eq_zero
    intro j hj
    exact CRDoubleMatrix.vget_multiply_zero _ _ _
      (fun l hl => hzero i j (Finset.mem_range.mp hj) hi k l hk hl)
  have h1 : vget ((blk i i).multiply (Z i)) k =
      ρ i k - ∑ j in Finset.Ioo i N, vget ((blk i j).multiply (Z j)) k := by
    conv_lhs => rw [hZ i hi]
    rw [hexact i hi _ (vec_length _ _), vget_vec, if_pos hk]
  rw [h0, h1]
  ring

/-- Block forward substitution solves a block lower triangular system whose
diagonal solves are exact. -/
theorem lower_rows {K : Type} [CommRing K] (N : ℕ) (dim : ℕ → ℕ)
    (blk : ℕ → ℕ → CRDoubleMatrix K) (P : ℕ → List K → List K) (ρ : ℕ → ℕ → K)
    (Z : ℕ → List K)
    (hzero : ∀ i j, i < j → j < N → ∀ k l, k < dim i → l < (blk i j).ncol →
      (blk i j).entry k l = 0)
    (hexact : ∀ i, i < N → ∀ b : List K, b.length = dim i → (blk i i).multiply (P i b) = b)
    (hZ : ∀ i, i < N → Z i = P i (vec (dim i) (fun x => ρ i x -
      ∑ j in Finset.range i, vget ((blk i j).multiply (Z j)) x))) :
    ∀ i, i < N → ∀ k, k < dim i →
      ∑ j in Finset.range N, vget ((blk i j).multiply (Z j)) k = ρ i k := by
  intro i hi k hk
  rw [sum_range_split N i hi]
  have h0 : ∑ j in Finset.Ioo i N, vget ((blk i j).multiply (Z j)) k = 0 := by
    apply Finset.sum_eq_zero
    intro j hj
    have := Finset.mem_Ioo.mp hj
    exact CRDoubleMatrix.vget_multiply_zero _ _ _
      (fun l hl => hzero i j this.1 this.2 k l hk hl)
  have h1 : vget ((blk i i).multiply (Z i)) k =
      ρ i k - ∑ j in Finset.range i, vget ((blk i j).multiply (Z j)) k := by
    conv_lhs => rw [hZ i hi]
    rw [hexact i hi _ (vec_length _ _), vget_vec, if_pos hk]
  rw [h0, h1]
  ring

theorem CRDoubleMatrix.multiply_congr {K : Type} [CommRing K] (m : CRDoubleMatrix K)
    (x y : List K) (h : ∀ l, l < m.ncol → vget x l = vget y l) : m.multiply x = m.multiply y := by
  unfold CRDoubleMatrix.multiply
  apply vec_congr
  intro k _
  apply Finset.sum_congr rfl
  intro l hl
  rw [h l (Finset.mem_range.mp hl)]

/-- The blocks of an assembled vector are the block vectors it was assembled
from, as far as a block of the matrix can see. -/
theorem BlockLookup.multiply_block_of_return {K : Type} [CommRing K] (L : BlockLookup)
    (hL : L.Valid) (A : CRDoubleMatrix K) (Z : ℕ → List K) (zs : List K)
    (hzs : zs.length = L.nrow) (i j : ℕ) (hj : j < L.nblock_types) :
    (L.block A i j).multiply
        ((L.get_block_vectors (L.return_block_vectors (vec L.nblock_types Z) zs)).getD j []) =
      (L.block A i j).multiply (Z j) := by
  apply CRDoubleMatrix.multiply_congr
  intro l hl
  have hl : l < L.block_dimension j := hl
  rw [L.get_block_vectors_getD _ j hj, vget_vec, if_pos hl,
    L.vget_return_block_vectors hL _ zs hzs j l hj hl, vec_getD, if_pos hj]

/-! ### Exactness on block triangular matrices -/

/-- C1. Upper mode: if every block of `A` strictly below the diagonal is zero and
the solve of the `i`-th subsidiary preconditioner inverts the diagonal block
`(i,i)`, then `setup(A)` succeeds and one `preconditioner_solve(r, z)`
returns a `z` with `A z = r`, for the full system and block row by block row. -/
theorem BlockTriangularPreconditioner.exact_on_upper_triangular {K : Type} [CommRing K]
    (env : Env K) (w : World K) (self : BlockTriangularPreconditioner K) (problem_pt : ℕ)
    (A : CRDoubleMatrix K) (kind : ℕ → PrecKind) (r zs : List K) (fuel : ℕ)
    (hsound : self.Sound w)
    (hmode : self.Upper_triangular = true)
    (hvalid : (self.toGeneralPurposeBlockPreconditioner.scheme env A).Valid)
    (hrow : A.nrow = (self.toGeneralPurposeBlockPreconditioner.scheme env A).nrow)
    (hcol : A.ncol = (self.toGeneralPurposeBlockPreconditioner.scheme env A).nrow)
    (hr : r.length = (self.toGeneralPurposeBlockPreconditioner.scheme env A).nrow)
    (hzs : zs.length = (self.toGeneralPurposeBlockPreconditioner.scheme env A).nrow)
    (hN : (self.toGeneralPurposeBlockPreconditioner.scheme env A).nblock_types < 2147483648)
    (hfuel : (self.toGeneralPurposeBlockPreconditioner.scheme env A).nblock_types ≤ fuel)
    (hkind : ∀ i, i < (self.toGeneralPurposeBlockPreconditioner.scheme env A).nblock_types →
      created_kind self.Subsidiary_preconditioner_function_pt (w.factory_calls + i) =
        some (kind i))
    (hlower : ∀ i j, j < i → i < (self.toGeneralPurposeBlockPreconditioner.scheme env A).nblock_types →
      ∀ k l, k < (self.toGeneralPurposeBlockPreconditioner.scheme env A).block_dimension i →
        l < (self.toGeneralPurposeBlockPreconditioner.scheme env A).block_dimension j →
        ((self.toGeneralPurposeBlockPreconditioner.scheme env A).block A i j).entry k l = 0)
    (hexact : ∀ i, i < (self.toGeneralPurposeBlockPreconditioner.scheme env A).nblock_types →
      ∀ b : List K,
        b.length = (self.toGeneralPurposeBlockPreconditioner.scheme env A).block_dimension i →
        ((self.toGeneralPurposeBlockPreconditioner.scheme env A).block A i i).multiply
          (env.solve (kind i)
            ((self.toGeneralPurposeBlockPreconditioner.scheme env A).block A i i) b) = b) :
    ∃ (w1 : World K) (self1 : BlockTriangularPreconditioner K) (zv : List K),
      self.setup env w problem_pt (some (DoubleMatrixBase.block_capable A)) =
        Except.ok (w1, self1) ∧
      self1.preconditioner_solve env w1 fuel (DoubleVector.built r) (DoubleVector.built zs) =
        Except.ok (DoubleVector.built zv) ∧
      A.multiply zv = r ∧
      ∀ i, i < (self.toGeneralPurposeBlockPreconditioner.scheme env A).nblock_types →
        ∀ k, k < (self.toGeneralPurposeBlockPreconditioner.scheme env A).block_dimension i →
          ∑ j in Finset.range (self.toGeneralPurposeBlockPreconditioner.scheme env A).nblock_types,
            vget (((self.toGeneralPurposeBlockPreconditioner.scheme env A).block A i j).multiply
              (((self.toGeneralPurposeBlockPreconditioner.scheme env A).get_block_vectors zv).getD j [])) k =
          vget (((self.toGeneralPurposeBlockPreconditioner.scheme env A).get_block_vectors r).getD i []) k := by
  obtain ⟨w1, self1, Z, hset, hsolve, hup, hlow⟩ :=
    BlockTriangularPreconditioner.setup_then_solve env w self problem_pt A kind r zs fuel hsound
      hN hfuel hzs hkind
  set L := self.toGeneralPurposeBlockPreconditioner.scheme env A with hLdef
  have hrows := upper_rows L.nblock_types L.block_dimension (L.block A)
    (fun i => env.solve (kind i) (L.block A i i)) (fun i x => vget r (L.global_index i x)) Z
    hlower hexact (hup hmode)
  refine ⟨w1, self1, _, hset, hsolve, ?_, ?_⟩
  · apply L.multiply_of_block_rows hvalid A hrow hcol _ zs r hzs hr
    intro i hi k hk
    have e := hrows i hi k hk
    dsimp only at e
    rw [← e]
    apply Finset.sum_congr rfl
    intro j hj
    rw [vec_getD, if_pos (Finset.mem_range.mp hj)]
  · intro i hi k hk
    have e := hrows i hi k hk
    dsimp only at e
    rw [L.get_block_vectors_getD r i hi, vget_vec, if_pos hk, ← e]
    apply Finset.sum_congr rfl
    intro j hj
    rw [L.multiply_block_of_return hvalid A Z zs hzs i j (Finset.mem_range.mp hj)]

/-- C2. Lower mode (after `lower_triangular()`): if every block of `A` strictly
above the diagonal is zero and the solve of the `i`-th subsidiary
preconditioner inverts the diagonal block `(i,i)`, then `setup(A)` succeeds
and one `preconditioner_solve(r, z)` returns a `z` with `A z = r`, for the
full system and block row by block row. -/
theorem BlockTriangularPreconditioner.exact_on_lower_triangular {K : Type} [CommRing K]
    (env : Env K) (w : World K) (self : BlockTriangularPreconditioner K) (problem_pt : ℕ)
    (A : CRDoubleMatrix K) (kind : ℕ → PrecKind) (r zs : List K) (fuel : ℕ)
    (hsound : self.Sound w)
    (hmode : self.Upper_triangular = false)
    (hvalid : (self.toGeneralPurposeBlockPreconditioner.scheme env A).Valid)
    (hrow : A.nrow = (self.toGeneralPurposeBlockPreconditioner.scheme env A).nrow)
    (hcol : A.ncol = (self.toGeneralPurposeBlockPreconditioner.scheme env A).nrow)
    (hr : r.length = (self.toGeneralPurposeBlockPreconditioner.scheme env A).nrow)
    (hzs : zs.length = (self.toGeneralPurposeBlockPreconditioner.scheme env A).nrow)
    (hN : (self.toGeneralPurposeBlockPreconditioner.scheme env A).nblock_types < 2147483648)
    (hfuel : (self.toGeneralPurposeBlockPreconditioner.scheme env A).nblock_types ≤ fuel)
    (hkind : ∀ i, i < (self.toGeneralPurposeBlockPreconditioner.scheme env A).nblock_types →
      created_kind self.Subsidiary_preconditioner_function_pt (w.factory_calls + i) =
        some (kind i))
    (hupper : ∀ i j, i < j → j < (self.toGeneralPurposeBlockPreconditioner.scheme env A).nblock_types →
      ∀ k l, k < (self.toGeneralPurposeBlockPreconditioner.scheme env A).block_dimension i →
        l < (self.toGeneralPurposeBlockPreconditioner.scheme env A).block_dimension j →
        ((self.toGeneralPurposeBlockPreconditioner.scheme env A).block A i j).entry k l = 0)
    (hexact : ∀ i, i < (self.toGeneralPurposeBlockPreconditioner.scheme env A).nblock_types →
      ∀ b : List K,
        b.length = (self.toGeneralPurposeBlockPreconditioner.scheme env A).block_dimension i →
        ((self.toGeneralPurposeBlockPreconditioner.scheme env A).block A i i).multiply
          (env.solve (kind i)
            ((self.toGeneralPurposeBlockPreconditioner.scheme env A).block A i i) b) = b) :
    ∃ (w1 : World K) (self1 : BlockTriangularPreconditioner K) (zv : List K),
      self.setup env w problem_pt (some (DoubleMatrixBase.block_capable A)) =
        Except.ok (w1, self1) ∧
      self1.preconditioner_solve env w1 fuel (DoubleVector.built r) (DoubleVector.built zs) =
        Except.ok (DoubleVector.built zv) ∧
      A.multiply zv = r ∧
      ∀ i, i < (self.toGeneralPurposeBlockPreconditioner.scheme env A).nblock_types →
        ∀ k, k < (self.toGeneralPurposeBlockPreconditioner.scheme env A).block_dimension i →
          ∑ j in Finset.range (self.toGeneralPurposeBlockPreconditioner.scheme env A).nblock_types,
            vget (((self.toGeneralPurposeBlockPreconditioner.scheme env A).block A i j).multiply
              (((self.toGeneralPurposeBlockPreconditioner.scheme env A).get_block_vectors zv).getD j [])) k =
          vget (((self.toGeneralPurposeBlockPreconditioner.scheme env A).get_block_vectors r).getD i []) k := by
  obtain ⟨w1, self1, Z, hset, hsolve, hup, hlow⟩ :=
    BlockTriangularPreconditioner.setup_then_solve env w self problem_pt A kind r zs fuel hsound
      hN hfuel hzs hkind
  set L := self.toGeneralPurposeBlockPreconditioner.scheme env A with hLdef
  have hrows := lower_rows L.nblock_types L.block_dimension (L.block A)
    (fun i => env.solve (kind i) (L.block A i i)) (fun i x => vget r (L.global_index i x)) Z
    hupper hexact (hlow hmode)
  refine ⟨w1, self1, _, hset, hsolve, ?_, ?_⟩
  · apply L.multiply_of_block_rows hvalid A hrow hcol _ zs r hzs hr
    intro i hi k hk
    have e := hrows i hi k hk
    dsimp only at e
    rw [← e]
    apply Finset.sum_congr rfl
    intro j hj
    rw [vec_getD, if_pos (Finset.mem_range.mp hj)]
  · intro i hi k hk
    have e := hrows i hi k hk
    dsimp only at e
    rw [L.get_block_vectors_getD r i hi, vget_vec, if_pos hk, ← e]
    apply Finset.sum_congr rfl
    intro j hj
    rw [L.multiply_block_of_return hvalid A Z zs hzs i j (Finset.mem_range.mp hj)]

/-- C1 at a concrete input: an upper triangular matrix with coupling on the
two-block scheme and the residual `[8, 10]`. -/
theorem BlockTriangularPreconditioner.exact_on_upper_triangular_witness :
    ∃ (w1 : World ℤ) (self1 : BlockTriangularPreconditioner ℤ) (zv : List ℤ),
      BlockTriangularPreconditioner.ctor.setup paranoid_env World.empty 0
          (some (DoubleMatrixBase.block_capable upper_matrix)) = Except.ok (w1, self1) ∧
      self1.preconditioner_solve paranoid_env w1 2 (DoubleVector.built [8, 10])
          (DoubleVector.built [0, 0]) = Except.ok (DoubleVector.built zv) ∧
      upper_matrix.multiply zv = [8, 10] ∧
      ∀ i, i < 2 → ∀ k, k < 1 →
        ∑ j in Finset.range 2,
          vget ((two_blocks.block upper_matrix i j).multiply
            ((two_blocks.get_block_vectors zv).getD j [])) k =
        vget ((two_blocks.get_block_vectors [8, 10]).getD i []) k :=
  BlockTriangularPreconditioner.exact_on_upper_triangular paranoid_env World.empty
    BlockTriangularPreconditioner.ctor 0 upper_matrix (fun _ => PrecKind.SuperLUPreconditioner)
    [8, 10] [0, 0] 2 (BlockTriangularPreconditioner.triangular_ctor_sound _) rfl (by decide) rfl rfl rfl rfl
    (by decide) (le_refl 2) (fun _ _ => rfl)
    (fun i j hji hi k l hk hl => by
      have hi2 : i < 2 := hi
      have hk2 : k < 1 := hk
      have hl2 : l < 1 := hl
      interval_cases i <;> interval_cases j
      simp_all [BlockLookup.block, upper_matrix,
        GeneralPurposeBlockPreconditioner.scheme, paranoid_env, two_blocks])
    (fun i hi b hb => by
      have hi2 : i < 2 := hi
      interval_cases i
      · exact unit_block_exact _ rfl rfl rfl b hb
      · exact unit_block_exact _ rfl rfl rfl b hb)

/-- C2 at a concrete input: a lower triangular matrix with coupling on the
two-block scheme and the residual `[8, 10]`. -/
theorem BlockTriangularPreconditioner.exact_on_lower_triangular_witness :
    ∃ (w1 : World ℤ) (self1 : BlockTriangularPreconditioner ℤ) (zv : List ℤ),
      BlockTriangularPreconditioner.ctor.lower_triangular.setup paranoid_env World.empty 0
          (some (DoubleMatrixBase.block_capable lower_matrix)) = Except.ok (w1, self1) ∧
      self1.preconditioner_solve paranoid_env w1 2 (DoubleVector.built [8, 10])
          (DoubleVector.built [0, 0]) = Except.ok (DoubleVector.built zv) ∧
      lower_matrix.multiply zv = [8, 10] ∧
      ∀ i, i < 2 → ∀ k, k < 1 →
        ∑ j in Finset.range 2,
          vget ((two_blocks.block lower_matrix i j).multiply
            ((two_blocks.get_block_vectors zv).getD j [])) k =
        vget ((two_blocks.get_block_vectors [8, 10]).getD i []) k :=
  BlockTriangularPreconditioner.exact_on_lower_triangular paranoid_env World.empty
    BlockTriangularPreconditioner.ctor.lower_triangular 0 lower_matrix
    (fun _ => PrecKind.SuperLUPreconditioner)
    [8, 10] [0, 0] 2 (BlockTriangularPreconditioner.lower_sound _) rfl (by decide) rfl rfl rfl rfl
    (by decide) (le_refl 2) (fun _ _ => rfl)
    (fun i j hij hj k l hk hl => by
      have hj2 : j < 2 := hj
      have hk2 : k < 1 := hk
      have hl2 : l < 1 := hl
      interval_cases j <;> interval_cases i
      simp_all [BlockLookup.block, lower_matrix,
        GeneralPurposeBlockPreconditioner.scheme, paranoid_env, two_blocks])
    (fun i hi b hb => by
      have hi2 : i < 2 := hi
      interval_cases i
      · exact unit_block_exact _ rfl rfl rfl b hb
      · exact unit_block_exact _ rfl rfl rfl b hb)


/-! ### Block substitution -/

/-- C5. `BlockTriangularPreconditioner::preconditioner_solve` is block
substitution. After `setup(A)`, with arbitrary subsidiary solves
`P_i = env.solve (kind i) A(i,i)` and the blocks `A(i,j)` of an arbitrary
matrix as operators, the call returns the vector assembled from block vectors
`Z i` with `Z i = P_i(r_i - Σ_(j>i) A(i,j) Z j)` in upper mode and
`Z i = P_i(r_i - Σ_(j<i) A(i,j) Z j)` in lower mode. For three blocks in
upper mode `Z 2 = P_2(r_2)`, `Z 1 = P_1(r_1 - A(1,2) Z 2)` and
`Z 0 = P_0((r_0 - A(0,2) Z 2) - A(0,1) Z 1)`. -/
theorem BlockTriangularPreconditioner.solve_is_block_substitution {K : Type} [CommRing K]
    (env : Env K) (w : World K) (self : BlockTriangularPreconditioner K) (problem_pt : ℕ)
    (A : CRDoubleMatrix K) (kind : ℕ → PrecKind) (r zs : List K) (fuel : ℕ)
    (hsound : self.Sound w)
    (hN : (self.toGeneralPurposeBlockPreconditioner.scheme env A).nblock_types < 2147483648)
    (hfuel : (self.toGeneralPurposeBlockPreconditioner.scheme env A).nblock_types ≤ fuel)
    (hzs : zs.length = (self.toGeneralPurposeBlockPreconditioner.scheme env A).nrow)
    (hkind : ∀ i, i < (self.toGeneralPurposeBlockPreconditioner.scheme env A).nblock_types →
      created_kind self.Subsidiary_preconditioner_function_pt (w.factory_calls + i) =
        some (kind i)) :
    ∃ (w1 : World K) (self1 : BlockTriangularPreconditioner K) (Z : ℕ → List K),
      self.setup env w problem_pt (some (DoubleMatrixBase.block_capable A)) =
        Except.ok (w1, self1) ∧
      self1.preconditioner_solve env w1 fuel (DoubleVector.built r) (DoubleVector.built zs) =
        Except.ok (DoubleVector.built
          ((self.toGeneralPurposeBlockPreconditioner.scheme env A).return_block_vectors
            (vec (self.toGeneralPurposeBlockPreconditioner.scheme env A).nblock_types Z) zs)) ∧
      (self.Upper_triangular = true →
        ∀ i, i < (self.toGeneralPurposeBlockPreconditioner.scheme env A).nblock_types →
          Z i = env.solve (kind i)
            ((self.toGeneralPurposeBlockPreconditioner.scheme env A).block A i i)
            (vec ((self.toGeneralPurposeBlockPreconditioner.scheme env A).block_dimension i)
              (fun x =>
                vget r ((self.toGeneralPurposeBlockPreconditioner.scheme env A).global_index i x) -
                ∑ j in Finset.Ioo i
                    (self.toGeneralPurposeBlockPreconditioner.scheme env A).nblock_types,
                  vget (((self.toGeneralPurposeBlockPreconditioner.scheme env A).block A i j).multiply
                    (Z j)) x))) ∧
      (self.Upper_triangular = false →
        ∀ i, i < (self.toGeneralPurposeBlockPreconditioner.scheme env A).nblock_types →
          Z i = env.solve (kind i)
            ((self.toGeneralPurposeBlockPreconditioner.scheme env A).block A i i)
            (vec ((self.toGeneralPurposeBlockPreconditioner.scheme env A).block_dimension i)
              (fun x =>
                vget r ((self.toGeneralPurposeBlockPreconditioner.scheme env A).global_index i x) -
                ∑ j in Finset.range i,
                  vget (((self.toGeneralPurposeBlockPreconditioner.scheme env A).block A i j).multiply
                    (Z j)) x))) ∧
      (self.Upper_triangular = true →
        (self.toGeneralPurposeBlockPreconditioner.scheme env A).nblock_types = 3 →
        Z 2 = env.solve (kind 2) ((self.toGeneralPurposeBlockPreconditioner.scheme env A).block A 2 2)
          (((self.toGeneralPurposeBlockPreconditioner.scheme env A).get_block_vectors r).getD 2 []) ∧
        Z 1 = env.solve (kind 1) ((self.toGeneralPurposeBlockPreconditioner.scheme env A).block A 1 1)
          (vsub (((self.toGeneralPurposeBlockPreconditioner.scheme env A).get_block_vectors r).getD 1 [])
            (((self.toGeneralPurposeBlockPreconditioner.scheme env A).block A 1 2).multiply (Z 2))) ∧
        Z 0 = env.solve (kind 0) ((self.toGeneralPurposeBlockPreconditioner.scheme env A).block A 0 0)
          (vsub (vsub (((self.toGeneralPurposeBlockPreconditioner.scheme env A).get_block_vectors r).getD 0 [])
            (((self.toGeneralPurposeBlockPreconditioner.scheme env A).block A 0 2).multiply (Z 2)))
            (((self.toGeneralPurposeBlockPreconditioner.scheme env A).block A 0 1).multiply (Z 1)))) := by
  obtain ⟨w1, self1, Z, hset, hsolve, hup, hlow⟩ :=
    BlockTriangularPreconditioner.setup_then_solve env w self problem_pt A kind r zs fuel hsound
      hN hfuel hzs hkind
  refine ⟨w1, self1, Z, hset, hsolve, hup, hlow, ?_⟩
  intro hU h3
  have hZ := hup hU
  set L := self.toGeneralPurposeBlockPreconditioner.scheme env A with hLdef
  have e2 : Finset.Ioo 2 3 = ∅ := by decide
  have e1 : Finset.Ioo 1 3 = {2} := by decide
  have e0 : Finset.Ioo 0 3 = {1, 2} := by decide
  refine ⟨?_, ?_, ?_⟩
  · rw [hZ 2 (by omega), h3, e2, L.get_block_vectors_getD r 2 (by omega)]
    simp
  · rw [hZ 1 (by omega), h3, e1, L.get_block_vectors_getD r 1 (by omega), vsub_vec]
    simp
  · rw [hZ 0 (by omega), h3, e0, L.get_block_vectors_getD r 0 (by omega), vsub_vec, vsub_vec]
    congr 1
    apply vec_congr
    intro x _
    rw [Finset.sum_pair (by decide)]
    ring

/-- C5 at a concrete input: three blocks in upper mode with the couplings
`A(0,1) = 2`, `A(0,2) = 4`, `A(1,2) = 5`, unit diagonal blocks, identity
solves and the residual `[20, 13, 2]`; back substitution by hand gives
`z_2 = 2`, `z_1 = 13 - 5 * 2 = 3`, `z_0 = 20 - 4 * 2 - 2 * 3 = 6`. -/
theorem BlockTriangularPreconditioner.solve_is_block_substitution_witness :
    (∃ (w1 : World ℤ) (self1 : BlockTriangularPreconditioner ℤ) (Z : ℕ → List ℤ),
      BlockTriangularPreconditioner.ctor.setup three_env World.empty 0
          (some (DoubleMatrixBase.block_capable upper_matrix3)) = Except.ok (w1, self1) ∧
      self1.preconditioner_solve three_env w1 3 (DoubleVector.built [20, 13, 2])
          (DoubleVector.built [0, 0, 0]) =
        Except.ok (DoubleVector.built (three_blocks.return_block_vectors (vec 3 Z) [0, 0, 0])) ∧
      (true = true → ∀ i, i < 3 →
        Z i = vec 1 (fun x => vget [20, 13, 2] (three_blocks.global_index i x) -
          ∑ j in Finset.Ioo i 3, vget ((three_blocks.block upper_matrix3 i j).multiply (Z j)) x)) ∧
      (true = false → ∀ i, i < 3 →
        Z i = vec 1 (fun x => vget [20, 13, 2] (three_blocks.global_index i x) -
          ∑ j in Finset.range i, vget ((three_blocks.block upper_matrix3 i j).multiply (Z j)) x)) ∧
      (true = true → 3 = 3 →
        Z 2 = (three_blocks.get_block_vectors [20, 13, 2]).getD 2 [] ∧
        Z 1 = vsub ((three_blocks.get_block_vectors [20, 13, 2]).getD 1 [])
          ((three_blocks.block upper_matrix3 1 2).multiply (Z 2)) ∧
        Z 0 = vsub (vsub ((three_blocks.get_block_vectors [20, 13, 2]).getD 0 [])
          ((three_blocks.block upper_matrix3 0 2).multiply (Z 2)))
          ((three_blocks.block upper_matrix3 0 1).multiply (Z 1)))) ∧
    (match BlockTriangularPreconditioner.ctor.setup three_env World.empty 0
        (some (DoubleMatrixBase.block_capable upper_matrix3)) with
      | Except.ok st => st.2.preconditioner_solve three_env st.1 3 (DoubleVector.built [20, 13, 2])
          (DoubleVector.built [0, 0, 0])
      | Except.error e => Except.error e) = Except.ok (DoubleVector.built [6, 3, 2]) :=
  ⟨BlockTriangularPreconditioner.solve_is_block_substitution three_env World.empty
    BlockTriangularPreconditioner.ctor 0 upper_matrix3 (fun _ => PrecKind.SuperLUPreconditioner)
    [20, 13, 2] [0, 0, 0] 3 (BlockTriangularPreconditioner.triangular_ctor_sound _) (by decide) (le_refl 3)
    rfl (fun _ _ => rfl), rfl⟩


/-! ### The matrix-type check at the entry of `setup` -/

/-- C10, counterexample: compiled without `PARANOID`, the `setup` of each of
the four strategies (Dummy, BlockDiagonal, BlockTriangular, Exact) does not
throw the error of the matrix-type check for a matrix that is not
block-capable: the conversion gives the null pointer and `setup` goes on to
`block_setup` with it. -/
theorem setup_skips_matrix_check_without_paranoid :
    plain_env.PARANOID = false ∧
    dynamic_cast_MATRIX dense_matrix = none ∧
    DummyBlockPreconditioner.ctor.setup plain_env World.empty 0 dense_matrix =
      (match DummyBlockPreconditioner.ctor.toGeneralPurposeBlockPreconditioner.block_setup
          plain_env World.empty none with
       | Except.ok _ => Except.error cast_error
       | Except.error e => Except.error e) ∧
    DummyBlockPreconditioner.ctor.setup plain_env World.empty 0 dense_matrix =
      Except.error (Failure.undefined_behaviour "block_setup called with a null matrix pointer") ∧
    BlockDiagonalPreconditioner.ctor.setup plain_env World.empty 0 dense_matrix =
      Except.error (Failure.undefined_behaviour "block_setup called with a null matrix pointer") ∧
    BlockTriangularPreconditioner.ctor.setup plain_env World.empty 0 dense_matrix =
      Except.error (Failure.undefined_behaviour "block_setup called with a null matrix pointer") ∧
    ExactBlockPreconditioner.ctor.setup plain_env World.empty 0 dense_matrix =
      Except.error (Failure.undefined_behaviour "block_setup called with a null matrix pointer") ∧
    Failure.undefined_behaviour "block_setup called with a null matrix pointer" ≠ cast_error :=
  ⟨rfl, rfl, rfl, rfl, rfl, rfl, rfl, by decide⟩

/-- C10, amended: compiled with `PARANOID`, for each of the four strategies
and every matrix argument that cannot be converted to the block-capable matrix
type, `setup` ends in an error and never in a result; the error is the one
with the message "Could not cast matrix_pt to templated type" (Dummy: always;
the other three: whenever the clean-up that precedes the check goes through),
so `block_setup` is not reached with the null conversion result. -/
theorem setup_checks_matrix_type_with_paranoid {K : Type} [Zero K] (env : Env K) (w : World K)
    (problem_pt : ℕ) (matrix_pt : Option (DoubleMatrixBase K))
    (dummy : DummyBlockPreconditioner K) (diagonal : BlockDiagonalPreconditioner K)
    (triangular : BlockTriangularPreconditioner K) (exact : ExactBlockPreconditioner K)
    (hP : env.PARANOID = true) (hm : dynamic_cast_MATRIX matrix_pt = none) :
    dummy.setup env w problem_pt matrix_pt = Except.error cast_error ∧
    (∃ e, diagonal.setup env w problem_pt matrix_pt = Except.error e ∧
      ∀ st, BlockDiagonalPreconditioner.clean_up_memory w diagonal = Except.ok st →
        e = cast_error) ∧
    (∃ e, triangular.setup env w problem_pt matrix_pt = Except.error e ∧
      ∀ st, BlockTriangularPreconditioner.clean_memory w triangular = Except.ok st →
        e = cast_error) ∧
    (∃ e, exact.setup env w problem_pt matrix_pt = Except.error e ∧
      ∀ w0, w.delete_preconditioner exact.Preconditioner_pt = Except.ok w0 →
        e = cast_error) := by
  refine ⟨?_, ?_, ?_, ?_⟩
  · simp [DummyBlockPreconditioner.setup, hP, hm]
  · unfold BlockDiagonalPreconditioner.setup
    cases h : BlockDiagonalPreconditioner.clean_up_memory w diagonal with
    | error e => exact ⟨e, by simp, fun st hst => by cases hst⟩
    | ok st => exact ⟨cast_error, by simp [hP, hm], fun _ _ => rfl⟩
  · unfold BlockTriangularPreconditioner.setup
    cases h : BlockTriangularPreconditioner.clean_memory w triangular with
    | error e => exact ⟨e, by simp, fun st hst => by cases hst⟩
    | ok st => exact ⟨cast_error, by simp [hP, hm], fun _ _ => rfl⟩
  · unfold ExactBlockPreconditioner.setup
    cases h : w.delete_preconditioner exact.Preconditioner_pt with
    | error e => exact ⟨e, by simp, fun st hst => by cases hst⟩
    | ok st => exact ⟨cast_error, by simp [hP, hm], fun _ _ => rfl⟩

/-- C10, witness of the amended statement: the environment compiled with
`PARANOID`, freshly constructed preconditioners and a matrix of a type that is
not block-capable. -/
theorem setup_checks_matrix_type_with_paranoid_witness :
    paranoid_env.PARANOID = true ∧ dynamic_cast_MATRIX dense_matrix = none ∧
    DummyBlockPreconditioner.ctor.setup paranoid_env World.empty 0 dense_matrix =
      Except.error cast_error ∧
    (∃ e, BlockDiagonalPreconditioner.ctor.setup paranoid_env World.empty 0 dense_matrix =
        Except.error e ∧
      ∀ st, BlockDiagonalPreconditioner.clean_up_memory (World.empty : World ℤ)
          BlockDiagonalPreconditioner.ctor = Except.ok st → e = cast_error) ∧
    (∃ e, BlockTriangularPreconditioner.ctor.setup paranoid_env World.empty 0 dense_matrix =
        Except.error e ∧
      ∀ st, BlockTriangularPreconditioner.clean_memory (World.empty : World ℤ)
          BlockTriangularPreconditioner.ctor = Except.ok st → e = cast_error) ∧
    (∃ e, ExactBlockPreconditioner.ctor.setup paranoid_env World.empty 0 dense_matrix =
        Except.error e ∧
      ∀ w0, (World.empty : World ℤ).delete_preconditioner
          (ExactBlockPreconditioner.ctor : ExactBlockPreconditioner ℤ).Preconditioner_pt =
          Except.ok w0 → e = cast_error) :=
  ⟨rfl, rfl, setup_checks_matrix_type_with_paranoid paranoid_env World.empty 0 dense_matrix
    DummyBlockPreconditioner.ctor BlockDiagonalPreconditioner.ctor
    BlockTriangularPreconditioner.ctor ExactBlockPreconditioner.ctor rfl rfl⟩


/-! ### Off-diagonal operators across a change of the triangle -/

/-- C9, failing input: a freshly constructed block triangular preconditioner
is set up (upper triangular, the default) on a matrix with two blocks, then
`lower_triangular()` is called and `setup` is called again on the same matrix.
After the first `setup` one off-diagonal operator is live; after the second
two are live, where `n(n-1)/2 = 1`: the operator of the first `setup` is still
live at its address 1, still held by entry `(0,1)` of the table, next to the new
one held by entry `(1,0)`; the destructor, in lower triangular mode, then
leaves the operator of entry `(0,1)` live. -/
theorem BlockTriangularPreconditioner.operators_leak_after_switch :
    (match BlockTriangularPreconditioner.ctor.setup paranoid_env World.empty 0
        (some (DoubleMatrixBase.block_capable upper_matrix)) with
     | Except.ok st1 =>
       match st1.2.lower_triangular.setup paranoid_env st1.1 0
          (some (DoubleMatrixBase.block_capable upper_matrix)) with
       | Except.ok st2 =>
         match BlockTriangularPreconditioner.destructor st2.1 st2.2 with
         | Except.ok st3 =>
           some (st1.1.matrix_vector_products.live,
                 st1.2.Off_diagonal_matrix_vector_products.data 0 1,
                 st2.1.matrix_vector_products.live,
                 (st2.1.matrix_vector_products.obj 1).isSome,
                 st2.2.Off_diagonal_matrix_vector_products.data 0 1,
                 st2.2.Off_diagonal_matrix_vector_products.data 1 0,
                 st3.1.matrix_vector_products.live)
         | Except.error _ => none
       | Except.error _ => none
     | Except.error _ => none) = some (1, 1, 2, true, 1, 2, 1) := rfl


/-! ### Exact block preconditioner: the loops of setup -/

theorem for_range_square {σ : Type} (body : ℕ → ℕ → σ → Except Failure σ)
    (I : ℕ → ℕ → σ → Prop) (N : ℕ) (s : σ) (h0 : I 0 0 s)
    (hrow : ∀ k s, k < N → I k N s → I (k + 1) 0 s)
    (hstep : ∀ k m s, k < N → m < N → I k m s → ∃ s1, body k m s = Except.ok s1 ∧ I k (m + 1) s1) :
    ∃ s1, for_range 0 N (fun i st => for_range 0 N (body i) st) s = Except.ok s1 ∧ I N 0 s1 := by
  refine for_range_inv _ (fun k st => I k 0 st) 0 N s (Nat.zero_le _) h0 ?_
  intro k st _ hk hI
  obtain ⟨s1, h1, h2⟩ := for_range_inv (body k) (fun m st => I k m st) 0 N st (Nat.zero_le _) hI
    (fun m st1 _ hm hI1 => hstep k m st1 hk hm hI1)
  exact ⟨s1, h1, hrow k s1 hk h2⟩

theorem reached_next_row (n k i j : ℕ) : reached n k n i j ↔ reached n (k + 1) 0 i j := by
  unfold reached; constructor <;> rintro ⟨a, b, c⟩ <;> refine ⟨a, b, ?_⟩ <;> omega

theorem reached_step (n k m i j : ℕ) (h : reached n k (m + 1) i j) (hne : ¬ (i = k ∧ j = m)) :
    reached n k m i j := by
  obtain ⟨a, b, c⟩ := h
  refine ⟨a, b, ?_⟩
  rcases c with c | ⟨c, d⟩
  · exact Or.inl c
  · refine Or.inr ⟨c, ?_⟩
    by_contra hc
    exact hne ⟨c, by omega⟩

theorem reached_all (n i j : ℕ) (hi : i < n) (hj : j < n) : reached n n 0 i j :=
  ⟨hi, hj, Or.inl hi⟩

/-- The loops of `get_blocks` with every block required: all `N * N` blocks are
extracted into new matrices, nothing else changes. -/
theorem BlockPreconditioner.get_blocks_spec {K : Type} (self : BlockPreconditioner K)
    (L : BlockLookup) (A : CRDoubleMatrix K) (hL : self.Lookup = some L)
    (hA : self.Matrix_pt = some A) (s : Store (Preconditioner K))
    (t : Store (MatrixVectorProduct K)) (m0 : Store (CRDoubleMatrix K)) (log0 : List Event)
    (D0 : ℕ → ℕ → ℕ) :
    ∃ (m1 : Store (CRDoubleMatrix K)) (D1 : ℕ → ℕ → ℕ) (log1 : List Event),
      self.get_blocks (⟨s, t, m0, log0⟩ : World K)
          ⟨L.nblock_types, L.nblock_types, fun _ _ => true⟩
          ⟨L.nblock_types, L.nblock_types, D0⟩ =
        Except.ok ((⟨s, t, m1, log1⟩ : World K), ⟨L.nblock_types, L.nblock_types, D1⟩) ∧
      BlocksBuilt m1 L.nblock_types (L.block A) D1 L.nblock_types 0 m0.next ∧
      m0.next ≤ m1.next ∧
      (∀ q, q < m0.next → m1.obj q = m0.obj q) ∧
      m1.live = m0.live + L.nblock_types * L.nblock_types ∧
      List.count Event.factory_call log1 = List.count Event.factory_call log0 := by
  have hN : self.nblock_types = L.nblock_types := by
    simp [BlockPreconditioner.nblock_types, hL]
  obtain ⟨st, hrun, m1, D1, log1, rfl, h1, h2, h3, h4, h5⟩ := for_range_square
    (BlockPreconditioner.get_blocks_entry self ⟨L.nblock_types, L.nblock_types, fun _ _ => true⟩)
    (fun k m st => ∃ (m1 : Store (CRDoubleMatrix K)) (D1 : ℕ → ℕ → ℕ) (log1 : List Event),
      st = ((⟨s, t, m1, log1⟩ : World K), (⟨L.nblock_types, L.nblock_types, D1⟩ : DenseMatrix ℕ)) ∧
      BlocksBuilt m1 L.nblock_types (L.block A) D1 k m m0.next ∧
      m0.next ≤ m1.next ∧
      (∀ q, q < m0.next → m1.obj q = m0.obj q) ∧
      m1.live = m0.live + (k * L.nblock_types + m) ∧
      List.count Event.factory_call log1 = List.count Event.factory_call log0)
    L.nblock_types ((⟨s, t, m0, log0⟩ : World K), ⟨L.nblock_types, L.nblock_types, D0⟩)
    ⟨m0, D0, log0, rfl, (by rintro i j ⟨_, _, h⟩; omega), le_rfl, fun _ _ => rfl, by simp, rfl⟩
    (by
      rintro k st hk ⟨m1, D1, log1, rfl, h1, h2, h3, h4, h5⟩
      refine ⟨m1, D1, log1, rfl, ?_, h2, h3, by rw [h4, Nat.succ_mul]; omega, h5⟩
      intro i j hv
      obtain ⟨g1, g2, g3, g4⟩ := h1 i j ((reached_next_row _ _ _ _).mpr hv)
      exact ⟨g1, g2, g3, fun i1 j1 hv1 he => g4 i1 j1 ((reached_next_row _ _ _ _).mpr hv1) he⟩)
    (by
      rintro k m st hk hm ⟨m1, D1, log1, rfl, h1, h2, h3, h4, h5⟩
      refine ⟨_, ?_, (m1.new (L.block A k m)).2,
        (fun i1 j1 => if i1 = k ∧ j1 = m then m1.next else D1 i1 j1),
        log1 ++ [Event.get_block k m], rfl, ?_, ?_, ?_, ?_, ?_⟩
      · have hgb := World.get_block_spec (⟨s, t, m1, log1⟩ : World K) self L A hL hA k m hk hm
        simp only [BlockPreconditioner.get_blocks_entry, DenseMatrix.entry_nat _ _ _ _ _ hk hm,
          hgb, DenseMatrix.assign_nat _ _ _ _ _ _ hk hm]
      · intro i j hv
        dsimp only
        by_cases hij : i = k ∧ j = m
        · obtain ⟨rfl, rfl⟩ := hij
          simp only [and_self, if_true]
          refine ⟨h2, by simp, by rw [Store.new_obj, if_pos rfl], ?_⟩
          intro i1 j1 hv1 he
          by_contra hne
          rw [if_neg hne] at he
          have := (h1 i1 j1 (reached_step _ _ _ _ _ hv1 hne)).2.1
          omega
        · obtain ⟨g1, g2, g3, g4⟩ := h1 i j (reached_step _ _ _ _ _ hv hij)
          rw [if_neg hij]
          refine ⟨g1, by simp; omega, ?_, ?_⟩
          · rw [Store.new_obj, if_neg (by omega)]
            exact g3
          · intro i1 j1 hv1 he
            by_cases hij1 : i1 = k ∧ j1 = m
            · rw [if_pos hij1] at he
              omega
            · rw [if_neg hij1] at he
              exact g4 i1 j1 (reached_step _ _ _ _ _ hv1 hij1) he
      · simp; omega
      · intro q hq
        rw [Store.new_obj, if_neg (by omega)]
        exact h3 q hq
      · rw [Store.new_live, h4]; omega
      · simp [h5])
  refine ⟨m1, D1, log1, ?_, h1, h2, h3, by simpa using h4, h5⟩
  have hrow : self.get_blocks_row ⟨L.nblock_types, L.nblock_types, fun _ _ => true⟩ =
      fun i st => for_range 0 L.nblock_types
        (self.get_blocks_entry ⟨L.nblock_types, L.nblock_types, fun _ _ => true⟩ i) st := by
    funext i st
    simp only [BlockPreconditioner.get_blocks_row, hN]
  unfold BlockPreconditioner.get_blocks
  rw [hN, hrow]
  exact hrun


/-- Reading the matrices a table of pointers refers to, when every entry
refers to a live matrix. -/
theorem BlockPreconditioner.read_blocks_spec {K : Type} (w : World K) (N : ℕ)
    (blk : ℕ → ℕ → CRDoubleMatrix K) (D : ℕ → ℕ → ℕ)
    (h : ∀ i j, i < N → j < N → w.matrices.obj (D i j) = some (blk i j)) :
    ∃ d, BlockPreconditioner.read_blocks w N ⟨N, N, D⟩ = Except.ok d ∧
      ∀ i j, i < N → j < N → d.data i j = some (blk i j) := by
  obtain ⟨d, hrun, E, rfl, hE⟩ := for_range_square
    (BlockPreconditioner.read_block w ⟨N, N, D⟩)
    (fun k m d => ∃ E : ℕ → ℕ → Option (CRDoubleMatrix K),
      d = (⟨N, N, E⟩ : DenseMatrix (Option (CRDoubleMatrix K))) ∧
      ∀ i j, reached N k m i j → E i j = some (blk i j))
    N ⟨N, N, fun _ _ => none⟩
    ⟨fun _ _ => none, rfl, by rintro i j ⟨_, _, h⟩; omega⟩
    (by
      rintro k d hk ⟨E, rfl, hE⟩
      exact ⟨E, rfl, fun i j hv => hE i j ((reached_next_row _ _ _ _).mpr hv)⟩)
    (by
      rintro k m d hk hm ⟨E, rfl, hE⟩
      refine ⟨_, ?_, (fun i1 j1 => if i1 = k ∧ j1 = m then some (blk k m) else E i1 j1), rfl, ?_⟩
      · simp only [BlockPreconditioner.read_block, DenseMatrix.entry_nat _ _ _ _ _ hk hm,
          Store.deref_live _ (h k m hk hm), DenseMatrix.assign_nat _ _ _ _ _ _ hk hm]
      · intro i j hv
        dsimp only
        by_cases hij : i = k ∧ j = m
        · obtain ⟨rfl, rfl⟩ := hij
          simp
        · rw [if_neg hij]
          exact hE i j (reached_step _ _ _ _ _ hv hij))
  refine ⟨⟨N, N, E⟩, ?_, fun i j hi hj => hE i j (reached_all _ _ _ hi hj)⟩
  have hrow : BlockPreconditioner.read_block_row w N ⟨N, N, D⟩ =
      fun i st => for_range 0 N (BlockPreconditioner.read_block w ⟨N, N, D⟩ i) st := by
    funext i st
    simp only [BlockPreconditioner.read_block_row]
  unfold BlockPreconditioner.read_blocks
  rw [hrow]
  exact hrun

/-- The loops of `ExactBlockPreconditioner::setup` that delete the block
matrices: every matrix the table refers to is deleted, once, and nothing else
changes. -/
theorem ExactBlockPreconditioner.delete_blocks_spec {K : Type} (s : Store (Preconditioner K))
    (t : Store (MatrixVectorProduct K)) (m2 : Store (CRDoubleMatrix K)) (log : List Event)
    (N : ℕ) (D : ℕ → ℕ → ℕ)
    (hlive : ∀ i j, i < N → j < N → ∃ a, m2.obj (D i j) = some a)
    (hinj : ∀ i j i1 j1, i < N → j < N → i1 < N → j1 < N → D i1 j1 = D i j → i1 = i ∧ j1 = j) :
    ∃ (m3 : Store (CRDoubleMatrix K)) (D3 : ℕ → ℕ → ℕ),
      for_range 0 N (ExactBlockPreconditioner.delete_block_row N)
          ((⟨s, t, m2, log⟩ : World K), ⟨N, N, D⟩) =
        Except.ok ((⟨s, t, m3, log⟩ : World K), ⟨N, N, D3⟩) ∧
      (∀ q, (∀ i j, i < N → j < N → q ≠ D i j) → m3.obj q = m2.obj q) ∧
      (∀ i j, i < N → j < N → m3.obj (D i j) = none ∧ D3 i j = 0) ∧
      m3.live + N * N = m2.live ∧ m3.next = m2.next := by
  obtain ⟨st, hrun, m3, D3, rfl, h1, h2, h3, h4, h5⟩ := for_range_square
    (fun i j st => ExactBlockPreconditioner.delete_block (K := K) i j st)
    (fun k m st => ∃ (m3 : Store (CRDoubleMatrix K)) (D3 : ℕ → ℕ → ℕ),
      st = ((⟨s, t, m3, log⟩ : World K), (⟨N, N, D3⟩ : DenseMatrix ℕ)) ∧
      (∀ i j, i < N → j < N → ¬ reached N k m i j →
        D3 i j = D i j ∧ ∃ a, m3.obj (D i j) = some a) ∧
      (∀ q, (∀ i j, i < N → j < N → q ≠ D i j) → m3.obj q = m2.obj q) ∧
      (∀ i j, reached N k m i j → m3.obj (D i j) = none ∧ D3 i j = 0) ∧
      m3.live + (k * N + m) = m2.live ∧ m3.next = m2.next)
    N ((⟨s, t, m2, log⟩ : World K), ⟨N, N, D⟩)
    ⟨m2, D, rfl, fun i j hi hj _ => ⟨rfl, hlive i j hi hj⟩, fun _ _ => rfl,
      (by rintro i j ⟨_, _, h⟩; omega), by simp, rfl⟩
    (by
      rintro k st hk ⟨m3, D3, rfl, h1, h2, h3, h4, h5⟩
      refine ⟨m3, D3, rfl, ?_, h2, ?_, by rw [← h4, Nat.succ_mul]; omega, h5⟩
      · intro i j hi hj hv
        exact h1 i j hi hj (fun hc => hv ((reached_next_row _ _ _ _).mp hc))
      · intro i j hv
        exact h3 i j ((reached_next_row _ _ _ _).mpr hv))
    (by
      rintro k m st hk hm ⟨m3, D3, rfl, h1, h2, h3, h4, h5⟩
      have hnot : ¬ reached N k m k m := by rintro ⟨_, _, h⟩; omega
      obtain ⟨hD, a, ha⟩ := h1 k m hk hm hnot
      obtain ⟨m4, hdel, ho4, hn4, hl4⟩ :=
        World.delete_matrix_live (⟨s, t, m3, log⟩ : World K) ha
      simp only at ho4 hn4 hl4
      refine ⟨_, ?_, m4, (fun i1 j1 => if i1 = k ∧ j1 = m then 0 else D3 i1 j1), rfl,
        ?_, ?_, ?_, ?_, ?_⟩
      · simp only [ExactBlockPreconditioner.delete_block, DenseMatrix.entry_nat _ _ _ _ _ hk hm,
          bind_ok, hD, hdel, DenseMatrix.assign_nat _ _ _ _ _ _ hk hm, pure_eq_ok]
      · intro i j hi hj hv
        have hij : ¬ (i = k ∧ j = m) := by
          rintro ⟨rfl, rfl⟩
          exact hv ⟨hi, hj, Or.inr ⟨rfl, by omega⟩⟩
        have hv0 : ¬ reached N k m i j := by
          rintro ⟨a1, a2, a3⟩
          exact hv ⟨a1, a2, by omega⟩
        obtain ⟨g1, g2⟩ := h1 i j hi hj hv0
        dsimp only
        rw [if_neg hij]
        refine ⟨g1, ?_⟩
        have hne : D i j ≠ D k m := fun hc => hij (hinj k m i j hk hm hi hj hc)
        rw [ho4, Function.update_noteq hne]
        exact g2
      · intro q hq
        rw [ho4, Function.update_noteq (hq k m hk hm)]
        exact h2 q hq
      · intro i j hv
        dsimp only
        by_cases hij : i = k ∧ j = m
        · obtain ⟨rfl, rfl⟩ := hij
          simp [ho4]
        · obtain ⟨g1, g2⟩ := h3 i j (reached_step _ _ _ _ _ hv hij)
          rw [if_neg hij]
          refine ⟨?_, g2⟩
          rw [ho4, Function.update_apply]
          split_ifs
          · rfl
          · exact g1
      · omega
      · rw [hn4]; exact h5)
  refine ⟨m3, D3, ?_, h2, fun i j hi hj => h3 i j (reached_all _ _ _ hi hj), by simpa using h4,
    h5⟩
  have hrow : ExactBlockPreconditioner.delete_block_row (K := K) N =
      fun i st => for_range 0 N (fun j st => ExactBlockPreconditioner.delete_block i j st) st := by
    funext i st
    simp only [ExactBlockPreconditioner.delete_block_row]
  rw [hrow]
  exact hrun


/-! ### Block order -/

theorem BlockLookup.locate_from_spec (L : BlockLookup) :
    ∀ (count b d k : ℕ), d < count → k < L.block_dimension (b + d) →
      L.locate_from count b ((∑ c in Finset.range d, L.block_dimension (b + c)) + k) =
        (b + d, k) := by
  intro count
  induction count with
  | zero => intro b d k hd; omega
  | succ n ih =>
    intro b d k hd hk
    cases d with
    | zero =>
      simp only [Finset.range_zero, Finset.sum_empty, zero_add, add_zero] at hk ⊢
      simp [BlockLookup.locate_from, hk]
    | succ d =>
      have hsum : ∑ c in Finset.range (d + 1), L.block_dimension (b + c) =
          (∑ c in Finset.range d, L.block_dimension (b + 1 + c)) + L.block_dimension b := by
        rw [Finset.sum_range_succ']
        simp only [add_zero]
        congr 1
        apply Finset.sum_congr rfl
        intro c _
        congr 1; omega
      have hk1 : k < L.block_dimension (b + 1 + d) := by
        have e : b + 1 + d = b + (d + 1) := by omega
        rw [e]; exact hk
      have h := ih (b + 1) d k (by omega) hk1
      have e1 : ¬ ((∑ c in Finset.range d, L.block_dimension (b + 1 + c)) +
          L.block_dimension b + k < L.block_dimension b) := by omega
      have e2 : (∑ c in Finset.range d, L.block_dimension (b + 1 + c)) +
          L.block_dimension b + k - L.block_dimension b =
          (∑ c in Finset.range d, L.block_dimension (b + 1 + c)) + k := by omega
      rw [hsum]
      simp only [BlockLookup.locate_from, e1, if_false, e2, h]
      congr 1; omega

theorem BlockLookup.locate_offset (L : BlockLookup) (b k : ℕ) (hb : b < L.nblock_types)
    (hk : k < L.block_dimension b) : L.locate (L.block_offset b + k) = (b, k) := by
  have h := L.locate_from_spec L.nblock_types 0 b k hb (by simpa using hk)
  simp only [zero_add] at h
  exact h

theorem BlockLookup.block_offset_succ (L : BlockLookup) (b : ℕ) :
    L.block_offset (b + 1) = L.block_offset b + L.block_dimension b := by
  simp [BlockLookup.block_offset, Finset.sum_range_succ]

theorem BlockLookup.block_offset_mono (L : BlockLookup) (a b : ℕ) (h : a ≤ b) :
    L.block_offset a ≤ L.block_offset b := by
  induction b with
  | zero =>
    have : a = 0 := by omega
    subst this; exact le_rfl
  | succ n ih =>
    rcases Nat.eq_or_lt_of_le h with rfl | h1
    · exact le_rfl
    · have := ih (by omega)
      rw [L.block_offset_succ]; omega

theorem BlockLookup.exists_offset (L : BlockLookup) (n p : ℕ) (hp : p < L.block_offset n) :
    ∃ b k, b < n ∧ k < L.block_dimension b ∧ p = L.block_offset b + k := by
  induction n with
  | zero => simp [BlockLookup.block_offset] at hp
  | succ n ih =>
    rw [L.block_offset_succ] at hp
    by_cases h : p < L.block_offset n
    · obtain ⟨b, k, hb, hk, he⟩ := ih h
      exact ⟨b, k, by omega, hk, he⟩
    · exact ⟨n, p - L.block_offset n, by omega, by omega, by omega⟩

/-- The entry of a block-ordered vector that holds unknown `g` holds `g`. -/
theorem BlockLookup.unknown_at_block_order_index (L : BlockLookup) (hL : L.Valid) (g : ℕ)
    (hg : g < L.nrow) : L.unknown_at (L.block_order_index g) = g := by
  obtain ⟨h1, h2, h3⟩ := hL.1 g hg
  simp only [BlockLookup.unknown_at, BlockLookup.block_order_index, L.locate_offset _ _ h1 h2]
  exact h3

theorem BlockLookup.block_order_index_lt (L : BlockLookup) (hL : L.Valid) (g : ℕ)
    (hg : g < L.nrow) : L.block_order_index g < L.block_offset L.nblock_types := by
  obtain ⟨h1, h2, _⟩ := hL.1 g hg
  have h := L.block_offset_mono (L.block_number g + 1) L.nblock_types (by omega)
  rw [L.block_offset_succ] at h
  simp only [BlockLookup.block_order_index]
  omega

/-- Every entry of a block-ordered vector holds an unknown, and that unknown
is held by this entry. -/
theorem BlockLookup.block_order_index_unknown_at (L : BlockLookup) (hL : L.Valid) (p : ℕ)
    (hp : p < L.block_offset L.nblock_types) :
    L.unknown_at p < L.nrow ∧ L.block_order_index (L.unknown_at p) = p ∧
      (L.locate p).1 < L.nblock_types := by
  obtain ⟨b, k, hb, hk, rfl⟩ := L.exists_offset _ p hp
  obtain ⟨h1, h2, h3⟩ := hL.2 b hb k hk
  simp only [BlockLookup.unknown_at, BlockLookup.block_order_index, L.locate_offset _ _ hb hk,
    h2, h3]
  exact ⟨h1, trivial, hb⟩

/-- A sum over the entries of a block-ordered vector is the sum over the
unknowns they hold. -/
theorem BlockLookup.sum_block_order {M : Type} [AddCommMonoid M] (L : BlockLookup)
    (hL : L.Valid) (F : ℕ → M) :
    ∑ p in Finset.range (L.block_offset L.nblock_types), F p =
      ∑ g in Finset.range L.nrow, F (L.block_order_index g) := by
  refine Finset.sum_bij' (fun p _ => L.unknown_at p) (fun g _ => L.block_order_index g)
    ?_ ?_ ?_ ?_ ?_
  · intro p hp
    exact Finset.mem_range.mpr (L.block_order_index_unknown_at hL p (Finset.mem_range.mp hp)).1
  · intro g hg
    exact Finset.mem_range.mpr (L.block_order_index_lt hL g (Finset.mem_range.mp hg))
  · intro p hp
    exact (L.block_order_index_unknown_at hL p (Finset.mem_range.mp hp)).2.1
  · intro g hg
    exact L.unknown_at_block_order_index hL g (Finset.mem_range.mp hg)
  · intro p hp
    rw [(L.block_order_index_unknown_at hL p (Finset.mem_range.mp hp)).2.1]

theorem BlockLookup.locate_lt (L : BlockLookup) (p : ℕ) (hp : p < L.block_offset L.nblock_types) :
    (L.locate p).1 < L.nblock_types := by
  obtain ⟨b, k, hb, hk, rfl⟩ := L.exists_offset _ p hp
  rw [L.locate_offset _ _ hb hk]
  exact hb

theorem BlockLookup.build_preconditioner_matrix_congr {K : Type} [Zero K] (L : BlockLookup)
    (blocks1 blocks2 : ℕ → ℕ → CRDoubleMatrix K)
    (h : ∀ i j, i < L.nblock_types → j < L.nblock_types → blocks1 i j = blocks2 i j) :
    L.build_preconditioner_matrix blocks1 = L.build_preconditioner_matrix blocks2 := by
  unfold BlockLookup.build_preconditioner_matrix
  congr 1
  funext p q
  by_cases hpq : p < L.block_offset L.nblock_types ∧ q < L.block_offset L.nblock_types
  · rw [if_pos hpq, if_pos hpq, h _ _ (L.locate_lt p hpq.1) (L.locate_lt q hpq.2)]
  · rw [if_neg hpq, if_neg hpq]

/-! ### Exact block preconditioner: setup -/

theorem Store.delete_sound {α : Type} (s : Store α) (p : ℕ)
    (h : p = 0 ∨ ∃ a, s.obj p = some a) :
    ∃ s1, s.delete p = Except.ok s1 ∧ s1.next = s.next ∧ (∀ q, q ≠ p → s1.obj q = s.obj q) ∧
      (p ≠ 0 → s1.obj p = none) ∧ s1.live + (if p = 0 then 0 else 1) = s.live := by
  rcases h with rfl | ⟨a, ha⟩
  · exact ⟨s, Store.delete_zero s, rfl, fun _ _ => rfl, fun h => absurd rfl h, by simp⟩
  · obtain ⟨s1, hd, hobj, hn, hl⟩ := s.delete_live ha
    have hp : p ≠ 0 := s.obj_ne_zero ha
    refine ⟨s1, hd, hn, ?_, ?_, ?_⟩
    · intro q hq; rw [hobj, Function.update_noteq hq]
    · intro _; rw [hobj]; simp
    · rw [if_neg hp]; exact hl

/-- The effect of `ExactBlockPreconditioner::setup` on a preconditioner whose
pointer is null or refers to a live subsidiary preconditioner: the old
subsidiary preconditioner is deleted, one new subsidiary preconditioner is
created and set up on the matrix assembled from all `N * N` blocks, and no
matrix extracted or assembled on the way stays live. -/
theorem ExactBlockPreconditioner.exact_setup_spec {K : Type} [Zero K] (env : Env K) (w : World K)
    (self : ExactBlockPreconditioner K) (problem_pt : ℕ) (A : CRDoubleMatrix K) (kind : PrecKind)
    (hown : self.Sound w)
    (hkind : created_kind self.Subsidiary_preconditioner_function_pt w.factory_calls =
      some kind) :
    ∃ (w1 : World K) (self1 : ExactBlockPreconditioner K),
      self.setup env w problem_pt (some (DoubleMatrixBase.block_capable A)) =
        Except.ok (w1, self1) ∧
      self1.Lookup = some (self.toGeneralPurposeBlockPreconditioner.scheme env A) ∧
      self1.Matrix_pt = some A ∧
      self1.Preconditioner_pt = w.preconditioners.next ∧
      self1.Subsidiary_preconditioner_function_pt = self.Subsidiary_preconditioner_function_pt ∧
      self1.Prec_mesh_pt = self.Prec_mesh_pt ∧
      self1.Dof_to_block_map = self.Dof_to_block_map ∧
      w1.preconditioners.obj w.preconditioners.next =
        some ⟨kind, some ((self.toGeneralPurposeBlockPreconditioner.scheme env A)
          |>.build_preconditioner_matrix
            ((self.toGeneralPurposeBlockPreconditioner.scheme env A).block A))⟩ ∧
      w1.preconditioners.next = w.preconditioners.next + 1 ∧
      w1.preconditioners.live + (if self.Preconditioner_pt = 0 then 0 else 1) =
        w.preconditioners.live + 1 ∧
      (self.Preconditioner_pt ≠ 0 → w1.preconditioners.obj self.Preconditioner_pt = none) ∧
      (∀ q, q < w.preconditioners.next → q ≠ self.Preconditioner_pt →
        w1.preconditioners.obj q = w.preconditioners.obj q) ∧
      w1.matrices.live = w.matrices.live ∧
      w1.matrix_vector_products = w.matrix_vector_products ∧
      w1.factory_calls = w.factory_calls +
        (if self.Subsidiary_preconditioner_function_pt.isSome = true then 1 else 0) := by
  set L := self.toGeneralPurposeBlockPreconditioner.scheme env A with hLdef
  obtain ⟨s, t, m0, log0⟩ := w
  simp only [ExactBlockPreconditioner.Sound] at hown
  obtain ⟨s1, hdel, hn1, hf1, hd1, hl1⟩ := s.delete_sound self.Preconditioner_pt hown
  -- block setup
  let gp1 : GeneralPurposeBlockPreconditioner K :=
    { self.toGeneralPurposeBlockPreconditioner with Problem_pt := problem_pt }
  have hbs := gp1.block_setup_spec env (⟨s1, t, m0, log0⟩ : World K) A
  have hLeq : gp1.scheme env A = L := rfl
  rw [hLeq] at hbs
  let logb : List Event :=
    log0 ++ [Event.block_setup self.Prec_mesh_pt.length self.Prec_mesh_pt gp1.map_in_use]
  let gp2 : GeneralPurposeBlockPreconditioner K :=
    { gp1 with Mesh_pt := self.Prec_mesh_pt, Matrix_pt := some A, Lookup := some L }
  -- the blocks
  obtain ⟨m1, D1, log1, hget, hb1, hge1, hfr1, hlv1, hc1⟩ :=
    BlockPreconditioner.get_blocks_spec gp2.toBlockPreconditioner L A rfl rfl s1 t m0 logb
      (fun _ _ => 0)
  have hall : ∀ i j, i < L.nblock_types → j < L.nblock_types →
      m1.obj (D1 i j) = some (L.block A i j) := fun i j hi hj =>
    (hb1 i j (reached_all _ _ _ hi hj)).2.2.1
  obtain ⟨d, hread, hd⟩ := BlockPreconditioner.read_blocks_spec (⟨s1, t, m1, log1⟩ : World K)
    L.nblock_types (L.block A) D1 hall
  let blocks : ℕ → ℕ → CRDoubleMatrix K := fun i j => (d.data i j).getD ⟨0, 0, fun _ _ => 0⟩
  let B : CRDoubleMatrix K := L.build_preconditioner_matrix blocks
  -- the deletion of the blocks
  obtain ⟨m3, D3, hdelb, hfr3, hdead3, hlv3, hn3⟩ :=
    ExactBlockPreconditioner.delete_blocks_spec s1 t (m1.new B).2
      (log1 ++ [Event.build_preconditioner_matrix]) L.nblock_types D1
      (fun i j hi hj => ⟨L.block A i j, by
        have h := hb1 i j (reached_all _ _ _ hi hj)
        rw [Store.new_obj, if_neg (by omega)]; exact h.2.2.1⟩)
      (fun i j i1 j1 hi hj hi1 hj1 he =>
        (hb1 i j (reached_all _ _ _ hi hj)).2.2.2 i1 j1 (reached_all _ _ _ hi1 hj1) he)
  have hB3 : m3.obj m1.next = some B := by
    rw [hfr3 m1.next (fun i j hi hj => by
      have h := hb1 i j (reached_all _ _ _ hi hj); omega)]
    rw [Store.new_obj, if_pos rfl]
  -- the subsidiary preconditioner
  let w3 : World K := ⟨s1, t, m3, log1 ++ [Event.build_preconditioner_matrix]⟩
  have hfc3 : w3.factory_calls = World.factory_calls (⟨s, t, m0, log0⟩ : World K) := by
    simp [w3, World.factory_calls, List.count_append, hc1, logb]
  obtain ⟨log4, hcreate, hcount4⟩ := w3.create_spec
    self.Subsidiary_preconditioner_function_pt kind (by rw [hfc3]; exact hkind)
  have hp4 : (s1.new (⟨kind, none⟩ : Preconditioner K)).2.obj s1.next = some ⟨kind, none⟩ := by
    rw [Store.new_obj, if_pos rfl]
  obtain ⟨s5, hset, ho5, hn5, hl5⟩ := World.preconditioner_setup_spec
    (⟨(s1.new ⟨kind, none⟩).2, t, m3, log4⟩ : World K) s1.next m1.next _ B hp4 hB3
  obtain ⟨m6, hdel6, _, _, hl6⟩ := World.delete_matrix_live
    (⟨s5, t, m3, log4⟩ : World K) hB3
  simp only at ho5 hn5 hl5 hl6
  refine ⟨⟨s5, t, m6, log4⟩,
    { toGeneralPurposeBlockPreconditioner := gp2, Preconditioner_pt := s1.next },
    ?_, rfl, rfl, hn1, rfl, rfl, rfl, ?_, ?_, ?_, ?_, ?_, ?_, rfl, ?_⟩
  · unfold ExactBlockPreconditioner.setup
    simp only [World.delete_preconditioner, hdel, bind_ok, dynamic_cast_MATRIX,
      Option.isNone_some, Bool.false_eq_true, and_false, if_false, pure_eq_ok]
    erw [hbs]
    simp only [bind_ok, BlockPreconditioner.nblock_types]
    erw [hget]
    simp only [bind_ok, BlockPreconditioner.build_preconditioner_matrix,
      BlockPreconditioner.lookup]
    erw [hread]
    simp only [bind_ok, World.new_matrix, World.record, Store.new_fst]
    erw [hdelb]
    simp only [bind_ok]
    erw [hcreate]
    simp only [bind_ok]
    erw [hset]
    simp only [bind_ok]
    erw [hdel6]
    rfl
  · have hB : B = L.build_preconditioner_matrix (L.block A) :=
      L.build_preconditioner_matrix_congr _ _ (fun i j hi hj => by
        simp only [blocks, hd i j hi hj, Option.getD_some])
    simp only
    rw [← hn1, ho5, ← hB]; simp
  · simp only; rw [hn5]; simp [hn1]
  · simp only; rw [hl5, Store.new_live]; omega
  · intro hne
    simp only
    have hlt : self.Preconditioner_pt < s1.next := by
      rcases hown with h | ⟨a, ha⟩
      · exact absurd h hne
      · rw [hn1]; exact Store.obj_lt_next _ ha
    rw [ho5, Function.update_noteq (by omega), Store.new_obj, if_neg (by omega)]
    exact hd1 hne
  · intro q hq hne
    simp only at hq ⊢
    rw [ho5, Function.update_noteq (by omega), Store.new_obj, if_neg (by omega)]
    exact hf1 q hne
  · simp only
    have := Store.new_live m1 B
    omega
  · show List.count Event.factory_call log4 = List.count Event.factory_call log0 + _
    rw [hcount4]
    congr 1


/-! ### Exact block preconditioner: solve -/

theorem ExactBlockPreconditioner.exact_preconditioner_solve_spec {K : Type} [Zero K] (env : Env K)
    (w : World K) (self : ExactBlockPreconditioner K) (L : BlockLookup) (kind : PrecKind)
    (B : CRDoubleMatrix K) (rs zs : List K) (hL : self.Lookup = some L)
    (hobj : w.preconditioners.obj self.Preconditioner_pt = some ⟨kind, some B⟩)
    (hz : zs.length = L.nrow) :
    self.preconditioner_solve env w (DoubleVector.built rs) (DoubleVector.built zs) =
      Except.ok (DoubleVector.built (L.return_block_ordered_preconditioner_vector
        (env.solve kind B (L.get_block_ordered_preconditioner_vector rs)) zs)) := by
  simp only [ExactBlockPreconditioner.preconditioner_solve,
    BlockPreconditioner.get_block_ordered_preconditioner_vector, BlockPreconditioner.lookup, hL,
    bind_ok, World.subsidiary_solve_spec env w _ kind B hobj,
    BlockPreconditioner.return_block_ordered_preconditioner_vector, hz, if_true]

theorem ExactBlockPreconditioner.exact_ctor_sound {K : Type} (w : World K) :
    (ExactBlockPreconditioner.ctor : ExactBlockPreconditioner K).Sound w :=
  Or.inl rfl

/-- The entry of the assembled matrix at the positions of two unknowns is
the entry of the matrix at the two unknowns. -/
theorem BlockLookup.build_preconditioner_matrix_entry {K : Type} [Zero K] (L : BlockLookup)
    (hL : L.Valid) (A : CRDoubleMatrix K) (g h : ℕ) (hg : g < L.nrow) (hh : h < L.nrow) :
    (L.build_preconditioner_matrix (L.block A)).entry (L.block_order_index g)
      (L.block_order_index h) = A.entry g h := by
  have e1 := L.unknown_at_block_order_index hL g hg
  have e2 := L.unknown_at_block_order_index hL h hh
  simp only [BlockLookup.unknown_at] at e1 e2
  simp only [BlockLookup.build_preconditioner_matrix, BlockLookup.block,
    L.block_order_index_lt hL g hg, L.block_order_index_lt hL h hh, and_self, if_true, e1, e2]

/-- C4. Exact block preconditioning with an exact subsidiary solve: for every
matrix `A`, every valid block partition and every residual `r`, if the solve
of the single subsidiary preconditioner inverts the matrix assembled from all
blocks in block order, then `setup(A)` succeeds and `preconditioner_solve(r, z)`
returns a `z` with `A z = r`; nothing is assumed on the off-diagonal blocks. -/
theorem ExactBlockPreconditioner.exact_on_every_matrix {K : Type} [CommRing K]
    (env : Env K) (w : World K) (self : ExactBlockPreconditioner K) (problem_pt : ℕ)
    (A : CRDoubleMatrix K) (kind : PrecKind) (r zs : List K)
    (hsound : self.Sound w)
    (hvalid : (self.toGeneralPurposeBlockPreconditioner.scheme env A).Valid)
    (hrow : A.nrow = (self.toGeneralPurposeBlockPreconditioner.scheme env A).nrow)
    (hcol : A.ncol = (self.toGeneralPurposeBlockPreconditioner.scheme env A).nrow)
    (hr : r.length = (self.toGeneralPurposeBlockPreconditioner.scheme env A).nrow)
    (hz : zs.length = (self.toGeneralPurposeBlockPreconditioner.scheme env A).nrow)
    (hkind : created_kind self.Subsidiary_preconditioner_function_pt w.factory_calls =
      some kind)
    (hexact : ∀ b : List K,
      b.length = (self.toGeneralPurposeBlockPreconditioner.scheme env A).block_offset
        (self.toGeneralPurposeBlockPreconditioner.scheme env A).nblock_types →
      ((self.toGeneralPurposeBlockPreconditioner.scheme env A).build_preconditioner_matrix
          ((self.toGeneralPurposeBlockPreconditioner.scheme env A).block A)).multiply
        (env.solve kind
          ((self.toGeneralPurposeBlockPreconditioner.scheme env A).build_preconditioner_matrix
            ((self.toGeneralPurposeBlockPreconditioner.scheme env A).block A)) b) = b) :
    ∃ w1 self1 zv,
      self.setup env w problem_pt (some (DoubleMatrixBase.block_capable A)) =
        Except.ok (w1, self1) ∧
      self1.preconditioner_solve env w1 (DoubleVector.built r) (DoubleVector.built zs) =
        Except.ok (DoubleVector.built zv) ∧
      A.multiply zv = r := by
  obtain ⟨w1, self1, hset, hL1, -, hP1, -, -, -, hobj, -⟩ :=
    self.exact_setup_spec env w problem_pt A kind hsound hkind
  rw [← hP1] at hobj
  have hsolve := self1.exact_preconditioner_solve_spec env w1 _ kind _ r zs hL1 hobj hz
  refine ⟨w1, self1, _, hset, hsolve, ?_⟩
  set L := self.toGeneralPurposeBlockPreconditioner.scheme env A with hLdef
  set B := L.build_preconditioner_matrix (L.block A) with hBdef
  set br := L.get_block_ordered_preconditioner_vector r with hbr
  have hx := hexact br (by simp [hbr, BlockLookup.get_block_ordered_preconditioner_vector,
    vec_length])
  have hgoal : ∀ g, g < L.nrow →
      ∑ h in Finset.range L.nrow, A.entry g h * vget (env.solve kind B br) (L.block_order_index h)
        = vget r g := by
    intro g hg
    have hlt := L.block_order_index_lt hvalid g hg
    have h1 : vget (B.multiply (env.solve kind B br)) (L.block_order_index g) =
        vget br (L.block_order_index g) := by rw [hx]
    rw [CRDoubleMatrix.vget_multiply _ _ _ (by simpa [hBdef, BlockLookup.build_preconditioner_matrix]
      using hlt)] at h1
    have hncol : B.ncol = L.block_offset L.nblock_types := rfl
    rw [hncol, L.sum_block_order hvalid] at h1
    have h2 : vget br (L.block_order_index g) = vget r g := by
      rw [hbr, BlockLookup.get_block_ordered_preconditioner_vector, vget_vec, if_pos hlt,
        L.unknown_at_block_order_index hvalid g hg]
    rw [← h2, ← h1]
    apply Finset.sum_congr rfl
    intro h hh
    rw [hBdef, L.build_preconditioner_matrix_entry hvalid A g h hg (Finset.mem_range.mp hh)]
  unfold CRDoubleMatrix.multiply
  rw [hrow, hcol]
  have hrr : r = vec L.nrow (fun g => vget r g) := by
    rw [← hr]; exact (vec_vget_self r).symm
  conv_rhs => rw [hrr]
  apply vec_congr
  intro g hg
  rw [← hgoal g hg]
  apply Finset.sum_congr rfl
  intro h hh
  have hh1 := Finset.mem_range.mp hh
  simp only [BlockLookup.return_block_ordered_preconditioner_vector, vget_vec, hz, hh1, if_true]


/-- Back substitution inverts the matrix assembled from the blocks of
`upper_matrix`. -/
theorem substitution_exact (kind : PrecKind) (b : List ℤ) (hb : b.length = 2) :
    (two_blocks.build_preconditioner_matrix (two_blocks.block upper_matrix)).multiply
      (substitution_env.solve kind
        (two_blocks.build_preconditioner_matrix (two_blocks.block upper_matrix)) b) = b := by
  obtain ⟨x, y, rfl⟩ := List.length_eq_two.mp hb
  simp [CRDoubleMatrix.multiply, vec, List.range_succ, Finset.sum_range_succ,
    BlockLookup.build_preconditioner_matrix, BlockLookup.block, substitution_env, two_blocks,
    upper_matrix, BlockLookup.locate, BlockLookup.locate_from, BlockLookup.block_offset, vget]

/-- C4, witness: the matrix `upper_matrix`, whose two blocks are coupled, the
residual `(7, 2)` and a subsidiary solve by back substitution: the result is
`(1, 2)`. -/
theorem ExactBlockPreconditioner.exact_on_every_matrix_witness :
    (∃ w1 self1 zv,
      ExactBlockPreconditioner.ctor.setup substitution_env World.empty 0
          (some (DoubleMatrixBase.block_capable upper_matrix)) = Except.ok (w1, self1) ∧
      self1.preconditioner_solve substitution_env w1 (DoubleVector.built [7, 2])
          (DoubleVector.built [0, 0]) = Except.ok (DoubleVector.built zv) ∧
      upper_matrix.multiply zv = [7, 2]) ∧
    (match ExactBlockPreconditioner.ctor.setup substitution_env World.empty 0
        (some (DoubleMatrixBase.block_capable upper_matrix)) with
     | Except.ok st =>
       st.2.preconditioner_solve substitution_env st.1 (DoubleVector.built [7, 2])
         (DoubleVector.built [0, 0])
     | Except.error e => Except.error e) = Except.ok (DoubleVector.built [1, 2]) :=
  ⟨ExactBlockPreconditioner.exact_on_every_matrix substitution_env World.empty
    ExactBlockPreconditioner.ctor 0 upper_matrix PrecKind.SuperLUPreconditioner [7, 2] [0, 0]
    (ExactBlockPreconditioner.exact_ctor_sound _) (by decide) rfl rfl rfl rfl rfl
    (fun b hb => substitution_exact _ b hb), rfl⟩


/-! ### Two successive setups -/

theorem Owned.fresh {α : Type} (s : Store α) (n p0 : ℕ)
    (h : ∀ i, i < n → ∃ a, s.obj (p0 + i) = some a) : Owned s n (fun i => p0 + i) := by
  intro i hi _
  refine ⟨h i hi, fun j _ he => ?_⟩
  simp only at he
  omega

theorem nonnull_fresh (n p0 : ℕ) (h : 0 < p0) : nonnull n (fun i => p0 + i) = n :=
  nonnull_all n _ (fun i _ => by simp only [ne_eq]; omega)

theorem GeneralPurposeBlockPreconditioner.scheme_congr {K : Type} (env : Env K)
    (a b : GeneralPurposeBlockPreconditioner K) (A : CRDoubleMatrix K)
    (h1 : a.Prec_mesh_pt = b.Prec_mesh_pt) (h2 : a.Dof_to_block_map = b.Dof_to_block_map) :
    a.scheme env A = b.scheme env A := by
  simp only [GeneralPurposeBlockPreconditioner.scheme,
    GeneralPurposeBlockPreconditioner.map_in_use, h1, h2]

/-- Two successive calls of `BlockDiagonalPreconditioner::setup` and the
destructor: the subsidiary preconditioners of the first `setup` are deleted by
the second, those of the second by the destructor. -/
theorem BlockDiagonalPreconditioner.diagonal_setup_twice {K : Type} (env : Env K) (w : World K)
    (self : BlockDiagonalPreconditioner K) (p1 p2 : ℕ) (A1 A2 : CRDoubleMatrix K)
    (hsound : self.Sound w)
    (hfact : ∀ c, ∃ k, created_kind self.Subsidiary_preconditioner_function_pt c = some k) :
    ∃ w1 self1 w2 self2 w3 self3,
      self.setup env w p1 (some (DoubleMatrixBase.block_capable A1)) = Except.ok (w1, self1) ∧
      self1.setup env w1 p2 (some (DoubleMatrixBase.block_capable A2)) = Except.ok (w2, self2) ∧
      self2.destructor w2 = Except.ok (w3, self3) ∧
      self1.Diagonal_block_preconditioner_pt =
        vec (self.toGeneralPurposeBlockPreconditioner.scheme env A1).nblock_types
          (fun i => w.preconditioners.next + i) ∧
      (∀ i, i < (self.toGeneralPurposeBlockPreconditioner.scheme env A1).nblock_types →
        (∃ a, w1.preconditioners.obj (w.preconditioners.next + i) = some a) ∧
        w2.preconditioners.obj (w.preconditioners.next + i) = none) ∧
      self2.Diagonal_block_preconditioner_pt =
        vec (self.toGeneralPurposeBlockPreconditioner.scheme env A2).nblock_types
          (fun i => w1.preconditioners.next + i) ∧
      (∀ i, i < (self.toGeneralPurposeBlockPreconditioner.scheme env A2).nblock_types →
        (∃ a, w2.preconditioners.obj (w1.preconditioners.next + i) = some a) ∧
        w3.preconditioners.obj (w1.preconditioners.next + i) = none) ∧
      w1.preconditioners.live + nonnull self.Diagonal_block_preconditioner_pt.length
          (fun i => self.Diagonal_block_preconditioner_pt.getD i 0) =
        w.preconditioners.live +
          (self.toGeneralPurposeBlockPreconditioner.scheme env A1).nblock_types ∧
      w2.preconditioners.live + nonnull self.Diagonal_block_preconditioner_pt.length
          (fun i => self.Diagonal_block_preconditioner_pt.getD i 0) =
        w.preconditioners.live +
          (self.toGeneralPurposeBlockPreconditioner.scheme env A2).nblock_types ∧
      w3.preconditioners.live + nonnull self.Diagonal_block_preconditioner_pt.length
          (fun i => self.Diagonal_block_preconditioner_pt.getD i 0) =
        w.preconditioners.live := by
  choose kindf hkindf using hfact
  obtain ⟨hD, hown⟩ := hsound.diagonal_owned
  obtain ⟨w1, self1, hset1, -, -, hD1, hF1, hP1, hM1, hobj1, hn1, hl1, -⟩ :=
    self.diagonal_setup_spec env w p1 A1 _ _ (fun i => kindf (w.factory_calls + i)) hD hown
      (fun i _ => hkindf _)
  have hs : self1.toGeneralPurposeBlockPreconditioner.scheme env A2 =
      self.toGeneralPurposeBlockPreconditioner.scheme env A2 :=
    GeneralPurposeBlockPreconditioner.scheme_congr env _ _ A2 hP1 hM1
  have hpos : 0 < w.preconditioners.next := w.preconditioners.next_pos
  have hpos1 : 0 < w1.preconditioners.next := w1.preconditioners.next_pos
  obtain ⟨w2, self2, hset2, -, -, hD2, -, -, -, hobj2, hn2, hl2, hdead2, -⟩ :=
    self1.diagonal_setup_spec env w1 p2 A2 _ _ (fun i => kindf (w1.factory_calls + i)) hD1
      (Owned.fresh _ _ _ (fun i hi => ⟨_, hobj1 i hi⟩))
      (fun i _ => by rw [hF1]; exact hkindf _)
  rw [hs] at hD2 hobj2 hl2
  rw [nonnull_fresh _ _ hpos] at hl2
  obtain ⟨s3, hclean, -, hl3, hdead3, -⟩ :=
    self2.clean_up_memory_spec w2 _ _ hD2 (Owned.fresh _ _ _ (fun i hi => ⟨_, hobj2 i hi⟩))
  rw [nonnull_fresh _ _ hpos1] at hl3
  refine ⟨w1, self1, w2, self2, _, _, hset1, hset2, hclean, hD1, ?_, hD2, ?_, hl1, ?_, ?_⟩
  · intro i hi
    exact ⟨⟨_, hobj1 i hi⟩, hdead2 i hi (by omega)⟩
  · intro i hi
    exact ⟨⟨_, hobj2 i hi⟩, hdead3 i hi (by omega)⟩
  · omega
  · simp only; omega


theorem OpsBuilt.ops_owned {K : Type} {t : Store (MatrixVectorProduct K)} {upper : Bool} {N : ℕ}
    {blk : ℕ → ℕ → CRDoubleMatrix K} {D : ℕ → ℕ → ℕ} {first : ℕ}
    (h : OpsBuilt t upper N blk D N (first_column upper N) first) : OwnedOps t upper N D := by
  intro i j hi h1 h2 _
  obtain ⟨-, -, g3, g4⟩ := h i j ⟨hi, h1, h2, Or.inl hi⟩
  exact ⟨⟨_, g3⟩, fun i1 j1 hi1 k1 k2 he => g4 i1 j1 ⟨hi1, k1, k2, Or.inl hi1⟩ he⟩

theorem BlockTriangularPreconditioner.Sound.triangular_owned {K : Type}
    {self : BlockTriangularPreconditioner K} {w : World K} (h : self.Sound w) :
    self.Diagonal_block_preconditioner_pt =
      vec self.Diagonal_block_preconditioner_pt.length
        (fun i => self.Diagonal_block_preconditioner_pt.getD i 0) ∧
    self.Off_diagonal_matrix_vector_products =
      ⟨self.Diagonal_block_preconditioner_pt.length, self.Diagonal_block_preconditioner_pt.length,
        self.Off_diagonal_matrix_vector_products.data⟩ := by
  obtain ⟨-, hN1, hM1, -⟩ := h
  refine ⟨(vec_eq_self _ 0).symm, ?_⟩
  cases hd : self.Off_diagonal_matrix_vector_products with
  | mk N0 M0 data0 =>
    rw [hd] at hN1 hM1
    simp only at hN1 hM1
    subst hN1
    rw [← hM1]

/-- Two successive calls of `BlockTriangularPreconditioner::setup` and the
destructor, the mode unchanged in between: the subsidiary preconditioners of
the first `setup` are deleted by the second, those of the second by the
destructor. -/
theorem BlockTriangularPreconditioner.triangular_setup_twice {K : Type} (env : Env K) (w : World K)
    (self : BlockTriangularPreconditioner K) (p1 p2 : ℕ) (A1 A2 : CRDoubleMatrix K)
    (hsound : self.Sound w)
    (hfact : ∀ c, ∃ k, created_kind self.Subsidiary_preconditioner_function_pt c = some k) :
    ∃ w1 self1 w2 self2 w3 self3,
      self.setup env w p1 (some (DoubleMatrixBase.block_capable A1)) = Except.ok (w1, self1) ∧
      self1.setup env w1 p2 (some (DoubleMatrixBase.block_capable A2)) = Except.ok (w2, self2) ∧
      self2.destructor w2 = Except.ok (w3, self3) ∧
      self1.Diagonal_block_preconditioner_pt =
        vec (self.toGeneralPurposeBlockPreconditioner.scheme env A1).nblock_types
          (fun i => w.preconditioners.next + i) ∧
      (∀ i, i < (self.toGeneralPurposeBlockPreconditioner.scheme env A1).nblock_types →
        (∃ a, w1.preconditioners.obj (w.preconditioners.next + i) = some a) ∧
        w2.preconditioners.obj (w.preconditioners.next + i) = none) ∧
      self2.Diagonal_block_preconditioner_pt =
        vec (self.toGeneralPurposeBlockPreconditioner.scheme env A2).nblock_types
          (fun i => w1.preconditioners.next + i) ∧
      (∀ i, i < (self.toGeneralPurposeBlockPreconditioner.scheme env A2).nblock_types →
        (∃ a, w2.preconditioners.obj (w1.preconditioners.next + i) = some a) ∧
        w3.preconditioners.obj (w1.preconditioners.next + i) = none) ∧
      w1.preconditioners.live + nonnull self.Diagonal_block_preconditioner_pt.length
          (fun i => self.Diagonal_block_preconditioner_pt.getD i 0) =
        w.preconditioners.live +
          (self.toGeneralPurposeBlockPreconditioner.scheme env A1).nblock_types ∧
      w2.preconditioners.live + nonnull self.Diagonal_block_preconditioner_pt.length
          (fun i => self.Diagonal_block_preconditioner_pt.getD i 0) =
        w.preconditioners.live +
          (self.toGeneralPurposeBlockPreconditioner.scheme env A2).nblock_types ∧
      w3.preconditioners.live + nonnull self.Diagonal_block_preconditioner_pt.length
          (fun i => self.Diagonal_block_preconditioner_pt.getD i 0) =
        w.preconditioners.live := by
  choose kindf hkindf using hfact
  obtain ⟨hD, hO⟩ := hsound.triangular_owned
  obtain ⟨hown, -, -, hops⟩ := hsound
  obtain ⟨w1, self1, D1, hset1, -, -, hU1, hD1, hO1, hF1, hP1, hM1, hobj1, hn1, hl1, -, hb1, -⟩ :=
    self.triangular_setup_spec env w p1 A1 _ _ _ (fun i => kindf (w.factory_calls + i)) hD hO hown hops
      (fun i _ => hkindf _)
  have hs : self1.toGeneralPurposeBlockPreconditioner.scheme env A2 =
      self.toGeneralPurposeBlockPreconditioner.scheme env A2 :=
    GeneralPurposeBlockPreconditioner.scheme_congr env _ _ A2 hP1 hM1
  have hpos : 0 < w.preconditioners.next := w.preconditioners.next_pos
  have hpos1 : 0 < w1.preconditioners.next := w1.preconditioners.next_pos
  obtain ⟨w2, self2, D2, hset2, -, -, hU2, hD2, hO2, -, -, -, hobj2, hn2, hl2, hdead2, hb2, -⟩ :=
    self1.triangular_setup_spec env w1 p2 A2 _ _ D1 (fun i => kindf (w1.factory_calls + i)) hD1 hO1
      (Owned.fresh _ _ _ (fun i hi => ⟨_, hobj1 i hi⟩)) (by rw [hU1]; exact hb1.ops_owned)
      (fun i _ => by rw [hF1]; exact hkindf _)
  rw [hs] at hD2 hobj2 hl2 hO2 hb2
  rw [nonnull_fresh _ _ hpos] at hl2
  obtain ⟨s3, t3, hclean, -, hl3, hdead3, -⟩ :=
    self2.clean_memory_spec w2 _ _ D2 hD2 hO2
      (Owned.fresh _ _ _ (fun i hi => ⟨_, hobj2 i hi⟩)) (by rw [hU2]; exact hb2.ops_owned)
  rw [nonnull_fresh _ _ hpos1] at hl3
  refine ⟨w1, self1, w2, self2, _, _, hset1, hset2, hclean, hD1, ?_, hD2, ?_, hl1, ?_, ?_⟩
  · intro i hi
    exact ⟨⟨_, hobj1 i hi⟩, hdead2 i hi (by omega)⟩
  · intro i hi
    exact ⟨⟨_, hobj2 i hi⟩, hdead3 i hi (by omega)⟩
  · omega
  · simp only; omega

/-- Two successive calls of `ExactBlockPreconditioner::setup` and the
destructor: the subsidiary preconditioner of the first `setup` is deleted by
the second, that of the second by the destructor. -/
theorem ExactBlockPreconditioner.exact_setup_twice {K : Type} [Zero K] (env : Env K) (w : World K)
    (self : ExactBlockPreconditioner K) (p1 p2 : ℕ) (A1 A2 : CRDoubleMatrix K)
    (hsound : self.Sound w)
    (hfact : ∀ c, ∃ k, created_kind self.Subsidiary_preconditioner_function_pt c = some k) :
    ∃ w1 self1 w2 self2 w3 self3,
      self.setup env w p1 (some (DoubleMatrixBase.block_capable A1)) = Except.ok (w1, self1) ∧
      self1.setup env w1 p2 (some (DoubleMatrixBase.block_capable A2)) = Except.ok (w2, self2) ∧
      self2.destructor w2 = Except.ok (w3, self3) ∧
      self1.Preconditioner_pt = w.preconditioners.next ∧
      (∃ a, w1.preconditioners.obj w.preconditioners.next = some a) ∧
      w2.preconditioners.obj w.preconditioners.next = none ∧
      self2.Preconditioner_pt = w1.preconditioners.next ∧
      (∃ a, w2.preconditioners.obj w1.preconditioners.next = some a) ∧
      w3.preconditioners.obj w1.preconditioners.next = none ∧
      w1.preconditioners.live + (if self.Preconditioner_pt = 0 then 0 else 1) =
        w.preconditioners.live + 1 ∧
      w2.preconditioners.live + (if self.Preconditioner_pt = 0 then 0 else 1) =
        w.preconditioners.live + 1 ∧
      w3.preconditioners.live + (if self.Preconditioner_pt = 0 then 0 else 1) =
        w.preconditioners.live := by
  choose kindf hkindf using hfact
  obtain ⟨w1, self1, hset1, -, -, hP1, hF1, -, -, hobj1, hn1, hl1, -⟩ :=
    self.exact_setup_spec env w p1 A1 (kindf w.factory_calls) hsound (hkindf _)
  have hpos : 0 < w.preconditioners.next := w.preconditioners.next_pos
  have hpos1 : 0 < w1.preconditioners.next := w1.preconditioners.next_pos
  have hne : self1.Preconditioner_pt ≠ 0 := by rw [hP1]; omega
  obtain ⟨w2, self2, hset2, -, -, hP2, -, -, -, hobj2, hn2, hl2, hdead2, -⟩ :=
    self1.exact_setup_spec env w1 p2 A2 (kindf w1.factory_calls)
      (Or.inr ⟨_, by rw [hP1]; exact hobj1⟩) (by rw [hF1]; exact hkindf _)
  rw [if_neg hne] at hl2
  obtain ⟨s3, hdel, -, -, hdead3, hl3⟩ :=
    w2.preconditioners.delete_sound self2.Preconditioner_pt
      (Or.inr ⟨_, by rw [hP2]; exact hobj2⟩)
  have hne2 : self2.Preconditioner_pt ≠ 0 := by rw [hP2]; omega
  rw [if_neg hne2] at hl3
  refine ⟨w1, self1, w2, self2, { w2 with preconditioners := s3 }, self2, hset1, hset2, ?_,
    hP1, ⟨_, hobj1⟩, ?_, hP2, ⟨_, hobj2⟩, ?_, hl1, ?_, ?_⟩
  · simp [ExactBlockPreconditioner.destructor, World.delete_preconditioner, hdel]
  · rw [← hP1]; exact hdead2 hne
  · simp only; rw [← hP2]; exact hdead3 hne2
  · omega
  · simp only; omega


/-! ### Repeated setup -/

theorem NoLeak.of_counts {α : Type} (s0 s1 s2 s3 : Store α) (owned n1 n2 : ℕ)
    (h1 : ∀ i, i < n1 → (∃ a, s1.obj (s0.next + i) = some a) ∧ s2.obj (s0.next + i) = none)
    (h2 : ∀ i, i < n2 → (∃ a, s2.obj (s1.next + i) = some a) ∧ s3.obj (s1.next + i) = none)
    (c1 : s1.live + owned = s0.live + n1) (c2 : s2.live + owned = s0.live + n2)
    (c3 : s3.live + owned = s0.live) : NoLeak s0 s1 s2 s3 owned n1 n2 :=
  ⟨fun i hi => (h1 i hi).1, fun i hi => (h1 i hi).2, fun i hi => (h2 i hi).1,
    fun i hi => (h2 i hi).2, c1, c2, c3, fun h => by omega, fun h => by omega⟩

/-! ### What a run that returns has preserved -/

theorem bind_eq_ok {α β : Type} (x : Except Failure α) (f : α → Except Failure β) (b : β) :
    (x >>= f) = Except.ok b ↔ ∃ a, x = Except.ok a ∧ f a = Except.ok b := by
  cases x with
  | error e => simp
  | ok a => simp

theorem for_loop_of_ok {σ : Type} (body : ℕ → σ → Except Failure σ) (I : ℕ → σ → Prop) :
    ∀ (count lo : ℕ) (s s1 : σ), I lo s →
      (∀ i t t1, lo ≤ i → i < lo + count → I i t → body i t = Except.ok t1 → I (i + 1) t1) →
      for_loop body lo count s = Except.ok s1 → I (lo + count) s1 := by
  intro count
  induction count with
  | zero =>
    intro lo s s1 h0 _ hrun
    simp only [for_loop, Except.ok.injEq] at hrun
    subst hrun
    exact h0
  | succ n ih =>
    intro lo s s1 h0 hstep hrun
    simp only [for_loop] at hrun
    cases hb : body lo s with
    | error e => rw [hb] at hrun; cases hrun
    | ok t =>
      rw [hb] at hrun
      have h1 := hstep lo s t le_rfl (by omega) h0 hb
      have h2 := ih (lo + 1) t s1 h1
        (fun i u u1 hi1 hi2 hI hu => hstep i u u1 (by omega) (by omega) hI hu) hrun
      have e : lo + (n + 1) = lo + 1 + n := by omega
      rw [e]; exact h2

theorem for_range_of_ok {σ : Type} (body : ℕ → σ → Except Failure σ) (I : ℕ → σ → Prop)
    (lo hi : ℕ) (s s1 : σ) (hle : lo ≤ hi) (h0 : I lo s)
    (hstep : ∀ i t t1, lo ≤ i → i < hi → I i t → body i t = Except.ok t1 → I (i + 1) t1)
    (hrun : for_range lo hi body s = Except.ok s1) : I hi s1 := by
  have h := for_loop_of_ok body I (hi - lo) lo s s1 h0
    (fun i t t1 hi1 hi2 hI hb => hstep i t t1 hi1 (by omega) hI hb) hrun
  have e : lo + (hi - lo) = hi := by omega
  rw [e] at h
  exact h

/-- A property of the state that every round of a loop keeps holds after the
loop, whatever its bounds. -/
theorem for_range_keeps {σ : Type} (body : ℕ → σ → Except Failure σ) (P : σ → Prop)
    (lo hi : ℕ) (s s1 : σ) (h0 : P s)
    (hstep : ∀ i t t1, P t → body i t = Except.ok t1 → P t1)
    (hrun : for_range lo hi body s = Except.ok s1) : P s1 := by
  have h := for_loop_of_ok body (fun _ t => P t) (hi - lo) lo s s1 h0
    (fun i t t1 _ _ hI hb => hstep i t t1 hI hb) hrun
  exact h


/-! ### The mode of the block triangular preconditioner -/

theorem BlockTriangularPreconditioner.delete_off_diagonal_mode {K : Type} (i j : ℕ)
    (st st1 : World K × BlockTriangularPreconditioner K)
    (h : BlockTriangularPreconditioner.delete_off_diagonal i j st = Except.ok st1) :
    st1.2.Upper_triangular = st.2.Upper_triangular := by
  simp only [BlockTriangularPreconditioner.delete_off_diagonal, bind_eq_ok, pure_eq_ok,
    Except.ok.injEq] at h
  obtain ⟨p, -, w1, -, d, -, rfl⟩ := h
  rfl

theorem BlockTriangularPreconditioner.delete_row_mode {K : Type} (n i : ℕ)
    (st st1 : World K × BlockTriangularPreconditioner K)
    (h : BlockTriangularPreconditioner.delete_row n i st = Except.ok st1) :
    st1.2.Upper_triangular = st.2.Upper_triangular := by
  simp only [BlockTriangularPreconditioner.delete_row, bind_eq_ok] at h
  obtain ⟨p, -, w1, -, v, -, h⟩ := h
  split at h
  · exact for_range_keeps _ (fun t => t.2.Upper_triangular = st.2.Upper_triangular) _ _ _ _ rfl
      (fun j t t1 ht hb => (BlockTriangularPreconditioner.delete_off_diagonal_mode i j t t1 hb).trans ht) h
  · exact for_range_keeps _ (fun t => t.2.Upper_triangular = st.2.Upper_triangular) _ _ _ _ rfl
      (fun j t t1 ht hb => (BlockTriangularPreconditioner.delete_off_diagonal_mode i j t t1 hb).trans ht) h

theorem BlockTriangularPreconditioner.clean_memory_mode {K : Type} (w : World K)
    (self : BlockTriangularPreconditioner K) (st : World K × BlockTriangularPreconditioner K)
    (h : self.clean_memory w = Except.ok st) :
    st.2.Upper_triangular = self.Upper_triangular := by
  simp only [BlockTriangularPreconditioner.clean_memory, bind_eq_ok, pure_eq_ok,
    Except.ok.injEq] at h
  obtain ⟨t, ht, rfl⟩ := h
  exact for_range_keeps _ (fun t => t.2.Upper_triangular = self.Upper_triangular) _ _ _ _ rfl
    (fun i u u1 hu hb => (BlockTriangularPreconditioner.delete_row_mode _ i u u1 hb).trans hu) ht

theorem BlockTriangularPreconditioner.setup_off_diagonal_mode {K : Type} (i j : ℕ)
    (st st1 : World K × BlockTriangularPreconditioner K)
    (h : BlockTriangularPreconditioner.setup_off_diagonal i j st = Except.ok st1) :
    st1.2.Upper_triangular = st.2.Upper_triangular := by
  simp only [BlockTriangularPreconditioner.setup_off_diagonal, bind_eq_ok, pure_eq_ok,
    Except.ok.injEq] at h
  obtain ⟨b, -, d, -, w1, -, w2, -, rfl⟩ := h
  rfl

theorem BlockTriangularPreconditioner.setup_row_mode {K : Type} (n i : ℕ)
    (st st1 : World K × BlockTriangularPreconditioner K)
    (h : BlockTriangularPreconditioner.setup_row n i st = Except.ok st1) :
    st1.2.Upper_triangular = st.2.Upper_triangular := by
  simp only [BlockTriangularPreconditioner.setup_row, bind_eq_ok] at h
  obtain ⟨v, -, b, -, w1, -, w2, -, h⟩ := h
  exact for_range_keeps _ (fun t => t.2.Upper_triangular = st.2.Upper_triangular) _ _ _ _ rfl
    (fun j t t1 ht hb => (BlockTriangularPreconditioner.setup_off_diagonal_mode i j t t1 hb).trans ht) h

theorem BlockTriangularPreconditioner.setup_mode {K : Type} (env : Env K) (w : World K)
    (self : BlockTriangularPreconditioner K) (problem_pt : ℕ)
    (matrix_pt : Option (DoubleMatrixBase K)) (st : World K × BlockTriangularPreconditioner K)
    (h : self.setup env w problem_pt matrix_pt = Except.ok st) :
    st.2.Upper_triangular = self.Upper_triangular := by
  simp only [BlockTriangularPreconditioner.setup, bind_eq_ok] at h
  obtain ⟨c, hc, h⟩ := h
  have hc1 := self.clean_memory_mode w c hc
  split at h
  · simp at h
  · simp only [pure_eq_ok, bind_ok, bind_eq_ok] at h
    obtain ⟨r, -, h⟩ := h
    have := for_range_keeps _ (fun t => t.2.Upper_triangular = c.2.Upper_triangular) _ _ _ _ rfl
      (fun i t t1 ht hb => (BlockTriangularPreconditioner.setup_row_mode _ i t t1 hb).trans ht) h
    exact this.trans hc1


theorem BlockTriangularPreconditioner.toggles_last {K : Type}
    (self : BlockTriangularPreconditioner K) (calls : List ModeCall) (last : ModeCall) :
    (self.toggles (calls ++ [last])).Upper_triangular =
      decide (last = ModeCall.upper_triangular) := by
  simp only [BlockTriangularPreconditioner.toggles, List.foldl_append, List.foldl_cons,
    List.foldl_nil]
  cases last <;> rfl

/-- C14. The mode of the block triangular preconditioner is an explicit toggle
with default upper: a newly constructed preconditioner is in upper mode; after
any sequence of `upper_triangular()` and `lower_triangular()` calls the mode
is the one named by the last call, a toggle called twice is the toggle called
once, and a toggle changes nothing but the mode; every run of `clean_memory`,
of the destructor and of `setup` that returns leaves the mode as it was. (The
embedding of `preconditioner_solve` only reads the object: the source function
assigns no member.) -/
theorem BlockTriangularPreconditioner.mode_is_explicit_toggle {K : Type} (env : Env K)
    (w : World K) (self : BlockTriangularPreconditioner K) (calls : List ModeCall)
    (last : ModeCall) (problem_pt : ℕ) (matrix_pt : Option (DoubleMatrixBase K)) :
    (BlockTriangularPreconditioner.ctor : BlockTriangularPreconditioner K).Upper_triangular =
      true ∧
    (self.toggles (calls ++ [last])).Upper_triangular =
      decide (last = ModeCall.upper_triangular) ∧
    self.toggles [] = self ∧
    self.upper_triangular.upper_triangular = self.upper_triangular ∧
    self.lower_triangular.lower_triangular = self.lower_triangular ∧
    (self.toggle last).toGeneralPurposeBlockPreconditioner =
      self.toGeneralPurposeBlockPreconditioner ∧
    (self.toggle last).Diagonal_block_preconditioner_pt =
      self.Diagonal_block_preconditioner_pt ∧
    (self.toggle last).Off_diagonal_matrix_vector_products =
      self.Off_diagonal_matrix_vector_products ∧
    (∀ st, self.clean_memory w = Except.ok st →
      st.2.Upper_triangular = self.Upper_triangular) ∧
    (∀ st, self.destructor w = Except.ok st →
      st.2.Upper_triangular = self.Upper_triangular) ∧
    (∀ st, self.setup env w problem_pt matrix_pt = Except.ok st →
      st.2.Upper_triangular = self.Upper_triangular) := by
  refine ⟨rfl, self.toggles_last calls last, rfl, rfl, rfl, ?_, ?_, ?_,
    fun st h => self.clean_memory_mode w st h, fun st h => self.clean_memory_mode w st h,
    fun st h => self.setup_mode env w problem_pt matrix_pt st h⟩
  · cases last <;> rfl
  · cases last <;> rfl
  · cases last <;> rfl

/-- C14, witness: a preconditioner switched to lower, upper and lower again is
set up on a matrix with two blocks; `clean_memory`, the destructor and
`setup` return and the mode is still lower. -/
theorem BlockTriangularPreconditioner.mode_is_explicit_toggle_witness :
    ((BlockTriangularPreconditioner.ctor : BlockTriangularPreconditioner ℤ).toggles
      ([ModeCall.lower_triangular, ModeCall.upper_triangular] ++
        [ModeCall.lower_triangular])).Upper_triangular = false ∧
    (∃ st, (BlockTriangularPreconditioner.ctor : BlockTriangularPreconditioner ℤ).lower_triangular.clean_memory
        World.empty = Except.ok st ∧ st.2.Upper_triangular = false) ∧
    (∃ st, (BlockTriangularPreconditioner.ctor : BlockTriangularPreconditioner ℤ).lower_triangular.destructor
        World.empty = Except.ok st ∧ st.2.Upper_triangular = false) ∧
    (∃ st, (BlockTriangularPreconditioner.ctor : BlockTriangularPreconditioner ℤ).lower_triangular.setup
        paranoid_env World.empty 0 (some (DoubleMatrixBase.block_capable upper_matrix)) =
          Except.ok st ∧ st.2.Upper_triangular = false) :=
  ⟨(BlockTriangularPreconditioner.mode_is_explicit_toggle paranoid_env World.empty
      BlockTriangularPreconditioner.ctor [ModeCall.lower_triangular, ModeCall.upper_triangular]
      ModeCall.lower_triangular 0 none).2.1,
    ⟨_, rfl, (BlockTriangularPreconditioner.mode_is_explicit_toggle paranoid_env World.empty
      BlockTriangularPreconditioner.ctor.lower_triangular [] ModeCall.lower_triangular 0
      none).2.2.2.2.2.2.2.2.1 _ rfl⟩,
    ⟨_, rfl, (BlockTriangularPreconditioner.mode_is_explicit_toggle paranoid_env World.empty
      BlockTriangularPreconditioner.ctor.lower_triangular [] ModeCall.lower_triangular 0
      none).2.2.2.2.2.2.2.2.2.1 _ rfl⟩,
    ⟨_, rfl, (BlockTriangularPreconditioner.mode_is_explicit_toggle paranoid_env World.empty
      BlockTriangularPreconditioner.ctor.lower_triangular [] ModeCall.lower_triangular 0
      (some (DoubleMatrixBase.block_capable upper_matrix))).2.2.2.2.2.2.2.2.2.2 _ rfl⟩⟩


/-! ### A factory that returns the null pointer -/

theorem for_range_first_error {σ : Type} (body : ℕ → σ → Except Failure σ) (lo hi : ℕ) (s : σ)
    (e : Failure) (h : lo < hi) (hb : body lo s = Except.error e) :
    for_range lo hi body s = Except.error e := by
  obtain ⟨n, hn⟩ : ∃ n, hi - lo = n + 1 := ⟨hi - lo - 1, by omega⟩
  simp only [for_range, hn, for_loop, hb]

theorem World.create_null {K : Type} (w : World K) (f : SubsidiaryPreconditionerFctPt)
    (h : f w.factory_calls = none) :
    w.create_subsidiary_preconditioner (some f) = (0, w.record Event.factory_call) := by
  simp [World.create_subsidiary_preconditioner, World.call_factory, h]

theorem World.preconditioner_setup_null {K : Type} (w : World K) (b : ℕ) :
    w.preconditioner_setup 0 b = Except.error
      (Failure.undefined_behaviour "null or dangling pointer dereferenced") := by
  simp [World.preconditioner_setup, Store.deref, w.preconditioners.null_free]

/-- The first loop of `BlockDiagonalPreconditioner::setup` when the factory
returns the null pointer at its first call: the loop runs to its end and the
null pointer is stored for block `0`. -/
theorem BlockDiagonalPreconditioner.create_loop_null {K : Type} (w : World K)
    (self : BlockDiagonalPreconditioner K) (N : ℕ) (f : SubsidiaryPreconditionerFctPt)
    (hD : self.Diagonal_block_preconditioner_pt = vec N (fun _ => 0))
    (hf : self.Subsidiary_preconditioner_function_pt = some f)
    (hnull : f w.factory_calls = none) :
    ∃ (w1 : World K) (g : ℕ → ℕ),
      for_range 0 N BlockDiagonalPreconditioner.create_diagonal (w, self) =
        Except.ok (w1, { self with Diagonal_block_preconditioner_pt := vec N g }) ∧
      g 0 = 0 ∧ w1.matrices = w.matrices := by
  have hself : self = { self with Diagonal_block_preconditioner_pt := vec N (fun _ => 0) } := by
    cases self; simp only at hD; subst hD; rfl
  obtain ⟨st, hrun, w1, g, rfl, -, h2, h3⟩ := for_range_inv
    BlockDiagonalPreconditioner.create_diagonal
    (fun k st => ∃ (w1 : World K) (g : ℕ → ℕ),
      st = (w1, { self with Diagonal_block_preconditioner_pt := vec N g }) ∧
      (k = 0 → w1.factory_calls = w.factory_calls) ∧ g 0 = 0 ∧ w1.matrices = w.matrices)
    0 N (w, self) (Nat.zero_le _)
    ⟨w, fun _ => 0, (by rw [Prod.mk.injEq]; exact ⟨rfl, hself⟩), fun _ => rfl, rfl, rfl⟩
    (by
      rintro k st _ hk ⟨w1, g, rfl, h1, h2, h3⟩
      by_cases hk0 : k = 0
      · subst hk0
        have hc := w1.create_null f (by rw [h1 rfl]; exact hnull)
        refine ⟨_, ?_, w1.record Event.factory_call, Function.update g 0 0, rfl,
          fun h => by omega, by simp, h3⟩
        simp only [BlockDiagonalPreconditioner.create_diagonal, hf, hc]
        erw [Vector_assign_vec N g 0 0 hk]
        rfl
      · cases hc : w1.create_subsidiary_preconditioner (some f) with
        | mk p w2 =>
          refine ⟨_, ?_, w2, Function.update g k p, rfl, fun h => by omega,
            by rw [Function.update_noteq (Ne.symm hk0)]; exact h2, ?_⟩
          · simp only [BlockDiagonalPreconditioner.create_diagonal, hf, hc]
            erw [Vector_assign_vec N g k p hk]
            rfl
          · have : w2 = (w1.create_subsidiary_preconditioner (some f)).2 := by rw [hc]
            rw [this, ← h3]
            simp only [World.create_subsidiary_preconditioner, World.call_factory]
            split <;> rfl)
  exact ⟨w1, g, hrun, h2, h3⟩


theorem BlockDiagonalPreconditioner.setup_null_factory {K : Type} (env : Env K) (w : World K)
    (self : BlockDiagonalPreconditioner K) (problem_pt : ℕ) (A : CRDoubleMatrix K)
    (f : SubsidiaryPreconditionerFctPt) (hsound : self.Sound w)
    (hf : self.Subsidiary_preconditioner_function_pt = some f)
    (hnull : f w.factory_calls = none)
    (hN : 0 < (self.toGeneralPurposeBlockPreconditioner.scheme env A).nblock_types) :
    self.setup env w problem_pt (some (DoubleMatrixBase.block_capable A)) =
      Except.error (Failure.undefined_behaviour "null or dangling pointer dereferenced") := by
  set L := self.toGeneralPurposeBlockPreconditioner.scheme env A with hLdef
  obtain ⟨hD, hown⟩ := hsound.diagonal_owned
  obtain ⟨s1, hclean, -⟩ := self.clean_up_memory_spec w _ _ hD hown
  let gp1 : GeneralPurposeBlockPreconditioner K :=
    { self.toGeneralPurposeBlockPreconditioner with
      Problem_pt := problem_pt, Lookup := none }
  have hbs := gp1.block_setup_spec env (⟨s1, w.matrix_vector_products, w.matrices, w.log⟩ : World K) A
  have hLeq : gp1.scheme env A = L := rfl
  rw [hLeq] at hbs
  let wb : World K := ⟨s1, w.matrix_vector_products, w.matrices,
    w.log ++ [Event.block_setup self.Prec_mesh_pt.length self.Prec_mesh_pt gp1.map_in_use]⟩
  let self3 : BlockDiagonalPreconditioner K :=
    { toGeneralPurposeBlockPreconditioner :=
        { gp1 with Mesh_pt := self.Prec_mesh_pt, Matrix_pt := some A, Lookup := some L }
      Diagonal_block_preconditioner_pt := vec L.nblock_types (fun _ => 0)
      Doc_time_during_preconditioner_solve := self.Doc_time_during_preconditioner_solve }
  have hfc : wb.factory_calls = w.factory_calls := by
    simp [wb, World.factory_calls, List.count_append, List.count_cons]
  obtain ⟨w1, g, hcreate, hg0, -⟩ :=
    BlockDiagonalPreconditioner.create_loop_null wb self3 L.nblock_types f rfl hf
      (by rw [hfc]; exact hnull)
  let self4 : BlockDiagonalPreconditioner K :=
    { self3 with Diagonal_block_preconditioner_pt := vec L.nblock_types g }
  have hfirst : BlockDiagonalPreconditioner.setup_diagonal 0 (w1, self4) =
      Except.error (Failure.undefined_behaviour "null or dangling pointer dereferenced") := by
    have hgb := World.get_block_spec w1 self4.toBlockPreconditioner L A rfl rfl 0 0 hN hN
    simp only [BlockDiagonalPreconditioner.setup_diagonal]
    erw [hgb]
    simp only [bind_ok]
    erw [Vector_at_vec L.nblock_types g 0 hN]
    simp only [bind_ok, hg0, World.preconditioner_setup_null, bind_error]
  unfold BlockDiagonalPreconditioner.setup
  simp only [hclean, bind_ok, dynamic_cast_MATRIX, Option.isNone_some, Bool.false_eq_true,
    and_false, if_false]
  have e1 : Vector_resize (vec self.Diagonal_block_preconditioner_pt.length (fun _ => 0))
      L.nblock_types = vec L.nblock_types (fun _ => 0) := by
    rw [Vector_resize_vec]
    apply vec_congr
    intro i _; simp
  simp only [pure_eq_ok, bind_ok]
  erw [hbs]
  simp only [bind_ok, BlockPreconditioner.nblock_types, e1]
  erw [hcreate]
  simp only [bind_ok]
  exact for_range_first_error _ 0 L.nblock_types _ _ hN hfirst


theorem BlockTriangularPreconditioner.setup_null_factory_triangular {K : Type} (env : Env K)
    (w : World K) (self : BlockTriangularPreconditioner K) (problem_pt : ℕ)
    (A : CRDoubleMatrix K) (f : SubsidiaryPreconditionerFctPt) (hsound : self.Sound w)
    (hf : self.Subsidiary_preconditioner_function_pt = some f)
    (hnull : f w.factory_calls = none)
    (hN : 0 < (self.toGeneralPurposeBlockPreconditioner.scheme env A).nblock_types) :
    self.setup env w problem_pt (some (DoubleMatrixBase.block_capable A)) =
      Except.error (Failure.undefined_behaviour "null or dangling pointer dereferenced") := by
  set L := self.toGeneralPurposeBlockPreconditioner.scheme env A with hLdef
  obtain ⟨hD, hO⟩ := hsound.triangular_owned
  obtain ⟨hown, -, -, hops⟩ := hsound
  obtain ⟨s1, t1, hclean, -⟩ := self.clean_memory_spec w _ _ _ hD hO hown hops
  let gp1 : GeneralPurposeBlockPreconditioner K :=
    { self.toGeneralPurposeBlockPreconditioner with Problem_pt := problem_pt }
  have hbs := gp1.block_setup_spec env (⟨s1, t1, w.matrices, w.log⟩ : World K) A
  have hLeq : gp1.scheme env A = L := rfl
  rw [hLeq] at hbs
  let n := self.Diagonal_block_preconditioner_pt.length
  let D0 : ℕ → ℕ → ℕ := fun i j => if i < n ∧ j < n then
    cleared self.Upper_triangular n self.Off_diagonal_matrix_vector_products.data n
      (first_column self.Upper_triangular n) i j else 0
  let self3 : BlockTriangularPreconditioner K :=
    { toGeneralPurposeBlockPreconditioner :=
        { gp1 with Mesh_pt := self.Prec_mesh_pt, Matrix_pt := some A, Lookup := some L }
      Diagonal_block_preconditioner_pt := vec L.nblock_types (fun _ => 0)
      Off_diagonal_matrix_vector_products := ⟨L.nblock_types, L.nblock_types, D0⟩
      Upper_triangular := self.Upper_triangular }
  let wb : World K := ⟨s1, t1, w.matrices,
    w.log ++ [Event.block_setup self.Prec_mesh_pt.length self.Prec_mesh_pt gp1.map_in_use]⟩
  have hfc : wb.factory_calls = w.factory_calls := by
    simp [wb, World.factory_calls, List.count_append, List.count_cons]
  have hc := wb.create_null f (by rw [hfc]; exact hnull)
  let self4 : BlockTriangularPreconditioner K :=
    { self3 with Diagonal_block_preconditioner_pt := vec L.nblock_types (Function.update (fun _ => 0) 0 0) }
  have hfirst : BlockTriangularPreconditioner.setup_row L.nblock_types 0 (wb, self3) =
      Except.error (Failure.undefined_behaviour "null or dangling pointer dereferenced") := by
    have hgb := World.get_block_spec (wb.record Event.factory_call) self4.toBlockPreconditioner
      L A rfl rfl 0 0 hN hN
    simp only [BlockTriangularPreconditioner.setup_row]
    erw [hf, hc]
    simp only []
    erw [Vector_assign_vec L.nblock_types (fun _ => 0) 0 0 hN]
    simp only [bind_ok]
    erw [hgb]
    simp only [bind_ok, World.preconditioner_setup_null, bind_error]
  unfold BlockTriangularPreconditioner.setup
  simp only [hclean, bind_ok, dynamic_cast_MATRIX, Option.isNone_some, Bool.false_eq_true,
    and_false, if_false]
  have e1 : Vector_resize (vec n (fun _ => 0)) L.nblock_types = vec L.nblock_types (fun _ => 0) := by
    rw [Vector_resize_vec]
    apply vec_congr
    intro i _; simp
  simp only [pure_eq_ok, bind_ok]
  erw [hbs]
  simp only [bind_ok, BlockPreconditioner.nblock_types, e1, DenseMatrix.resize]
  exact for_range_first_error _ 0 L.nblock_types _ _ hN hfirst


theorem ExactBlockPreconditioner.setup_null_factory_exact {K : Type} [Zero K] (env : Env K)
    (w : World K) (self : ExactBlockPreconditioner K) (problem_pt : ℕ) (A : CRDoubleMatrix K)
    (f : SubsidiaryPreconditionerFctPt) (hown : self.Sound w)
    (hf : self.Subsidiary_preconditioner_function_pt = some f)
    (hnull : f w.factory_calls = none) :
    self.setup env w problem_pt (some (DoubleMatrixBase.block_capable A)) =
      Except.error (Failure.undefined_behaviour "null or dangling pointer dereferenced") := by
  set L := self.toGeneralPurposeBlockPreconditioner.scheme env A with hLdef
  obtain ⟨s, t, m0, log0⟩ := w
  simp only [ExactBlockPreconditioner.Sound] at hown
  obtain ⟨s1, hdel, -⟩ := s.delete_sound self.Preconditioner_pt hown
  let gp1 : GeneralPurposeBlockPreconditioner K :=
    { self.toGeneralPurposeBlockPreconditioner with Problem_pt := problem_pt }
  have hbs := gp1.block_setup_spec env (⟨s1, t, m0, log0⟩ : World K) A
  have hLeq : gp1.scheme env A = L := rfl
  rw [hLeq] at hbs
  let logb : List Event :=
    log0 ++ [Event.block_setup self.Prec_mesh_pt.length self.Prec_mesh_pt gp1.map_in_use]
  let gp2 : GeneralPurposeBlockPreconditioner K :=
    { gp1 with Mesh_pt := self.Prec_mesh_pt, Matrix_pt := some A, Lookup := some L }
  obtain ⟨m1, D1, log1, hget, hb1, hge1, hfr1, hlv1, hc1⟩ :=
    BlockPreconditioner.get_blocks_spec gp2.toBlockPreconditioner L A rfl rfl s1 t m0 logb
      (fun _ _ => 0)
  have hall : ∀ i j, i < L.nblock_types → j < L.nblock_types →
      m1.obj (D1 i j) = some (L.block A i j) := fun i j hi hj =>
    (hb1 i j (reached_all _ _ _ hi hj)).2.2.1
  obtain ⟨d, hread, hd⟩ := BlockPreconditioner.read_blocks_spec (⟨s1, t, m1, log1⟩ : World K)
    L.nblock_types (L.block A) D1 hall
  let blocks : ℕ → ℕ → CRDoubleMatrix K := fun i j => (d.data i j).getD ⟨0, 0, fun _ _ => 0⟩
  let B : CRDoubleMatrix K := L.build_preconditioner_matrix blocks
  obtain ⟨m3, D3, hdelb, -⟩ :=
    ExactBlockPreconditioner.delete_blocks_spec s1 t (m1.new B).2
      (log1 ++ [Event.build_preconditioner_matrix]) L.nblock_types D1
      (fun i j hi hj => ⟨L.block A i j, by
        have h := hb1 i j (reached_all _ _ _ hi hj)
        rw [Store.new_obj, if_neg (by omega)]; exact h.2.2.1⟩)
      (fun i j i1 j1 hi hj hi1 hj1 he =>
        (hb1 i j (reached_all _ _ _ hi hj)).2.2.2 i1 j1 (reached_all _ _ _ hi1 hj1) he)
  let w3 : World K := ⟨s1, t, m3, log1 ++ [Event.build_preconditioner_matrix]⟩
  have hfc3 : w3.factory_calls = World.factory_calls (⟨s, t, m0, log0⟩ : World K) := by
    simp [w3, World.factory_calls, List.count_append, hc1, logb]
  have hcreate := w3.create_null f (by rw [hfc3]; exact hnull)
  unfold ExactBlockPreconditioner.setup
  simp only [World.delete_preconditioner, hdel, bind_ok, dynamic_cast_MATRIX,
    Option.isNone_some, Bool.false_eq_true, and_false, if_false, pure_eq_ok]
  erw [hbs]
  simp only [bind_ok, BlockPreconditioner.nblock_types]
  erw [hget]
  simp only [bind_ok, BlockPreconditioner.build_preconditioner_matrix,
    BlockPreconditioner.lookup]
  erw [hread]
  simp only [bind_ok, World.new_matrix, World.record, Store.new_fst]
  erw [hdelb]
  simp only [bind_ok]
  erw [hf, hcreate]
  simp only [World.preconditioner_setup_null, bind_error]


/-- C11, counterexample: a factory that returns the null pointer is installed
in a block diagonal, a block triangular and an exact block preconditioner, and
`setup` is called on a matrix with two blocks: none of the three calls ends in
a described error (`OomphLibError`); each stores the null pointer and calls
`setup` through it, which is undefined behaviour. -/
theorem setup_does_not_report_null_factory_result :
    (BlockDiagonalPreconditioner.ctor.set_subsidiary_preconditioner_function
        (some null_factory)).setup paranoid_env World.empty 0
        (some (DoubleMatrixBase.block_capable upper_matrix)) =
      Except.error (Failure.undefined_behaviour "null or dangling pointer dereferenced") ∧
    (BlockTriangularPreconditioner.ctor.set_subsidiary_preconditioner_function
        (some null_factory)).setup paranoid_env World.empty 0
        (some (DoubleMatrixBase.block_capable upper_matrix)) =
      Except.error (Failure.undefined_behaviour "null or dangling pointer dereferenced") ∧
    (ExactBlockPreconditioner.ctor.set_subsidiary_preconditioner_function
        (some null_factory)).setup paranoid_env World.empty 0
        (some (DoubleMatrixBase.block_capable upper_matrix)) =
      Except.error (Failure.undefined_behaviour "null or dangling pointer dereferenced") ∧
    (∀ msg fn, Failure.undefined_behaviour "null or dangling pointer dereferenced" ≠
      Failure.OomphLibError msg fn) :=
  ⟨rfl, rfl, rfl, fun _ _ h => by cases h⟩

/-! ### The subsidiary preconditioner function -/

/-- C12. Effect of `set_subsidiary_preconditioner_function`: the function
installed last (`fct`, after any `earlier` one) is the one `setup` uses. For
the block diagonal and the block triangular preconditioner on `n` block types
`setup` makes `n` calls of the factory if one is installed and none if the
function pointer is null (as it is after construction), and the `i`-th
subsidiary preconditioner is the default direct solver without a factory and
the object returned by the `i`-th of these calls otherwise; the exact block
preconditioner makes one call for its single subsidiary preconditioner. The
factory is assumed to return objects, not the null pointer. -/
theorem factory_installed_last_is_used {K : Type} [Zero K] (env : Env K) (w : World K)
    (diagonal : BlockDiagonalPreconditioner K) (triangular : BlockTriangularPreconditioner K)
    (exact : ExactBlockPreconditioner K) (problem_pt : ℕ) (A : CRDoubleMatrix K)
    (earlier fct : Option SubsidiaryPreconditionerFctPt)
    (hd : diagonal.Sound w) (ht : triangular.Sound w) (he : exact.Sound w)
    (hret : ∀ f, fct = some f → ∀ c, ∃ tag, f c = some tag) :
    (∃ w1 self1,
      ((diagonal.set_subsidiary_preconditioner_function
          earlier).set_subsidiary_preconditioner_function fct).setup env w problem_pt
        (some (DoubleMatrixBase.block_capable A)) = Except.ok (w1, self1) ∧
      w1.factory_calls = w.factory_calls + (if fct.isSome = true then
        (diagonal.toGeneralPurposeBlockPreconditioner.scheme env A).nblock_types else 0) ∧
      self1.Diagonal_block_preconditioner_pt.length =
        (diagonal.toGeneralPurposeBlockPreconditioner.scheme env A).nblock_types ∧
      ∀ i, i < (diagonal.toGeneralPurposeBlockPreconditioner.scheme env A).nblock_types →
        ∃ pre, w1.preconditioners.obj (self1.Diagonal_block_preconditioner_pt.getD i 0) =
            some pre ∧
          (fct = none → pre.kind = PrecKind.SuperLUPreconditioner) ∧
          (∀ f, fct = some f → ∃ tag, f (w.factory_calls + i) = some tag ∧
            pre.kind = PrecKind.from_factory tag)) ∧
    (∃ w1 self1,
      ((triangular.set_subsidiary_preconditioner_function
          earlier).set_subsidiary_preconditioner_function fct).setup env w problem_pt
        (some (DoubleMatrixBase.block_capable A)) = Except.ok (w1, self1) ∧
      w1.factory_calls = w.factory_calls + (if fct.isSome = true then
        (triangular.toGeneralPurposeBlockPreconditioner.scheme env A).nblock_types else 0) ∧
      self1.Diagonal_block_preconditioner_pt.length =
        (triangular.toGeneralPurposeBlockPreconditioner.scheme env A).nblock_types ∧
      ∀ i, i < (triangular.toGeneralPurposeBlockPreconditioner.scheme env A).nblock_types →
        ∃ pre, w1.preconditioners.obj (self1.Diagonal_block_preconditioner_pt.getD i 0) =
            some pre ∧
          (fct = none → pre.kind = PrecKind.SuperLUPreconditioner) ∧
          (∀ f, fct = some f → ∃ tag, f (w.factory_calls + i) = some tag ∧
            pre.kind = PrecKind.from_factory tag)) ∧
    (∃ w1 self1,
      ((exact.set_subsidiary_preconditioner_function
          earlier).set_subsidiary_preconditioner_function fct).setup env w problem_pt
        (some (DoubleMatrixBase.block_capable A)) = Except.ok (w1, self1) ∧
      w1.factory_calls = w.factory_calls + (if fct.isSome = true then 1 else 0) ∧
      ∃ pre, w1.preconditioners.obj self1.Preconditioner_pt = some pre ∧
        (fct = none → pre.kind = PrecKind.SuperLUPreconditioner) ∧
        (∀ f, fct = some f → ∃ tag, f w.factory_calls = some tag ∧
          pre.kind = PrecKind.from_factory tag)) ∧
    (BlockDiagonalPreconditioner.ctor :
      BlockDiagonalPreconditioner K).Subsidiary_preconditioner_function_pt = none ∧
    (BlockTriangularPreconditioner.ctor :
      BlockTriangularPreconditioner K).Subsidiary_preconditioner_function_pt = none ∧
    (ExactBlockPreconditioner.ctor :
      ExactBlockPreconditioner K).Subsidiary_preconditioner_function_pt = none := by
  have hkind : ∀ c, ∃ k, created_kind fct c = some k ∧
      (fct = none → k = PrecKind.SuperLUPreconditioner) ∧
      (∀ f, fct = some f → ∃ tag, f c = some tag ∧ k = PrecKind.from_factory tag) := by
    intro c
    cases hfct : fct with
    | none => exact ⟨_, rfl, fun _ => rfl, fun f h => by cases h⟩
    | some f =>
      obtain ⟨tag, htag⟩ := hret f hfct c
      refine ⟨PrecKind.from_factory tag, by simp [created_kind, htag], (fun h => by cases h), ?_⟩
      intro f1 h1
      cases h1
      exact ⟨tag, htag, rfl⟩
  choose kindf hk1 hk2 hk3 using hkind
  refine ⟨?_, ?_, ?_, rfl, rfl, rfl⟩
  · obtain ⟨hD, hown⟩ := hd.diagonal_owned
    obtain ⟨w1, self1, hset, -, -, hD1, -, -, -, hobj, -, -, -, -, -, hcalls⟩ :=
      BlockDiagonalPreconditioner.diagonal_setup_spec env w
        ((diagonal.set_subsidiary_preconditioner_function
          earlier).set_subsidiary_preconditioner_function fct) problem_pt A _ _
        (fun i => kindf (w.factory_calls + i)) hD hown (fun i _ => hk1 _)
    have hD2 : self1.Diagonal_block_preconditioner_pt =
        vec (diagonal.toGeneralPurposeBlockPreconditioner.scheme env A).nblock_types
          (fun i => w.preconditioners.next + i) := hD1
    refine ⟨w1, self1, hset, hcalls, by rw [hD2, vec_length], ?_⟩
    intro i hi
    have h1 := hobj i hi
    have e : self1.Diagonal_block_preconditioner_pt.getD i 0 = w.preconditioners.next + i := by
      rw [hD2, vec_getD, if_pos hi]
    rw [← e] at h1
    exact ⟨_, h1, hk2 (w.factory_calls + i), hk3 (w.factory_calls + i)⟩
  · obtain ⟨hD, hO⟩ := ht.triangular_owned
    obtain ⟨hown, -, -, hops⟩ := ht
    obtain ⟨w1, self1, D1, hset, -, -, -, hD1, -, -, -, -, hobj, -, -, -, -, -, hcalls⟩ :=
      BlockTriangularPreconditioner.triangular_setup_spec env w
        ((triangular.set_subsidiary_preconditioner_function
          earlier).set_subsidiary_preconditioner_function fct) problem_pt A _ _ _
        (fun i => kindf (w.factory_calls + i)) hD hO hown hops (fun i _ => hk1 _)
    have hD2 : self1.Diagonal_block_preconditioner_pt =
        vec (triangular.toGeneralPurposeBlockPreconditioner.scheme env A).nblock_types
          (fun i => w.preconditioners.next + i) := hD1
    refine ⟨w1, self1, hset, hcalls, by rw [hD2, vec_length], ?_⟩
    intro i hi
    have h1 := hobj i hi
    have e : self1.Diagonal_block_preconditioner_pt.getD i 0 = w.preconditioners.next + i := by
      rw [hD2, vec_getD, if_pos hi]
    rw [← e] at h1
    exact ⟨_, h1, hk2 (w.factory_calls + i), hk3 (w.factory_calls + i)⟩
  · obtain ⟨w1, self1, hset, -, -, hP1, -, -, -, hobj, -, -, -, -, -, -, hcalls⟩ :=
      ExactBlockPreconditioner.exact_setup_spec env w
        ((exact.set_subsidiary_preconditioner_function
          earlier).set_subsidiary_preconditioner_function fct) problem_pt A
        (kindf w.factory_calls) he (hk1 _)
    rw [← hP1] at hobj
    exact ⟨w1, self1, hset, hcalls, _, hobj, hk2 w.factory_calls, hk3 w.factory_calls⟩


/-- C12, witness: the counting factory installed after the null factory in
newly constructed preconditioners, `setup` on a matrix with two blocks: the
block diagonal preconditioner makes two calls of the factory and the exact
block preconditioner one; evaluated, the two subsidiary preconditioners of the
block triangular preconditioner are the objects of calls `0` and `1`. -/
theorem factory_installed_last_is_used_witness :
    (∃ w1 self1,
      ((BlockDiagonalPreconditioner.ctor.set_subsidiary_preconditioner_function
          (some null_factory)).set_subsidiary_preconditioner_function
          (some counting_factory)).setup paranoid_env World.empty 0
        (some (DoubleMatrixBase.block_capable upper_matrix)) = Except.ok (w1, self1) ∧
      w1.factory_calls = (World.empty : World ℤ).factory_calls +
        (if (some counting_factory).isSome = true then
          ((BlockDiagonalPreconditioner.ctor :
            BlockDiagonalPreconditioner ℤ).toGeneralPurposeBlockPreconditioner.scheme
              paranoid_env upper_matrix).nblock_types else 0) ∧
      self1.Diagonal_block_preconditioner_pt.length =
        ((BlockDiagonalPreconditioner.ctor :
          BlockDiagonalPreconditioner ℤ).toGeneralPurposeBlockPreconditioner.scheme
            paranoid_env upper_matrix).nblock_types ∧
      ∀ i, i < ((BlockDiagonalPreconditioner.ctor :
          BlockDiagonalPreconditioner ℤ).toGeneralPurposeBlockPreconditioner.scheme
            paranoid_env upper_matrix).nblock_types →
        ∃ pre, w1.preconditioners.obj (self1.Diagonal_block_preconditioner_pt.getD i 0) =
            some pre ∧
          (some counting_factory = none → pre.kind = PrecKind.SuperLUPreconditioner) ∧
          (∀ f, some counting_factory = some f →
            ∃ tag, f ((World.empty : World ℤ).factory_calls + i) = some tag ∧
              pre.kind = PrecKind.from_factory tag)) ∧
    (∃ w1 self1,
      ((ExactBlockPreconditioner.ctor.set_subsidiary_preconditioner_function
          (some null_factory)).set_subsidiary_preconditioner_function
          (some counting_factory)).setup paranoid_env World.empty 0
        (some (DoubleMatrixBase.block_capable upper_matrix)) = Except.ok (w1, self1) ∧
      w1.factory_calls = (World.empty : World ℤ).factory_calls +
        (if (some counting_factory).isSome = true then 1 else 0) ∧
      ∃ pre, w1.preconditioners.obj self1.Preconditioner_pt = some pre ∧
        (some counting_factory = none → pre.kind = PrecKind.SuperLUPreconditioner) ∧
        (∀ f, some counting_factory = some f →
          ∃ tag, f (World.empty : World ℤ).factory_calls = some tag ∧
            pre.kind = PrecKind.from_factory tag)) ∧
    (match ((BlockTriangularPreconditioner.ctor.set_subsidiary_preconditioner_function
          (some null_factory)).set_subsidiary_preconditioner_function
          (some counting_factory)).setup paranoid_env World.empty 0
        (some (DoubleMatrixBase.block_capable upper_matrix)) with
     | Except.ok st =>
       some (st.1.factory_calls,
         (st.2.Diagonal_block_preconditioner_pt.map
           (fun p => (st.1.preconditioners.obj p).map (fun pre => pre.kind))))
     | Except.error _ => none) =
      some (2, [some (PrecKind.from_factory 0), some (PrecKind.from_factory 1)]) :=
  ⟨(factory_installed_last_is_used paranoid_env World.empty BlockDiagonalPreconditioner.ctor
      BlockTriangularPreconditioner.ctor ExactBlockPreconditioner.ctor 0 upper_matrix
      (some null_factory) (some counting_factory)
      (BlockDiagonalPreconditioner.diagonal_ctor_sound _)
      (BlockTriangularPreconditioner.triangular_ctor_sound _)
      (ExactBlockPreconditioner.exact_ctor_sound _)
      (fun f hf c => by cases hf; exact ⟨c, rfl⟩)).1,
    (factory_installed_last_is_used paranoid_env World.empty BlockDiagonalPreconditioner.ctor
      BlockTriangularPreconditioner.ctor ExactBlockPreconditioner.ctor 0 upper_matrix
      (some null_factory) (some counting_factory)
      (BlockDiagonalPreconditioner.diagonal_ctor_sound _)
      (BlockTriangularPreconditioner.triangular_ctor_sound _)
      (ExactBlockPreconditioner.exact_ctor_sound _)
      (fun f hf c => by cases hf; exact ⟨c, rfl⟩)).2.2.1, rfl⟩


/-! ### Independence of the blocks of the block diagonal preconditioner -/

/-- Block `i` of the vector `preconditioner_solve` of the block diagonal
preconditioner returns. -/
theorem BlockLookup.block_of_return_block_vectors {K : Type} [Zero K] (L : BlockLookup)
    (hL : L.Valid) (S : ℕ → List K) (zs : List K) (hzs : zs.length = L.nrow) (i : ℕ)
    (hi : i < L.nblock_types) :
    (L.get_block_vectors
        (L.return_block_vectors (vec L.nblock_types S) zs)).getD i [] =
      vec (L.block_dimension i) (fun k => vget (S i) k) := by
  rw [L.get_block_vectors_getD _ i hi]
  apply vec_congr
  intro k hk
  rw [L.vget_return_block_vectors hL _ zs hzs i k hi hk, vec_getD, if_pos hi]

/-- C13. `BlockDiagonalPreconditioner::preconditioner_solve` has no
inter-block dependency: after `setup`, for every two residuals `r` and `r'`
and output vectors `z` and `z'` (unbuilt, or built to the global length), both
calls return, block `i` of the result for `r` holds the entries of the solve
of the `i`-th subsidiary preconditioner applied to block `i` of `r`, and if
`r` and `r'` agree on block `i` then so do the two results. -/
theorem BlockDiagonalPreconditioner.solve_has_no_inter_block_dependency {K : Type} [Zero K]
    (env : Env K) (w : World K) (self : BlockDiagonalPreconditioner K) (problem_pt : ℕ)
    (A : CRDoubleMatrix K) (kind : ℕ → PrecKind) (r r' : List K) (z z' : DoubleVector K)
    (hsound : self.Sound w)
    (hvalid : (self.toGeneralPurposeBlockPreconditioner.scheme env A).Valid)
    (hz : z = DoubleVector.unbuilt ∨ ∃ zs, z = DoubleVector.built zs ∧
      zs.length = (self.toGeneralPurposeBlockPreconditioner.scheme env A).nrow)
    (hz' : z' = DoubleVector.unbuilt ∨ ∃ zs, z' = DoubleVector.built zs ∧
      zs.length = (self.toGeneralPurposeBlockPreconditioner.scheme env A).nrow)
    (hkind : ∀ i, i < (self.toGeneralPurposeBlockPreconditioner.scheme env A).nblock_types →
      created_kind self.Subsidiary_preconditioner_function_pt (w.factory_calls + i) =
        some (kind i)) :
    ∃ w1 self1 zv zv',
      self.setup env w problem_pt (some (DoubleMatrixBase.block_capable A)) =
        Except.ok (w1, self1) ∧
      self1.preconditioner_solve env w1 (DoubleVector.built r) z =
        Except.ok (DoubleVector.built zv) ∧
      self1.preconditioner_solve env w1 (DoubleVector.built r') z' =
        Except.ok (DoubleVector.built zv') ∧
      ∀ i, i < (self.toGeneralPurposeBlockPreconditioner.scheme env A).nblock_types →
        ((self.toGeneralPurposeBlockPreconditioner.scheme env A).get_block_vectors zv).getD i [] =
          vec ((self.toGeneralPurposeBlockPreconditioner.scheme env A).block_dimension i)
            (fun k => vget (env.solve (kind i)
              ((self.toGeneralPurposeBlockPreconditioner.scheme env A).block A i i)
              (((self.toGeneralPurposeBlockPreconditioner.scheme env A).get_block_vectors
                r).getD i [])) k) ∧
        ((((self.toGeneralPurposeBlockPreconditioner.scheme env A).get_block_vectors
            r).getD i [] =
          ((self.toGeneralPurposeBlockPreconditioner.scheme env A).get_block_vectors
            r').getD i []) →
          ((self.toGeneralPurposeBlockPreconditioner.scheme env A).get_block_vectors
            zv).getD i [] =
          ((self.toGeneralPurposeBlockPreconditioner.scheme env A).get_block_vectors
            zv').getD i []) := by
  obtain ⟨hD, hown⟩ := hsound.diagonal_owned
  obtain ⟨w1, self1, hset, hL1, -, hD1, -, -, -, hobj, -⟩ :=
    self.diagonal_setup_spec env w problem_pt A _ _ kind hD hown hkind
  obtain ⟨zs, hzs, hsolve⟩ :=
    self1.diagonal_preconditioner_solve_spec env w1 _ _ kind _ r z hL1 hD1 hobj hz
  obtain ⟨zs', hzs', hsolve'⟩ :=
    self1.diagonal_preconditioner_solve_spec env w1 _ _ kind _ r' z' hL1 hD1 hobj hz'
  refine ⟨w1, self1, _, _, hset, hsolve, hsolve', ?_⟩
  set L := self.toGeneralPurposeBlockPreconditioner.scheme env A with hLdef
  intro i hi
  have e1 := L.block_of_return_block_vectors hvalid
    (fun i => env.solve (kind i) (L.block A i i)
      (vec (L.block_dimension i) (fun k => vget r (L.global_index i k)))) zs hzs i hi
  have e2 := L.block_of_return_block_vectors hvalid
    (fun i => env.solve (kind i) (L.block A i i)
      (vec (L.block_dimension i) (fun k => vget r' (L.global_index i k)))) zs' hzs' i hi
  have g1 := L.get_block_vectors_getD r i hi
  have g2 := L.get_block_vectors_getD r' i hi
  refine ⟨?_, fun h => ?_⟩
  · rw [e1, g1]
  · rw [g1, g2] at h
    beta_reduce at e1 e2
    rw [e1, e2, h]

/-- C13, witness: two residuals that agree on block `0` only, one output
vector unbuilt and one built; evaluated, the results are `(5, 7)` and
`(5, 9)`. -/
theorem BlockDiagonalPreconditioner.solve_has_no_inter_block_dependency_witness :
    (∃ w1 self1 zv zv',
      BlockDiagonalPreconditioner.ctor.setup paranoid_env World.empty 0
        (some (DoubleMatrixBase.block_capable identity_matrix)) = Except.ok (w1, self1) ∧
      self1.preconditioner_solve paranoid_env w1 (DoubleVector.built [5, 7])
        DoubleVector.unbuilt = Except.ok (DoubleVector.built zv) ∧
      self1.preconditioner_solve paranoid_env w1 (DoubleVector.built [5, 9])
        (DoubleVector.built [1, 1]) = Except.ok (DoubleVector.built zv') ∧
      ∀ i, i < ((BlockDiagonalPreconditioner.ctor :
          BlockDiagonalPreconditioner ℤ).toGeneralPurposeBlockPreconditioner.scheme
            paranoid_env identity_matrix).nblock_types →
        (((BlockDiagonalPreconditioner.ctor :
          BlockDiagonalPreconditioner ℤ).toGeneralPurposeBlockPreconditioner.scheme
            paranoid_env identity_matrix).get_block_vectors zv).getD i [] =
          vec (((BlockDiagonalPreconditioner.ctor :
              BlockDiagonalPreconditioner ℤ).toGeneralPurposeBlockPreconditioner.scheme
                paranoid_env identity_matrix).block_dimension i)
            (fun k => vget (paranoid_env.solve PrecKind.SuperLUPreconditioner
              (((BlockDiagonalPreconditioner.ctor :
                BlockDiagonalPreconditioner ℤ).toGeneralPurposeBlockPreconditioner.scheme
                  paranoid_env identity_matrix).block identity_matrix i i)
              ((((BlockDiagonalPreconditioner.ctor :
                BlockDiagonalPreconditioner ℤ).toGeneralPurposeBlockPreconditioner.scheme
                  paranoid_env identity_matrix).get_block_vectors ([5, 7] : List ℤ)).getD i [])) k) ∧
        (((((BlockDiagonalPreconditioner.ctor :
            BlockDiagonalPreconditioner ℤ).toGeneralPurposeBlockPreconditioner.scheme
              paranoid_env identity_matrix).get_block_vectors ([5, 7] : List ℤ)).getD i [] =
          (((BlockDiagonalPreconditioner.ctor :
            BlockDiagonalPreconditioner ℤ).toGeneralPurposeBlockPreconditioner.scheme
              paranoid_env identity_matrix).get_block_vectors ([5, 9] : List ℤ)).getD i []) →
          (((BlockDiagonalPreconditioner.ctor :
            BlockDiagonalPreconditioner ℤ).toGeneralPurposeBlockPreconditioner.scheme
              paranoid_env identity_matrix).get_block_vectors zv).getD i [] =
          (((BlockDiagonalPreconditioner.ctor :
            BlockDiagonalPreconditioner ℤ).toGeneralPurposeBlockPreconditioner.scheme
              paranoid_env identity_matrix).get_block_vectors zv').getD i [])) ∧
    (match BlockDiagonalPreconditioner.ctor.setup paranoid_env World.empty 0
        (some (DoubleMatrixBase.block_capable identity_matrix)) with
     | Except.ok st =>
       some (st.2.preconditioner_solve paranoid_env st.1 (DoubleVector.built [5, 7])
               DoubleVector.unbuilt,
             st.2.preconditioner_solve paranoid_env st.1 (DoubleVector.built [5, 9])
               (DoubleVector.built [1, 1]))
     | Except.error _ => none) =
      some (Except.ok (DoubleVector.built [5, 7]), Except.ok (DoubleVector.built [5, 9])) :=
  ⟨BlockDiagonalPreconditioner.solve_has_no_inter_block_dependency paranoid_env World.empty
    BlockDiagonalPreconditioner.ctor 0 identity_matrix (fun _ => PrecKind.SuperLUPreconditioner)
    [5, 7] [5, 9] DoubleVector.unbuilt (DoubleVector.built [1, 1])
    (BlockDiagonalPreconditioner.diagonal_ctor_sound _) (by decide) (Or.inl rfl)
    (Or.inr ⟨_, rfl, rfl⟩) (fun _ _ => rfl), rfl⟩


/-! ### The DOF-to-block map -/

theorem fill_vec (n : ℕ) (m : List ℕ) (g : ℕ → ℕ) :
    ∀ k, (List.range k).foldl (fun acc i => acc.set i (m.getD i 0)) (vec n g) =
      vec n (fun i => if i < k then m.getD i 0 else g i) := by
  intro k
  induction k with
  | zero => simp
  | succ k ih =>
    rw [List.range_succ, List.foldl_append, ih]
    simp only [List.foldl_cons, List.foldl_nil, vec_set]
    apply vec_congr
    intro i _
    by_cases h : i = k
    · subst h; simp
    · rw [Function.update_noteq h]
      by_cases h1 : i < k
      · rw [if_pos h1, if_pos (by omega)]
      · rw [if_neg h1, if_neg (by omega)]

/-- After `set_dof_to_block_map(m)` the stored map is `m`, whatever was stored
before. -/
theorem GeneralPurposeBlockPreconditioner.set_dof_to_block_map_spec {K : Type}
    (self : GeneralPurposeBlockPreconditioner K) (m : List ℕ) :
    (self.set_dof_to_block_map m).Dof_to_block_map = m := by
  have h0 : Vector_resize self.Dof_to_block_map m.length =
      vec m.length (fun i => (Vector_resize self.Dof_to_block_map m.length).getD i 0) := by
    have := (vec_eq_self (Vector_resize self.Dof_to_block_map m.length) 0).symm
    have hl : (Vector_resize self.Dof_to_block_map m.length).length = m.length := by
      simp [Vector_resize]
      omega
    rw [hl] at this
    exact this
  simp only [GeneralPurposeBlockPreconditioner.set_dof_to_block_map]
  rw [h0, fill_vec]
  refine Eq.trans ?_ (vec_eq_self m 0)
  apply vec_congr
  intro i hi
  rw [if_pos hi]


/-- What `block_setup` hands to the base class for a preconditioner whose
stored DOF-to-block map is `m`. -/
theorem GeneralPurposeBlockPreconditioner.block_setup_map {K : Type} (env : Env K) (w : World K)
    (self : GeneralPurposeBlockPreconditioner K) (m : List ℕ) (A : CRDoubleMatrix K)
    (hm : self.Dof_to_block_map = m) :
    ∃ st, self.block_setup env w (some A) = Except.ok st ∧
      st.1 = w.record (Event.block_setup self.Prec_mesh_pt.length self.Prec_mesh_pt
        (if 0 < m.length then some m else none)) ∧
      st.2.Lookup = some (env.block_scheme self.Prec_mesh_pt
        (if 0 < m.length then some m else none) A) ∧
      st.2.Mesh_pt = self.Prec_mesh_pt ∧
      st.2.SameConfiguration self := by
  refine ⟨_, self.block_setup_spec env w A, ?_, ?_, rfl, rfl, rfl, rfl⟩
  · simp only [GeneralPurposeBlockPreconditioner.map_in_use, hm, gt_iff_lt]
  · simp only [GeneralPurposeBlockPreconditioner.scheme,
      GeneralPurposeBlockPreconditioner.map_in_use, hm, gt_iff_lt]

/-- C15, counterexample: after `set_dof_to_block_map(m)` with the empty
vector `m` (here after an earlier call with the map `(1, 0)`), `block_setup`
hands no map to the base class: it calls the default `block_setup(matrix_pt)`,
as it does for a preconditioner on which `set_dof_to_block_map` has never been
called, and not `block_setup(matrix_pt, m)`. -/
theorem empty_dof_to_block_map_is_not_handed_over :
    (match (((GeneralPurposeBlockPreconditioner.ctor :
          GeneralPurposeBlockPreconditioner ℤ).set_dof_to_block_map
            [1, 0]).set_dof_to_block_map []).block_setup paranoid_env World.empty
          (some upper_matrix) with
     | Except.ok st => some st.1.log
     | Except.error _ => none) = some [Event.block_setup 0 [] none] ∧
    (match (GeneralPurposeBlockPreconditioner.ctor :
          GeneralPurposeBlockPreconditioner ℤ).block_setup paranoid_env World.empty
          (some upper_matrix) with
     | Except.ok st => some st.1.log
     | Except.error _ => none) = some [Event.block_setup 0 [] none] ∧
    (match ((GeneralPurposeBlockPreconditioner.ctor :
          GeneralPurposeBlockPreconditioner ℤ).set_dof_to_block_map
            [1, 0]).block_setup paranoid_env World.empty (some upper_matrix) with
     | Except.ok st => some st.1.log
     | Except.error _ => none) = some [Event.block_setup 0 [] (some [1, 0])] :=
  ⟨rfl, rfl, rfl⟩

/-- C15, amended. After `set_dof_to_block_map(m)` the stored map is `m`,
whatever map an earlier call had stored. `block_setup` then hands the base
class the map `m`, equal in length and entry for entry, if `m` is not empty,
and no map (the default `block_setup(matrix_pt)`) if `m` is empty; it leaves
the stored map as it is, so every later `block_setup` does the same. A newly
constructed preconditioner stores the empty map, so its `block_setup` uses the
default setup with no map. -/
theorem dof_to_block_map_is_handed_over_unless_empty {K : Type} (env : Env K) (w : World K)
    (self : GeneralPurposeBlockPreconditioner K) (earlier m : List ℕ) (A : CRDoubleMatrix K) :
    ((self.set_dof_to_block_map earlier).set_dof_to_block_map m).Dof_to_block_map = m ∧
    (∃ st, ((self.set_dof_to_block_map earlier).set_dof_to_block_map m).block_setup env w
        (some A) = Except.ok st ∧
      st.1 = w.record (Event.block_setup self.Prec_mesh_pt.length self.Prec_mesh_pt
        (if 0 < m.length then some m else none)) ∧
      st.2.Lookup = some (env.block_scheme self.Prec_mesh_pt
        (if 0 < m.length then some m else none) A) ∧
      st.2.Dof_to_block_map = m ∧
      ∀ (w2 : World K) (A2 : CRDoubleMatrix K),
        ∃ st2, st.2.block_setup env w2 (some A2) = Except.ok st2 ∧
          st2.1 = w2.record (Event.block_setup self.Prec_mesh_pt.length self.Prec_mesh_pt
            (if 0 < m.length then some m else none)) ∧
          st2.2.Dof_to_block_map = m) ∧
    (GeneralPurposeBlockPreconditioner.ctor :
      GeneralPurposeBlockPreconditioner K).Dof_to_block_map = [] ∧
    (∃ st, (GeneralPurposeBlockPreconditioner.ctor :
        GeneralPurposeBlockPreconditioner K).block_setup env w (some A) = Except.ok st ∧
      st.1 = w.record (Event.block_setup 0 [] none)) := by
  have hm := (self.set_dof_to_block_map earlier).set_dof_to_block_map_spec m
  refine ⟨hm, ?_, rfl, ?_⟩
  · obtain ⟨st, h1, h2, h3, -, h4, h5, h6⟩ :=
      GeneralPurposeBlockPreconditioner.block_setup_map env w
        ((self.set_dof_to_block_map earlier).set_dof_to_block_map m) m A hm
    refine ⟨st, h1, h2, h3, h6.trans hm, ?_⟩
    intro w2 A2
    obtain ⟨st2, k1, k2, -, -, -, -, k6⟩ :=
      GeneralPurposeBlockPreconditioner.block_setup_map env w2 st.2 m A2 (h6.trans hm)
    refine ⟨st2, k1, ?_, k6.trans (h6.trans hm)⟩
    rw [k2, h5]
    rfl
  · obtain ⟨st, h1, h2, -⟩ :=
      GeneralPurposeBlockPreconditioner.block_setup_map env w
        (GeneralPurposeBlockPreconditioner.ctor : GeneralPurposeBlockPreconditioner K) [] A rfl
    exact ⟨st, h1, h2⟩


/-! ### What `setup` keeps of the configuration -/

theorem GeneralPurposeBlockPreconditioner.block_setup_config {K : Type} (env : Env K)
    (w : World K) (self : GeneralPurposeBlockPreconditioner K)
    (matrix_pt : Option (CRDoubleMatrix K)) (st : World K × GeneralPurposeBlockPreconditioner K)
    (h : self.block_setup env w matrix_pt = Except.ok st) :
    st.2.SameConfiguration self ∧ st.2.Mesh_pt = self.Prec_mesh_pt ∧
      st.2.Problem_pt = self.Problem_pt := by
  cases matrix_pt with
  | none => rw [self.block_setup_null env w] at h; cases h
  | some A =>
    rw [self.block_setup_spec env w A] at h
    cases h
    exact ⟨⟨rfl, rfl, rfl⟩, rfl, rfl⟩

theorem DummyBlockPreconditioner.dummy_setup_config {K : Type} (env : Env K) (w : World K)
    (self : DummyBlockPreconditioner K) (problem_pt : ℕ)
    (matrix_pt : Option (DoubleMatrixBase K)) (st : World K × DummyBlockPreconditioner K)
    (h : self.setup env w problem_pt matrix_pt = Except.ok st) :
    st.2.SameConfiguration self.toGeneralPurposeBlockPreconditioner := by
  simp only [DummyBlockPreconditioner.setup] at h
  split at h
  · cases h
  · split at h
    · rename_i r hr
      cases h
      exact (GeneralPurposeBlockPreconditioner.block_setup_config env w _ _ r hr).1
    · cases h

theorem BlockDiagonalPreconditioner.clean_up_memory_config {K : Type} (w : World K)
    (self : BlockDiagonalPreconditioner K) (st : World K × BlockDiagonalPreconditioner K)
    (h : self.clean_up_memory w = Except.ok st) :
    st.2.SameConfiguration self.toGeneralPurposeBlockPreconditioner := by
  simp only [BlockDiagonalPreconditioner.clean_up_memory, bind_eq_ok, pure_eq_ok,
    Except.ok.injEq] at h
  obtain ⟨t, ht, rfl⟩ := h
  have := for_range_keeps _
    (fun u : World K × BlockDiagonalPreconditioner K =>
      u.2.toGeneralPurposeBlockPreconditioner = self.toGeneralPurposeBlockPreconditioner)
    _ _ _ _ rfl
    (fun i u u1 hu hb => by
      simp only [BlockDiagonalPreconditioner.delete_diagonal, bind_eq_ok, pure_eq_ok,
        Except.ok.injEq] at hb
      obtain ⟨p, -, w1, -, v, -, rfl⟩ := hb
      exact hu) ht
  simp only [GeneralPurposeBlockPreconditioner.SameConfiguration,
    BlockPreconditioner.clear_block_preconditioner_base, this, and_self]

theorem BlockDiagonalPreconditioner.diagonal_setup_config {K : Type} (env : Env K) (w : World K)
    (self : BlockDiagonalPreconditioner K) (problem_pt : ℕ)
    (matrix_pt : Option (DoubleMatrixBase K)) (st : World K × BlockDiagonalPreconditioner K)
    (h : self.setup env w problem_pt matrix_pt = Except.ok st) :
    st.2.SameConfiguration self.toGeneralPurposeBlockPreconditioner := by
  simp only [BlockDiagonalPreconditioner.setup, bind_eq_ok] at h
  obtain ⟨c, hc, h⟩ := h
  have hc1 := self.clean_up_memory_config w c hc
  split at h
  · simp at h
  · simp only [pure_eq_ok, bind_ok, bind_eq_ok] at h
    obtain ⟨r, hr, t, ht, h⟩ := h
    have hr1 := (GeneralPurposeBlockPreconditioner.block_setup_config env _ _ _ r hr).1
    have h1 := for_range_keeps _
      (fun u : World K × BlockDiagonalPreconditioner K =>
        u.2.toGeneralPurposeBlockPreconditioner = r.2) _ _ _ _ rfl
      (fun i u u1 hu hb => by
        simp only [BlockDiagonalPreconditioner.create_diagonal, bind_eq_ok, pure_eq_ok,
          Except.ok.injEq] at hb
        obtain ⟨v, -, rfl⟩ := hb
        exact hu) ht
    have h2 := for_range_keeps _
      (fun u : World K × BlockDiagonalPreconditioner K =>
        u.2.toGeneralPurposeBlockPreconditioner = r.2) _ _ _ _ h1
      (fun i u u1 hu hb => by
        simp only [BlockDiagonalPreconditioner.setup_diagonal, bind_eq_ok, pure_eq_ok,
          Except.ok.injEq] at hb
        obtain ⟨b, -, p, -, w1, -, w2, -, rfl⟩ := hb
        exact hu) h
    simp only [GeneralPurposeBlockPreconditioner.SameConfiguration] at hr1 hc1 ⊢
    rw [h2]
    exact ⟨hr1.1.trans hc1.1, hr1.2.1.trans hc1.2.1, hr1.2.2.trans hc1.2.2⟩


theorem BlockTriangularPreconditioner.delete_row_config {K : Type} (n i : ℕ)
    (st st1 : World K × BlockTriangularPreconditioner K)
    (h : BlockTriangularPreconditioner.delete_row n i st = Except.ok st1) :
    st1.2.toGeneralPurposeBlockPreconditioner = st.2.toGeneralPurposeBlockPreconditioner := by
  have hbody : ∀ (j : ℕ) (u u1 : World K × BlockTriangularPreconditioner K),
      u.2.toGeneralPurposeBlockPreconditioner = st.2.toGeneralPurposeBlockPreconditioner →
      BlockTriangularPreconditioner.delete_off_diagonal i j u = Except.ok u1 →
      u1.2.toGeneralPurposeBlockPreconditioner = st.2.toGeneralPurposeBlockPreconditioner := by
    intro j u u1 hu hb
    simp only [BlockTriangularPreconditioner.delete_off_diagonal, bind_eq_ok, pure_eq_ok,
      Except.ok.injEq] at hb
    obtain ⟨p, -, w1, -, d, -, rfl⟩ := hb
    exact hu
  simp only [BlockTriangularPreconditioner.delete_row, bind_eq_ok] at h
  obtain ⟨p, -, w1, -, v, -, h⟩ := h
  split at h
  · exact for_range_keeps _ (fun u => u.2.toGeneralPurposeBlockPreconditioner =
      st.2.toGeneralPurposeBlockPreconditioner) _ _ _ _ rfl hbody h
  · exact for_range_keeps _ (fun u => u.2.toGeneralPurposeBlockPreconditioner =
      st.2.toGeneralPurposeBlockPreconditioner) _ _ _ _ rfl hbody h

theorem BlockTriangularPreconditioner.clean_memory_config {K : Type} (w : World K)
    (self : BlockTriangularPreconditioner K) (st : World K × BlockTriangularPreconditioner K)
    (h : self.clean_memory w = Except.ok st) :
    st.2.SameConfiguration self.toGeneralPurposeBlockPreconditioner := by
  simp only [BlockTriangularPreconditioner.clean_memory, bind_eq_ok, pure_eq_ok,
    Except.ok.injEq] at h
  obtain ⟨t, ht, rfl⟩ := h
  have := for_range_keeps _
    (fun u : World K × BlockTriangularPreconditioner K =>
      u.2.toGeneralPurposeBlockPreconditioner = self.toGeneralPurposeBlockPreconditioner)
    _ _ _ _ rfl
    (fun i u u1 hu hb =>
      (BlockTriangularPreconditioner.delete_row_config _ i u u1 hb).trans hu) ht
  simp only [GeneralPurposeBlockPreconditioner.SameConfiguration,
    BlockPreconditioner.clean_up_memory, this, and_self]

theorem BlockTriangularPreconditioner.setup_row_config {K : Type} (n i : ℕ)
    (st st1 : World K × BlockTriangularPreconditioner K)
    (h : BlockTriangularPreconditioner.setup_row n i st = Except.ok st1) :
    st1.2.toGeneralPurposeBlockPreconditioner = st.2.toGeneralPurposeBlockPreconditioner := by
  simp only [BlockTriangularPreconditioner.setup_row, bind_eq_ok] at h
  obtain ⟨v, -, b, -, w1, -, w2, -, h⟩ := h
  exact for_range_keeps _ (fun u => u.2.toGeneralPurposeBlockPreconditioner =
      st.2.toGeneralPurposeBlockPreconditioner) _ _ _ _ rfl
    (fun j u u1 hu hb => by
      simp only [BlockTriangularPreconditioner.setup_off_diagonal, bind_eq_ok, pure_eq_ok,
        Except.ok.injEq] at hb
      obtain ⟨b, -, d, -, w1, -, w2, -, rfl⟩ := hb
      exact hu) h

theorem BlockTriangularPreconditioner.triangular_setup_config {K : Type} (env : Env K) (w : World K)
    (self : BlockTriangularPreconditioner K) (problem_pt : ℕ)
    (matrix_pt : Option (DoubleMatrixBase K)) (st : World K × BlockTriangularPreconditioner K)
    (h : self.setup env w problem_pt matrix_pt = Except.ok st) :
    st.2.SameConfiguration self.toGeneralPurposeBlockPreconditioner := by
  simp only [BlockTriangularPreconditioner.setup, bind_eq_ok] at h
  obtain ⟨c, hc, h⟩ := h
  have hc1 := self.clean_memory_config w c hc
  split at h
  · simp at h
  · simp only [pure_eq_ok, bind_ok, bind_eq_ok] at h
    obtain ⟨r, hr, h⟩ := h
    have hr1 := (GeneralPurposeBlockPreconditioner.block_setup_config env _ _ _ r hr).1
    have h2 := for_range_keeps _
      (fun u : World K × BlockTriangularPreconditioner K =>
        u.2.toGeneralPurposeBlockPreconditioner = r.2) _ _ _ _ rfl
      (fun i u u1 hu hb =>
        (BlockTriangularPreconditioner.setup_row_config _ i u u1 hb).trans hu) h
    simp only [GeneralPurposeBlockPreconditioner.SameConfiguration] at hr1 hc1 ⊢
    rw [h2]
    exact ⟨hr1.1.trans hc1.1, hr1.2.1.trans hc1.2.1, hr1.2.2.trans hc1.2.2⟩

theorem ExactBlockPreconditioner.exact_setup_config {K : Type} [Zero K] (env : Env K) (w : World K)
    (self : ExactBlockPreconditioner K) (problem_pt : ℕ)
    (matrix_pt : Option (DoubleMatrixBase K)) (st : World K × ExactBlockPreconditioner K)
    (h : self.setup env w problem_pt matrix_pt = Except.ok st) :
    st.2.SameConfiguration self.toGeneralPurposeBlockPreconditioner := by
  simp only [ExactBlockPreconditioner.setup, bind_eq_ok] at h
  obtain ⟨w0, -, h⟩ := h
  split at h
  · simp at h
  · simp only [pure_eq_ok, bind_ok, bind_eq_ok, Except.ok.injEq] at h
    obtain ⟨r, hr, g, -, e, -, t, -, w1, -, w2, -, rfl⟩ := h
    exact (GeneralPurposeBlockPreconditioner.block_setup_config env _ _ _ r hr).1


/-! ### Meshes -/

theorem GeneralPurposeBlockPreconditioner.add_meshes_spec {K : Type} (meshes : List ℕ) :
    ∀ self : GeneralPurposeBlockPreconditioner K,
      (self.add_meshes meshes).Prec_mesh_pt = self.Prec_mesh_pt ++ meshes ∧
      (self.add_meshes meshes).Dof_to_block_map = self.Dof_to_block_map ∧
      (self.add_meshes meshes).Subsidiary_preconditioner_function_pt =
        self.Subsidiary_preconditioner_function_pt ∧
      (self.add_meshes meshes).toBlockPreconditioner = self.toBlockPreconditioner := by
  induction meshes with
  | nil => intro self; simp [GeneralPurposeBlockPreconditioner.add_meshes]
  | cons m ms ih =>
    intro self
    obtain ⟨h1, h2, h3, h4⟩ := ih (self.add_mesh m)
    simp only [GeneralPurposeBlockPreconditioner.add_meshes, List.foldl_cons] at h1 h2 h3 h4 ⊢
    refine ⟨?_, h2, h3, h4⟩
    rw [h1]
    simp [GeneralPurposeBlockPreconditioner.add_mesh]

/-- C16. Meshes added with `add_mesh` are consumed at the next setup: after
the calls `add_mesh(m_0)`, ..., `add_mesh(m_{k-1})` on a newly constructed
preconditioner the stored meshes are `m_0, ..., m_{k-1}` (on any
preconditioner: the meshes stored before, followed by these); `block_setup`
then sets the number of meshes of the base class to the number of stored
meshes and registers the `j`-th stored mesh as mesh number `j`, and so does
every later `block_setup`; `add_mesh` changes neither the stored DOF-to-block
map nor the factory; and every `block_setup` and every `setup` of the four
strategies that returns leaves the stored meshes as they were. -/
theorem meshes_are_registered_in_call_order {K : Type} [Zero K] (env : Env K) (w : World K)
    (self : GeneralPurposeBlockPreconditioner K) (meshes : List ℕ) (A : CRDoubleMatrix K)
    (dummy : DummyBlockPreconditioner K) (diagonal : BlockDiagonalPreconditioner K)
    (triangular : BlockTriangularPreconditioner K) (exact : ExactBlockPreconditioner K)
    (problem_pt : ℕ) (matrix_pt : Option (DoubleMatrixBase K)) :
    ((GeneralPurposeBlockPreconditioner.ctor :
      GeneralPurposeBlockPreconditioner K).add_meshes meshes).Prec_mesh_pt = meshes ∧
    (self.add_meshes meshes).Prec_mesh_pt = self.Prec_mesh_pt ++ meshes ∧
    (self.add_meshes meshes).Dof_to_block_map = self.Dof_to_block_map ∧
    (self.add_meshes meshes).Subsidiary_preconditioner_function_pt =
      self.Subsidiary_preconditioner_function_pt ∧
    (∃ st, (self.add_meshes meshes).block_setup env w (some A) = Except.ok st ∧
      st.2.Mesh_pt = self.Prec_mesh_pt ++ meshes ∧
      st.2.Mesh_pt.length = self.Prec_mesh_pt.length + meshes.length ∧
      (∀ j, j < meshes.length →
        st.2.Mesh_pt.getD (self.Prec_mesh_pt.length + j) 0 = meshes.getD j 0) ∧
      (∃ map, st.1 = w.record (Event.block_setup (self.Prec_mesh_pt.length + meshes.length)
        (self.Prec_mesh_pt ++ meshes) map)) ∧
      st.2.Prec_mesh_pt = self.Prec_mesh_pt ++ meshes ∧
      ∀ (w2 : World K) (A2 : CRDoubleMatrix K),
        ∃ st2, st.2.block_setup env w2 (some A2) = Except.ok st2 ∧
          st2.2.Mesh_pt = self.Prec_mesh_pt ++ meshes ∧
          st2.2.Prec_mesh_pt = self.Prec_mesh_pt ++ meshes) ∧
    (∀ st, dummy.setup env w problem_pt matrix_pt = Except.ok st →
      st.2.Prec_mesh_pt = dummy.Prec_mesh_pt) ∧
    (∀ st, diagonal.setup env w problem_pt matrix_pt = Except.ok st →
      st.2.Prec_mesh_pt = diagonal.Prec_mesh_pt) ∧
    (∀ st, triangular.setup env w problem_pt matrix_pt = Except.ok st →
      st.2.Prec_mesh_pt = triangular.Prec_mesh_pt) ∧
    (∀ st, exact.setup env w problem_pt matrix_pt = Except.ok st →
      st.2.Prec_mesh_pt = exact.Prec_mesh_pt) := by
  obtain ⟨h1, h2, h3, -⟩ := GeneralPurposeBlockPreconditioner.add_meshes_spec meshes self
  refine ⟨?_, h1, h2, h3, ?_,
    fun st h => (dummy.dummy_setup_config env w problem_pt matrix_pt st h).2.1,
    fun st h => (diagonal.diagonal_setup_config env w problem_pt matrix_pt st h).2.1,
    fun st h => (triangular.triangular_setup_config env w problem_pt matrix_pt st h).2.1,
    fun st h => (exact.exact_setup_config env w problem_pt matrix_pt st h).2.1⟩
  · have := (GeneralPurposeBlockPreconditioner.add_meshes_spec meshes
      (GeneralPurposeBlockPreconditioner.ctor : GeneralPurposeBlockPreconditioner K)).1
    rw [this]
    rfl
  · obtain ⟨st, k1, k2, -, k4, -, k5, -⟩ :=
      GeneralPurposeBlockPreconditioner.block_setup_map env w (self.add_meshes meshes) _ A rfl
    rw [h1] at k2 k4 k5
    refine ⟨st, k1, k4, by rw [k4, List.length_append], ?_,
      ⟨if 0 < (self.add_meshes meshes).Dof_to_block_map.length then
        some (self.add_meshes meshes).Dof_to_block_map else none, ?_⟩, k5, ?_⟩
    · intro j hj
      rw [k4, List.getD_eq_getElem?_getD, List.getD_eq_getElem?_getD,
        List.getElem?_append_right (by omega)]
      congr 2
      omega
    · rw [k2, List.length_append]
    · intro w2 A2
      obtain ⟨st2, l1, -, -, l4, -, l5, -⟩ :=
        GeneralPurposeBlockPreconditioner.block_setup_map env w2 st.2 _ A2 rfl
      exact ⟨st2, l1, l4.trans k5, l5.trans k5⟩


/-- C16, witness: the meshes `3` and `5` are added to newly constructed
preconditioners of the four strategies, which are then set up on a matrix with
two blocks: every `setup` returns and the stored meshes are still `3, 5`. -/
theorem meshes_are_registered_in_call_order_witness :
    (∃ st, (DummyBlockPreconditioner.mk
        ((GeneralPurposeBlockPreconditioner.ctor :
          GeneralPurposeBlockPreconditioner ℤ).add_meshes [3, 5])).setup paranoid_env
        World.empty 0 (some (DoubleMatrixBase.block_capable upper_matrix)) = Except.ok st ∧
      st.2.Prec_mesh_pt = [3, 5] ∧ st.2.Mesh_pt = [3, 5]) ∧
    (∃ st, (BlockDiagonalPreconditioner.mk
        ((GeneralPurposeBlockPreconditioner.ctor :
          GeneralPurposeBlockPreconditioner ℤ).add_meshes [3, 5]) [] false).setup paranoid_env
        World.empty 0 (some (DoubleMatrixBase.block_capable upper_matrix)) = Except.ok st ∧
      st.2.Prec_mesh_pt = [3, 5] ∧ st.2.Mesh_pt = [3, 5]) ∧
    (∃ st, (BlockTriangularPreconditioner.mk
        ((GeneralPurposeBlockPreconditioner.ctor :
          GeneralPurposeBlockPreconditioner ℤ).add_meshes [3, 5]) [] (DenseMatrix.empty 0)
          true).setup paranoid_env
        World.empty 0 (some (DoubleMatrixBase.block_capable upper_matrix)) = Except.ok st ∧
      st.2.Prec_mesh_pt = [3, 5] ∧ st.2.Mesh_pt = [3, 5]) ∧
    (∃ st, (ExactBlockPreconditioner.mk
        ((GeneralPurposeBlockPreconditioner.ctor :
          GeneralPurposeBlockPreconditioner ℤ).add_meshes [3, 5]) 0).setup paranoid_env
        World.empty 0 (some (DoubleMatrixBase.block_capable upper_matrix)) = Except.ok st ∧
      st.2.Prec_mesh_pt = [3, 5] ∧ st.2.Mesh_pt = [3, 5]) :=
  ⟨⟨_, rfl, (meshes_are_registered_in_call_order paranoid_env World.empty
      GeneralPurposeBlockPreconditioner.ctor [3, 5] upper_matrix
      (DummyBlockPreconditioner.mk (GeneralPurposeBlockPreconditioner.ctor.add_meshes [3, 5]))
      BlockDiagonalPreconditioner.ctor BlockTriangularPreconditioner.ctor
      ExactBlockPreconditioner.ctor 0
      (some (DoubleMatrixBase.block_capable upper_matrix))).2.2.2.2.2.1 _ rfl, rfl⟩,
    ⟨_, rfl, (meshes_are_registered_in_call_order paranoid_env World.empty
      GeneralPurposeBlockPreconditioner.ctor [3, 5] upper_matrix DummyBlockPreconditioner.ctor
      (BlockDiagonalPreconditioner.mk (GeneralPurposeBlockPreconditioner.ctor.add_meshes [3, 5])
        [] false)
      BlockTriangularPreconditioner.ctor ExactBlockPreconditioner.ctor 0
      (some (DoubleMatrixBase.block_capable upper_matrix))).2.2.2.2.2.2.1 _ rfl, rfl⟩,
    ⟨_, rfl, (meshes_are_registered_in_call_order paranoid_env World.empty
      GeneralPurposeBlockPreconditioner.ctor [3, 5] upper_matrix DummyBlockPreconditioner.ctor
      BlockDiagonalPreconditioner.ctor
      (BlockTriangularPreconditioner.mk
        (GeneralPurposeBlockPreconditioner.ctor.add_meshes [3, 5]) [] (DenseMatrix.empty 0) true)
      ExactBlockPreconditioner.ctor 0
      (some (DoubleMatrixBase.block_capable upper_matrix))).2.2.2.2.2.2.2.1 _ rfl, rfl⟩,
    ⟨_, rfl, (meshes_are_registered_in_call_order paranoid_env World.empty
      GeneralPurposeBlockPreconditioner.ctor [3, 5] upper_matrix DummyBlockPreconditioner.ctor
      BlockDiagonalPreconditioner.ctor BlockTriangularPreconditioner.ctor
      (ExactBlockPreconditioner.mk (GeneralPurposeBlockPreconditioner.ctor.add_meshes [3, 5]) 0)
      0 (some (DoubleMatrixBase.block_capable upper_matrix))).2.2.2.2.2.2.2.2 _ rfl, rfl⟩⟩


/-! ### An output vector that is not built -/

/-- C17, failing input: after `setup` on a matrix with two blocks,
`preconditioner_solve(r, z)` is called with `r = (5, 7)` and a vector `z`
that is not built. The block diagonal preconditioner builds `z` and returns
`(5, 7)`. The block triangular and the exact block preconditioner do not build
`z`: they hand it, as received, to `return_block_vectors` and to
`return_block_ordered_preconditioner_vector`, which write into a built vector
only and fail. -/
theorem preconditioner_solve_with_unbuilt_output :
    (match BlockDiagonalPreconditioner.ctor.setup paranoid_env World.empty 0
        (some (DoubleMatrixBase.block_capable identity_matrix)) with
     | Except.ok st =>
       st.2.preconditioner_solve paranoid_env st.1 (DoubleVector.built [5, 7])
         DoubleVector.unbuilt
     | Except.error e => Except.error e) = Except.ok (DoubleVector.built [5, 7]) ∧
    (match BlockTriangularPreconditioner.ctor.setup paranoid_env World.empty 0
        (some (DoubleMatrixBase.block_capable identity_matrix)) with
     | Except.ok st =>
       st.2.preconditioner_solve paranoid_env st.1 2 (DoubleVector.built [5, 7])
         DoubleVector.unbuilt
     | Except.error e => Except.error e) =
      Except.error (Failure.OomphLibError "The vector must be built" "return_block_vectors") ∧
    (match ExactBlockPreconditioner.ctor.setup paranoid_env World.empty 0
        (some (DoubleMatrixBase.block_capable identity_matrix)) with
     | Except.ok st =>
       st.2.preconditioner_solve paranoid_env st.1 (DoubleVector.built [5, 7])
         DoubleVector.unbuilt
     | Except.error e => Except.error e) =
      Except.error (Failure.OomphLibError "The vector must be built"
        "return_block_ordered_preconditioner_vector") ∧
    (match BlockTriangularPreconditioner.ctor.setup paranoid_env World.empty 0
        (some (DoubleMatrixBase.block_capable identity_matrix)) with
     | Except.ok st =>
       st.2.preconditioner_solve paranoid_env st.1 2 (DoubleVector.built [5, 7])
         (DoubleVector.built [0, 0])
     | Except.error e => Except.error e) = Except.ok (DoubleVector.built [5, 7]) :=
  ⟨rfl, rfl, rfl, rfl⟩


/-! ### Matrices that are extracted, used and deleted -/

theorem Store.new_peak {α : Type} (s : Store α) (a : α) :
    (s.new a).2.peak = max s.peak (s.live + 1) := by
  have h := s.new_live a
  simp only [Store.live, Store.new] at h ⊢
  rw [h]

theorem Store.delete_of_ok {α : Type} (s s1 : Store α) (p : ℕ)
    (h : s.delete p = Except.ok s1) :
    s1.next = s.next ∧ s1.peak = s.peak ∧
      ((p = 0 ∧ s1 = s) ∨
        (p ≠ 0 ∧ (∃ a, s.obj p = some a) ∧ s1.obj = Function.update s.obj p none ∧
          s1.live + 1 = s.live)) := by
  by_cases hp : p = 0
  · subst hp
    rw [Store.delete_zero] at h
    cases h
    exact ⟨rfl, rfl, Or.inl ⟨rfl, rfl⟩⟩
  · cases ho : s.obj p with
    | none =>
      simp [Store.delete, hp, ho] at h
    | some a =>
      obtain ⟨s2, h2, g1, g2, g3⟩ := s.delete_live ho
      rw [h2] at h
      cases h
      refine ⟨g2, ?_, Or.inr ⟨hp, ⟨a, rfl⟩, g1, g3⟩⟩
      have hs : (s.obj p).isSome = true := by simp [ho]
      simp only [Store.delete, dif_neg hp, hs, if_true, Except.ok.injEq] at h2
      rw [← h2]

theorem Store.set_of_ok {α : Type} (s s1 : Store α) (p : ℕ) (a : α)
    (h : s.set p a = Except.ok s1) :
    s1.next = s.next ∧ s1.peak = s.peak ∧ s1.live = s.live ∧
      s1.obj = Function.update s.obj p (some a) := by
  by_cases hp : p = 0
  · simp [Store.set, hp] at h
  · cases ho : s.obj p with
    | none => simp [Store.set, hp, ho] at h
    | some b =>
      obtain ⟨s2, h2, g1, g2, g3⟩ := s.set_live a ho
      rw [h2] at h
      cases h
      refine ⟨g2, ?_, g3, g1⟩
      have hs : (s.obj p).isSome = true := by simp [ho]
      simp only [Store.set, dif_neg hp, dif_pos hs, Except.ok.injEq] at h2
      rw [← h2]

theorem Transient.start {α : Type} (s : Store α) (bound : ℕ) : Transient s s bound :=
  ⟨rfl, fun q hq => s.fresh q hq, fun _ _ => rfl, le_rfl, le_rfl, le_max_left _ _⟩

theorem Transient.mono {α : Type} {s0 s : Store α} {b c : ℕ} (h : Transient s0 s b)
    (hbc : b ≤ c) : Transient s0 s c :=
  ⟨h.live_eq, h.none_new, h.frame, h.next_le, h.peak_ge,
    le_trans h.peak_le (max_le_max le_rfl (by omega))⟩

/-- One object is created and deleted again. -/
theorem Transient.new_delete {α : Type} {s0 s : Store α} {bound : ℕ}
    (h : Transient s0 s bound) (hb : 1 ≤ bound) (a : α) (s2 : Store α)
    (hdel : (s.new a).2.delete s.next = Except.ok s2) :
    Transient s0 s2 bound ∧ s2.next = s.next + 1 := by
  obtain ⟨g1, g2, g3⟩ := Store.delete_of_ok _ _ _ hdel
  have hpos : s.next ≠ 0 := Nat.pos_iff_ne_zero.mp s.next_pos
  rcases g3 with ⟨h0, -⟩ | ⟨-, -, hobj, hlive⟩
  · exact absurd h0 hpos
  · rw [Store.new_live] at hlive
    rw [Store.new_next] at g1
    rw [Store.new_peak] at g2
    have hnl := h.next_le
    refine ⟨⟨by rw [← h.live_eq]; omega, ?_, ?_, by omega, ?_, ?_⟩, g1⟩
    · intro q hq
      rw [hobj, Function.update_apply]
      split_ifs with hqp
      · rfl
      · rw [Store.new_obj, if_neg hqp]
        exact h.none_new q hq
    · intro q hq
      rw [hobj, Function.update_noteq (by omega), Store.new_obj, if_neg (by omega)]
      exact h.frame q hq
    · rw [g2]
      exact le_trans h.peak_ge (le_max_left _ _)
    · rw [g2, h.live_eq]
      have := h.peak_le
      apply max_le this
      exact le_trans (by omega) (le_max_right _ _)


theorem World.get_block_of_ok {K : Type} (w : World K) (self : BlockPreconditioner K)
    (i j : ℕ) (b : ℕ × World K) (h : self.get_block w i j = Except.ok b) :
    ∃ L A, self.Lookup = some L ∧ self.Matrix_pt = some A ∧ i < L.nblock_types ∧
      j < L.nblock_types ∧
      b = (w.matrices.next,
        (⟨w.preconditioners, w.matrix_vector_products, (w.matrices.new (L.block A i j)).2,
          w.log ++ [Event.get_block i j]⟩ : World K)) := by
  cases hL : self.Lookup with
  | none => simp [BlockPreconditioner.get_block, BlockPreconditioner.lookup, hL] at h
  | some L =>
    cases hA : self.Matrix_pt with
    | none => simp [BlockPreconditioner.get_block, BlockPreconditioner.lookup, hL, hA] at h
    | some A =>
      by_cases hij : i < L.nblock_types ∧ j < L.nblock_types
      · rw [World.get_block_spec w self L A hL hA i j hij.1 hij.2] at h
        cases h
        exact ⟨L, A, rfl, rfl, hij.1, hij.2, rfl⟩
      · simp [BlockPreconditioner.get_block, BlockPreconditioner.lookup, hL, hA, hij] at h

theorem World.preconditioner_setup_of_ok {K : Type} (w w1 : World K) (p b : ℕ)
    (h : w.preconditioner_setup p b = Except.ok w1) :
    w1.matrices = w.matrices ∧ w1.matrix_vector_products = w.matrix_vector_products ∧
      w1.log = w.log ∧ w1.preconditioners.next = w.preconditioners.next ∧
      w1.preconditioners.live = w.preconditioners.live := by
  simp only [World.preconditioner_setup] at h
  split at h
  · split at h
    · rename_i s hs
      cases h
      obtain ⟨g1, -, g3, -⟩ := Store.set_of_ok _ _ _ _ hs
      exact ⟨rfl, rfl, rfl, g1, g3⟩
    · cases h
  · cases h
  · cases h

theorem World.matrix_vector_product_setup_of_ok {K : Type} (w w1 : World K) (p b : ℕ)
    (h : w.matrix_vector_product_setup p b = Except.ok w1) :
    w1.matrices = w.matrices ∧ w1.preconditioners = w.preconditioners ∧
      w1.log = w.log ∧ w1.matrix_vector_products.next = w.matrix_vector_products.next ∧
      w1.matrix_vector_products.live = w.matrix_vector_products.live := by
  simp only [World.matrix_vector_product_setup] at h
  split at h
  · split at h
    · rename_i s hs
      cases h
      obtain ⟨g1, -, g3, -⟩ := Store.set_of_ok _ _ _ _ hs
      exact ⟨rfl, rfl, rfl, g1, g3⟩
    · cases h
  · cases h
  · cases h

theorem World.delete_matrix_of_ok {K : Type} (w w1 : World K) (p : ℕ)
    (h : w.delete_matrix p = Except.ok w1) :
    w.matrices.delete p = Except.ok w1.matrices ∧ w1.preconditioners = w.preconditioners ∧
      w1.matrix_vector_products = w.matrix_vector_products ∧ w1.log = w.log := by
  simp only [World.delete_matrix] at h
  split at h
  · rename_i s hs
    cases h
    exact ⟨hs, rfl, rfl, rfl⟩
  · cases h

theorem World.create_frame {K : Type} (w : World K)
    (fct : Option SubsidiaryPreconditionerFctPt) :
    (w.create_subsidiary_preconditioner fct).2.matrices = w.matrices ∧
      (w.create_subsidiary_preconditioner fct).2.matrix_vector_products =
        w.matrix_vector_products ∧
      (w.create_subsidiary_preconditioner fct).2.extractions = w.extractions ∧
      ∀ i j, Event.get_block i j ∈ (w.create_subsidiary_preconditioner fct).2.log ↔
        Event.get_block i j ∈ w.log := by
  cases fct with
  | none => exact ⟨rfl, rfl, rfl, fun _ _ => Iff.rfl⟩
  | some f =>
    simp only [World.create_subsidiary_preconditioner, World.call_factory]
    split
    · refine ⟨rfl, rfl, ?_, fun i j => ?_⟩
      · simp [World.extractions, World.record, Event.is_get_block]
      · simp [World.record]
    · refine ⟨rfl, rfl, ?_, fun i j => ?_⟩
      · simp [World.extractions, World.record, Event.is_get_block]
      · simp [World.record]

/-- A block is extracted, used without touching the matrices, and deleted. -/
theorem World.extract_use_delete {K : Type} (w w1 w2 : World K) (self : BlockPreconditioner K)
    (i j : ℕ) (b : ℕ × World K) (s0 : Store (CRDoubleMatrix K)) (bound : ℕ)
    (ht : Transient s0 w.matrices bound) (hb : 1 ≤ bound)
    (hget : self.get_block w i j = Except.ok b)
    (hm : w1.matrices = b.2.matrices) (hlog : w1.log = b.2.log)
    (hdel : w1.delete_matrix b.1 = Except.ok w2) :
    Transient s0 w2.matrices bound ∧ w2.matrices.next = w.matrices.next + 1 ∧
      w2.log = w.log ++ [Event.get_block i j] ∧
      w2.extractions = w.extractions + 1 ∧
      w2.preconditioners = w1.preconditioners ∧
      w2.matrix_vector_products = w1.matrix_vector_products ∧
      b.2.preconditioners = w.preconditioners ∧
      b.2.matrix_vector_products = w.matrix_vector_products ∧
      ∃ L, self.Lookup = some L ∧ i < L.nblock_types ∧ j < L.nblock_types := by
  obtain ⟨L, A, hL, -, hi, hj, rfl⟩ := World.get_block_of_ok w self i j b hget
  obtain ⟨g1, g2, g3, g4⟩ := World.delete_matrix_of_ok w1 w2 _ hdel
  simp only at hm hlog g1
  rw [hm] at g1
  obtain ⟨k1, k2⟩ := ht.new_delete hb _ _ g1
  refine ⟨k1, k2, by rw [g4, hlog], ?_, g2, g3, rfl, rfl, L, hL, hi, hj⟩
  simp [World.extractions, g4, hlog, Event.is_get_block]


/-! ### Extracted matrices in the setup of the block diagonal preconditioner -/

theorem World.delete_preconditioner_frame {K : Type} (w w1 : World K) (p : ℕ)
    (h : w.delete_preconditioner p = Except.ok w1) :
    w1.matrices = w.matrices ∧ w1.matrix_vector_products = w.matrix_vector_products ∧
      w1.log = w.log := by
  simp only [World.delete_preconditioner] at h
  split at h
  · cases h; exact ⟨rfl, rfl, rfl⟩
  · cases h

theorem BlockDiagonalPreconditioner.diagonal_clean_up_frame {K : Type} (w : World K)
    (self : BlockDiagonalPreconditioner K) (st : World K × BlockDiagonalPreconditioner K)
    (h : self.clean_up_memory w = Except.ok st) :
    st.1.matrices = w.matrices ∧ st.1.matrix_vector_products = w.matrix_vector_products ∧
      st.1.log = w.log := by
  simp only [BlockDiagonalPreconditioner.clean_up_memory, bind_eq_ok, pure_eq_ok,
    Except.ok.injEq] at h
  obtain ⟨t, ht, rfl⟩ := h
  exact for_range_keeps _
    (fun u : World K × BlockDiagonalPreconditioner K =>
      u.1.matrices = w.matrices ∧ u.1.matrix_vector_products = w.matrix_vector_products ∧
        u.1.log = w.log)
    _ _ _ t (by exact ⟨rfl, rfl, rfl⟩)
    (fun i u u1 hu hb => by
      simp only [BlockDiagonalPreconditioner.delete_diagonal, bind_eq_ok, pure_eq_ok,
        Except.ok.injEq] at hb
      obtain ⟨p, -, w1, hw1, v, -, rfl⟩ := hb
      obtain ⟨g1, g2, g3⟩ := World.delete_preconditioner_frame _ _ _ hw1
      exact ⟨g1.trans hu.1, g2.trans hu.2.1, g3.trans hu.2.2⟩) ht

/-! ### The trace of extractions -/

theorem Extracted.nothing_added (log : List Event) (P : ℕ → ℕ → Prop) : Extracted log log 0 P :=
  ⟨[], by simp, rfl, by simp⟩

theorem Extracted.extract {log0 log1 : List Event} {c : ℕ} {P : ℕ → ℕ → Prop}
    (h : Extracted log0 log1 c P) (i j : ℕ) (hP : P i j) :
    Extracted log0 (log1 ++ [Event.get_block i j]) (c + 1) P := by
  obtain ⟨added, rfl, hc, hm⟩ := h
  refine ⟨added ++ [Event.get_block i j], by simp, ?_, ?_⟩
  · simp [List.countP_append, hc, Event.is_get_block]
  · intro a b hab
    rw [List.mem_append, List.mem_singleton] at hab
    rcases hab with hab | hab
    · exact hm a b hab
    · cases hab
      exact hP

theorem Extracted.other {log0 log1 : List Event} {c : ℕ} {P : ℕ → ℕ → Prop}
    (h : Extracted log0 log1 c P) (more : List Event)
    (hmore : ∀ e, e ∈ more → e.is_get_block = false) :
    Extracted log0 (log1 ++ more) c P := by
  obtain ⟨added, rfl, hc, hm⟩ := h
  refine ⟨added ++ more, by simp, ?_, ?_⟩
  · rw [List.countP_append, hc]
    have : List.countP Event.is_get_block more = 0 := by
      rw [List.countP_eq_zero]
      intro e he
      simp [hmore e he]
    omega
  · intro a b hab
    rw [List.mem_append] at hab
    rcases hab with hab | hab
    · exact hm a b hab
    · have := hmore _ hab
      simp [Event.is_get_block] at this

theorem Extracted.weaken {log0 log1 : List Event} {c : ℕ} {P Q : ℕ → ℕ → Prop}
    (h : Extracted log0 log1 c P) (hPQ : ∀ i j, P i j → Q i j) : Extracted log0 log1 c Q := by
  obtain ⟨added, rfl, hc, hm⟩ := h
  exact ⟨added, rfl, hc, fun i j hij => hPQ i j (hm i j hij)⟩

theorem Extracted.count_eq {log0 log1 : List Event} {c d : ℕ} {P : ℕ → ℕ → Prop}
    (h : Extracted log0 log1 c P) (hcd : c = d) : Extracted log0 log1 d P :=
  hcd ▸ h

theorem Extracted.extractions {K : Type} {w0 w1 : World K} {c : ℕ} {P : ℕ → ℕ → Prop}
    (h : Extracted w0.log w1.log c P) : w1.extractions = w0.extractions + c := by
  obtain ⟨added, he, hc, -⟩ := h
  simp [World.extractions, he, List.countP_append, hc]

theorem World.create_log {K : Type} (w : World K) (fct : Option SubsidiaryPreconditionerFctPt) :
    ∃ more, (w.create_subsidiary_preconditioner fct).2.log = w.log ++ more ∧
      ∀ e, e ∈ more → e.is_get_block = false := by
  cases fct with
  | none => exact ⟨[], by simp [World.create_subsidiary_preconditioner,
      World.new_SuperLUPreconditioner], by simp⟩
  | some f =>
    simp only [World.create_subsidiary_preconditioner, World.call_factory]
    split
    · exact ⟨[Event.factory_call], rfl, by simp [Event.is_get_block]⟩
    · exact ⟨[Event.factory_call], rfl, by simp [Event.is_get_block]⟩


/-! ### Extracted matrices and operators in the setup of the block triangular preconditioner -/

theorem World.delete_matrix_vector_product_frame {K : Type} (w w1 : World K) (p : ℕ)
    (h : w.delete_matrix_vector_product p = Except.ok w1) :
    w1.matrices = w.matrices ∧ w1.log = w.log := by
  simp only [World.delete_matrix_vector_product] at h
  split at h
  · cases h; exact ⟨rfl, rfl⟩
  · cases h

theorem BlockTriangularPreconditioner.delete_row_frame {K : Type} (n i : ℕ)
    (st st1 : World K × BlockTriangularPreconditioner K)
    (h : BlockTriangularPreconditioner.delete_row n i st = Except.ok st1) :
    st1.1.matrices = st.1.matrices ∧ st1.1.log = st.1.log := by
  simp only [BlockTriangularPreconditioner.delete_row, bind_eq_ok] at h
  obtain ⟨p, -, w1, hw1, v, -, h⟩ := h
  obtain ⟨g1, -, g3⟩ := World.delete_preconditioner_frame _ _ _ hw1
  have hbody : ∀ (j : ℕ) (u u1 : World K × BlockTriangularPreconditioner K),
      (u.1.matrices = st.1.matrices ∧ u.1.log = st.1.log) →
      BlockTriangularPreconditioner.delete_off_diagonal i j u = Except.ok u1 →
      (u1.1.matrices = st.1.matrices ∧ u1.1.log = st.1.log) := by
    intro j u u1 hu hb
    simp only [BlockTriangularPreconditioner.delete_off_diagonal, bind_eq_ok, pure_eq_ok,
      Except.ok.injEq] at hb
    obtain ⟨p, -, w2, hw2, d, -, rfl⟩ := hb
    obtain ⟨k1, k2⟩ := World.delete_matrix_vector_product_frame _ _ _ hw2
    exact ⟨k1.trans hu.1, k2.trans hu.2⟩
  split at h
  · exact for_range_keeps _ (fun u : World K × BlockTriangularPreconditioner K =>
      u.1.matrices = st.1.matrices ∧ u.1.log = st.1.log) _ _ _ st1 (by exact ⟨g1, g3⟩) hbody h
  · exact for_range_keeps _ (fun u : World K × BlockTriangularPreconditioner K =>
      u.1.matrices = st.1.matrices ∧ u.1.log = st.1.log) _ _ _ st1 (by exact ⟨g1, g3⟩) hbody h

theorem BlockTriangularPreconditioner.triangular_clean_memory_frame {K : Type} (w : World K)
    (self : BlockTriangularPreconditioner K) (st : World K × BlockTriangularPreconditioner K)
    (h : self.clean_memory w = Except.ok st) :
    st.1.matrices = w.matrices ∧ st.1.log = w.log := by
  simp only [BlockTriangularPreconditioner.clean_memory, bind_eq_ok, pure_eq_ok,
    Except.ok.injEq] at h
  obtain ⟨t, ht, rfl⟩ := h
  exact for_range_keeps _
    (fun u : World K × BlockTriangularPreconditioner K =>
      u.1.matrices = w.matrices ∧ u.1.log = w.log)
    _ _ _ t (by exact ⟨rfl, rfl⟩)
    (fun i u u1 hu hb => by
      obtain ⟨g1, g2⟩ := BlockTriangularPreconditioner.delete_row_frame _ i u u1 hb
      exact ⟨g1.trans hu.1, g2.trans hu.2⟩) ht

/-- The clean-up of a block triangular preconditioner that holds no
subsidiary preconditioner deletes nothing. -/
theorem BlockTriangularPreconditioner.clean_memory_nothing_held {K : Type} (w : World K)
    (self : BlockTriangularPreconditioner K) (hD : self.Diagonal_block_preconditioner_pt = []) :
    self.clean_memory w = Except.ok
      (w, { self with toBlockPreconditioner := self.toBlockPreconditioner.clean_up_memory }) := by
  simp [BlockTriangularPreconditioner.clean_memory, hD, for_range, for_loop]

/-- One operator of `BlockTriangularPreconditioner::setup`: block `(i,j)` is
extracted, an operator is created and set up on it, and the block is
deleted. -/
theorem BlockTriangularPreconditioner.setup_off_diagonal_trace {K : Type} (i j : ℕ)
    (u u1 : World K × BlockTriangularPreconditioner K) (s0 : Store (CRDoubleMatrix K))
    (bound : ℕ) (ht : Transient s0 u.1.matrices bound) (hb : 1 ≤ bound)
    (h : BlockTriangularPreconditioner.setup_off_diagonal i j u = Except.ok u1) :
    Transient s0 u1.1.matrices bound ∧
    u1.1.matrices.next = u.1.matrices.next + 1 ∧
    u1.1.log = u.1.log ++ [Event.get_block i j] ∧
    u1.1.matrix_vector_products.next = u.1.matrix_vector_products.next + 1 ∧
    u1.1.matrix_vector_products.live = u.1.matrix_vector_products.live + 1 ∧
    u1.2.Lookup = u.2.Lookup ∧
    u1.2.Upper_triangular = u.2.Upper_triangular ∧
    (∀ a b, ¬ (a = i ∧ b = j) → u1.2.Off_diagonal_matrix_vector_products.data a b =
      u.2.Off_diagonal_matrix_vector_products.data a b) := by
  simp only [BlockTriangularPreconditioner.setup_off_diagonal, bind_eq_ok, pure_eq_ok,
    Except.ok.injEq] at h
  obtain ⟨b, hget, d, hd, w1, hw1, w2, hw2, rfl⟩ := h
  obtain ⟨q1, -, q3, q4, q5⟩ := World.matrix_vector_product_setup_of_ok _ _ _ _ hw1
  obtain ⟨e1, e2, e3, -, -, e6, -, e8, -⟩ := World.extract_use_delete u.1 w1 w2
    u.2.toBlockPreconditioner i j b s0 bound ht hb hget q1 q3 hw2
  refine ⟨e1, e2, e3, ?_, ?_, rfl, rfl, ?_⟩
  · rw [e6, q4]
    simp only [World.new_MatrixVectorProduct, Store.new_next, e8]
  · rw [e6, q5]
    simp only [World.new_MatrixVectorProduct, Store.new_live, e8]
  · intro a c hac
    simp only [DenseMatrix.assign] at hd
    split at hd
    · cases hd
      simp only [Int.toNat_ofNat, if_neg hac]
    · cases hd


/-- One row of `BlockTriangularPreconditioner::setup`: the diagonal block and
the blocks of the row on the side in use are extracted, one at a time, and one
operator is built for each of the latter. -/
theorem BlockTriangularPreconditioner.setup_row_trace {K : Type} (N i : ℕ)
    (u u1 : World K × BlockTriangularPreconditioner K) (s0 : Store (CRDoubleMatrix K))
    (log0 : List Event) (c : ℕ) (P : ℕ → ℕ → Prop) (bound : ℕ)
    (ht : Transient s0 u.1.matrices bound) (hb : 1 ≤ bound) (hi : i < N)
    (hlog : Extracted log0 u.1.log c P)
    (hP : ∀ j, (j = i ∨ (first_column u.2.Upper_triangular i ≤ j ∧
      j < end_column u.2.Upper_triangular N i)) → P i j)
    (h : BlockTriangularPreconditioner.setup_row N i u = Except.ok u1) :
    Transient s0 u1.1.matrices bound ∧
    u1.1.matrices.next = u.1.matrices.next + 1 +
      (end_column u.2.Upper_triangular N i - first_column u.2.Upper_triangular i) ∧
    Extracted log0 u1.1.log
      (c + 1 + (end_column u.2.Upper_triangular N i - first_column u.2.Upper_triangular i)) P ∧
    u1.1.matrix_vector_products.next = u.1.matrix_vector_products.next +
      (end_column u.2.Upper_triangular N i - first_column u.2.Upper_triangular i) ∧
    u1.1.matrix_vector_products.live = u.1.matrix_vector_products.live +
      (end_column u.2.Upper_triangular N i - first_column u.2.Upper_triangular i) ∧
    u1.2.Lookup = u.2.Lookup ∧
    u1.2.Upper_triangular = u.2.Upper_triangular ∧
    (∀ a b, ¬ (a = i ∧ first_column u.2.Upper_triangular i ≤ b ∧
        b < end_column u.2.Upper_triangular N i) →
      u1.2.Off_diagonal_matrix_vector_products.data a b =
        u.2.Off_diagonal_matrix_vector_products.data a b) := by
  simp only [BlockTriangularPreconditioner.setup_row, bind_eq_ok] at h
  obtain ⟨v, -, b, hget, w1, hw1, w2, hw2, h⟩ := h
  obtain ⟨g1, g2, -, -⟩ := World.create_frame u.1 u.2.Subsidiary_preconditioner_function_pt
  obtain ⟨more, g5, g6⟩ := World.create_log u.1 u.2.Subsidiary_preconditioner_function_pt
  obtain ⟨q1, q2, q3, -⟩ := World.preconditioner_setup_of_ok _ _ _ _ hw1
  have ht1 : Transient s0
      (u.1.create_subsidiary_preconditioner u.2.Subsidiary_preconditioner_function_pt).2.matrices
      bound := by
    rw [g1]; exact ht
  obtain ⟨e1, e2, e3, -, -, e6, -, e8, -⟩ := World.extract_use_delete _ w1 w2
    ({ u.2 with Diagonal_block_preconditioner_pt := v } :
      BlockTriangularPreconditioner K).toBlockPreconditioner i i b s0 bound ht1 hb hget q1 q3 hw2
  have hle := first_le_end u.2.Upper_triangular N i hi
  have hrun := for_range_of_ok _
    (fun m (t : World K × BlockTriangularPreconditioner K) =>
      Transient s0 t.1.matrices bound ∧
      t.1.matrices.next = u.1.matrices.next + 1 + (m - first_column u.2.Upper_triangular i) ∧
      Extracted log0 t.1.log (c + 1 + (m - first_column u.2.Upper_triangular i)) P ∧
      t.1.matrix_vector_products.next = u.1.matrix_vector_products.next +
        (m - first_column u.2.Upper_triangular i) ∧
      t.1.matrix_vector_products.live = u.1.matrix_vector_products.live +
        (m - first_column u.2.Upper_triangular i) ∧
      t.2.Lookup = u.2.Lookup ∧
      t.2.Upper_triangular = u.2.Upper_triangular ∧
      (∀ a b, ¬ (a = i ∧ first_column u.2.Upper_triangular i ≤ b ∧ b < m) →
        t.2.Off_diagonal_matrix_vector_products.data a b =
          u.2.Off_diagonal_matrix_vector_products.data a b))
    (first_column u.2.Upper_triangular i) (end_column u.2.Upper_triangular N i) _ u1 hle
    (by
      refine ⟨e1, ?_, ?_, ?_, ?_, rfl, rfl, fun _ _ _ => rfl⟩
      · rw [e2, g1]; simp
      · rw [e3, g5]
        have := (hlog.other more g6).extract i i (hP i (Or.inl rfl))
        simpa using this
      · rw [e6, q2, e8, g2]; simp
      · rw [e6, q2, e8, g2]; simp)
    (fun m t t1 hm1 hm2 hI hb1 => by
      obtain ⟨k1, k2, k3, k4, k5, k6, k7, k8⟩ :=
        BlockTriangularPreconditioner.setup_off_diagonal_trace i m t t1 s0 bound hI.1 hb hb1
      obtain ⟨i1, i2, i3, i4, i5, i6, i7, i8⟩ := hI
      refine ⟨k1, by rw [k2, i2]; omega, ?_, by rw [k4, i4]; omega, by rw [k5, i5]; omega,
        k6.trans i6, k7.trans i7, ?_⟩
      · rw [k3]
        have := i3.extract i m (hP m (Or.inr ⟨hm1, hm2⟩))
        exact this.count_eq (by omega)
      · intro a b hab
        rw [k8 a b (fun hc => hab ⟨hc.1, by omega, by omega⟩)]
        exact i8 a b (fun hc => hab ⟨hc.1, hc.2.1, by omega⟩)) h
  exact hrun


/-- The matrices, the operators and the trace in a run of
`BlockTriangularPreconditioner::setup` that returns: the diagonal blocks and
the blocks on the side in use are extracted, one at a time, each deleted
before the next is extracted; one operator is built for each block on the
side in use, and the entries of the table of operators off that side are as
the resize of the table left them. -/
theorem BlockTriangularPreconditioner.triangular_setup_trace {K : Type} (env : Env K)
    (w : World K) (self : BlockTriangularPreconditioner K) (problem_pt : ℕ)
    (matrix_pt : Option (DoubleMatrixBase K)) (st : World K × BlockTriangularPreconditioner K)
    (h : self.setup env w problem_pt matrix_pt = Except.ok st) :
    ∃ c L, self.clean_memory w = Except.ok c ∧ st.2.Lookup = some L ∧
      Transient w.matrices st.1.matrices (min 1 L.nblock_types) ∧
      st.1.matrices.next = w.matrices.next +
        (L.nblock_types + operators_in_rows self.Upper_triangular L.nblock_types L.nblock_types) ∧
      Extracted w.log st.1.log
        (L.nblock_types + operators_in_rows self.Upper_triangular L.nblock_types L.nblock_types)
        (fun i j => i < L.nblock_types ∧ (j = i ∨ (first_column self.Upper_triangular i ≤ j ∧
          j < end_column self.Upper_triangular L.nblock_types i))) ∧
      st.1.matrix_vector_products.next = c.1.matrix_vector_products.next +
        operators_in_rows self.Upper_triangular L.nblock_types L.nblock_types ∧
      st.1.matrix_vector_products.live = c.1.matrix_vector_products.live +
        operators_in_rows self.Upper_triangular L.nblock_types L.nblock_types ∧
      (∀ a b, ¬ (a < L.nblock_types ∧ first_column self.Upper_triangular a ≤ b ∧
          b < end_column self.Upper_triangular L.nblock_types a) →
        st.2.Off_diagonal_matrix_vector_products.data a b =
          (c.2.Off_diagonal_matrix_vector_products.resize L.nblock_types L.nblock_types 0).data
            a b) := by
  simp only [BlockTriangularPreconditioner.setup, bind_eq_ok] at h
  obtain ⟨c, hc, h⟩ := h
  obtain ⟨c1, c3⟩ := self.triangular_clean_memory_frame w c hc
  have cm := self.clean_memory_mode w c hc
  split at h
  · simp at h
  · simp only [pure_eq_ok, bind_ok, bind_eq_ok] at h
    obtain ⟨r, hr, h⟩ := h
    cases hcast : dynamic_cast_MATRIX matrix_pt with
    | none =>
      rw [hcast, GeneralPurposeBlockPreconditioner.block_setup_null] at hr
      cases hr
    | some A =>
      rw [hcast, GeneralPurposeBlockPreconditioner.block_setup_spec] at hr
      cases hr
      set L := GeneralPurposeBlockPreconditioner.scheme env
        ({ c.2 with Problem_pt := problem_pt } :
          BlockTriangularPreconditioner K).toGeneralPurposeBlockPreconditioner A with hLdef
      have h2 := for_range_of_ok _
        (fun k (t : World K × BlockTriangularPreconditioner K) =>
          Transient w.matrices t.1.matrices (min 1 L.nblock_types) ∧
          t.1.matrices.next = w.matrices.next +
            (k + operators_in_rows self.Upper_triangular L.nblock_types k) ∧
          Extracted w.log t.1.log
            (k + operators_in_rows self.Upper_triangular L.nblock_types k)
            (fun i j => i < L.nblock_types ∧ (j = i ∨ (first_column self.Upper_triangular i ≤ j ∧
              j < end_column self.Upper_triangular L.nblock_types i))) ∧
          t.1.matrix_vector_products.next = c.1.matrix_vector_products.next +
            operators_in_rows self.Upper_triangular L.nblock_types k ∧
          t.1.matrix_vector_products.live = c.1.matrix_vector_products.live +
            operators_in_rows self.Upper_triangular L.nblock_types k ∧
          t.2.Lookup = some L ∧
          t.2.Upper_triangular = self.Upper_triangular ∧
          (∀ a b, ¬ (a < k ∧ first_column self.Upper_triangular a ≤ b ∧
              b < end_column self.Upper_triangular L.nblock_types a) →
            t.2.Off_diagonal_matrix_vector_products.data a b =
              (c.2.Off_diagonal_matrix_vector_products.resize L.nblock_types L.nblock_types
                0).data a b))
        0 L.nblock_types _ st (Nat.zero_le _)
        (by
          refine ⟨?_, ?_, ?_, ?_, ?_, rfl, cm, fun _ _ _ => rfl⟩
          · show Transient w.matrices c.1.matrices _
            rw [c1]; exact Transient.start _ _
          · show c.1.matrices.next = _
            rw [c1]; simp [operators_in_rows]
          · have := (Extracted.nothing_added w.log (fun i j => i < L.nblock_types ∧
              (j = i ∨ (first_column self.Upper_triangular i ≤ j ∧
                j < end_column self.Upper_triangular L.nblock_types i)))).other
              [Event.block_setup c.2.Prec_mesh_pt.length c.2.Prec_mesh_pt
                ({ c.2 with Problem_pt := problem_pt } :
                  BlockTriangularPreconditioner K).toGeneralPurposeBlockPreconditioner.map_in_use]
              (by simp [Event.is_get_block])
            simpa [World.record, c3, operators_in_rows] using this
          · simp [World.record, operators_in_rows]
          · simp [World.record, operators_in_rows])
        (fun k t t1 _ hk hI hb1 => by
          obtain ⟨i1, i2, i3, i4, i5, i6, i7, i8⟩ := hI
          obtain ⟨k1, k2, k3, k4, k5, k6, k7, k8⟩ :=
            BlockTriangularPreconditioner.setup_row_trace L.nblock_types k t t1 w.matrices
              w.log _ _ (min 1 L.nblock_types) i1 (by omega) hk i3
              (by
                intro j hj
                rw [i7] at hj
                exact ⟨hk, hj⟩) hb1
          rw [i7] at k2 k3 k4 k5 k8
          have hops : operators_in_rows self.Upper_triangular L.nblock_types (k + 1) =
              operators_in_rows self.Upper_triangular L.nblock_types k +
                (end_column self.Upper_triangular L.nblock_types k -
                  first_column self.Upper_triangular k) := by
            simp [operators_in_rows, Finset.sum_range_succ]
          refine ⟨k1, by rw [k2, i2, hops]; omega, k3.count_eq (by rw [hops]; omega),
            by rw [k4, i4, hops]; omega, by rw [k5, i5, hops]; omega, k6.trans i6,
            k7.trans i7, ?_⟩
          intro a b hab
          rw [k8 a b (fun hc => hab ⟨by omega, by rw [hc.1]; exact hc.2.1,
            by rw [hc.1]; exact hc.2.2⟩)]
          exact i8 a b (fun hc => hab ⟨by omega, hc.2.1, hc.2.2⟩)) h
      exact ⟨c, L, hc, h2.2.2.2.2.2.1, h2.1, h2.2.1, h2.2.2.1, h2.2.2.2.1, h2.2.2.2.2.1,
        h2.2.2.2.2.2.2.2⟩


/-- The side in use of a table with `N` rows has `N (N - 1) / 2` entries, in
upper and in lower mode. -/
theorem operators_in_rows_all (upper : Bool) (N : ℕ) :
    operators_in_rows upper N N = N * (N - 1) / 2 := by
  rw [← Finset.sum_range_id]
  cases upper with
  | false =>
    simp [operators_in_rows, first_column, end_column]
  | true =>
    simp only [operators_in_rows, first_column, end_column, if_true]
    rw [← Finset.sum_range_reflect (fun i => i) N]
    apply Finset.sum_congr rfl
    intro i _
    omega

/-- With the diagonal the side in use has `N (N + 1) / 2` entries. -/
theorem diagonal_and_operators (upper : Bool) (N : ℕ) :
    N + operators_in_rows upper N N = N * (N + 1) / 2 := by
  rw [operators_in_rows_all]
  cases N with
  | zero => rfl
  | succ n =>
    simp only [Nat.add_sub_cancel]
    have h1 : (n + 1) * (n + 1 + 1) = (n + 1) * n + 2 * (n + 1) := by ring
    rw [h1, Nat.add_mul_div_left _ _ (by norm_num : 0 < 2)]
    omega


/-! ### C18: the operators of the block triangular preconditioner -/

theorem side_in_use_iff (upper : Bool) (n a b : ℕ) :
    (a < n ∧ first_column upper a ≤ b ∧ b < end_column upper n a) ↔
      (if upper = true then a < b ∧ b < n else b < a ∧ a < n) := by
  cases upper <;> simp [first_column, end_column] <;> omega

/-- C18: `BlockTriangularPreconditioner::setup` builds the off-diagonal
operators exactly on the strict side in use. On a newly constructed
preconditioner (no subsidiary preconditioner held, the table of operators
empty) whose matrix has the lookup scheme `L` with `n = L.nblock_types` block
types, and with a factory that returns an object at each of its `n` calls,
`setup` returns, and afterwards: the table holds an operator at `(i,j)` if and
only if `i < j < n` in upper mode and `j < i < n` in lower mode; each stored
operator `(i,j)` is a live operator set up on block `(i,j)` of the matrix, and
no two entries share an operator; exactly `n (n - 1) / 2` operators have been
created, all live; and the blocks extracted on the way are `n (n + 1) / 2`
blocks none of which lies on the other strict side. -/
theorem BlockTriangularPreconditioner.setup_builds_operators_on_side_in_use {K : Type}
    (env : Env K) (w : World K) (self : BlockTriangularPreconditioner K) (problem_pt : ℕ)
    (A : CRDoubleMatrix K) (L : BlockLookup) (kind : ℕ → PrecKind)
    (hL : self.toGeneralPurposeBlockPreconditioner.scheme env A = L)
    (hD : self.Diagonal_block_preconditioner_pt = [])
    (hO : self.Off_diagonal_matrix_vector_products = DenseMatrix.empty 0)
    (hkind : ∀ i, i < L.nblock_types →
      created_kind self.Subsidiary_preconditioner_function_pt (w.factory_calls + i) =
        some (kind i)) :
    ∃ w1 self1,
      self.setup env w problem_pt (some (DoubleMatrixBase.block_capable A)) =
        Except.ok (w1, self1) ∧
      self1.nblock_types = L.nblock_types ∧
      (∀ i j, self1.Off_diagonal_matrix_vector_products.data i j ≠ 0 ↔
        if self.Upper_triangular = true then i < j ∧ j < L.nblock_types
        else j < i ∧ i < L.nblock_types) ∧
      (∀ i j, self1.Off_diagonal_matrix_vector_products.data i j ≠ 0 →
        w1.matrix_vector_products.obj (self1.Off_diagonal_matrix_vector_products.data i j) =
          some ⟨some (L.block A i j)⟩ ∧
        ∀ i1 j1, self1.Off_diagonal_matrix_vector_products.data i1 j1 =
          self1.Off_diagonal_matrix_vector_products.data i j → i1 = i ∧ j1 = j) ∧
      w1.matrix_vector_products.next =
        w.matrix_vector_products.next + L.nblock_types * (L.nblock_types - 1) / 2 ∧
      w1.matrix_vector_products.live =
        w.matrix_vector_products.live + L.nblock_types * (L.nblock_types - 1) / 2 ∧
      Extracted w.log w1.log (L.nblock_types * (L.nblock_types + 1) / 2)
        (fun i j => if self.Upper_triangular = true then i ≤ j else j ≤ i) := by
  subst hL
  obtain ⟨w1, self1, D1, hrun, hLk, -, -, -, hOff, -, -, -, -, -, -, -, hOps, -, -⟩ :=
    self.triangular_setup_spec env w problem_pt A 0 (fun _ => 0) (fun _ _ => 0) kind
      (by rw [hD]; rfl) (by rw [hO]; rfl) (by intro i hi; omega)
      (by intro i j hi; omega) hkind
  obtain ⟨c, L1, hc, hL1, -, -, hext, hmn, hml, htab⟩ :=
    self.triangular_setup_trace env w problem_pt _ (w1, self1) hrun
  rw [self.clean_memory_nothing_held w hD] at hc
  cases hc
  simp only at hL1 hext hmn hml htab
  rw [hLk] at hL1
  cases hL1
  have hpos : 0 < w.matrix_vector_products.next := w.matrix_vector_products.next_pos
  have hdata : self1.Off_diagonal_matrix_vector_products.data = D1 := by rw [hOff]
  have hzero : ∀ a b, ¬ (a < (self.toGeneralPurposeBlockPreconditioner.scheme env A).nblock_types ∧
      first_column self.Upper_triangular a ≤ b ∧
      b < end_column self.Upper_triangular
        (self.toGeneralPurposeBlockPreconditioner.scheme env A).nblock_types a) →
      D1 a b = 0 := by
    intro a b hab
    rw [← hdata, htab a b hab, hO]
    simp [DenseMatrix.resize, DenseMatrix.empty]
  have hvis : ∀ a b, (a < (self.toGeneralPurposeBlockPreconditioner.scheme env A).nblock_types ∧
      first_column self.Upper_triangular a ≤ b ∧
      b < end_column self.Upper_triangular
        (self.toGeneralPurposeBlockPreconditioner.scheme env A).nblock_types a) →
      visited self.Upper_triangular
        (self.toGeneralPurposeBlockPreconditioner.scheme env A).nblock_types
        (self.toGeneralPurposeBlockPreconditioner.scheme env A).nblock_types
        (first_column self.Upper_triangular
          (self.toGeneralPurposeBlockPreconditioner.scheme env A).nblock_types) a b :=
    fun a b hab => ⟨hab.1, hab.2.1, hab.2.2, Or.inl hab.1⟩
  have hside : ∀ a b, D1 a b ≠ 0 →
      (a < (self.toGeneralPurposeBlockPreconditioner.scheme env A).nblock_types ∧
      first_column self.Upper_triangular a ≤ b ∧
      b < end_column self.Upper_triangular
        (self.toGeneralPurposeBlockPreconditioner.scheme env A).nblock_types a) := by
    intro a b hab
    by_contra hc
    exact hab (hzero a b hc)
  refine ⟨w1, self1, hrun, by simp [BlockPreconditioner.nblock_types, hLk], ?_, ?_, ?_, ?_, ?_⟩
  · intro i j
    rw [hdata, ← side_in_use_iff]
    constructor
    · exact hside i j
    · intro hij
      have := (hOps i j (hvis i j hij)).1
      omega
  · intro i j hij
    rw [hdata] at hij ⊢
    obtain ⟨g1, -, g3, g4⟩ := hOps i j (hvis i j (hside i j hij))
    refine ⟨g3, fun i1 j1 he => ?_⟩
    exact g4 i1 j1 (hvis i1 j1 (hside i1 j1 (by rw [he]; exact hij))) he
  · rw [hmn, operators_in_rows_all]
  · rw [hml, operators_in_rows_all]
  · refine (hext.count_eq (diagonal_and_operators _ _)).weaken ?_
    intro i j hij
    cases hup : self.Upper_triangular
    · rw [hup] at hij
      simp only [first_column, end_column, Bool.false_eq_true, if_false] at hij ⊢
      omega
    · rw [hup] at hij
      simp only [first_column, end_column, if_true] at hij ⊢
      omega

/-- The statement of C18 at a newly constructed preconditioner switched to
lower mode, three block types and the default subsidiary preconditioner: the
operators are at `(1,0)`, `(2,0)` and `(2,1)`, three operators are built and
six blocks extracted. -/
theorem BlockTriangularPreconditioner.setup_builds_operators_on_side_in_use_witness :
    ∃ w1 self1,
      (BlockTriangularPreconditioner.ctor.lower_triangular).setup three_env
          (World.empty : World ℤ) 0 (some (DoubleMatrixBase.block_capable upper_matrix3)) =
        Except.ok (w1, self1) ∧
      self1.nblock_types = three_blocks.nblock_types ∧
      (∀ i j, self1.Off_diagonal_matrix_vector_products.data i j ≠ 0 ↔
        if (BlockTriangularPreconditioner.ctor.lower_triangular :
            BlockTriangularPreconditioner ℤ).Upper_triangular = true
        then i < j ∧ j < three_blocks.nblock_types
        else j < i ∧ i < three_blocks.nblock_types) ∧
      (∀ i j, self1.Off_diagonal_matrix_vector_products.data i j ≠ 0 →
        w1.matrix_vector_products.obj (self1.Off_diagonal_matrix_vector_products.data i j) =
          some ⟨some (three_blocks.block upper_matrix3 i j)⟩ ∧
        ∀ i1 j1, self1.Off_diagonal_matrix_vector_products.data i1 j1 =
          self1.Off_diagonal_matrix_vector_products.data i j → i1 = i ∧ j1 = j) ∧
      w1.matrix_vector_products.next =
        (World.empty : World ℤ).matrix_vector_products.next +
          three_blocks.nblock_types * (three_blocks.nblock_types - 1) / 2 ∧
      w1.matrix_vector_products.live =
        (World.empty : World ℤ).matrix_vector_products.live +
          three_blocks.nblock_types * (three_blocks.nblock_types - 1) / 2 ∧
      Extracted (World.empty : World ℤ).log w1.log
        (three_blocks.nblock_types * (three_blocks.nblock_types + 1) / 2)
        (fun i j => if (BlockTriangularPreconditioner.ctor.lower_triangular :
            BlockTriangularPreconditioner ℤ).Upper_triangular = true then i ≤ j else j ≤ i) :=
  BlockTriangularPreconditioner.setup_builds_operators_on_side_in_use three_env World.empty
    BlockTriangularPreconditioner.ctor.lower_triangular 0 upper_matrix3 three_blocks
    (fun _ => PrecKind.SuperLUPreconditioner) rfl rfl rfl (fun _ _ => rfl)


/-! ### Extracted matrices in the setup of the exact block preconditioner -/

/-- A store that has as many live objects as an earlier state of it, and the
objects of the earlier state unchanged, has no live object that was created
since. -/
theorem Store.none_new_of_live_eq {α : Type} (s0 s : Store α) (hn : s0.next ≤ s.next)
    (hf : ∀ q, q < s0.next → s.obj q = s0.obj q) (hl : s.live = s0.live) :
    ∀ q, s0.next ≤ q → s.obj q = none := by
  intro q hq
  by_cases hqs : s.next ≤ q
  · exact s.fresh q hqs
  · have e : s.next = s0.next + (s.next - s0.next) := by omega
    have h1 : (List.range s0.next).countP (fun p => (s.obj p).isSome) = s0.live := by
      simp only [Store.live]
      apply List.countP_congr
      intro p hp
      rw [hf p (List.mem_range.mp hp)]
    simp only [Store.live] at hl h1
    rw [e, List.range_add, List.countP_append, h1] at hl
    have h2 : List.countP (fun p => (s.obj p).isSome)
        (List.map (fun x => s0.next + x) (List.range (s.next - s0.next))) = 0 := by
      omega
    rw [List.countP_eq_zero] at h2
    have h3 := h2 q (List.mem_map.mpr ⟨q - s0.next, List.mem_range.mpr (by omega), by omega⟩)
    simpa using h3

theorem DenseMatrix.assign_of_ok {α : Type} (d d1 : DenseMatrix α) (i j : ℕ) (a : α)
    (h : d.assign (i : ℤ) (j : ℤ) a = Except.ok d1) :
    d1.N = d.N ∧ d1.M = d.M ∧
      d1.data = fun i1 j1 => if i1 = i ∧ j1 = j then a else d.data i1 j1 := by
  simp only [DenseMatrix.assign] at h
  split at h
  · cases h
    simp
  · cases h

/-- The loops of `get_blocks` with every block required, in a run that
returns: `N * N` blocks are extracted into new matrices, which are all live at
the end. -/
theorem BlockPreconditioner.get_blocks_trace {K : Type} (self : BlockPreconditioner K)
    (L : BlockLookup) (hL : self.Lookup = some L) (w : World K) (tbl : DenseMatrix ℕ)
    (g : World K × DenseMatrix ℕ)
    (htbl : ∀ a b, tbl.data a b = 0 ∨ w.matrices.next ≤ tbl.data a b)
    (h : self.get_blocks w ⟨L.nblock_types, L.nblock_types, fun _ _ => true⟩ tbl =
      Except.ok g) :
    g.1.matrices.next = w.matrices.next + L.nblock_types * L.nblock_types ∧
    g.1.matrices.live = w.matrices.live + L.nblock_types * L.nblock_types ∧
    w.matrices.peak ≤ g.1.matrices.peak ∧
    g.1.matrices.peak ≤
      max w.matrices.peak (w.matrices.live + L.nblock_types * L.nblock_types) ∧
    (∀ q, q < w.matrices.next → g.1.matrices.obj q = w.matrices.obj q) ∧
    Extracted w.log g.1.log (L.nblock_types * L.nblock_types)
      (fun i j => i < L.nblock_types ∧ j < L.nblock_types) ∧
    (∀ a b, g.2.data a b = 0 ∨ w.matrices.next ≤ g.2.data a b) := by
  have hN : self.nblock_types = L.nblock_types := by
    simp [BlockPreconditioner.nblock_types, hL]
  simp only [BlockPreconditioner.get_blocks, hN] at h
  have hrun := for_range_of_ok _
    (fun k (t : World K × DenseMatrix ℕ) =>
      t.1.matrices.next = w.matrices.next + k * L.nblock_types ∧
      t.1.matrices.live = w.matrices.live + k * L.nblock_types ∧
      w.matrices.peak ≤ t.1.matrices.peak ∧
      t.1.matrices.peak ≤ max w.matrices.peak (w.matrices.live + k * L.nblock_types) ∧
      (∀ q, q < w.matrices.next → t.1.matrices.obj q = w.matrices.obj q) ∧
      Extracted w.log t.1.log (k * L.nblock_types)
        (fun i j => i < L.nblock_types ∧ j < L.nblock_types) ∧
      (∀ a b, t.2.data a b = 0 ∨ w.matrices.next ≤ t.2.data a b))
    0 L.nblock_types (w, tbl) g (Nat.zero_le _)
    (by
      refine ⟨by simp, by simp, le_rfl, le_max_left _ _, fun _ _ => rfl, ?_, htbl⟩
      simpa using Extracted.nothing_added w.log _)
    (fun k t t1 _ hk hI hb => by
      simp only [BlockPreconditioner.get_blocks_row, hN] at hb
      have hrow := for_range_of_ok _
        (fun m (v : World K × DenseMatrix ℕ) =>
          v.1.matrices.next = w.matrices.next + (k * L.nblock_types + m) ∧
          v.1.matrices.live = w.matrices.live + (k * L.nblock_types + m) ∧
          w.matrices.peak ≤ v.1.matrices.peak ∧
          v.1.matrices.peak ≤
            max w.matrices.peak (w.matrices.live + (k * L.nblock_types + m)) ∧
          (∀ q, q < w.matrices.next → v.1.matrices.obj q = w.matrices.obj q) ∧
          Extracted w.log v.1.log (k * L.nblock_types + m)
            (fun i j => i < L.nblock_types ∧ j < L.nblock_types) ∧
          (∀ a b, v.2.data a b = 0 ∨ w.matrices.next ≤ v.2.data a b))
        0 L.nblock_types t t1 (Nat.zero_le _) (by simpa using hI)
        (fun m v v1 _ hm hJ hb1 => by
          obtain ⟨j1, j2, j3, j4, j5, j6, j7⟩ := hJ
          rw [BlockPreconditioner.get_blocks_entry, DenseMatrix.entry_nat _ _ _ _ _ hk hm] at hb1
          simp only at hb1
          cases hgb : self.get_block v.1 k m with
          | error e => rw [hgb] at hb1; cases hb1
          | ok r =>
            rw [hgb] at hb1
            simp only at hb1
            obtain ⟨L1, A, -, -, -, -, rfl⟩ := World.get_block_of_ok v.1 self k m r hgb
            cases hd : v.2.assign (k : ℤ) (m : ℤ) v.1.matrices.next with
            | error e => rw [hd] at hb1; cases hb1
            | ok d =>
              rw [hd] at hb1
              cases hb1
              obtain ⟨-, -, hdata⟩ := DenseMatrix.assign_of_ok _ _ _ _ _ hd
              refine ⟨?_, ?_, ?_, ?_, ?_, ?_, ?_⟩
              · simp only [Store.new_next, j1]; omega
              · simp only [Store.new_live, j2]; omega
              · rw [Store.new_peak]; exact le_trans j3 (le_max_left _ _)
              · rw [Store.new_peak, j2]
                apply max_le
                · exact le_trans j4 (max_le_max le_rfl (by omega))
                · exact le_trans (by omega) (le_max_right _ _)
              · intro q hq
                rw [Store.new_obj, if_neg (by omega)]
                exact j5 q hq
              · exact (j6.extract k m ⟨hk, hm⟩).count_eq (by omega)
              · intro a b
                rw [hdata]
                dsimp only
                split_ifs
                · right; omega
                · exact j7 a b) hb
      obtain ⟨i1, i2, i3, i4, i5, i6, i7⟩ := hrow
      exact ⟨by rw [i1]; ring, by rw [i2]; ring, i3,
        le_trans i4 (max_le_max le_rfl (by rw [Nat.succ_mul])),
        i5, i6.count_eq (by ring), i7⟩) h
  exact hrun


theorem BlockPreconditioner.build_preconditioner_matrix_of_ok {K : Type} [Zero K]
    (w : World K) (self : BlockPreconditioner K) (block_matrix_pt : DenseMatrix ℕ)
    (e : ℕ × World K)
    (h : self.build_preconditioner_matrix w block_matrix_pt = Except.ok e) :
    ∃ B, e = (w.matrices.next,
      (⟨w.preconditioners, w.matrix_vector_products, (w.matrices.new B).2,
        w.log ++ [Event.build_preconditioner_matrix]⟩ : World K)) := by
  simp only [BlockPreconditioner.build_preconditioner_matrix] at h
  split at h
  · split at h
    · cases h
      exact ⟨_, rfl⟩
    · cases h
  · cases h

/-- The loops of `ExactBlockPreconditioner::setup` that delete the block
matrices, in a run that returns, when every entry of the table is null or
points to a matrix created since the store was `s0`: the matrices of `s0` are
not touched. -/
theorem ExactBlockPreconditioner.delete_blocks_trace {K : Type} (N : ℕ)
    (s0 : Store (CRDoubleMatrix K)) (st st1 : World K × DenseMatrix ℕ)
    (htbl : ∀ a b, st.2.data a b = 0 ∨ s0.next ≤ st.2.data a b)
    (h : for_range 0 N (ExactBlockPreconditioner.delete_block_row N) st = Except.ok st1) :
    st1.1.matrices.next = st.1.matrices.next ∧
    st1.1.matrices.peak = st.1.matrices.peak ∧
    (∀ q, q < s0.next → st1.1.matrices.obj q = st.1.matrices.obj q) ∧
    st1.1.log = st.1.log := by
  have hbody : ∀ (i j : ℕ) (u u1 : World K × DenseMatrix ℕ),
      (u.1.matrices.next = st.1.matrices.next ∧
        u.1.matrices.peak = st.1.matrices.peak ∧
        (∀ q, q < s0.next → u.1.matrices.obj q = st.1.matrices.obj q) ∧
        u.1.log = st.1.log ∧
        ∀ a b, u.2.data a b = 0 ∨ s0.next ≤ u.2.data a b) →
      ExactBlockPreconditioner.delete_block i j u = Except.ok u1 →
      (u1.1.matrices.next = st.1.matrices.next ∧
        u1.1.matrices.peak = st.1.matrices.peak ∧
        (∀ q, q < s0.next → u1.1.matrices.obj q = st.1.matrices.obj q) ∧
        u1.1.log = st.1.log ∧
        ∀ a b, u1.2.data a b = 0 ∨ s0.next ≤ u1.2.data a b) := by
    intro i j u u1 hu hb
    obtain ⟨i1, i2, i3, i4, i5⟩ := hu
    simp only [ExactBlockPreconditioner.delete_block, bind_eq_ok, pure_eq_ok,
      Except.ok.injEq] at hb
    obtain ⟨p, hp, w1, hw1, d, hd, rfl⟩ := hb
    obtain ⟨g1, -, -, g4⟩ := World.delete_matrix_of_ok _ _ _ hw1
    obtain ⟨k1, k2, k3⟩ := Store.delete_of_ok _ _ _ g1
    obtain ⟨-, -, hdata⟩ := DenseMatrix.assign_of_ok _ _ _ _ _ hd
    have hpd : p = u.2.data i j := by
      simp only [DenseMatrix.entry] at hp
      split at hp
      · cases hp; simp
      · cases hp
    refine ⟨k1.trans i1, k2.trans i2, ?_, g4.trans i4, ?_⟩
    · intro q hq
      rcases k3 with ⟨-, k3⟩ | ⟨hp0, -, k3, -⟩
      · rw [k3]; exact i3 q hq
      · have hge : s0.next ≤ p := by
          rcases i5 i j with h0 | h0
          · exact absurd (hpd.trans h0) hp0
          · rw [hpd]; exact h0
        rw [k3, Function.update_noteq (by omega)]
        exact i3 q hq
    · intro a b
      rw [hdata]
      dsimp only
      split_ifs
      · left; trivial
      · exact i5 a b
  have hrun := for_range_keeps _
    (fun u : World K × DenseMatrix ℕ =>
      u.1.matrices.next = st.1.matrices.next ∧
      u.1.matrices.peak = st.1.matrices.peak ∧
      (∀ q, q < s0.next → u.1.matrices.obj q = st.1.matrices.obj q) ∧
      u.1.log = st.1.log ∧
      ∀ a b, u.2.data a b = 0 ∨ s0.next ≤ u.2.data a b)
    0 N st st1 (by exact ⟨rfl, rfl, fun _ _ => rfl, rfl, htbl⟩)
    (fun i u u1 hu hb => by
      simp only [ExactBlockPreconditioner.delete_block_row] at hb
      exact for_range_keeps _
        (fun u : World K × DenseMatrix ℕ =>
          u.1.matrices.next = st.1.matrices.next ∧
          u.1.matrices.peak = st.1.matrices.peak ∧
          (∀ q, q < s0.next → u.1.matrices.obj q = st.1.matrices.obj q) ∧
          u.1.log = st.1.log ∧
          ∀ a b, u.2.data a b = 0 ∨ s0.next ≤ u.2.data a b)
        0 N u u1 hu (fun j v v1 hv hb1 => hbody i j v v1 hv hb1) hb) h
  exact ⟨hrun.1, hrun.2.1, hrun.2.2.1, hrun.2.2.2.1⟩


theorem Extracted.after {log0 log1 : List Event} {c : ℕ} {P : ℕ → ℕ → Prop}
    (pre : List Event) (hpre : ∀ e, e ∈ pre → e.is_get_block = false)
    (h : Extracted (log0 ++ pre) log1 c P) : Extracted log0 log1 c P := by
  obtain ⟨added, rfl, hc, hm⟩ := h
  refine ⟨pre ++ added, by simp, ?_, ?_⟩
  · rw [List.countP_append, hc]
    have : List.countP Event.is_get_block pre = 0 := by
      rw [List.countP_eq_zero]
      intro e he
      simp [hpre e he]
    omega
  · intro a b hab
    rw [List.mem_append] at hab
    rcases hab with hab | hab
    · have := hpre _ hab
      simp [Event.is_get_block] at this
    · exact hm a b hab

/-- The matrices in a run of `ExactBlockPreconditioner::setup` that returns:
all `N * N` blocks are extracted and are live, together with the assembled
matrix, before any of them is deleted. -/
theorem ExactBlockPreconditioner.exact_setup_trace {K : Type} [Zero K] (env : Env K)
    (w : World K) (self : ExactBlockPreconditioner K) (problem_pt : ℕ)
    (matrix_pt : Option (DoubleMatrixBase K)) (st : World K × ExactBlockPreconditioner K)
    (h : self.setup env w problem_pt matrix_pt = Except.ok st) :
    ∃ L, st.2.Lookup = some L ∧
      st.1.matrices.next = w.matrices.next + (L.nblock_types * L.nblock_types + 1) ∧
      (∀ q, q < w.matrices.next → st.1.matrices.obj q = w.matrices.obj q) ∧
      w.matrices.peak ≤ st.1.matrices.peak ∧
      st.1.matrices.peak ≤
        max w.matrices.peak (w.matrices.live + (L.nblock_types * L.nblock_types + 1)) ∧
      w.matrices.live + (L.nblock_types * L.nblock_types + 1) ≤ st.1.matrices.peak ∧
      Extracted w.log st.1.log (L.nblock_types * L.nblock_types)
        (fun i j => i < L.nblock_types ∧ j < L.nblock_types) := by
  simp only [ExactBlockPreconditioner.setup, bind_eq_ok] at h
  obtain ⟨w0, hw0, h⟩ := h
  obtain ⟨c1, -, c3⟩ := World.delete_preconditioner_frame _ _ _ hw0
  split at h
  · simp at h
  · simp only [pure_eq_ok, bind_ok, bind_eq_ok, Except.ok.injEq] at h
    obtain ⟨r, hr, g, hg, e, he, t, ht, w1, hw1, w2, hw2, rfl⟩ := h
    cases hcast : dynamic_cast_MATRIX matrix_pt with
    | none =>
      rw [hcast, GeneralPurposeBlockPreconditioner.block_setup_null] at hr
      cases hr
    | some A =>
      rw [hcast, GeneralPurposeBlockPreconditioner.block_setup_spec] at hr
      cases hr
      set L := GeneralPurposeBlockPreconditioner.scheme env
        ({ self with Preconditioner_pt := 0, Problem_pt := problem_pt } :
          ExactBlockPreconditioner K).toGeneralPurposeBlockPreconditioner A with hLdef
      obtain ⟨g1, g2, g3, g4, g5, g6, g7⟩ := BlockPreconditioner.get_blocks_trace _ L rfl _ _ g
        (fun _ _ => Or.inl rfl) hg
      simp only [World.record] at g1 g2 g3 g4 g5 g6 g7
      rw [c1] at g1 g2 g3 g4 g5 g7
      rw [c3] at g6
      obtain ⟨B, rfl⟩ := BlockPreconditioner.build_preconditioner_matrix_of_ok _ _ _ e he
      obtain ⟨d1, d2, d3, d4⟩ := ExactBlockPreconditioner.delete_blocks_trace L.nblock_types
        w.matrices
        ((⟨g.1.preconditioners, g.1.matrix_vector_products, (g.1.matrices.new B).2,
          g.1.log ++ [Event.build_preconditioner_matrix]⟩ : World K), g.2) t g7 ht
      simp only at d1 d2 d3 d4 hw1 hw2
      obtain ⟨f1, -, -, -⟩ := World.create_frame t.1
        self.Subsidiary_preconditioner_function_pt
      obtain ⟨more, f5, f6⟩ := World.create_log t.1
        self.Subsidiary_preconditioner_function_pt
      obtain ⟨q1, -, q3, -⟩ := World.preconditioner_setup_of_ok _ _ _ _ hw1
      obtain ⟨e1, -, -, e4⟩ := World.delete_matrix_of_ok _ _ _ hw2
      obtain ⟨k1, k2, k3⟩ := Store.delete_of_ok _ _ _ e1
      have hnext : w2.matrices.next = w.matrices.next +
          (L.nblock_types * L.nblock_types + 1) := by
        rw [k1, q1, f1, d1, Store.new_next, g1]; omega
      have hpeak : w2.matrices.peak =
          max g.1.matrices.peak (g.1.matrices.live + 1) := by
        rw [k2, q1, f1, d2, Store.new_peak]
      refine ⟨L, rfl, hnext, ?_, ?_, ?_, ?_, ?_⟩
      · intro q hq
        have hframe : w1.matrices.obj q = w.matrices.obj q := by
          rw [q1, f1, d3 q hq, Store.new_obj, if_neg (by omega)]
          exact g5 q hq
        rcases k3 with ⟨-, k3⟩ | ⟨-, -, k3, -⟩
        · rw [k3]; exact hframe
        · rw [k3, Function.update_noteq (by omega)]
          exact hframe
      · rw [hpeak]
        exact le_trans g3 (le_max_left _ _)
      · rw [hpeak, g2]
        apply max_le
        · exact le_trans g4 (max_le_max le_rfl (by omega))
        · exact le_trans (by omega) (le_max_right _ _)
      · rw [hpeak, g2]
        exact le_trans (by omega) (le_max_right _ _)
      · rw [e4, q3, f5, d4]
        have := ((g6.after _ (by simp [Event.is_get_block])).other
          [Event.build_preconditioner_matrix] (by simp [Event.is_get_block])).other more f6
        simpa using this

/-- The matrices in a run of `BlockDiagonalPreconditioner::setup` that
returns: exactly the diagonal blocks are extracted, one at a time, and each is
deleted before the next is extracted. -/
theorem BlockDiagonalPreconditioner.diagonal_setup_transient {K : Type} (env : Env K) (w : World K)
    (self : BlockDiagonalPreconditioner K) (problem_pt : ℕ)
    (matrix_pt : Option (DoubleMatrixBase K)) (st : World K × BlockDiagonalPreconditioner K)
    (h : self.setup env w problem_pt matrix_pt = Except.ok st) :
    ∃ L, st.2.Lookup = some L ∧
      Transient w.matrices st.1.matrices (min 1 L.nblock_types) ∧
      st.1.matrices.next = w.matrices.next + L.nblock_types ∧
      Extracted w.log st.1.log L.nblock_types (fun i j => j = i ∧ i < L.nblock_types) ∧
      st.1.matrix_vector_products = w.matrix_vector_products ∧
      ∃ pre, (∀ e, e ∈ pre → e.is_get_block = false) ∧
        st.1.log = w.log ++ pre ++
          (List.range L.nblock_types).map (fun i => Event.get_block i i) := by
  simp only [BlockDiagonalPreconditioner.setup, bind_eq_ok] at h
  obtain ⟨c, hc, h⟩ := h
  obtain ⟨c1, c2, c3⟩ := self.diagonal_clean_up_frame w c hc
  split at h
  · simp at h
  · simp only [pure_eq_ok, bind_ok, bind_eq_ok] at h
    obtain ⟨r, hr, t, ht, h⟩ := h
    cases hcast : dynamic_cast_MATRIX matrix_pt with
    | none =>
      rw [hcast, GeneralPurposeBlockPreconditioner.block_setup_null] at hr
      cases hr
    | some A =>
      rw [hcast, GeneralPurposeBlockPreconditioner.block_setup_spec] at hr
      cases hr
      set L := GeneralPurposeBlockPreconditioner.scheme env
        ({ c.2 with Problem_pt := problem_pt } :
          BlockDiagonalPreconditioner K).toGeneralPurposeBlockPreconditioner A with hLdef
      -- first loop: no matrix is touched
      have h1 := for_range_keeps _
        (fun u : World K × BlockDiagonalPreconditioner K =>
          u.1.matrices = w.matrices ∧ u.1.matrix_vector_products = w.matrix_vector_products ∧
          Extracted w.log u.1.log 0 (fun i j => j = i ∧ i < L.nblock_types) ∧
          u.2.Lookup = some L ∧
          ∃ pre, (∀ e, e ∈ pre → e.is_get_block = false) ∧ u.1.log = w.log ++ pre)
        _ _ _ t
        (by
          refine ⟨c1, c2, ?_, rfl, ?_⟩
          · have := (Extracted.nothing_added w.log
              (fun i j => j = i ∧ i < L.nblock_types)).other
              [Event.block_setup c.2.Prec_mesh_pt.length c.2.Prec_mesh_pt
                ({ c.2 with Problem_pt := problem_pt } :
                  BlockDiagonalPreconditioner K).toGeneralPurposeBlockPreconditioner.map_in_use]
              (by simp [Event.is_get_block])
            simpa [World.record, c3] using this
          · exact ⟨[Event.block_setup c.2.Prec_mesh_pt.length c.2.Prec_mesh_pt
                ({ c.2 with Problem_pt := problem_pt } :
                  BlockDiagonalPreconditioner K).toGeneralPurposeBlockPreconditioner.map_in_use],
              by simp [Event.is_get_block], by simp [World.record, c3]⟩)
        (fun i u u1 hu hb => by
          simp only [BlockDiagonalPreconditioner.create_diagonal, bind_eq_ok, pure_eq_ok,
            Except.ok.injEq] at hb
          obtain ⟨v, -, rfl⟩ := hb
          obtain ⟨g1, g2, -, -⟩ := World.create_frame u.1
            u.2.Subsidiary_preconditioner_function_pt
          obtain ⟨more, g5, g6⟩ := World.create_log u.1
            u.2.Subsidiary_preconditioner_function_pt
          obtain ⟨pre, p1, p2⟩ := hu.2.2.2.2
          refine ⟨g1.trans hu.1, g2.trans hu.2.1, ?_, hu.2.2.2.1, pre ++ more, ?_, ?_⟩
          · show Extracted w.log
              (u.1.create_subsidiary_preconditioner
                u.2.Subsidiary_preconditioner_function_pt).2.log 0 _
            rw [g5]
            exact hu.2.2.1.other more g6
          · intro e he
            rw [List.mem_append] at he
            rcases he with he | he
            · exact p1 e he
            · exact g6 e he
          · show (u.1.create_subsidiary_preconditioner
                u.2.Subsidiary_preconditioner_function_pt).2.log = _
            rw [g5, p2, List.append_assoc]) ht
      obtain ⟨pre, p1, p2⟩ := h1.2.2.2.2
      -- second loop: one block at a time
      have h2 := for_range_of_ok _
        (fun k (u : World K × BlockDiagonalPreconditioner K) =>
          Transient w.matrices u.1.matrices (min 1 L.nblock_types) ∧
          u.1.matrices.next = w.matrices.next + k ∧
          Extracted w.log u.1.log k (fun i j => j = i ∧ i < L.nblock_types) ∧
          u.1.matrix_vector_products = w.matrix_vector_products ∧
          u.2.Lookup = some L ∧
          u.1.log = w.log ++ pre ++ (List.range k).map (fun i => Event.get_block i i))
        0 L.nblock_types t st (Nat.zero_le _)
        (by
          refine ⟨?_, ?_, h1.2.2.1, h1.2.1, h1.2.2.2.1, ?_⟩
          · rw [h1.1]; exact Transient.start _ _
          · rw [h1.1]; rfl
          · simpa using p2)
        (fun k u u1 _ hk hu hb => by
          simp only [BlockDiagonalPreconditioner.setup_diagonal, bind_eq_ok, pure_eq_ok,
            Except.ok.injEq] at hb
          obtain ⟨b, hget, p, -, w1, hw1, w2, hw2, rfl⟩ := hb
          obtain ⟨q1, q2, q3, -⟩ := World.preconditioner_setup_of_ok _ _ _ _ hw1
          obtain ⟨e1, e2, e3, -, -, e6, -, e8, -⟩ := World.extract_use_delete u.1 w1 w2
            u.2.toBlockPreconditioner k k b w.matrices (min 1 L.nblock_types) hu.1
            (by omega) hget q1 q3 hw2
          refine ⟨e1, by rw [e2, hu.2.1]; omega, ?_, by rw [e6, q2, e8]; exact hu.2.2.2.1,
            hu.2.2.2.2.1, ?_⟩
          · show Extracted w.log w2.log (k + 1) _
            rw [e3]
            exact hu.2.2.1.extract k k ⟨rfl, hk⟩
          · show w2.log = _
            rw [e3, hu.2.2.2.2.2, List.range_succ, List.map_append]
            simp) h
      exact ⟨L, h2.2.2.2.2.1, h2.1, h2.2.1, h2.2.2.1, h2.2.2.2.1, pre, p1, h2.2.2.2.2.2⟩


/-! ### C19: extracted matrices are released before `setup` returns -/

theorem BlockDiagonalPreconditioner.diagonal_setup_returns {K : Type} (env : Env K)
    (w : World K) (self : BlockDiagonalPreconditioner K) (problem_pt : ℕ)
    (A : CRDoubleMatrix K) (hs : self.Sound w)
    (hf : ∀ c, ∃ k, created_kind self.Subsidiary_preconditioner_function_pt c = some k) :
    ∃ w1 self1, self.setup env w problem_pt (some (DoubleMatrixBase.block_capable A)) =
        Except.ok (w1, self1) ∧
      self1.Lookup = some (self.toGeneralPurposeBlockPreconditioner.scheme env A) := by
  choose kindf hk using hf
  obtain ⟨hD, hown⟩ := hs.diagonal_owned
  obtain ⟨w1, self1, hset, hL, -⟩ := self.diagonal_setup_spec env w problem_pt A _ _
    (fun i => kindf (w.factory_calls + i)) hD hown (fun i _ => hk _)
  exact ⟨w1, self1, hset, hL⟩

theorem BlockTriangularPreconditioner.triangular_setup_returns {K : Type} (env : Env K)
    (w : World K) (self : BlockTriangularPreconditioner K) (problem_pt : ℕ)
    (A : CRDoubleMatrix K) (hs : self.Sound w)
    (hf : ∀ c, ∃ k, created_kind self.Subsidiary_preconditioner_function_pt c = some k) :
    ∃ w1 self1, self.setup env w problem_pt (some (DoubleMatrixBase.block_capable A)) =
        Except.ok (w1, self1) ∧
      self1.Lookup = some (self.toGeneralPurposeBlockPreconditioner.scheme env A) := by
  choose kindf hk using hf
  obtain ⟨hD, hO⟩ := hs.triangular_owned
  obtain ⟨hown, -, -, hops⟩ := hs
  obtain ⟨w1, self1, D1, hset, hL, -⟩ := self.triangular_setup_spec env w problem_pt A _ _ _
    (fun i => kindf (w.factory_calls + i)) hD hO hown hops (fun i _ => hk _)
  exact ⟨w1, self1, hset, hL⟩

theorem ExactBlockPreconditioner.exact_setup_returns {K : Type} [Zero K] (env : Env K)
    (w : World K) (self : ExactBlockPreconditioner K) (problem_pt : ℕ)
    (A : CRDoubleMatrix K) (hs : self.Sound w)
    (hf : ∀ c, ∃ k, created_kind self.Subsidiary_preconditioner_function_pt c = some k) :
    ∃ w1 self1, self.setup env w problem_pt (some (DoubleMatrixBase.block_capable A)) =
        Except.ok (w1, self1) ∧
      self1.Lookup = some (self.toGeneralPurposeBlockPreconditioner.scheme env A) ∧
      w1.matrices.live = w.matrices.live := by
  choose kindf hk using hf
  obtain ⟨w1, self1, hset, hL, -, -, -, -, -, -, -, -, -, -, hlive, -⟩ :=
    self.exact_setup_spec env w problem_pt A (kindf w.factory_calls) hs (hk _)
  exact ⟨w1, self1, hset, hL, hlive⟩

/-- C19: extracted block matrices are never retained past `setup`. For the
block diagonal, the block triangular and the exact block preconditioner, on a
block-capable matrix `A`, with `n` the number of block types of the lookup
scheme of `A` (the preconditioner holding sound pointers and the factory
returning objects), `setup` returns with `nblock_types() = n`, so no matrix is
deleted twice and none that is not live; afterwards no matrix created during
the `setup` is live, and the matrices that were live before are untouched. The
block diagonal preconditioner creates `n` matrices, by extracting exactly the
`n` diagonal blocks, each once (the trace gains the events `get_block 0 0`,
..., `get_block (n-1) (n-1)` and no other extraction); the block triangular
one creates `n (n + 1) / 2`, by extracting the diagonal blocks and the blocks
on the side in use; the exact one `n * n + 1`, the `n * n` blocks and the
assembled matrix. -/
theorem extracted_matrices_are_released_by_setup {K : Type} [Zero K] (env : Env K)
    (w : World K) (diagonal : BlockDiagonalPreconditioner K)
    (triangular : BlockTriangularPreconditioner K) (exact : ExactBlockPreconditioner K)
    (problem_pt : ℕ) (A : CRDoubleMatrix K)
    (hd : diagonal.Sound w) (ht : triangular.Sound w) (he : exact.Sound w)
    (hfd : ∀ c, ∃ k, created_kind diagonal.Subsidiary_preconditioner_function_pt c = some k)
    (hft : ∀ c, ∃ k, created_kind triangular.Subsidiary_preconditioner_function_pt c = some k)
    (hfe : ∀ c, ∃ k, created_kind exact.Subsidiary_preconditioner_function_pt c = some k) :
    (∃ w1 self1,
      diagonal.setup env w problem_pt
          (some (DoubleMatrixBase.block_capable A)) =
        Except.ok (w1, self1) ∧
      self1.nblock_types = (diagonal.toGeneralPurposeBlockPreconditioner.scheme env A).nblock_types ∧
      w1.matrices.next = w.matrices.next + (diagonal.toGeneralPurposeBlockPreconditioner.scheme env A).nblock_types ∧
      (∃ pre, (∀ e, e ∈ pre → e.is_get_block = false) ∧
        w1.log = w.log ++ pre ++
          (List.range (diagonal.toGeneralPurposeBlockPreconditioner.scheme env A).nblock_types).map (fun i => Event.get_block i i)) ∧
      (∀ q, w.matrices.next ≤ q → w1.matrices.obj q = none) ∧
      (∀ q, q < w.matrices.next → w1.matrices.obj q = w.matrices.obj q) ∧
      w1.matrices.live = w.matrices.live) ∧
    (∃ w1 self1,
      triangular.setup env w problem_pt
          (some (DoubleMatrixBase.block_capable A)) =
        Except.ok (w1, self1) ∧
      self1.nblock_types = (triangular.toGeneralPurposeBlockPreconditioner.scheme env A).nblock_types ∧
      w1.matrices.next = w.matrices.next + (triangular.toGeneralPurposeBlockPreconditioner.scheme env A).nblock_types * ((triangular.toGeneralPurposeBlockPreconditioner.scheme env A).nblock_types + 1) / 2 ∧
      Extracted w.log w1.log ((triangular.toGeneralPurposeBlockPreconditioner.scheme env A).nblock_types * ((triangular.toGeneralPurposeBlockPreconditioner.scheme env A).nblock_types + 1) / 2)
        (fun i j => i < (triangular.toGeneralPurposeBlockPreconditioner.scheme env A).nblock_types ∧
          (j = i ∨ (first_column triangular.Upper_triangular i ≤ j ∧
            j < end_column triangular.Upper_triangular (triangular.toGeneralPurposeBlockPreconditioner.scheme env A).nblock_types i))) ∧
      (∀ q, w.matrices.next ≤ q → w1.matrices.obj q = none) ∧
      (∀ q, q < w.matrices.next → w1.matrices.obj q = w.matrices.obj q) ∧
      w1.matrices.live = w.matrices.live) ∧
    (∃ w1 self1,
      exact.setup env w problem_pt
          (some (DoubleMatrixBase.block_capable A)) =
        Except.ok (w1, self1) ∧
      self1.nblock_types = (exact.toGeneralPurposeBlockPreconditioner.scheme env A).nblock_types ∧
      w1.matrices.next = w.matrices.next + ((exact.toGeneralPurposeBlockPreconditioner.scheme env A).nblock_types * (exact.toGeneralPurposeBlockPreconditioner.scheme env A).nblock_types + 1) ∧
      Extracted w.log w1.log ((exact.toGeneralPurposeBlockPreconditioner.scheme env A).nblock_types * (exact.toGeneralPurposeBlockPreconditioner.scheme env A).nblock_types)
        (fun i j => i < (exact.toGeneralPurposeBlockPreconditioner.scheme env A).nblock_types ∧ j < (exact.toGeneralPurposeBlockPreconditioner.scheme env A).nblock_types) ∧
      (∀ q, w.matrices.next ≤ q → w1.matrices.obj q = none) ∧
      (∀ q, q < w.matrices.next → w1.matrices.obj q = w.matrices.obj q) ∧
      w1.matrices.live = w.matrices.live) := by
  refine ⟨?_, ?_, ?_⟩
  · obtain ⟨w1, self1, hset, hL1⟩ := diagonal.diagonal_setup_returns env w problem_pt A hd hfd
    obtain ⟨L, hL, tr, hnext, -, -, hlog⟩ :=
      diagonal.diagonal_setup_transient env w problem_pt _ (w1, self1) hset
    simp only at hL tr hnext hlog
    rw [hL1] at hL
    cases hL
    exact ⟨w1, self1, hset, by simp [BlockPreconditioner.nblock_types, hL1],
      hnext, hlog, tr.none_new, tr.frame, tr.live_eq⟩
  · obtain ⟨w1, self1, hset, hL1⟩ :=
      triangular.triangular_setup_returns env w problem_pt A ht hft
    obtain ⟨c, L, -, hL, tr, hnext, hext, -⟩ :=
      triangular.triangular_setup_trace env w problem_pt _ (w1, self1) hset
    simp only at hL tr hnext hext
    rw [hL1] at hL
    cases hL
    refine ⟨w1, self1, hset, by simp [BlockPreconditioner.nblock_types, hL1],
      ?_, ?_, tr.none_new, tr.frame, tr.live_eq⟩
    · rw [hnext, diagonal_and_operators]
    · exact hext.count_eq (diagonal_and_operators _ _)
  · obtain ⟨w1, self1, hset, hL1, hlive⟩ :=
      exact.exact_setup_returns env w problem_pt A he hfe
    obtain ⟨L, hL, hnext, hframe, -, -, -, hext⟩ :=
      exact.exact_setup_trace env w problem_pt _ (w1, self1) hset
    simp only at hL hnext hframe hext
    rw [hL1] at hL
    cases hL
    refine ⟨w1, self1, hset, by simp [BlockPreconditioner.nblock_types, hL1],
      hnext, hext, ?_, hframe, hlive⟩
    exact Store.none_new_of_live_eq _ _ (by rw [hnext]; omega) hframe hlive

/-- The statement of C19 at newly constructed preconditioners, the world with
no object and a matrix with two block types, the lookup scheme being
`two_blocks`: two diagonal blocks are extracted by the block diagonal
preconditioner, three blocks by the block triangular one and four by the exact
one. -/
theorem extracted_matrices_are_released_by_setup_witness :
    two_blocks.nblock_types = 2 ∧
    ((∃ w1 self1,
      (BlockDiagonalPreconditioner.ctor : BlockDiagonalPreconditioner ℤ).setup paranoid_env (World.empty : World ℤ) 0
          (some (DoubleMatrixBase.block_capable upper_matrix)) =
        Except.ok (w1, self1) ∧
      self1.nblock_types = two_blocks.nblock_types ∧
      w1.matrices.next = (World.empty : World ℤ).matrices.next + two_blocks.nblock_types ∧
      (∃ pre, (∀ e, e ∈ pre → e.is_get_block = false) ∧
        w1.log = (World.empty : World ℤ).log ++ pre ++
          (List.range two_blocks.nblock_types).map (fun i => Event.get_block i i)) ∧
      (∀ q, (World.empty : World ℤ).matrices.next ≤ q → w1.matrices.obj q = none) ∧
      (∀ q, q < (World.empty : World ℤ).matrices.next → w1.matrices.obj q = (World.empty : World ℤ).matrices.obj q) ∧
      w1.matrices.live = (World.empty : World ℤ).matrices.live) ∧
    (∃ w1 self1,
      (BlockTriangularPreconditioner.ctor : BlockTriangularPreconditioner ℤ).setup paranoid_env (World.empty : World ℤ) 0
          (some (DoubleMatrixBase.block_capable upper_matrix)) =
        Except.ok (w1, self1) ∧
      self1.nblock_types = two_blocks.nblock_types ∧
      w1.matrices.next = (World.empty : World ℤ).matrices.next + two_blocks.nblock_types * (two_blocks.nblock_types + 1) / 2 ∧
      Extracted (World.empty : World ℤ).log w1.log (two_blocks.nblock_types * (two_blocks.nblock_types + 1) / 2)
        (fun i j => i < two_blocks.nblock_types ∧
          (j = i ∨ (first_column (BlockTriangularPreconditioner.ctor : BlockTriangularPreconditioner ℤ).Upper_triangular i ≤ j ∧
            j < end_column (BlockTriangularPreconditioner.ctor : BlockTriangularPreconditioner ℤ).Upper_triangular two_blocks.nblock_types i))) ∧
      (∀ q, (World.empty : World ℤ).matrices.next ≤ q → w1.matrices.obj q = none) ∧
      (∀ q, q < (World.empty : World ℤ).matrices.next → w1.matrices.obj q = (World.empty : World ℤ).matrices.obj q) ∧
      w1.matrices.live = (World.empty : World ℤ).matrices.live) ∧
    (∃ w1 self1,
      (ExactBlockPreconditioner.ctor : ExactBlockPreconditioner ℤ).setup paranoid_env (World.empty : World ℤ) 0
          (some (DoubleMatrixBase.block_capable upper_matrix)) =
        Except.ok (w1, self1) ∧
      self1.nblock_types = two_blocks.nblock_types ∧
      w1.matrices.next = (World.empty : World ℤ).matrices.next + (two_blocks.nblock_types * two_blocks.nblock_types + 1) ∧
      Extracted (World.empty : World ℤ).log w1.log (two_blocks.nblock_types * two_blocks.nblock_types)
        (fun i j => i < two_blocks.nblock_types ∧ j < two_blocks.nblock_types) ∧
      (∀ q, (World.empty : World ℤ).matrices.next ≤ q → w1.matrices.obj q = none) ∧
      (∀ q, q < (World.empty : World ℤ).matrices.next → w1.matrices.obj q = (World.empty : World ℤ).matrices.obj q) ∧
      w1.matrices.live = (World.empty : World ℤ).matrices.live)) :=
  ⟨rfl, extracted_matrices_are_released_by_setup paranoid_env World.empty
    BlockDiagonalPreconditioner.ctor BlockTriangularPreconditioner.ctor
    ExactBlockPreconditioner.ctor 0 upper_matrix
    (BlockDiagonalPreconditioner.diagonal_ctor_sound _)
    (BlockTriangularPreconditioner.triangular_ctor_sound _)
    (ExactBlockPreconditioner.exact_ctor_sound _)
    (fun _ => ⟨_, rfl⟩) (fun _ => ⟨_, rfl⟩) (fun _ => ⟨_, rfl⟩)⟩


/-! ### C20: the peak number of extracted matrices -/

/-- C20, counterexample: `ExactBlockPreconditioner::setup` on a matrix with
two block types, from the world with no object. The largest number of matrices
live at the same time during the `setup` is five: the four blocks `get_blocks`
extracts and the matrix assembled from them, which is created before the
blocks are deleted. Four extracted blocks are more than the two of one block
row. The second part runs the call of `get_blocks` alone, on the state `setup`
hands it: four matrices are live when it returns. -/
theorem exact_setup_holds_all_blocks_at_once :
    (match (ExactBlockPreconditioner.ctor : ExactBlockPreconditioner ℤ).setup paranoid_env
        World.empty 0 (some (DoubleMatrixBase.block_capable upper_matrix)) with
     | Except.ok st => some (st.2.nblock_types, st.1.matrices.peak, st.1.matrices.live)
     | Except.error _ => none) = some (2, 5, 0) ∧
    (match BlockPreconditioner.get_blocks (World.empty : World ℤ)
        ⟨0, [], some upper_matrix, some two_blocks⟩ ⟨2, 2, fun _ _ => true⟩
        ⟨2, 2, fun _ _ => 0⟩ with
     | Except.ok g => some g.1.matrices.live
     | Except.error _ => none) = some 4 :=
  ⟨rfl, rfl⟩

/-- C20, amended: during `setup` of the block diagonal and of the block
triangular preconditioner at most one extracted matrix is live at any time
(none if there is no block), so never more than the `n` of one block row: the
largest number of matrices live at the same time is at most the number before
the `setup` plus one, or what it was before. During `setup` of the exact block
preconditioner all `n * n` blocks and the assembled matrix are live at the
same time: the largest number of matrices live at the same time reaches the
number before the `setup` plus `n * n + 1`, and no more. In each case `setup`
returns (the preconditioner holding sound pointers, the matrix being
block-capable and the factory returning objects). -/
theorem peak_of_extracted_matrices_during_setup {K : Type} [Zero K] (env : Env K)
    (w : World K) (diagonal : BlockDiagonalPreconditioner K)
    (triangular : BlockTriangularPreconditioner K) (exact : ExactBlockPreconditioner K)
    (problem_pt : ℕ) (A : CRDoubleMatrix K)
    (hd : diagonal.Sound w) (ht : triangular.Sound w) (he : exact.Sound w)
    (hfd : ∀ c, ∃ k, created_kind diagonal.Subsidiary_preconditioner_function_pt c = some k)
    (hft : ∀ c, ∃ k, created_kind triangular.Subsidiary_preconditioner_function_pt c = some k)
    (hfe : ∀ c, ∃ k, created_kind exact.Subsidiary_preconditioner_function_pt c = some k) :
    (∃ w1 self1 n,
      diagonal.setup env w problem_pt (some (DoubleMatrixBase.block_capable A)) =
        Except.ok (w1, self1) ∧
      self1.nblock_types = n ∧
      w1.matrices.peak ≤ max w.matrices.peak (w.matrices.live + min 1 n) ∧
      min 1 n ≤ n) ∧
    (∃ w1 self1 n,
      triangular.setup env w problem_pt (some (DoubleMatrixBase.block_capable A)) =
        Except.ok (w1, self1) ∧
      self1.nblock_types = n ∧
      w1.matrices.peak ≤ max w.matrices.peak (w.matrices.live + min 1 n) ∧
      min 1 n ≤ n) ∧
    (∃ w1 self1 n,
      exact.setup env w problem_pt (some (DoubleMatrixBase.block_capable A)) =
        Except.ok (w1, self1) ∧
      self1.nblock_types = n ∧
      w.matrices.live + (n * n + 1) ≤ w1.matrices.peak ∧
      w1.matrices.peak ≤ max w.matrices.peak (w.matrices.live + (n * n + 1))) := by
  refine ⟨?_, ?_, ?_⟩
  · obtain ⟨w1, self1, hset, -⟩ := diagonal.diagonal_setup_returns env w problem_pt A hd hfd
    obtain ⟨L, hL, tr, -⟩ :=
      diagonal.diagonal_setup_transient env w problem_pt _ (w1, self1) hset
    simp only at hL tr
    exact ⟨w1, self1, L.nblock_types, hset, by simp [BlockPreconditioner.nblock_types, hL],
      tr.peak_le, by omega⟩
  · obtain ⟨w1, self1, hset, -⟩ :=
      triangular.triangular_setup_returns env w problem_pt A ht hft
    obtain ⟨c, L, -, hL, tr, -⟩ :=
      triangular.triangular_setup_trace env w problem_pt _ (w1, self1) hset
    simp only at hL tr
    exact ⟨w1, self1, L.nblock_types, hset, by simp [BlockPreconditioner.nblock_types, hL],
      tr.peak_le, by omega⟩
  · obtain ⟨w1, self1, hset, -, -⟩ := exact.exact_setup_returns env w problem_pt A he hfe
    obtain ⟨L, hL, -, -, -, hle, hge, -⟩ :=
      exact.exact_setup_trace env w problem_pt _ (w1, self1) hset
    simp only at hL hle hge
    exact ⟨w1, self1, L.nblock_types, hset, by simp [BlockPreconditioner.nblock_types, hL],
      hge, hle⟩

/-- The statement amended for C20 at newly constructed preconditioners, the
world with no object and a matrix with two block types. -/
theorem peak_of_extracted_matrices_during_setup_witness :
    (∃ w1 self1 n,
      (BlockDiagonalPreconditioner.ctor : BlockDiagonalPreconditioner ℤ).setup paranoid_env
          World.empty 0 (some (DoubleMatrixBase.block_capable upper_matrix)) =
        Except.ok (w1, self1) ∧
      self1.nblock_types = n ∧
      w1.matrices.peak ≤ max (World.empty : World ℤ).matrices.peak
        ((World.empty : World ℤ).matrices.live + min 1 n) ∧
      min 1 n ≤ n) ∧
    (∃ w1 self1 n,
      (BlockTriangularPreconditioner.ctor : BlockTriangularPreconditioner ℤ).setup paranoid_env
          World.empty 0 (some (DoubleMatrixBase.block_capable upper_matrix)) =
        Except.ok (w1, self1) ∧
      self1.nblock_types = n ∧
      w1.matrices.peak ≤ max (World.empty : World ℤ).matrices.peak
        ((World.empty : World ℤ).matrices.live + min 1 n) ∧
      min 1 n ≤ n) ∧
    (∃ w1 self1 n,
      (ExactBlockPreconditioner.ctor : ExactBlockPreconditioner ℤ).setup paranoid_env
          World.empty 0 (some (DoubleMatrixBase.block_capable upper_matrix)) =
        Except.ok (w1, self1) ∧
      self1.nblock_types = n ∧
      (World.empty : World ℤ).matrices.live + (n * n + 1) ≤ w1.matrices.peak ∧
      w1.matrices.peak ≤ max (World.empty : World ℤ).matrices.peak
        ((World.empty : World ℤ).matrices.live + (n * n + 1))) :=
  peak_of_extracted_matrices_during_setup paranoid_env World.empty
    BlockDiagonalPreconditioner.ctor BlockTriangularPreconditioner.ctor
    ExactBlockPreconditioner.ctor 0 upper_matrix
    (BlockDiagonalPreconditioner.diagonal_ctor_sound _)
    (BlockTriangularPreconditioner.triangular_ctor_sound _)
    (ExactBlockPreconditioner.exact_ctor_sound _)
    (fun _ => ⟨_, rfl⟩) (fun _ => ⟨_, rfl⟩) (fun _ => ⟨_, rfl⟩)


/-! ### A factory that returns the null pointer for some block -/

theorem for_loop_error_at {σ : Type} (body : ℕ → σ → Except Failure σ) :
    ∀ (a b lo : ℕ) (s t : σ) (e : Failure), for_loop body lo a s = Except.ok t →
      body (lo + a) t = Except.error e → for_loop body lo (a + 1 + b) s = Except.error e := by
  intro a
  induction a with
  | zero =>
    intro b lo s t e hpre hb
    simp only [for_loop, Except.ok.injEq] at hpre
    subst hpre
    have e1 : 0 + 1 + b = b + 1 := by omega
    rw [e1]
    simp only [add_zero] at hb
    simp only [for_loop, hb]
  | succ n ih =>
    intro b lo s t e hpre hb
    simp only [for_loop] at hpre
    have e1 : n + 1 + 1 + b = (n + 1 + b) + 1 := by omega
    rw [e1]
    simp only [for_loop]
    cases hs : body lo s with
    | error e0 => rw [hs] at hpre; cases hpre
    | ok s1 =>
      rw [hs] at hpre
      simp only at hpre ⊢
      have e2 : lo + (n + 1) = lo + 1 + n := by omega
      rw [e2] at hb
      exact ih b (lo + 1) s1 t e hpre hb

/-- A loop whose rounds before round `i` succeed and whose round `i` fails
ends with the failure of round `i`. -/
theorem for_range_error_at {σ : Type} (body : ℕ → σ → Except Failure σ) (lo i hi : ℕ)
    (s t : σ) (e : Failure) (hlo : lo ≤ i) (hi1 : i < hi)
    (hpre : for_range lo i body s = Except.ok t) (hb : body i t = Except.error e) :
    for_range lo hi body s = Except.error e := by
  simp only [for_range] at hpre ⊢
  have e1 : hi - lo = (i - lo) + 1 + (hi - i - 1) := by omega
  rw [e1]
  refine for_loop_error_at body _ _ lo s t e hpre ?_
  have e2 : lo + (i - lo) = i := by omega
  rw [e2]
  exact hb

/-- The first loop of `BlockDiagonalPreconditioner::setup` with any factory:
the loop runs to its end; the null pointer is stored for every block for which
the factory returns it, and a pointer to a live object for the others. -/
theorem BlockDiagonalPreconditioner.create_loop_any {K : Type} (w : World K)
    (self : BlockDiagonalPreconditioner K) (N : ℕ) (f : SubsidiaryPreconditionerFctPt)
    (hD : self.Diagonal_block_preconditioner_pt = vec N (fun _ => 0))
    (hf : self.Subsidiary_preconditioner_function_pt = some f) :
    ∃ (w1 : World K) (g : ℕ → ℕ),
      for_range 0 N BlockDiagonalPreconditioner.create_diagonal (w, self) =
        Except.ok (w1, { self with Diagonal_block_preconditioner_pt := vec N g }) ∧
      ∀ k, k < N → (f (w.factory_calls + k) = none → g k = 0) ∧
        (f (w.factory_calls + k) ≠ none → ∃ a, w1.preconditioners.obj (g k) = some a) := by
  have hself : self = { self with Diagonal_block_preconditioner_pt := vec N (fun _ => 0) } := by
    cases self; simp only at hD; subst hD; rfl
  obtain ⟨st, hrun, w1, g, rfl, -, h2⟩ := for_range_inv
    BlockDiagonalPreconditioner.create_diagonal
    (fun j st => ∃ (w1 : World K) (g : ℕ → ℕ),
      st = (w1, { self with Diagonal_block_preconditioner_pt := vec N g }) ∧
      w1.factory_calls = w.factory_calls + j ∧
      ∀ k, k < j → (f (w.factory_calls + k) = none → g k = 0) ∧
        (f (w.factory_calls + k) ≠ none → ∃ a, w1.preconditioners.obj (g k) = some a))
    0 N (w, self) (Nat.zero_le _)
    ⟨w, fun _ => 0, (by rw [Prod.mk.injEq]; exact ⟨rfl, hself⟩), rfl, fun k hk => by omega⟩
    (by
      rintro j st _ hj ⟨w1, g, rfl, h1, h2⟩
      cases hfj : f (w.factory_calls + j) with
      | none =>
        have hc := w1.create_null f (by rw [h1]; exact hfj)
        refine ⟨_, ?_, w1.record Event.factory_call, Function.update g j 0, rfl, ?_, ?_⟩
        · simp only [BlockDiagonalPreconditioner.create_diagonal, hf, hc]
          erw [Vector_assign_vec N g j 0 hj]
          rfl
        · rw [World.record_factory_calls, h1]; simp; omega
        · intro k hk
          by_cases hkj : k = j
          · subst hkj
            exact ⟨fun _ => (by simp), fun h => absurd hfj h⟩
          · rw [Function.update_noteq hkj]
            exact h2 k (by omega)
      | some tag =>
        let w2 : World K :=
          ⟨(w1.preconditioners.new ⟨PrecKind.from_factory tag, none⟩).2,
            w1.matrix_vector_products, w1.matrices, w1.log ++ [Event.factory_call]⟩
        have hc : w1.create_subsidiary_preconditioner (some f) =
            (w1.preconditioners.next, w2) := by
          have : f w1.factory_calls = some tag := by rw [h1]; exact hfj
          simp [World.create_subsidiary_preconditioner, World.call_factory, this, World.record,
            w2]
        refine ⟨_, ?_, w2, Function.update g j w1.preconditioners.next, rfl, ?_, ?_⟩
        · simp only [BlockDiagonalPreconditioner.create_diagonal, hf, hc]
          erw [Vector_assign_vec N g j _ hj]
          rfl
        · have := World.record_factory_calls w1 Event.factory_call
          simp only [if_true] at this
          show (w1.record Event.factory_call).factory_calls = _
          rw [this, h1]; omega
        · intro k hk
          by_cases hkj : k = j
          · subst hkj
            refine ⟨fun h => (by rw [hfj] at h; cases h), fun _ => ?_⟩
            rw [Function.update_same]
            exact ⟨_, by rw [Store.new_obj, if_pos rfl]⟩
          · rw [Function.update_noteq hkj]
            refine ⟨(h2 k (by omega)).1, fun hne => ?_⟩
            obtain ⟨a, ha⟩ := (h2 k (by omega)).2 hne
            show ∃ a, (w1.preconditioners.new _).2.obj (g k) = some a
            rw [Store.new_obj]
            split_ifs
            · exact ⟨_, rfl⟩
            · exact ⟨a, ha⟩)
  exact ⟨w1, g, hrun, h2⟩

/-- The rounds of the second loop of `BlockDiagonalPreconditioner::setup` for
blocks whose subsidiary preconditioner exists succeed. -/
theorem BlockDiagonalPreconditioner.setup_loop_prefix {K : Type} (w : World K)
    (self : BlockDiagonalPreconditioner K) (L : BlockLookup) (A : CRDoubleMatrix K)
    (g : ℕ → ℕ) (i0 : ℕ) (hL : self.Lookup = some L) (hA : self.Matrix_pt = some A)
    (hD : self.Diagonal_block_preconditioner_pt = vec L.nblock_types g)
    (hi0 : i0 ≤ L.nblock_types)
    (hobj : ∀ k, k < i0 → ∃ a, w.preconditioners.obj (g k) = some a) :
    ∃ w1, for_range 0 i0 BlockDiagonalPreconditioner.setup_diagonal (w, self) =
      Except.ok (w1, self) := by
  obtain ⟨st, hrun, w1, rfl, -⟩ := for_range_inv
    BlockDiagonalPreconditioner.setup_diagonal
    (fun _ st => ∃ w1 : World K, st = (w1, self) ∧
      ∀ k, k < i0 → ∃ a, w1.preconditioners.obj (g k) = some a)
    0 i0 (w, self) (Nat.zero_le _) ⟨w, rfl, hobj⟩
    (by
      rintro k st _ hk ⟨w1, rfl, h1⟩
      have hkL : k < L.nblock_types := by omega
      have hgb := World.get_block_spec w1 self.toBlockPreconditioner L A hL hA k k hkL hkL
      obtain ⟨a, ha⟩ := h1 k hk
      have hb : (w1.matrices.new (L.block A k k)).2.obj w1.matrices.next =
          some (L.block A k k) := by
        rw [Store.new_obj, if_pos rfl]
      obtain ⟨s2, hset, ho2, -, -⟩ := World.preconditioner_setup_spec
        (⟨w1.preconditioners, w1.matrix_vector_products, (w1.matrices.new (L.block A k k)).2,
          w1.log ++ [Event.get_block k k]⟩ : World K)
        (g k) w1.matrices.next a _ ha hb
      obtain ⟨m2, hdel, -⟩ := World.delete_matrix_live
        (⟨s2, w1.matrix_vector_products, (w1.matrices.new (L.block A k k)).2,
          w1.log ++ [Event.get_block k k]⟩ : World K) hb
      refine ⟨((⟨s2, w1.matrix_vector_products, m2, w1.log ++ [Event.get_block k k]⟩ :
        World K), self), ?_, _, rfl, ?_⟩
      · simp only [BlockDiagonalPreconditioner.setup_diagonal, hgb, bind_ok, hD,
          Vector_at_vec _ _ _ hkL, hset, hdel, pure_eq_ok]
      · intro k1 hk1
        simp only at ho2 ⊢
        rw [ho2, Function.update_apply]
        split_ifs
        · exact ⟨_, rfl⟩
        · exact h1 k1 hk1)
  exact ⟨w1, hrun⟩


/-- `BlockDiagonalPreconditioner::setup` when the factory returns the null
pointer for some block: the subsidiary preconditioners before the first such
block are set up, and for that block `setup` is called through the null
pointer. -/
theorem BlockDiagonalPreconditioner.setup_null_for_some_block {K : Type} (env : Env K)
    (w : World K) (self : BlockDiagonalPreconditioner K) (problem_pt : ℕ)
    (A : CRDoubleMatrix K) (f : SubsidiaryPreconditionerFctPt) (i : ℕ) (hsound : self.Sound w)
    (hf : self.Subsidiary_preconditioner_function_pt = some f)
    (hi : i < (self.toGeneralPurposeBlockPreconditioner.scheme env A).nblock_types)
    (hnull : f (w.factory_calls + i) = none) :
    self.setup env w problem_pt (some (DoubleMatrixBase.block_capable A)) =
      Except.error (Failure.undefined_behaviour "null or dangling pointer dereferenced") := by
  set L := self.toGeneralPurposeBlockPreconditioner.scheme env A with hLdef
  have hex : ∃ k, k < L.nblock_types ∧ f (w.factory_calls + k) = none := ⟨i, hi, hnull⟩
  obtain ⟨hi0, hnull0⟩ := Nat.find_spec hex
  have hmin : ∀ k, k < Nat.find hex → f (w.factory_calls + k) ≠ none := by
    intro k hk hn
    exact Nat.find_min hex hk ⟨by omega, hn⟩
  generalize Nat.find hex = i0 at hi0 hnull0 hmin
  obtain ⟨hD, hown⟩ := hsound.diagonal_owned
  obtain ⟨s1, hclean, -⟩ := self.clean_up_memory_spec w _ _ hD hown
  let gp1 : GeneralPurposeBlockPreconditioner K :=
    { self.toGeneralPurposeBlockPreconditioner with
      Problem_pt := problem_pt, Lookup := none }
  have hbs := gp1.block_setup_spec env (⟨s1, w.matrix_vector_products, w.matrices, w.log⟩ : World K) A
  have hLeq : gp1.scheme env A = L := rfl
  rw [hLeq] at hbs
  let wb : World K := ⟨s1, w.matrix_vector_products, w.matrices,
    w.log ++ [Event.block_setup self.Prec_mesh_pt.length self.Prec_mesh_pt gp1.map_in_use]⟩
  let self3 : BlockDiagonalPreconditioner K :=
    { toGeneralPurposeBlockPreconditioner :=
        { gp1 with Mesh_pt := self.Prec_mesh_pt, Matrix_pt := some A, Lookup := some L }
      Diagonal_block_preconditioner_pt := vec L.nblock_types (fun _ => 0)
      Doc_time_during_preconditioner_solve := self.Doc_time_during_preconditioner_solve }
  have hfc : wb.factory_calls = w.factory_calls := by
    simp [wb, World.factory_calls, List.count_append, List.count_cons]
  obtain ⟨w1, g, hcreate, hg⟩ :=
    BlockDiagonalPreconditioner.create_loop_any wb self3 L.nblock_types f rfl hf
  rw [hfc] at hg
  let self4 : BlockDiagonalPreconditioner K :=
    { self3 with Diagonal_block_preconditioner_pt := vec L.nblock_types g }
  obtain ⟨w2, hpre⟩ := BlockDiagonalPreconditioner.setup_loop_prefix w1 self4 L A g i0 rfl rfl
    rfl (le_of_lt hi0) (fun k hk => (hg k (by omega)).2 (hmin k hk))
  have hg0 : g i0 = 0 := (hg i0 hi0).1 hnull0
  have hfail : BlockDiagonalPreconditioner.setup_diagonal i0 (w2, self4) =
      Except.error (Failure.undefined_behaviour "null or dangling pointer dereferenced") := by
    have hgb := World.get_block_spec w2 self4.toBlockPreconditioner L A rfl rfl i0 i0 hi0 hi0
    simp only [BlockDiagonalPreconditioner.setup_diagonal]
    erw [hgb]
    simp only [bind_ok]
    erw [Vector_at_vec L.nblock_types g i0 hi0]
    simp only [bind_ok, hg0, World.preconditioner_setup_null, bind_error]
  unfold BlockDiagonalPreconditioner.setup
  simp only [hclean, bind_ok, dynamic_cast_MATRIX, Option.isNone_some, Bool.false_eq_true,
    and_false, if_false]
  have e1 : Vector_resize (vec self.Diagonal_block_preconditioner_pt.length (fun _ => 0))
      L.nblock_types = vec L.nblock_types (fun _ => 0) := by
    rw [Vector_resize_vec]
    apply vec_congr
    intro i _; simp
  simp only [pure_eq_ok, bind_ok]
  erw [hbs]
  simp only [bind_ok, BlockPreconditioner.nblock_types, e1]
  erw [hcreate]
  simp only [bind_ok]
  exact for_range_error_at _ 0 i0 L.nblock_types _ _ _ (Nat.zero_le _) hi0 hpre hfail


/-- The first `k0` rows of the loop of `BlockTriangularPreconditioner::setup`
when the factory returns an object for each of them: they succeed. -/
theorem BlockTriangularPreconditioner.setup_rows_prefix {K : Type}
    (self : BlockTriangularPreconditioner K) (L : BlockLookup) (A : CRDoubleMatrix K)
    (hL : self.Lookup = some L) (hA : self.Matrix_pt = some A)
    (s0 : Store (Preconditioner K)) (t0 : Store (MatrixVectorProduct K))
    (m0 : Store (CRDoubleMatrix K)) (log0 : List Event) (D0 : ℕ → ℕ → ℕ) (kind : ℕ → PrecKind)
    (hD : self.Diagonal_block_preconditioner_pt = vec L.nblock_types (fun _ => 0))
    (hO : self.Off_diagonal_matrix_vector_products = ⟨L.nblock_types, L.nblock_types, D0⟩)
    (k0 : ℕ) (hk0 : k0 ≤ L.nblock_types)
    (hkind : ∀ i, i < k0 →
      created_kind self.Subsidiary_preconditioner_function_pt
        (List.count Event.factory_call log0 + i) = some (kind i)) :
    ∃ (s1 : Store (Preconditioner K)) (t1 : Store (MatrixVectorProduct K)) (D1 : ℕ → ℕ → ℕ)
        (m1 : Store (CRDoubleMatrix K)) (log1 : List Event),
      for_range 0 k0 (BlockTriangularPreconditioner.setup_row L.nblock_types)
          ((⟨s0, t0, m0, log0⟩ : World K), self) =
        Except.ok ((⟨s1, t1, m1, log1⟩ : World K),
          { self with
            Diagonal_block_preconditioner_pt :=
              vec L.nblock_types (fun i => if i < k0 then s0.next + i else 0)
            Off_diagonal_matrix_vector_products := ⟨L.nblock_types, L.nblock_types, D1⟩ }) ∧
      List.count Event.factory_call log1 = List.count Event.factory_call log0 +
        (if self.Subsidiary_preconditioner_function_pt.isSome = true then k0 else 0) := by
  have hself : self = { self with
      Diagonal_block_preconditioner_pt := vec L.nblock_types (fun i => if i < 0 then s0.next + i else 0)
      Off_diagonal_matrix_vector_products := ⟨L.nblock_types, L.nblock_types, D0⟩ } := by
    cases self; simp only at hO hD; subst hO; subst hD; rfl
  obtain ⟨st, hrun, s1, t1, D1, m1, log1, rfl, h1, h2, h3, h4, h5, h6, h7, h8, h9⟩ := for_range_inv
    (BlockTriangularPreconditioner.setup_row L.nblock_types)
    (fun k st => ∃ (s1 : Store (Preconditioner K)) (t1 : Store (MatrixVectorProduct K))
        (D1 : ℕ → ℕ → ℕ) (m1 : Store (CRDoubleMatrix K)) (log1 : List Event),
      st = ((⟨s1, t1, m1, log1⟩ : World K),
          { self with
            Diagonal_block_preconditioner_pt :=
              vec L.nblock_types (fun i => if i < k then s0.next + i else 0)
            Off_diagonal_matrix_vector_products := ⟨L.nblock_types, L.nblock_types, D1⟩ }) ∧
      s1.next = s0.next + k ∧
      s1.live = s0.live + k ∧
      (∀ i, i < k → s1.obj (s0.next + i) = some ⟨kind i, some (L.block A i i)⟩) ∧
      (∀ q, q < s0.next → s1.obj q = s0.obj q) ∧
      OpsBuilt t1 self.Upper_triangular L.nblock_types (L.block A) D1 k
        (first_column self.Upper_triangular k) t0.next ∧
      t0.next ≤ t1.next ∧
      t1.live = t0.live + operators_in_rows self.Upper_triangular L.nblock_types k ∧
      m1.live = m0.live ∧
      List.count Event.factory_call log1 = List.count Event.factory_call log0 +
        (if self.Subsidiary_preconditioner_function_pt.isSome = true then k else 0))
    0 k0 ((⟨s0, t0, m0, log0⟩ : World K), self) (Nat.zero_le _)
    ⟨s0, t0, D0, m0, log0, (by rw [Prod.mk.injEq]; exact ⟨rfl, hself⟩), rfl, rfl,
      (by intro i hi; omega), (fun _ _ => rfl), (by
        rintro i j ⟨_, a2, _, a4 | ⟨rfl, a5⟩⟩ <;> omega), le_rfl,
      (by simp [operators_in_rows]), rfl, (by simp)⟩
    (by
      rintro k st _ hkk ⟨s1, t1, D1, m1, log1, rfl, h1, h2, h3, h4, h5, h6, h7, h8, h9⟩
      have hk : k < L.nblock_types := by omega
      -- create the preconditioner
      have hc : created_kind self.Subsidiary_preconditioner_function_pt
          (World.factory_calls (⟨s1, t1, m1, log1⟩ : World K)) = some (kind k) := by
        simp only [World.factory_calls, h9]
        rw [created_kind_calls]
        exact hkind k hkk
      obtain ⟨log2, hcr, hlog⟩ := World.create_spec _ _ _ hc
      -- the diagonal block
      have hb : (m1.new (L.block A k k)).2.obj m1.next = some (L.block A k k) := by
        rw [Store.new_obj, if_pos rfl]
      have hp : (s1.new ⟨kind k, none⟩).2.obj s1.next = some (⟨kind k, none⟩ : Preconditioner K) := by
        rw [Store.new_obj, if_pos rfl]
      obtain ⟨s2, hset, ho2, hn2, hl2⟩ := World.preconditioner_setup_spec
        (⟨(s1.new ⟨kind k, none⟩).2, t1, (m1.new (L.block A k k)).2,
          log2 ++ [Event.get_block k k]⟩ : World K) s1.next m1.next _ _ hp hb
      obtain ⟨m2, hdel, _, _, hml⟩ := World.delete_matrix_live
        (⟨s2, t1, (m1.new (L.block A k k)).2, log2 ++ [Event.get_block k k]⟩ : World K) hb
      -- the operators of the row
      let self1 : BlockTriangularPreconditioner K :=
        { self with
          Diagonal_block_preconditioner_pt :=
            vec L.nblock_types (fun i => if i < k + 1 then s0.next + i else 0)
          Off_diagonal_matrix_vector_products := ⟨L.nblock_types, L.nblock_types, D1⟩ }
      obtain ⟨t2, D2, m3, log3, hrow, g1, g2, g3, g4, g5⟩ :=
        BlockTriangularPreconditioner.setup_row_ops self1 L A hL hA s2 t1 m2
          (log2 ++ [Event.get_block k k]) D1 k t0.next hk rfl h5 h6
      have hU1 : self1.Upper_triangular = self.Upper_triangular := rfl
      rw [hU1] at g1 g3 hrow
      dsimp only at hn2 hl2 ho2
      refine ⟨_, ?_, s2, t2, D2, m3, log3, rfl, ?_, ?_, ?_, ?_, g1.next_row, g2, ?_, ?_, ?_⟩
      · have hv : vec L.nblock_types
            (Function.update (fun i => if i < k then s0.next + i else 0) k s1.next) =
            vec L.nblock_types (fun i => if i < k + 1 then s0.next + i else 0) := by
          apply vec_congr
          intro i _
          by_cases hik : i = k
          · subst hik; simp [h1]
          · rw [Function.update_noteq hik]
            by_cases h : i < k
            · rw [if_pos h, if_pos (by omega)]
            · rw [if_neg h, if_neg (by omega)]
        have hgb := World.get_block_spec
          (⟨(s1.new ⟨kind k, none⟩).2, t1, m1, log2⟩ : World K)
          self.toBlockPreconditioner L A hL hA k k hk hk
        simp only [BlockTriangularPreconditioner.setup_row, hcr,
          Vector_assign_vec _ _ _ _ hk, bind_ok, hv, hgb, hset, hdel]
        rw [← hrow]
        cases hU : self.Upper_triangular <;> simp [first_column, end_column, hU, self1]
      · rw [hn2]; simp [h1]; omega
      · rw [hl2, Store.new_live, h2]; omega
      · intro i hi
        rw [ho2]
        by_cases hik : i = k
        · subst hik; rw [← h1, Function.update_same]
        · rw [Function.update_noteq (by omega), Store.new_obj, if_neg (by omega)]
          exact h3 i (by omega)
      · intro q hq
        rw [ho2, Function.update_noteq (by omega), Store.new_obj, if_neg (by omega)]
        exact h4 q hq
      · rw [g3, h7, operators_in_rows, operators_in_rows, Finset.sum_range_succ]
        omega
      · rw [g4, Store.new_then_delete_live m1 _ m2 hml]; exact h8
      · have hlog2 : List.count Event.factory_call log2 = List.count Event.factory_call log1 +
            (if self.Subsidiary_preconditioner_function_pt.isSome = true then 1 else 0) := hlog
        have hcnt : List.count Event.factory_call (log2 ++ [Event.get_block k k]) =
            List.count Event.factory_call log2 := by
          simp [List.count_append, List.count_cons]
        rw [g5, hcnt, hlog2, h9]
        split_ifs <;> omega)
  exact ⟨s1, t1, D1, m1, log1, hrun, h9⟩


/-- `BlockTriangularPreconditioner::setup` when the factory returns the null
pointer for some block: the rows before the first such block are set up, and
for that block `setup` is called through the null pointer. -/
theorem BlockTriangularPreconditioner.setup_null_for_some_row {K : Type} (env : Env K)
    (w : World K) (self : BlockTriangularPreconditioner K) (problem_pt : ℕ)
    (A : CRDoubleMatrix K) (f : SubsidiaryPreconditionerFctPt) (i : ℕ) (hsound : self.Sound w)
    (hf : self.Subsidiary_preconditioner_function_pt = some f)
    (hi : i < (self.toGeneralPurposeBlockPreconditioner.scheme env A).nblock_types)
    (hnull : f (w.factory_calls + i) = none) :
    self.setup env w problem_pt (some (DoubleMatrixBase.block_capable A)) =
      Except.error (Failure.undefined_behaviour "null or dangling pointer dereferenced") := by
  set L := self.toGeneralPurposeBlockPreconditioner.scheme env A with hLdef
  have hex : ∃ k, k < L.nblock_types ∧ f (w.factory_calls + k) = none := ⟨i, hi, hnull⟩
  obtain ⟨hi0, hnull0⟩ := Nat.find_spec hex
  have hmin : ∀ k, k < Nat.find hex → f (w.factory_calls + k) ≠ none := by
    intro k hk hn
    exact Nat.find_min hex hk ⟨by omega, hn⟩
  generalize Nat.find hex = i0 at hi0 hnull0 hmin
  obtain ⟨hD, hO⟩ := hsound.triangular_owned
  obtain ⟨hown, -, -, hops⟩ := hsound
  obtain ⟨s1, t1, hclean, -⟩ := self.clean_memory_spec w _ _ _ hD hO hown hops
  let gp1 : GeneralPurposeBlockPreconditioner K :=
    { self.toGeneralPurposeBlockPreconditioner with Problem_pt := problem_pt }
  have hbs := gp1.block_setup_spec env (⟨s1, t1, w.matrices, w.log⟩ : World K) A
  have hLeq : gp1.scheme env A = L := rfl
  rw [hLeq] at hbs
  let n := self.Diagonal_block_preconditioner_pt.length
  let D0 : ℕ → ℕ → ℕ := fun i j => if i < n ∧ j < n then
    cleared self.Upper_triangular n self.Off_diagonal_matrix_vector_products.data n
      (first_column self.Upper_triangular n) i j else 0
  let self3 : BlockTriangularPreconditioner K :=
    { toGeneralPurposeBlockPreconditioner :=
        { gp1 with Mesh_pt := self.Prec_mesh_pt, Matrix_pt := some A, Lookup := some L }
      Diagonal_block_preconditioner_pt := vec L.nblock_types (fun _ => 0)
      Off_diagonal_matrix_vector_products := ⟨L.nblock_types, L.nblock_types, D0⟩
      Upper_triangular := self.Upper_triangular }
  let logb : List Event :=
    w.log ++ [Event.block_setup self.Prec_mesh_pt.length self.Prec_mesh_pt gp1.map_in_use]
  have hfc : List.count Event.factory_call logb = w.factory_calls := by
    simp [logb, World.factory_calls, List.count_append, List.count_cons]
  let kind : ℕ → PrecKind := fun k =>
    match f (w.factory_calls + k) with
    | some tag => PrecKind.from_factory tag
    | none => PrecKind.SuperLUPreconditioner
  have hkind : ∀ k, k < i0 →
      created_kind self3.Subsidiary_preconditioner_function_pt
        (List.count Event.factory_call logb + k) = some (kind k) := by
    intro k hk
    have hne := hmin k hk
    rw [hfc]
    show created_kind self.Subsidiary_preconditioner_function_pt _ = _
    rw [hf]
    cases hfk : f (w.factory_calls + k) with
    | none => exact absurd hfk hne
    | some tag => simp [created_kind, kind, hfk]
  obtain ⟨s2, t2, D2, m2, log2, hpre, hcount⟩ :=
    BlockTriangularPreconditioner.setup_rows_prefix self3 L A rfl rfl s1 t1 w.matrices logb D0
      kind rfl rfl i0 (le_of_lt hi0) hkind
  have hsome : self3.Subsidiary_preconditioner_function_pt = some f := hf
  rw [hsome, hfc] at hcount
  simp only [Option.isSome_some, if_true] at hcount
  let w2 : World K := ⟨s2, t2, m2, log2⟩
  have hc := w2.create_null f (by
    show f (List.count Event.factory_call log2) = none
    rw [hcount]; exact hnull0)
  let self4 : BlockTriangularPreconditioner K :=
    { self3 with
      Diagonal_block_preconditioner_pt :=
        vec L.nblock_types (fun i => if i < i0 then s1.next + i else 0)
      Off_diagonal_matrix_vector_products := ⟨L.nblock_types, L.nblock_types, D2⟩ }
  let self5 : BlockTriangularPreconditioner K :=
    { self4 with
      Diagonal_block_preconditioner_pt :=
        vec L.nblock_types (Function.update (fun i => if i < i0 then s1.next + i else 0) i0 0) }
  have hfail : BlockTriangularPreconditioner.setup_row L.nblock_types i0 (w2, self4) =
      Except.error (Failure.undefined_behaviour "null or dangling pointer dereferenced") := by
    have hgb := World.get_block_spec (w2.record Event.factory_call) self5.toBlockPreconditioner
      L A rfl rfl i0 i0 hi0 hi0
    simp only [BlockTriangularPreconditioner.setup_row]
    erw [hf, hc]
    simp only []
    erw [Vector_assign_vec L.nblock_types _ i0 0 hi0]
    simp only [bind_ok]
    erw [hgb]
    simp only [bind_ok, World.preconditioner_setup_null, bind_error]
  unfold BlockTriangularPreconditioner.setup
  simp only [hclean, bind_ok, dynamic_cast_MATRIX, Option.isNone_some, Bool.false_eq_true,
    and_false, if_false]
  have e1 : Vector_resize (vec n (fun _ => 0)) L.nblock_types = vec L.nblock_types (fun _ => 0) := by
    rw [Vector_resize_vec]
    apply vec_congr
    intro i _; simp
  simp only [pure_eq_ok, bind_ok]
  erw [hbs]
  simp only [bind_ok, BlockPreconditioner.nblock_types, e1, DenseMatrix.resize]
  exact for_range_error_at _ 0 i0 L.nblock_types _ _ _ (Nat.zero_le _) hi0 hpre hfail


/-- C11, amended. A factory that returns the null pointer is not reported:
for the block diagonal and the block triangular preconditioner, whenever the
installed factory returns null for some block `i` of a `setup`, and for the
exact block preconditioner whenever it returns null at its call, in any sound
state, `setup` stores the null pointer and calls `setup` through it (for the
first such block, after the blocks before it have been set up); the outcome is
undefined behaviour, not a described error. -/
theorem setup_dereferences_null_factory_result {K : Type} [Zero K] (env : Env K) (w : World K)
    (diagonal : BlockDiagonalPreconditioner K) (triangular : BlockTriangularPreconditioner K)
    (exact : ExactBlockPreconditioner K) (problem_pt : ℕ) (A : CRDoubleMatrix K)
    (f : SubsidiaryPreconditionerFctPt)
    (hd : diagonal.Sound w) (ht : triangular.Sound w) (he : exact.Sound w) :
    (∀ i, i < (diagonal.toGeneralPurposeBlockPreconditioner.scheme env A).nblock_types →
      f (w.factory_calls + i) = none →
      (diagonal.set_subsidiary_preconditioner_function (some f)).setup env w problem_pt
          (some (DoubleMatrixBase.block_capable A)) =
        Except.error (Failure.undefined_behaviour "null or dangling pointer dereferenced")) ∧
    (∀ i, i < (triangular.toGeneralPurposeBlockPreconditioner.scheme env A).nblock_types →
      f (w.factory_calls + i) = none →
      (triangular.set_subsidiary_preconditioner_function (some f)).setup env w problem_pt
          (some (DoubleMatrixBase.block_capable A)) =
        Except.error (Failure.undefined_behaviour "null or dangling pointer dereferenced")) ∧
    (f w.factory_calls = none →
      (exact.set_subsidiary_preconditioner_function (some f)).setup env w problem_pt
          (some (DoubleMatrixBase.block_capable A)) =
        Except.error (Failure.undefined_behaviour "null or dangling pointer dereferenced")) :=
  ⟨fun i hi hnull => BlockDiagonalPreconditioner.setup_null_for_some_block env w _ problem_pt A
      f i hd rfl hi hnull,
    fun i hi hnull => BlockTriangularPreconditioner.setup_null_for_some_row env w _ problem_pt A
      f i ht rfl hi hnull,
    fun hnull => ExactBlockPreconditioner.setup_null_factory_exact env w _ problem_pt A f he rfl
      hnull⟩

/-- C11, witness: in newly constructed preconditioners and on a matrix with
two blocks, a factory that returns an object at its first call and the null
pointer at its second (block `1`) for the block diagonal and the block
triangular preconditioner, and the factory that always returns null for the
exact block preconditioner. -/
theorem setup_dereferences_null_factory_result_witness :
    (BlockDiagonalPreconditioner.ctor.set_subsidiary_preconditioner_function
        (some (null_from 1))).setup paranoid_env World.empty 0
        (some (DoubleMatrixBase.block_capable identity_matrix)) =
      Except.error (Failure.undefined_behaviour "null or dangling pointer dereferenced") ∧
    (BlockTriangularPreconditioner.ctor.set_subsidiary_preconditioner_function
        (some (null_from 1))).setup paranoid_env World.empty 0
        (some (DoubleMatrixBase.block_capable identity_matrix)) =
      Except.error (Failure.undefined_behaviour "null or dangling pointer dereferenced") ∧
    (ExactBlockPreconditioner.ctor.set_subsidiary_preconditioner_function
        (some null_factory)).setup paranoid_env World.empty 0
        (some (DoubleMatrixBase.block_capable identity_matrix)) =
      Except.error (Failure.undefined_behaviour "null or dangling pointer dereferenced") :=
  ⟨(setup_dereferences_null_factory_result paranoid_env World.empty
      BlockDiagonalPreconditioner.ctor BlockTriangularPreconditioner.ctor
      ExactBlockPreconditioner.ctor 0 identity_matrix (null_from 1)
      (BlockDiagonalPreconditioner.diagonal_ctor_sound _)
      (BlockTriangularPreconditioner.triangular_ctor_sound _)
      (ExactBlockPreconditioner.exact_ctor_sound _)).1 1 (by decide) rfl,
    (setup_dereferences_null_factory_result paranoid_env World.empty
      BlockDiagonalPreconditioner.ctor BlockTriangularPreconditioner.ctor
      ExactBlockPreconditioner.ctor 0 identity_matrix (null_from 1)
      (BlockDiagonalPreconditioner.diagonal_ctor_sound _)
      (BlockTriangularPreconditioner.triangular_ctor_sound _)
      (ExactBlockPreconditioner.exact_ctor_sound _)).2.1 1 (by decide) rfl,
    (setup_dereferences_null_factory_result paranoid_env World.empty
      BlockDiagonalPreconditioner.ctor BlockTriangularPreconditioner.ctor
      ExactBlockPreconditioner.ctor 0 identity_matrix null_factory
      (BlockDiagonalPreconditioner.diagonal_ctor_sound _)
      (BlockTriangularPreconditioner.triangular_ctor_sound _)
      (ExactBlockPreconditioner.exact_ctor_sound _)).2.2 rfl⟩


/-! ### C22: the setup of the dummy block preconditioner -/

/-- C22: `DummyBlockPreconditioner::setup` builds only the lookup scheme. For
every matrix of the block-capable type, with or without `PARANOID`, whatever
the state of the object and whether or not a factory is installed, `setup`
returns; the trace gains one event, the call of `block_setup` (with the meshes
and the DOF-to-block map of the object), so the factory is not called and no
block is extracted; the stores of subsidiary preconditioners, operators and
matrices are as before; the object has the lookup scheme of the matrix and
its factory pointer is unchanged. -/
theorem DummyBlockPreconditioner.setup_builds_only_the_lookup_scheme {K : Type} (env : Env K)
    (w : World K) (self : DummyBlockPreconditioner K) (problem_pt : ℕ) (A : CRDoubleMatrix K) :
    ∃ w1 self1,
      self.setup env w problem_pt (some (DoubleMatrixBase.block_capable A)) =
        Except.ok (w1, self1) ∧
      w1.log = w.log ++
        [Event.block_setup self.Prec_mesh_pt.length self.Prec_mesh_pt self.map_in_use] ∧
      w1.factory_calls = w.factory_calls ∧
      w1.extractions = w.extractions ∧
      w1.preconditioners = w.preconditioners ∧
      w1.matrix_vector_products = w.matrix_vector_products ∧
      w1.matrices = w.matrices ∧
      self1.Lookup = some (self.toGeneralPurposeBlockPreconditioner.scheme env A) ∧
      self1.Subsidiary_preconditioner_function_pt =
        self.Subsidiary_preconditioner_function_pt := by
  let gp1 : GeneralPurposeBlockPreconditioner K :=
    { self.toGeneralPurposeBlockPreconditioner with Problem_pt := problem_pt }
  let gp2 : GeneralPurposeBlockPreconditioner K :=
    { gp1 with Mesh_pt := self.Prec_mesh_pt, Matrix_pt := some A, Lookup := some (gp1.scheme env A) }
  have hs : self.setup env w problem_pt (some (DoubleMatrixBase.block_capable A)) =
      Except.ok (w.record (Event.block_setup self.Prec_mesh_pt.length self.Prec_mesh_pt
        self.map_in_use), { toGeneralPurposeBlockPreconditioner := gp2 }) := by
    have hb := gp1.block_setup_spec env w A
    simp only [DummyBlockPreconditioner.setup, dynamic_cast_MATRIX, Option.isNone_some,
      Bool.false_eq_true, and_false, if_false]
    erw [hb]
    rfl
  refine ⟨_, _, hs, rfl, ?_, ?_, rfl, rfl, rfl, rfl, rfl⟩
  · simp [World.factory_calls, World.record, List.count_append]
  · simp [World.extractions, World.record, List.countP_append, Event.is_get_block]


/-! ### C30: the wall normal of `FluidInterfaceEdgeElement` -/

/-- C30: `FluidInterfaceEdgeElement::wall_unit_normal` fails if and only if
neither a constant wall normal nor a wall normal function has been set, and
the failure is then the error "Wall normal has not been set", which is what a
newly constructed element gives. When a constant wall normal is set the
result is a copy of it, for every position `x` and every content of `normal`,
and the function, even if set, is not called. When only the function is set
the result is what the function writes for `x`, and the function is called
once, with `x`. -/
theorem FluidInterfaceEdgeElement.wall_unit_normal_spec {K : Type}
    (self : FluidInterfaceEdgeElement K) (x normal : List K) :
    ((∃ e, self.wall_unit_normal x normal = Except.error e) ↔
      (self.Wall_normal_pt = none ∧ self.Wall_normal_fct_pt = none)) ∧
    (∀ e, self.wall_unit_normal x normal = Except.error e →
      e = Failure.OomphLibError "Wall normal has not been set"
        "FluidInterfaceEdgeElement::wall_unit_normal()") ∧
    (∀ wall_normal, self.Wall_normal_pt = some wall_normal →
      self.wall_unit_normal x normal = Except.ok (wall_normal, [])) ∧
    (∀ fct, self.Wall_normal_pt = none → self.Wall_normal_fct_pt = some fct →
      self.wall_unit_normal x normal = Except.ok (fct x normal, [x])) ∧
    (FluidInterfaceEdgeElement.ctor : FluidInterfaceEdgeElement K).wall_unit_normal x normal =
      Except.error (Failure.OomphLibError "Wall normal has not been set"
        "FluidInterfaceEdgeElement::wall_unit_normal()") := by
  refine ⟨?_, ?_, ?_, ?_, rfl⟩
  · cases hp : self.Wall_normal_pt with
    | some n => simp [FluidInterfaceEdgeElement.wall_unit_normal, hp]
    | none =>
      cases hf : self.Wall_normal_fct_pt with
      | some f => simp [FluidInterfaceEdgeElement.wall_unit_normal, hp, hf]
      | none => simp [FluidInterfaceEdgeElement.wall_unit_normal, hp, hf]
  · intro e he
    cases hp : self.Wall_normal_pt with
    | some n => simp [FluidInterfaceEdgeElement.wall_unit_normal, hp] at he
    | none =>
      cases hf : self.Wall_normal_fct_pt with
      | some f => simp [FluidInterfaceEdgeElement.wall_unit_normal, hp, hf] at he
      | none =>
        simp only [FluidInterfaceEdgeElement.wall_unit_normal, hp, hf, Except.error.injEq] at he
        exact he.symm
  · intro n hp
    simp [FluidInterfaceEdgeElement.wall_unit_normal, hp]
  · intro f hp hf
    simp [FluidInterfaceEdgeElement.wall_unit_normal, hp, hf]

/-- The statement of C30 at an element with the constant wall normal
`(0, 1)` and a function that would write `(1, 0)`: the result is `(0, 1)` and
the function is not called; with the function only, the result is `(1, 0)`. -/
theorem FluidInterfaceEdgeElement.wall_unit_normal_spec_witness :
    (⟨some [0, 1], some (fun _ _ => [1, 0]), none, none, 0⟩ :
        FluidInterfaceEdgeElement ℤ).wall_unit_normal [3, 4] [] =
      Except.ok ([0, 1], []) ∧
    (⟨none, some (fun _ _ => [1, 0]), none, none, 0⟩ :
        FluidInterfaceEdgeElement ℤ).wall_unit_normal [3, 4] [] =
      Except.ok ((fun _ _ => [1, 0]) ([3, 4] : List ℤ) ([] : List ℤ), [[3, 4]]) :=
  ⟨(FluidInterfaceEdgeElement.wall_unit_normal_spec
      (⟨some [0, 1], some (fun _ _ => [1, 0]), none, none, 0⟩ : FluidInterfaceEdgeElement ℤ)
      [3, 4] []).2.2.1 [0, 1] rfl,
    (FluidInterfaceEdgeElement.wall_unit_normal_spec
      (⟨none, some (fun _ _ => [1, 0]), none, none, 0⟩ : FluidInterfaceEdgeElement ℤ)
      [3, 4] []).2.2.2.1 (fun _ _ => [1, 0]) rfl rfl⟩


/-! ### C29: fields of the projectable time-harmonic linear elasticity element -/

/-- C29, on a failing input: a three-dimensional element declares
`nfields_for_projection() = 6` fields, and the imaginary parts of the
displacement components `1` and `2` are stored at the values `4` and `5`; but
with `PARANOID`, `nhistory_values_for_projection(4)` and `(5)` raise the error
"Elements only store four fields so fld can't be 4" (resp. `5`) instead of
returning the number of stored time levels of node `0`, which is `3`, as they
do for the fields `0` to `3` and, without `PARANOID`, for all six fields. For
a two-dimensional element every declared field is accepted. -/
theorem ProjectableTimeHarmonicLinearElasticityElement.fields_4_and_5_are_rejected :
    element_3d.nfields_for_projection = 6 ∧
    (element_3d.u_index_time_harmonic_linear_elasticity 1).2 = 4 ∧
    (element_3d.u_index_time_harmonic_linear_elasticity 2).2 = 5 ∧
    element_3d.nhistory_values_for_projection true 4 =
      Except.error (Failure.OomphLibError
        "Elements only store four fields so fld can't be 4\n"
        "ProjectableTimeHarmonicLinearElasticityElement::nhistory_values_for_projection()") ∧
    element_3d.nhistory_values_for_projection true 5 =
      Except.error (Failure.OomphLibError
        "Elements only store four fields so fld can't be 5\n"
        "ProjectableTimeHarmonicLinearElasticityElement::nhistory_values_for_projection()") ∧
    (List.range 4).map (element_3d.nhistory_values_for_projection true) =
      List.replicate 4 (Except.ok 3) ∧
    (List.range 6).map (element_3d.nhistory_values_for_projection false) =
      List.replicate 6 (Except.ok 3) ∧
    element_2d.nfields_for_projection = 4 ∧
    (List.range 4).map (element_2d.nhistory_values_for_projection true) =
      List.replicate 4 (Except.ok 3) := by
  refine ⟨by decide, by decide, by decide, rfl, rfl, rfl, rfl,
    by decide, rfl⟩


/-! ### C23: the list of DOF numbers of the time-harmonic linear elasticity elements -/

theorem to_unsigned_of_nonneg (l : ℤ) (h0 : 0 ≤ l) (h1 : l < 4294967296) :
    to_unsigned l = l.toNat := by
  unfold to_unsigned
  rw [Int.emod_eq_of_lt h0 h1]

theorem TimeHarmonicLinearElasticityEquationsBase.add_dof_numbers_of_node_spec
    (self : TimeHarmonicLinearElasticityEquationsBase) (n M : ℕ)
    (block_lookup_list : List (ℕ × ℕ)) :
    for_range 0 M (self.add_dof_number n) block_lookup_list = Except.ok
      (((List.range M).filterMap (fun i =>
          if 0 ≤ self.nodal_local_eqn n i then
            some (self.eqn_number (to_unsigned (self.nodal_local_eqn n i)), 0)
          else none)).reverse ++ block_lookup_list) := by
  obtain ⟨st, hrun, hst⟩ := for_range_inv (self.add_dof_number n)
    (fun m st => st = ((List.range m).filterMap (fun i =>
          if 0 ≤ self.nodal_local_eqn n i then
            some (self.eqn_number (to_unsigned (self.nodal_local_eqn n i)), 0)
          else none)).reverse ++ block_lookup_list)
    0 M block_lookup_list (Nat.zero_le _) (by simp)
    (by
      rintro m st _ _ rfl
      simp only [TimeHarmonicLinearElasticityEquationsBase.add_dof_number, ge_iff_le]
      split_ifs with h
      · exact ⟨_, rfl, by simp [List.range_succ, List.filterMap_append, h]⟩
      · exact ⟨_, rfl, by simp [List.range_succ, List.filterMap_append, h]⟩)
  rw [hrun, hst]

/-- C23: `get_dof_numbers_for_unknowns` of the time-harmonic linear
elasticity elements. For every element (with `2 * DIM` representable as an
`unsigned`) and every list handed in, the call returns, and the list
afterwards is the list handed in with new pairs in front of it: one pair for
each nodal value `(n, i)`, `n < nnode()`, `i < 2 * DIM`, whose local equation
number is not negative, namely the pair of the global equation number of that
local unknown and the block number `0` (the pairs of the values visited later
are nearer to the front); a pinned value adds nothing. Every block number
added is smaller than `nblock_types()`, which is `1`. -/
theorem TimeHarmonicLinearElasticityEquationsBase.get_dof_numbers_for_unknowns_spec
    (self : TimeHarmonicLinearElasticityEquationsBase) (block_lookup_list : List (ℕ × ℕ))
    (hDIM : 2 * self.DIM < 4294967296) :
    (∃ added,
      self.get_dof_numbers_for_unknowns block_lookup_list =
        Except.ok (added.reverse ++ block_lookup_list) ∧
      added = (List.range self.nnode).flatMap (fun n =>
        (List.range (2 * self.DIM)).filterMap (fun i =>
          if 0 ≤ self.nodal_local_eqn n i then
            some (self.eqn_number (to_unsigned (self.nodal_local_eqn n i)), 0)
          else none)) ∧
      ∀ p, p ∈ added → p.2 < self.nblock_types) ∧
    self.nblock_types = 1 ∧
    ∀ l : ℤ, 0 ≤ l → l < 4294967296 → to_unsigned l = l.toNat := by
  have hM : to_unsigned (2 * (self.DIM : ℤ)) = 2 * self.DIM := by
    rw [to_unsigned_of_nonneg _ (by omega) (by omega)]
    omega
  refine ⟨⟨_, ?_, rfl, ?_⟩, rfl, to_unsigned_of_nonneg⟩
  · obtain ⟨st, hrun, hst⟩ := for_range_inv self.add_dof_numbers_of_node
      (fun k st => st = ((List.range k).flatMap (fun n =>
        (List.range (2 * self.DIM)).filterMap (fun i =>
          if 0 ≤ self.nodal_local_eqn n i then
            some (self.eqn_number (to_unsigned (self.nodal_local_eqn n i)), 0)
          else none))).reverse ++ block_lookup_list)
      0 self.nnode block_lookup_list (Nat.zero_le _) (by simp)
      (by
        rintro k st _ _ rfl
        simp only [TimeHarmonicLinearElasticityEquationsBase.add_dof_numbers_of_node, hM,
          self.add_dof_numbers_of_node_spec]
        exact ⟨_, rfl, by simp [List.range_succ, List.flatMap_append]⟩)
    simp only [TimeHarmonicLinearElasticityEquationsBase.get_dof_numbers_for_unknowns]
    rw [hrun, hst]
  · intro p hp
    simp only [List.mem_flatMap, List.mem_filterMap] at hp
    obtain ⟨n, -, i, -, hi⟩ := hp
    split_ifs at hi
    · cases hi
      simp [TimeHarmonicLinearElasticityEquationsBase.nblock_types]

/-- The statement of C23 at the two-dimensional element `element_2d`, whose
node `0` is pinned, and a list that holds the pair `(7, 0)`: the four values
of node `1` are added in front, the last one first. -/
theorem TimeHarmonicLinearElasticityEquationsBase.get_dof_numbers_for_unknowns_spec_witness :
    2 * element_2d.DIM < 4294967296 ∧
    element_2d.get_dof_numbers_for_unknowns [(7, 0)] =
      Except.ok [(13, 0), (12, 0), (11, 0), (10, 0), (7, 0)] ∧
    ∃ added,
      element_2d.get_dof_numbers_for_unknowns [(7, 0)] =
        Except.ok (added.reverse ++ [(7, 0)]) ∧
      added = (List.range element_2d.nnode).flatMap (fun n =>
        (List.range (2 * element_2d.DIM)).filterMap (fun i =>
          if 0 ≤ element_2d.nodal_local_eqn n i then
            some (element_2d.eqn_number (to_unsigned (element_2d.nodal_local_eqn n i)), 0)
          else none)) ∧
      ∀ p, p ∈ added → p.2 < element_2d.nblock_types :=
  ⟨by decide, rfl,
    (TimeHarmonicLinearElasticityEquationsBase.get_dof_numbers_for_unknowns_spec
      element_2d.toTimeHarmonicLinearElasticityEquationsBase [(7, 0)] (by decide)).1⟩


/-! ### C25: a `setup` that fails the matrix-type check -/

/-- A loop whose body records a list that depends on the loop variable only
is the loop without the record, and the record is the one of the values of
the loop variable. -/
theorem sweep_recorded {σ τ : Type} (body : ℤ → σ → Except Failure σ)
    (recorded : ℤ → σ × List τ → Except Failure (σ × List τ)) (t : ℤ → List τ)
    (h : ∀ i s tr, recorded i (s, tr) = (body i s).map (fun s1 => (s1, tr ++ t i)))
    (stop step : ℤ) :
    ∀ (fuel : ℕ) (i : ℤ) (s : σ) (tr : List τ),
      sweep recorded stop step fuel i (s, tr) =
        (sweep body stop step fuel i s).map
          (fun s1 => (s1, tr ++ (sweep_indices stop step fuel i).flatMap t)) := by
  intro fuel
  induction fuel with
  | zero =>
    intro i s tr
    simp only [sweep, sweep_indices]
    split_ifs
    · simp [Except.map]
    · rfl
  | succ n ih =>
    intro i s tr
    simp only [sweep, sweep_indices]
    split_ifs with hi
    · simp [Except.map]
    · rw [h]
      cases hb : body i s with
      | error e => rfl
      | ok s1 =>
        simp only [Except.map]
        rw [ih]
        simp only [List.flatMap_cons, List.append_assoc]
        rfl

theorem sweep_indices_at_stop (stop step : ℤ) (fuel : ℕ) :
    sweep_indices stop step fuel stop = [] := by
  cases fuel <;> simp [sweep_indices]

/-- The values of the loop variable of a sweep in the order of the sweep. -/
theorem sweep_indices_order (N : ℕ) (start step stop : ℤ) (block round : ℕ → ℕ)
    (ho : SweepOrder N start step stop block round) :
    ∀ (m p fuel : ℕ), p + m = N → m ≤ fuel →
      sweep_indices stop step fuel (start + p * step) =
        (List.range m).map (fun q => (block (p + q) : ℤ)) := by
  intro m
  induction m with
  | zero =>
    intro p fuel hp _
    have e : p = N := by omega
    subst e
    rw [ho.last, sweep_indices_at_stop]
    rfl
  | succ m ih =>
    intro p fuel hp hf
    obtain ⟨f, rfl⟩ : ∃ f, fuel = f + 1 := ⟨fuel - 1, by omega⟩
    have hpN : p < N := by omega
    have hne : start + p * step ≠ stop := by
      rw [ho.value p hpN]; exact ho.running p hpN
    simp only [sweep_indices, if_neg hne]
    have e : start + (p : ℤ) * step + step = start + ((p + 1 : ℕ) : ℤ) * step := by
      push_cast; ring
    rw [e, ih (p + 1) f (by omega) (by omega), List.range_succ_eq_map, List.map_cons,
      List.map_map]
    congr 1
    · rw [ho.value p hpN]; rfl
    · apply List.map_congr_left
      intro q _
      simp only [Function.comp]
      congr 2
      omega

theorem flatMap_single {α β : Type} (l : List α) (f : α → β) :
    l.flatMap (fun j => [f j]) = l.map f := by
  induction l with
  | nil => rfl
  | cons a l ih => simp only [List.flatMap_cons, ih, List.map_cons, List.singleton_append]

theorem BlockTriangularPreconditioner.substitute_recorded_eq {K : Type} [CommRing K]
    (w : World K) (self : BlockTriangularPreconditioner K) (i j : ℤ)
    (st : List (List K) × List (List K)) (tr : List Access) :
    BlockTriangularPreconditioner.substitute_recorded w self i j (st, tr) =
      (BlockTriangularPreconditioner.substitute w self i j st).map
        (fun s1 => (s1, tr ++ [Access.operator j i])) := by
  unfold BlockTriangularPreconditioner.substitute_recorded
  cases BlockTriangularPreconditioner.substitute w self i j st <;> rfl

/-- The body of the outer loop with the record is the body without it, and
the record is the access to the subsidiary preconditioner followed by one
access to an operator for each value of the loop variable of the inner loop. -/
theorem BlockTriangularPreconditioner.solve_block_recorded_eq {K : Type} [CommRing K]
    (env : Env K) (w : World K) (self : BlockTriangularPreconditioner K) (stop step : ℤ)
    (fuel : ℕ) (i : ℤ) (st : List (List K) × List (List K)) (tr : List Access) :
    BlockTriangularPreconditioner.solve_block_recorded env w self stop step fuel i (st, tr) =
      (BlockTriangularPreconditioner.solve_block env w self stop step fuel i st).map
        (fun s1 => (s1, tr ++ (Access.diagonal i ::
          (sweep_indices stop step fuel (i + step)).map (fun j => Access.operator j i)))) := by
  unfold BlockTriangularPreconditioner.solve_block_recorded
    BlockTriangularPreconditioner.solve_block
  cases Vector_at self.Diagonal_block_preconditioner_pt i with
  | error e => rfl
  | ok p =>
    simp only [bind_ok]
    cases Vector_at st.1 i with
    | error e => rfl
    | ok r_i =>
      simp only [bind_ok]
      cases w.subsidiary_solve env p r_i with
      | error e => rfl
      | ok z_i =>
        simp only [bind_ok]
        cases Vector_assign st.2 i z_i with
        | error e => rfl
        | ok block_z =>
          simp only [bind_ok]
          rw [sweep_recorded (BlockTriangularPreconditioner.substitute w self i)
            (BlockTriangularPreconditioner.substitute_recorded w self i)
            (fun j => [Access.operator j i])
            (fun j s tr => BlockTriangularPreconditioner.substitute_recorded_eq w self i j s tr)]
          congr 1
          funext s1
          rw [flatMap_single, List.append_assoc]
          rfl

/-- The solve with the record is the solve without it, and the record depends
on the mode, the number of blocks and the bound on the rounds only. -/
theorem BlockTriangularPreconditioner.solve_blocks_recorded_eq {K : Type} [CommRing K]
    (env : Env K) (w : World K) (self : BlockTriangularPreconditioner K) (fuel : ℕ)
    (r : DoubleVector K) :
    self.solve_blocks_recorded env w fuel r =
      (self.solve_blocks env w fuel r).map (fun block_z => (block_z,
        (sweep_indices (BlockTriangularPreconditioner.sweep_end self.Upper_triangular
            self.nblock_types)
          (BlockTriangularPreconditioner.sweep_step self.Upper_triangular) fuel
          (BlockTriangularPreconditioner.sweep_start self.Upper_triangular
            self.nblock_types)).flatMap (fun i => Access.diagonal i ::
          (sweep_indices (BlockTriangularPreconditioner.sweep_end self.Upper_triangular
              self.nblock_types)
            (BlockTriangularPreconditioner.sweep_step self.Upper_triangular) fuel
            (i + BlockTriangularPreconditioner.sweep_step self.Upper_triangular)).map
            (fun j => Access.operator j i)))) := by
  unfold BlockTriangularPreconditioner.solve_blocks_recorded
    BlockTriangularPreconditioner.solve_blocks
  cases self.get_block_vectors r with
  | error e => rfl
  | ok block_r =>
    simp only [bind_ok]
    rw [sweep_recorded _
      (BlockTriangularPreconditioner.solve_block_recorded env w self _ _ fuel)
      _ (fun i s tr => BlockTriangularPreconditioner.solve_block_recorded_eq env w self _ _ fuel
        i s tr)]
    simp only [BlockTriangularPreconditioner.sweep_start, BlockTriangularPreconditioner.sweep_end,
      BlockTriangularPreconditioner.sweep_step]
    cases sweep _ _ _ fuel _ (block_r, List.replicate self.nblock_types ([] : List K)) with
    | error e => rfl
    | ok st => simp [Except.map]

/-- The accesses of a complete sweep, in terms of the order of the sweep. -/
theorem accesses_order (N : ℕ) (start step stop : ℤ) (block round : ℕ → ℕ)
    (ho : SweepOrder N start step stop block round) (fuel : ℕ) (hf : N ≤ fuel) :
    (sweep_indices stop step fuel start).flatMap (fun i => Access.diagonal i ::
      (sweep_indices stop step fuel (i + step)).map (fun j => Access.operator j i)) =
    (List.range N).flatMap (fun p => Access.diagonal (block p) ::
      (List.range (N - 1 - p)).map (fun q =>
        Access.operator (block (p + 1 + q)) (block p))) := by
  have h0 := sweep_indices_order N start step stop block round ho N 0 fuel (by omega) hf
  simp only [Nat.cast_zero, zero_mul, add_zero, zero_add] at h0
  rw [h0]
  simp only [List.flatMap, List.map_map]
  congr 1
  apply List.map_congr_left
  intro p hp
  have hpN : p < N := List.mem_range.mp hp
  simp only [Function.comp]
  have e : (block p : ℤ) + step = start + ((p + 1 : ℕ) : ℤ) * step := by
    rw [← ho.value p hpN]; push_cast; ring
  rw [e, sweep_indices_order N start step stop block round ho (N - 1 - p) (p + 1) fuel
    (by omega) (by omega), List.map_map]
  rfl

/-- The accesses of `preconditioner_solve` on `N` blocks, for a number of
blocks that an `int` can hold and a bound on the rounds that is not smaller. -/
theorem accesses_of_sweep (upper : Bool) (N fuel : ℕ) (hN : N < 2147483648) (hf : N ≤ fuel) :
    (sweep_indices (BlockTriangularPreconditioner.sweep_end upper N)
      (BlockTriangularPreconditioner.sweep_step upper) fuel
      (BlockTriangularPreconditioner.sweep_start upper N)).flatMap (fun i =>
        Access.diagonal i ::
          (sweep_indices (BlockTriangularPreconditioner.sweep_end upper N)
            (BlockTriangularPreconditioner.sweep_step upper) fuel
            (i + BlockTriangularPreconditioner.sweep_step upper)).map
            (fun j => Access.operator j i)) =
    accesses_of_rounds upper N := by
  cases upper
  · simp only [BlockTriangularPreconditioner.sweep_end,
      BlockTriangularPreconditioner.sweep_step, BlockTriangularPreconditioner.sweep_start,
      Bool.false_eq_true, if_false, stop_lower N hN]
    rw [accesses_order N 0 1 N _ _ (sweep_order_lower N) fuel hf]
    rfl
  · simp only [BlockTriangularPreconditioner.sweep_end,
      BlockTriangularPreconditioner.sweep_step, BlockTriangularPreconditioner.sweep_start,
      if_true, start_upper N hN]
    rw [accesses_order N _ (-1) (-1) _ _ (sweep_order_upper N) fuel hf]
    simp only [accesses_of_rounds, block_of_round, if_true]

/-- After `setup` on a matrix `A`, from any sound state: what `setup` has
built, and the block vectors that `preconditioner_solve` computes from it. -/
theorem BlockTriangularPreconditioner.setup_then_solve_blocks {K : Type} [CommRing K]
    (env : Env K) (w : World K) (self : BlockTriangularPreconditioner K) (problem_pt : ℕ)
    (A : CRDoubleMatrix K) (kind : ℕ → PrecKind) (r : List K) (fuel : ℕ)
    (hsound : self.Sound w)
    (hN : (self.toGeneralPurposeBlockPreconditioner.scheme env A).nblock_types < 2147483648)
    (hfuel : (self.toGeneralPurposeBlockPreconditioner.scheme env A).nblock_types ≤ fuel)
    (hkind : ∀ i, i < (self.toGeneralPurposeBlockPreconditioner.scheme env A).nblock_types →
      created_kind self.Subsidiary_preconditioner_function_pt (w.factory_calls + i) =
        some (kind i)) :
    ∃ (w1 : World K) (self1 : BlockTriangularPreconditioner K) (D1 : ℕ → ℕ → ℕ)
      (Z : ℕ → List K),
      self.setup env w problem_pt (some (DoubleMatrixBase.block_capable A)) =
        Except.ok (w1, self1) ∧
      self1.Lookup = some (self.toGeneralPurposeBlockPreconditioner.scheme env A) ∧
      self1.Upper_triangular = self.Upper_triangular ∧
      self1.Diagonal_block_preconditioner_pt =
        vec (self.toGeneralPurposeBlockPreconditioner.scheme env A).nblock_types
          (fun i => w.preconditioners.next + i) ∧
      self1.Off_diagonal_matrix_vector_products =
        ⟨(self.toGeneralPurposeBlockPreconditioner.scheme env A).nblock_types,
         (self.toGeneralPurposeBlockPreconditioner.scheme env A).nblock_types, D1⟩ ∧
      (∀ i, i < (self.toGeneralPurposeBlockPreconditioner.scheme env A).nblock_types →
        w1.preconditioners.obj (w.preconditioners.next + i) =
          some ⟨kind i,
            some ((self.toGeneralPurposeBlockPreconditioner.scheme env A).block A i i)⟩) ∧
      OpsBuilt w1.matrix_vector_products self.Upper_triangular
        (self.toGeneralPurposeBlockPreconditioner.scheme env A).nblock_types
        ((self.toGeneralPurposeBlockPreconditioner.scheme env A).block A) D1
        (self.toGeneralPurposeBlockPreconditioner.scheme env A).nblock_types
        (first_column self.Upper_triangular
          (self.toGeneralPurposeBlockPreconditioner.scheme env A).nblock_types)
        w.matrix_vector_products.next ∧
      self1.solve_blocks env w1 fuel (DoubleVector.built r) =
        Except.ok (vec (self.toGeneralPurposeBlockPreconditioner.scheme env A).nblock_types Z) ∧
      (self.Upper_triangular = true →
        ∀ i, i < (self.toGeneralPurposeBlockPreconditioner.scheme env A).nblock_types →
          Z i = env.solve (kind i)
            ((self.toGeneralPurposeBlockPreconditioner.scheme env A).block A i i)
            (vec ((self.toGeneralPurposeBlockPreconditioner.scheme env A).block_dimension i)
              (fun x =>
                vget r ((self.toGeneralPurposeBlockPreconditioner.scheme env A).global_index i x) -
                ∑ j in Finset.Ioo i
                    (self.toGeneralPurposeBlockPreconditioner.scheme env A).nblock_types,
                  vget (((self.toGeneralPurposeBlockPreconditioner.scheme env A).block A i j).multiply
                    (Z j)) x))) ∧
      (self.Upper_triangular = false →
        ∀ i, i < (self.toGeneralPurposeBlockPreconditioner.scheme env A).nblock_types →
          Z i = env.solve (kind i)
            ((self.toGeneralPurposeBlockPreconditioner.scheme env A).block A i i)
            (vec ((self.toGeneralPurposeBlockPreconditioner.scheme env A).block_dimension i)
              (fun x =>
                vget r ((self.toGeneralPurposeBlockPreconditioner.scheme env A).global_index i x) -
                ∑ j in Finset.range i,
                  vget (((self.toGeneralPurposeBlockPreconditioner.scheme env A).block A i j).multiply
                    (Z j)) x))) := by
  obtain ⟨hD, hO⟩ := hsound.triangular_owned
  obtain ⟨hown, -, -, hops⟩ := hsound
  obtain ⟨w1, self1, D1, hset, hL1, -, hU1, hD1, hO1, -, -, -, hobj, -, -, -, hbuilt, -⟩ :=
    self.triangular_setup_spec env w problem_pt A _ _ _ kind hD hO hown hops hkind
  set L := self.toGeneralPurposeBlockPreconditioner.scheme env A with hLdef
  have hside : ∀ i j, i < L.nblock_types → first_column self.Upper_triangular i ≤ j →
      j < end_column self.Upper_triangular L.nblock_types i →
      w1.matrix_vector_products.obj (D1 i j) = some ⟨some (L.block A i j)⟩ := by
    intro i j hi h1 h2
    exact (hbuilt i j ⟨hi, h1, h2, Or.inl hi⟩).2.2.1
  cases hU : self.Upper_triangular
  · -- lower mode
    obtain ⟨Z, hrun, hZ⟩ := BlockTriangularPreconditioner.solve_blocks_lower env w1 self1 L _ D1
      kind _ (L.block A) r fuel hL1 hN (by rw [hU1, hU]) hD1 hO1 hobj
      (fun i j hji hi => hside i j hi (by simp [first_column, hU])
        (by simp [end_column, hU]; exact hji)) hfuel
    refine ⟨w1, self1, D1, Z, hset, hL1, by rw [hU1, hU], hD1, hO1, hobj, ?_, hrun,
      fun h => by simp at h, fun _ => hZ⟩
    rw [← hU]; exact hbuilt
  · -- upper mode
    obtain ⟨Z, hrun, hZ⟩ := BlockTriangularPreconditioner.solve_blocks_upper env w1 self1 L _ D1
      kind _ (L.block A) r fuel hL1 hN (by rw [hU1, hU]) hD1 hO1 hobj
      (fun i j hij hj => hside i j (by omega) (by simp [first_column, hU]; omega)
        (by simp [end_column, hU]; exact hj)) hfuel
    refine ⟨w1, self1, D1, Z, hset, hL1, by rw [hU1, hU], hD1, hO1, hobj, ?_, hrun,
      fun _ => hZ, fun h => by simp at h⟩
    rw [← hU]; exact hbuilt


/-- C28. The loops of `BlockTriangularPreconditioner::preconditioner_solve`.
The `unsigned` value `0 - 1` is `4294967295` and its conversion to `int` is
`-1`; so for zero blocks `start` equals `end` in upper mode (both `-1`) and in
lower mode (both `0`). After `setup` on a matrix with `n` block types
(`n < 2^31`), in either mode, the solve returns its block vectors for every
bound `fuel ≥ n` on the number of rounds, and the accesses it makes are those
of `n` rounds of the outer loop, round `p` with one subsidiary solve followed
by `n - 1 - p` rounds of the inner loop, one for each block not yet
processed. For `n = 0` the solve returns with no round of either loop, for
every bound on the rounds, the bound `0` included: no subsidiary solve and no
operator is applied. -/
theorem BlockTriangularPreconditioner.solve_loops_make_one_round_per_block {K : Type}
    [CommRing K] (env : Env K) (w : World K) (self : BlockTriangularPreconditioner K)
    (problem_pt : ℕ) (A : CRDoubleMatrix K) (kind : ℕ → PrecKind) (r : List K) (fuel : ℕ)
    (hsound : self.Sound w)
    (hN : (self.toGeneralPurposeBlockPreconditioner.scheme env A).nblock_types < 2147483648)
    (hfuel : (self.toGeneralPurposeBlockPreconditioner.scheme env A).nblock_types ≤ fuel)
    (hkind : ∀ i, i < (self.toGeneralPurposeBlockPreconditioner.scheme env A).nblock_types →
      created_kind self.Subsidiary_preconditioner_function_pt (w.factory_calls + i) =
        some (kind i)) :
    to_unsigned ((0 : ℤ) - 1) = 4294967295 ∧
    unsigned_to_int 4294967295 = -1 ∧
    BlockTriangularPreconditioner.sweep_start true 0 = -1 ∧
    BlockTriangularPreconditioner.sweep_end true 0 = -1 ∧
    BlockTriangularPreconditioner.sweep_start false 0 = 0 ∧
    BlockTriangularPreconditioner.sweep_end false 0 = 0 ∧
    ∃ (w1 : World K) (self1 : BlockTriangularPreconditioner K) (Z : ℕ → List K),
      self.setup env w problem_pt (some (DoubleMatrixBase.block_capable A)) =
        Except.ok (w1, self1) ∧
      self1.nblock_types = (self.toGeneralPurposeBlockPreconditioner.scheme env A).nblock_types ∧
      self1.Upper_triangular = self.Upper_triangular ∧
      self1.solve_blocks env w1 fuel (DoubleVector.built r) =
        Except.ok (vec (self.toGeneralPurposeBlockPreconditioner.scheme env A).nblock_types Z) ∧
      self1.solve_blocks_recorded env w1 fuel (DoubleVector.built r) =
        Except.ok (vec (self.toGeneralPurposeBlockPreconditioner.scheme env A).nblock_types Z,
          accesses_of_rounds self.Upper_triangular
            (self.toGeneralPurposeBlockPreconditioner.scheme env A).nblock_types) ∧
      ((self.toGeneralPurposeBlockPreconditioner.scheme env A).nblock_types = 0 →
        ∀ fuel0, self1.solve_blocks_recorded env w1 fuel0 (DoubleVector.built r) =
            Except.ok ([], []) ∧
          self1.solve_blocks env w1 fuel0 (DoubleVector.built r) = Except.ok []) := by
  refine ⟨by decide, by decide, by decide, by decide, by decide, by decide, ?_⟩
  obtain ⟨w1, self1, D1, Z, hset, hL1, hU1, -, -, -, -, hrun, -, -⟩ :=
    self.setup_then_solve_blocks env w problem_pt A kind r fuel hsound hN hfuel hkind
  have hn : self1.nblock_types =
      (self.toGeneralPurposeBlockPreconditioner.scheme env A).nblock_types := by
    simp only [BlockPreconditioner.nblock_types, hL1]
  refine ⟨w1, self1, Z, hset, hn, hU1, hrun, ?_, ?_⟩
  · rw [self1.solve_blocks_recorded_eq, hrun, hn, hU1, accesses_of_sweep _ _ _ hN hfuel]
    rfl
  · intro h0 fuel0
    obtain ⟨w2, self2, D2, Z2, hset2, -, -, -, -, -, -, hrun2, -, -⟩ :=
      self.setup_then_solve_blocks env w problem_pt A kind r fuel0 hsound hN (by omega) hkind
    rw [hset] at hset2
    cases hset2
    rw [self1.solve_blocks_recorded_eq, hrun2, hn, hU1,
      accesses_of_sweep _ _ _ hN (by omega), h0]
    exact ⟨rfl, rfl⟩

/-- The statement of C28 at a matrix with three block types, in upper mode,
with the bound `3` on the rounds: the accesses are those to the blocks `2`,
`1`, `0`, each followed by the accesses to the operators of its column in the
rows not yet processed. At the matrix with no unknown, which has no block, the
solve returns without any access. -/
theorem BlockTriangularPreconditioner.solve_loops_make_one_round_per_block_witness :
    accesses_of_rounds true 3 =
      [Access.diagonal 2, Access.operator 1 2, Access.operator 0 2,
       Access.diagonal 1, Access.operator 0 1, Access.diagonal 0] ∧
    (sized_env.block_scheme [] none empty_matrix).nblock_types = 0 ∧
    (match (BlockTriangularPreconditioner.ctor : BlockTriangularPreconditioner ℤ).setup
        sized_env World.empty 0 (some (DoubleMatrixBase.block_capable empty_matrix)) with
      | Except.ok st => st.2.solve_blocks_recorded sized_env st.1 0 (DoubleVector.built [])
      | Except.error e => Except.error e) = Except.ok ([], []) ∧
    (to_unsigned ((0 : ℤ) - 1) = 4294967295 ∧
    unsigned_to_int 4294967295 = -1 ∧
    BlockTriangularPreconditioner.sweep_start true 0 = -1 ∧
    BlockTriangularPreconditioner.sweep_end true 0 = -1 ∧
    BlockTriangularPreconditioner.sweep_start false 0 = 0 ∧
    BlockTriangularPreconditioner.sweep_end false 0 = 0 ∧
    ∃ (w1 : World ℤ) (self1 : BlockTriangularPreconditioner ℤ) (Z : ℕ → List ℤ),
      (BlockTriangularPreconditioner.ctor : BlockTriangularPreconditioner ℤ).setup three_env
          World.empty 0 (some (DoubleMatrixBase.block_capable upper_matrix3)) =
        Except.ok (w1, self1) ∧
      self1.nblock_types = three_blocks.nblock_types ∧
      self1.Upper_triangular =
        (BlockTriangularPreconditioner.ctor : BlockTriangularPreconditioner ℤ).Upper_triangular ∧
      self1.solve_blocks three_env w1 3 (DoubleVector.built [1, 2, 3]) =
        Except.ok (vec three_blocks.nblock_types Z) ∧
      self1.solve_blocks_recorded three_env w1 3 (DoubleVector.built [1, 2, 3]) =
        Except.ok (vec three_blocks.nblock_types Z,
          accesses_of_rounds
            (BlockTriangularPreconditioner.ctor : BlockTriangularPreconditioner ℤ).Upper_triangular
            three_blocks.nblock_types) ∧
      (three_blocks.nblock_types = 0 →
        ∀ fuel0, self1.solve_blocks_recorded three_env w1 fuel0 (DoubleVector.built [1, 2, 3]) =
            Except.ok ([], []) ∧
          self1.solve_blocks three_env w1 fuel0 (DoubleVector.built [1, 2, 3]) =
            Except.ok [])) :=
  ⟨by decide, rfl, rfl,
    BlockTriangularPreconditioner.solve_loops_make_one_round_per_block three_env World.empty
      BlockTriangularPreconditioner.ctor 0 upper_matrix3
      (fun _ => PrecKind.SuperLUPreconditioner) [1, 2, 3] 3
      (BlockTriangularPreconditioner.triangular_ctor_sound _) (by decide) (le_refl 3)
      (fun _ _ => rfl)⟩


/-! ### C24: what `preconditioner_solve` reads of the storage that `setup` built -/

theorem block_of_round_lt (upper : Bool) (n p : ℕ) (hp : p < n) : block_of_round upper n p < n := by
  unfold block_of_round
  split_ifs <;> omega

/-- An access to a subsidiary preconditioner in a complete run is to a block
below the number of blocks. -/
theorem mem_accesses_diagonal (upper : Bool) (n : ℕ) (i : ℤ)
    (h : Access.diagonal i ∈ accesses_of_rounds upper n) : ∃ b : ℕ, i = (b : ℤ) ∧ b < n := by
  simp only [accesses_of_rounds, List.mem_flatMap, List.mem_range, List.mem_cons, List.mem_map,
    Access.diagonal.injEq, reduceCtorEq, and_false, exists_false, or_false] at h
  obtain ⟨p, hp, rfl⟩ := h
  exact ⟨_, rfl, block_of_round_lt upper n p hp⟩

/-- An access to an operator in a complete run is to an entry on the side in
use: row and column are below the number of blocks, and the column is among
the columns for which `setup` builds the operators of the row. -/
theorem mem_accesses_operator (upper : Bool) (n : ℕ) (j i : ℤ)
    (h : Access.operator j i ∈ accesses_of_rounds upper n) :
    ∃ a b : ℕ, j = (a : ℤ) ∧ i = (b : ℤ) ∧ a < n ∧ b < n ∧
      first_column upper a ≤ b ∧ b < end_column upper n a := by
  simp only [accesses_of_rounds, List.mem_flatMap, List.mem_range, List.mem_cons, List.mem_map,
    Access.operator.injEq, reduceCtorEq, false_or] at h
  obtain ⟨p, hp, q, hq, rfl, rfl⟩ := h
  refine ⟨_, _, rfl, rfl, block_of_round_lt upper n _ (by omega), block_of_round_lt upper n p hp,
    ?_, ?_⟩
  · unfold block_of_round first_column
    split_ifs <;> omega
  · unfold block_of_round end_column
    split_ifs <;> omega

/-- Calls of the mode toggles change nothing but the mode. -/
theorem BlockTriangularPreconditioner.toggles_eq {K : Type} (calls : List ModeCall) :
    ∀ self : BlockTriangularPreconditioner K,
      self.toggles calls =
        { self with Upper_triangular := (self.toggles calls).Upper_triangular } := by
  induction calls with
  | nil => intro self; rfl
  | cons c calls ih =>
    intro self
    have h := ih (self.toggle c)
    simp only [BlockTriangularPreconditioner.toggles, List.foldl_cons] at h ⊢
    rw [h]
    cases c <;> rfl

theorem BlockTriangularPreconditioner.toggles_same_mode {K : Type}
    (self : BlockTriangularPreconditioner K) (calls : List ModeCall)
    (h : (self.toggles calls).Upper_triangular = self.Upper_triangular) :
    self.toggles calls = self := by
  rw [BlockTriangularPreconditioner.toggles_eq, h]

/-- C24. `BlockTriangularPreconditioner::preconditioner_solve` only uses what
`setup` built, provided the mode is unchanged. After `setup` on a matrix with
`n` block types (`n < 2^31`), in either mode: the vector of subsidiary
preconditioners has length `n` and the table of operators has `n` rows and `n`
columns; and after any calls of `upper_triangular()` and `lower_triangular()`
that leave the mode as it was at the `setup`, the solve returns, and of the
accesses it makes, every access to a subsidiary preconditioner has an index
`i` with `0 ≤ i < n`, at which the vector holds a pointer that is not null, to
a subsidiary preconditioner this `setup` created and set up on block `(i,i)`,
and every access to an operator has indices `(j,i)` with `0 ≤ j < n` and
`0 ≤ i < n`, at which the table holds a pointer that is not null, to an
operator this `setup` created and set up on block `(j,i)`. -/
theorem BlockTriangularPreconditioner.solve_uses_only_what_setup_built {K : Type} [CommRing K]
    (env : Env K) (w : World K) (self : BlockTriangularPreconditioner K) (problem_pt : ℕ)
    (A : CRDoubleMatrix K) (kind : ℕ → PrecKind) (r zs : List K) (fuel : ℕ)
    (hsound : self.Sound w)
    (hN : (self.toGeneralPurposeBlockPreconditioner.scheme env A).nblock_types < 2147483648)
    (hfuel : (self.toGeneralPurposeBlockPreconditioner.scheme env A).nblock_types ≤ fuel)
    (hzs : zs.length = (self.toGeneralPurposeBlockPreconditioner.scheme env A).nrow)
    (hkind : ∀ i, i < (self.toGeneralPurposeBlockPreconditioner.scheme env A).nblock_types →
      created_kind self.Subsidiary_preconditioner_function_pt (w.factory_calls + i) =
        some (kind i)) :
    ∃ (w1 : World K) (self1 : BlockTriangularPreconditioner K),
      self.setup env w problem_pt (some (DoubleMatrixBase.block_capable A)) =
        Except.ok (w1, self1) ∧
      self1.nblock_types = (self.toGeneralPurposeBlockPreconditioner.scheme env A).nblock_types ∧
      self1.Diagonal_block_preconditioner_pt.length = self1.nblock_types ∧
      self1.Off_diagonal_matrix_vector_products.N = self1.nblock_types ∧
      self1.Off_diagonal_matrix_vector_products.M = self1.nblock_types ∧
      ∀ calls : List ModeCall,
        (self1.toggles calls).Upper_triangular = self1.Upper_triangular →
        ∃ (block_z : List (List K)) (accesses : List Access) (z : DoubleVector K),
          (self1.toggles calls).solve_blocks_recorded env w1 fuel (DoubleVector.built r) =
            Except.ok (block_z, accesses) ∧
          (self1.toggles calls).preconditioner_solve env w1 fuel (DoubleVector.built r)
            (DoubleVector.built zs) = Except.ok z ∧
          (∀ i, Access.diagonal i ∈ accesses →
            0 ≤ i ∧ i.toNat < self1.nblock_types ∧
            ∃ p, Vector_at (self1.toggles calls).Diagonal_block_preconditioner_pt i =
                Except.ok p ∧
              p ≠ 0 ∧ w.preconditioners.next ≤ p ∧
              w1.preconditioners.obj p = some ⟨kind i.toNat,
                some ((self.toGeneralPurposeBlockPreconditioner.scheme env A).block A
                  i.toNat i.toNat)⟩) ∧
          (∀ j i, Access.operator j i ∈ accesses →
            0 ≤ j ∧ j.toNat < self1.nblock_types ∧ 0 ≤ i ∧ i.toNat < self1.nblock_types ∧
            ∃ p, (self1.toggles calls).Off_diagonal_matrix_vector_products.entry j i =
                Except.ok p ∧
              p ≠ 0 ∧ w.matrix_vector_products.next ≤ p ∧
              w1.matrix_vector_products.obj p = some ⟨some
                ((self.toGeneralPurposeBlockPreconditioner.scheme env A).block A
                  j.toNat i.toNat)⟩) := by
  obtain ⟨w1, self1, D1, Z, hset, hL1, hU1, hD1, hO1, hobj, hbuilt, hrun, -, -⟩ :=
    self.setup_then_solve_blocks env w problem_pt A kind r fuel hsound hN hfuel hkind
  set L := self.toGeneralPurposeBlockPreconditioner.scheme env A with hLdef
  have hn : self1.nblock_types = L.nblock_types := by
    simp only [BlockPreconditioner.nblock_types, hL1]
  refine ⟨w1, self1, hset, hn, ?_, ?_, ?_, ?_⟩
  · rw [hn, hD1]; simp [vec]
  · rw [hn, hO1]
  · rw [hn, hO1]
  intro calls hmode
  rw [self1.toggles_same_mode calls hmode]
  have hrec : self1.solve_blocks_recorded env w1 fuel (DoubleVector.built r) =
      Except.ok (vec L.nblock_types Z, accesses_of_rounds self.Upper_triangular L.nblock_types) := by
    rw [self1.solve_blocks_recorded_eq, hrun, hn, hU1, accesses_of_sweep _ _ _ hN hfuel]
    rfl
  refine ⟨_, _, DoubleVector.built (L.return_block_vectors (vec L.nblock_types Z) zs), hrec,
    ?_, ?_, ?_⟩
  · simp only [BlockTriangularPreconditioner.preconditioner_solve, hrun, bind_ok,
      BlockPreconditioner.return_block_vectors, BlockPreconditioner.lookup, hL1, hzs, if_true]
  · intro i hi
    obtain ⟨b, rfl, hb⟩ := mem_accesses_diagonal _ _ _ hi
    rw [hn, Int.toNat_natCast]
    refine ⟨Int.natCast_nonneg b, hb, _, ?_, ?_, Nat.le_add_right _ _, hobj b hb⟩
    · rw [hD1, Vector_at_vec _ _ _ hb]
    · exact Store.obj_ne_zero _ (hobj b hb)
  · intro j i hji
    obtain ⟨a, b, rfl, rfl, ha, hb, h1, h2⟩ := mem_accesses_operator _ _ _ _ hji
    obtain ⟨g1, -, g3, -⟩ := hbuilt a b ⟨ha, h1, h2, Or.inl ha⟩
    rw [hn, Int.toNat_natCast, Int.toNat_natCast]
    refine ⟨Int.natCast_nonneg a, ha, Int.natCast_nonneg b, hb, _, ?_, ?_, g1, g3⟩
    · rw [hO1, DenseMatrix.entry_nat _ _ _ _ _ ha hb]
    · exact Store.obj_ne_zero _ g3

/-- The statement of C24 at a matrix with three block types, in lower mode,
with the residual `[1, 2, 3]`. -/
theorem BlockTriangularPreconditioner.solve_uses_only_what_setup_built_witness :
    ∃ (w1 : World ℤ) (self1 : BlockTriangularPreconditioner ℤ),
      (BlockTriangularPreconditioner.ctor.lower_triangular).setup three_env
          (World.empty : World ℤ) 0 (some (DoubleMatrixBase.block_capable upper_matrix3)) =
        Except.ok (w1, self1) ∧
      self1.nblock_types = three_blocks.nblock_types ∧
      self1.Diagonal_block_preconditioner_pt.length = self1.nblock_types ∧
      self1.Off_diagonal_matrix_vector_products.N = self1.nblock_types ∧
      self1.Off_diagonal_matrix_vector_products.M = self1.nblock_types ∧
      ∀ calls : List ModeCall,
        (self1.toggles calls).Upper_triangular = self1.Upper_triangular →
        ∃ (block_z : List (List ℤ)) (accesses : List Access) (z : DoubleVector ℤ),
          (self1.toggles calls).solve_blocks_recorded three_env w1 3
            (DoubleVector.built [1, 2, 3]) = Except.ok (block_z, accesses) ∧
          (self1.toggles calls).preconditioner_solve three_env w1 3
            (DoubleVector.built [1, 2, 3]) (DoubleVector.built [0, 0, 0]) = Except.ok z ∧
          (∀ i, Access.diagonal i ∈ accesses →
            0 ≤ i ∧ i.toNat < self1.nblock_types ∧
            ∃ p, Vector_at (self1.toggles calls).Diagonal_block_preconditioner_pt i =
                Except.ok p ∧
              p ≠ 0 ∧ (World.empty : World ℤ).preconditioners.next ≤ p ∧
              w1.preconditioners.obj p = some ⟨PrecKind.SuperLUPreconditioner,
                some (three_blocks.block upper_matrix3 i.toNat i.toNat)⟩) ∧
          (∀ j i, Access.operator j i ∈ accesses →
            0 ≤ j ∧ j.toNat < self1.nblock_types ∧ 0 ≤ i ∧ i.toNat < self1.nblock_types ∧
            ∃ p, (self1.toggles calls).Off_diagonal_matrix_vector_products.entry j i =
                Except.ok p ∧
              p ≠ 0 ∧ (World.empty : World ℤ).matrix_vector_products.next ≤ p ∧
              w1.matrix_vector_products.obj p = some ⟨some
                (three_blocks.block upper_matrix3 j.toNat i.toNat)⟩) :=
  BlockTriangularPreconditioner.solve_uses_only_what_setup_built three_env World.empty
    BlockTriangularPreconditioner.ctor.lower_triangular 0 upper_matrix3
    (fun _ => PrecKind.SuperLUPreconditioner) [1, 2, 3] [0, 0, 0] 3
    (BlockTriangularPreconditioner.lower_sound _) (by decide) (le_refl 3) rfl (fun _ _ => rfl)


/-! ### C26: the block triangular preconditioner without coupling -/

/-- C26. With no coupling the block triangular preconditioner reduces to the
block diagonal one. A `BlockTriangularPreconditioner`, in upper or in lower
mode, and a `BlockDiagonalPreconditioner` are set up on the same matrix `A`
with the same lookup scheme and the same kinds of subsidiary preconditioners,
so that the subsidiary solves `P_i = env.solve (kind i) A(i,i)` are the same
and arbitrary. If every operator of the side in use, that is the block
`A(i,j)` for every row `i` and every column `j` for which the triangular
`setup` builds an operator, maps every vector to the zero vector, then for
every residual `r` the two calls of `preconditioner_solve` return the same
vector, assembled from the block vectors `Z i = P_i(r_i)`. -/
theorem triangular_solve_without_coupling_is_diagonal_solve {K : Type} [CommRing K]
    (env : Env K) (wt wd : World K) (triangular : BlockTriangularPreconditioner K)
    (diagonal : BlockDiagonalPreconditioner K) (problem_pt : ℕ)
    (A : CRDoubleMatrix K) (kind : ℕ → PrecKind) (r zs : List K) (fuel : ℕ)
    (ht : triangular.Sound wt) (hd : diagonal.Sound wd)
    (hscheme : diagonal.toGeneralPurposeBlockPreconditioner.scheme env A =
      triangular.toGeneralPurposeBlockPreconditioner.scheme env A)
    (hN : (triangular.toGeneralPurposeBlockPreconditioner.scheme env A).nblock_types <
      2147483648)
    (hfuel : (triangular.toGeneralPurposeBlockPreconditioner.scheme env A).nblock_types ≤ fuel)
    (hzs : zs.length = (triangular.toGeneralPurposeBlockPreconditioner.scheme env A).nrow)
    (hkt : ∀ i, i < (triangular.toGeneralPurposeBlockPreconditioner.scheme env A).nblock_types →
      created_kind triangular.Subsidiary_preconditioner_function_pt (wt.factory_calls + i) =
        some (kind i))
    (hkd : ∀ i, i < (triangular.toGeneralPurposeBlockPreconditioner.scheme env A).nblock_types →
      created_kind diagonal.Subsidiary_preconditioner_function_pt (wd.factory_calls + i) =
        some (kind i))
    (hzero : ∀ i j,
      i < (triangular.toGeneralPurposeBlockPreconditioner.scheme env A).nblock_types →
      first_column triangular.Upper_triangular i ≤ j →
      j < end_column triangular.Upper_triangular
        (triangular.toGeneralPurposeBlockPreconditioner.scheme env A).nblock_types i →
      ∀ (x : List K) (k : ℕ),
        vget (((triangular.toGeneralPurposeBlockPreconditioner.scheme env A).block A i j).multiply
          x) k = 0) :
    ∃ (wt1 : World K) (triangular1 : BlockTriangularPreconditioner K) (wd1 : World K)
      (diagonal1 : BlockDiagonalPreconditioner K) (Z : ℕ → List K),
      triangular.setup env wt problem_pt (some (DoubleMatrixBase.block_capable A)) =
        Except.ok (wt1, triangular1) ∧
      diagonal.setup env wd problem_pt (some (DoubleMatrixBase.block_capable A)) =
        Except.ok (wd1, diagonal1) ∧
      triangular1.Upper_triangular = triangular.Upper_triangular ∧
      triangular1.preconditioner_solve env wt1 fuel (DoubleVector.built r)
          (DoubleVector.built zs) =
        Except.ok (DoubleVector.built
          ((triangular.toGeneralPurposeBlockPreconditioner.scheme env A).return_block_vectors
            (vec (triangular.toGeneralPurposeBlockPreconditioner.scheme env A).nblock_types Z)
            zs)) ∧
      diagonal1.preconditioner_solve env wd1 (DoubleVector.built r) (DoubleVector.built zs) =
        Except.ok (DoubleVector.built
          ((triangular.toGeneralPurposeBlockPreconditioner.scheme env A).return_block_vectors
            (vec (triangular.toGeneralPurposeBlockPreconditioner.scheme env A).nblock_types Z)
            zs)) ∧
      ∀ i, i < (triangular.toGeneralPurposeBlockPreconditioner.scheme env A).nblock_types →
        Z i = env.solve (kind i)
          ((triangular.toGeneralPurposeBlockPreconditioner.scheme env A).block A i i)
          (((triangular.toGeneralPurposeBlockPreconditioner.scheme env A).get_block_vectors
            r).getD i []) := by
  obtain ⟨wt1, tri1, D1, Z, hset, hL1, hU1, -, -, -, -, hrun, hup, hlow⟩ :=
    triangular.setup_then_solve_blocks env wt problem_pt A kind r fuel ht hN hfuel hkt
  obtain ⟨hD, hown⟩ := hd.diagonal_owned
  rw [← hscheme] at hkd
  obtain ⟨wd1, diag1, hsetd, hLd, -, hDd, -, -, -, hobjd, -⟩ :=
    diagonal.diagonal_setup_spec env wd problem_pt A _ _ kind hD hown hkd
  rw [hscheme] at hLd hDd hobjd
  set L := triangular.toGeneralPurposeBlockPreconditioner.scheme env A with hLdef
  have hZ : ∀ i, i < L.nblock_types → Z i = env.solve (kind i) (L.block A i i)
      (vec (L.block_dimension i) (fun k => vget r (L.global_index i k))) := by
    intro i hi
    cases hU : triangular.Upper_triangular
    · rw [hlow hU i hi]
      congr 1
      apply vec_congr
      intro x _
      rw [Finset.sum_eq_zero, sub_zero]
      intro j hj
      have hj1 := Finset.mem_range.mp hj
      exact hzero i j hi (by simp [first_column, hU]) (by simp [end_column, hU]; exact hj1) _ _
    · rw [hup hU i hi]
      congr 1
      apply vec_congr
      intro x _
      rw [Finset.sum_eq_zero, sub_zero]
      intro j hj
      have hj1 := Finset.mem_Ioo.mp hj
      exact hzero i j hi (by simp [first_column, hU]; omega)
        (by simp [end_column, hU]; exact hj1.2) _ _
  have hloop := BlockDiagonalPreconditioner.solve_loop env wd1 diag1 L _ kind _ r hDd hobjd
  have hvec : vec L.nblock_types (fun i => env.solve (kind i) (L.block A i i)
      (vec (L.block_dimension i) (fun k => vget r (L.global_index i k)))) =
      vec L.nblock_types Z := vec_congr _ _ _ (fun i hi => (hZ i hi).symm)
  refine ⟨wt1, tri1, wd1, diag1, Z, hset, hsetd, hU1, ?_, ?_, ?_⟩
  · simp only [BlockTriangularPreconditioner.preconditioner_solve, hrun, bind_ok,
      BlockPreconditioner.return_block_vectors, BlockPreconditioner.lookup, hL1, hzs, if_true]
  · rw [hvec] at hloop
    simp only [BlockDiagonalPreconditioner.preconditioner_solve,
      BlockPreconditioner.get_block_vectors, BlockPreconditioner.lookup, hLd, bind_ok,
      DoubleVector.is_built, Bool.true_eq_false, if_false, pure_eq_ok,
      BlockPreconditioner.nblock_types, hloop,
      BlockPreconditioner.return_block_vectors, hzs, if_true]
  · intro i hi
    rw [hZ i hi, L.get_block_vectors_getD r i hi]

/-- The statement of C26 in upper mode at the matrix `lower_matrix` on two
blocks, whose block `(0,1)`, the only one on the side in use, is zero, while
its block `(1,0)` is not; the residual is `[8, 10]`. -/
theorem triangular_solve_without_coupling_is_diagonal_solve_witness :
    lower_matrix.entry 1 0 = 3 ∧
    ∃ (wt1 : World ℤ) (triangular1 : BlockTriangularPreconditioner ℤ) (wd1 : World ℤ)
      (diagonal1 : BlockDiagonalPreconditioner ℤ) (Z : ℕ → List ℤ),
      (BlockTriangularPreconditioner.ctor : BlockTriangularPreconditioner ℤ).setup paranoid_env
          World.empty 0 (some (DoubleMatrixBase.block_capable lower_matrix)) =
        Except.ok (wt1, triangular1) ∧
      (BlockDiagonalPreconditioner.ctor : BlockDiagonalPreconditioner ℤ).setup paranoid_env
          World.empty 0 (some (DoubleMatrixBase.block_capable lower_matrix)) =
        Except.ok (wd1, diagonal1) ∧
      triangular1.Upper_triangular =
        (BlockTriangularPreconditioner.ctor : BlockTriangularPreconditioner ℤ).Upper_triangular ∧
      triangular1.preconditioner_solve paranoid_env wt1 2 (DoubleVector.built [8, 10])
          (DoubleVector.built [0, 0]) =
        Except.ok (DoubleVector.built
          (two_blocks.return_block_vectors (vec two_blocks.nblock_types Z) [0, 0])) ∧
      diagonal1.preconditioner_solve paranoid_env wd1 (DoubleVector.built [8, 10])
          (DoubleVector.built [0, 0]) =
        Except.ok (DoubleVector.built
          (two_blocks.return_block_vectors (vec two_blocks.nblock_types Z) [0, 0])) ∧
      ∀ i, i < two_blocks.nblock_types →
        Z i = paranoid_env.solve PrecKind.SuperLUPreconditioner
          (two_blocks.block lower_matrix i i)
          ((two_blocks.get_block_vectors [8, 10]).getD i []) :=
  ⟨rfl,
    triangular_solve_without_coupling_is_diagonal_solve paranoid_env World.empty World.empty
      BlockTriangularPreconditioner.ctor BlockDiagonalPreconditioner.ctor 0 lower_matrix
      (fun _ => PrecKind.SuperLUPreconditioner) [8, 10] [0, 0] 2
      (BlockTriangularPreconditioner.triangular_ctor_sound _)
      (BlockDiagonalPreconditioner.diagonal_ctor_sound _) rfl (by decide) (le_refl 2) rfl
      (fun _ _ => rfl) (fun _ _ => rfl)
      (fun i j hi h1 h2 x k => by
        have hi2 : i < 2 := hi
        have hj2 : j < 2 := h2
        have h3 : i + 1 ≤ j := h1
        have ei : i = 0 := by omega
        have ej : j = 1 := by omega
        subst ei
        subst ej
        exact CRDoubleMatrix.vget_multiply_zero _ x k (fun l _ => rfl))⟩


/-! ### C27: linearity of the block triangular preconditioner -/

theorem vget_of_length_le {K : Type} [Zero K] (v : List K) (k : ℕ) (h : v.length ≤ k) :
    vget v k = 0 := by
  unfold vget
  rw [List.getD_eq_getElem?_getD, List.getElem?_eq_none h]
  rfl

theorem vget_axpby {K : Type} [CommRing K] (a b : K) (x y : List K) (k : ℕ) :
    vget (axpby a x b y) k = a * vget x k + b * vget y k := by
  unfold axpby
  rw [vget_vec]
  split_ifs with h
  · rfl
  · rw [vget_of_length_le x k (by omega), vget_of_length_le y k (by omega)]
    ring

/-- The matrix-vector product is linear, entry by entry. -/
theorem CRDoubleMatrix.multiply_linear {K : Type} [CommRing K] (m : CRDoubleMatrix K) (a b : K)
    (X Y W : List K) (h : ∀ l, vget X l = a * vget Y l + b * vget W l) (k : ℕ) :
    vget (m.multiply X) k = a * vget (m.multiply Y) k + b * vget (m.multiply W) k := by
  unfold CRDoubleMatrix.multiply
  simp only [vget_vec]
  split_ifs
  · rw [Finset.mul_sum, Finset.mul_sum, ← Finset.sum_add_distrib]
    apply Finset.sum_congr rfl
    intro l _
    rw [h l]
    ring
  · ring

/-- One step of the block substitution is linear if the subsidiary solve is
and the block vectors substituted are. -/
theorem substitution_step_linear {K : Type} [CommRing K] (a b : K) (P : List K → List K)
    (d : ℕ)
    (hP : ∀ x y : List K, x.length = d → y.length = d → ∀ k,
      vget (P (axpby a x b y)) k = a * vget (P x) k + b * vget (P y) k)
    (J : Finset ℕ) (B : ℕ → CRDoubleMatrix K) (f fr fs : ℕ → K)
    (hf : ∀ x, f x = a * fr x + b * fs x)
    (Z Zr Zs : ℕ → List K)
    (hJ : ∀ j, j ∈ J → ∀ k, vget (Z j) k = a * vget (Zr j) k + b * vget (Zs j) k) (k : ℕ) :
    vget (P (vec d (fun x => f x - ∑ j in J, vget ((B j).multiply (Z j)) x))) k =
      a * vget (P (vec d (fun x => fr x - ∑ j in J, vget ((B j).multiply (Zr j)) x))) k +
      b * vget (P (vec d (fun x => fs x - ∑ j in J, vget ((B j).multiply (Zs j)) x))) k := by
  have hin : vec d (fun x => f x - ∑ j in J, vget ((B j).multiply (Z j)) x) =
      axpby a (vec d (fun x => fr x - ∑ j in J, vget ((B j).multiply (Zr j)) x)) b
        (vec d (fun x => fs x - ∑ j in J, vget ((B j).multiply (Zs j)) x)) := by
    unfold axpby
    rw [vec_length, vec_length, max_self]
    apply vec_congr
    intro x hx
    rw [vget_vec, vget_vec, if_pos hx, if_pos hx, hf x]
    have hs : ∑ j in J, vget ((B j).multiply (Z j)) x =
        a * ∑ j in J, vget ((B j).multiply (Zr j)) x +
        b * ∑ j in J, vget ((B j).multiply (Zs j)) x := by
      rw [Finset.mul_sum, Finset.mul_sum, ← Finset.sum_add_distrib]
      apply Finset.sum_congr rfl
      intro j hj
      exact (B j).multiply_linear a b _ _ _ (hJ j hj) x
    rw [hs]
    ring
  rw [hin]
  exact hP _ _ (vec_length _ _) (vec_length _ _) k

/-- The vector assembled from block vectors is linear in the block vectors,
entry by entry. -/
theorem BlockLookup.return_block_vectors_linear {K : Type} [CommRing K] (L : BlockLookup)
    (a b : K) (Z Zr Zs : ℕ → List K) (zs : List K) (hzs : zs.length = L.nrow)
    (h : ∀ i, i < L.nblock_types → ∀ k, vget (Z i) k = a * vget (Zr i) k + b * vget (Zs i) k) :
    L.return_block_vectors (vec L.nblock_types Z) zs =
      axpby a (L.return_block_vectors (vec L.nblock_types Zr) zs) b
        (L.return_block_vectors (vec L.nblock_types Zs) zs) := by
  unfold axpby
  rw [L.return_block_vectors_length, L.return_block_vectors_length, max_self]
  unfold BlockLookup.return_block_vectors
  apply vec_congr
  intro g hg
  rw [vget_vec, vget_vec, if_pos hg, if_pos hg, if_pos (by omega), if_pos (by omega),
    if_pos (by omega), vec_getD, vec_getD, vec_getD]
  split_ifs with hb
  · exact h _ hb _
  · simp [vget]

/-- C27. The block triangular preconditioner is a linear operator when its
parts are. After `setup` on a matrix `A`, in either mode: the operators, which
multiply by the blocks of `A`, are linear; and if every subsidiary solve
`P_i = env.solve (kind i) A(i,i)` is linear on the vectors of the length of
block `i`, that is `P_i(a x + b y) = a P_i(x) + b P_i(y)` entry by entry, then
for all residuals `r` and `s` the three calls of `preconditioner_solve` on
`r`, on `s` and on `a r + b s` return, and the result for `a r + b s` is
`a z_r + b z_s`, where `z_r` and `z_s` are the results for `r` and `s`. -/
theorem BlockTriangularPreconditioner.solve_is_linear {K : Type} [CommRing K]
    (env : Env K) (w : World K) (self : BlockTriangularPreconditioner K) (problem_pt : ℕ)
    (A : CRDoubleMatrix K) (kind : ℕ → PrecKind) (a b : K) (r s zs : List K) (fuel : ℕ)
    (hsound : self.Sound w)
    (hN : (self.toGeneralPurposeBlockPreconditioner.scheme env A).nblock_types < 2147483648)
    (hfuel : (self.toGeneralPurposeBlockPreconditioner.scheme env A).nblock_types ≤ fuel)
    (hzs : zs.length = (self.toGeneralPurposeBlockPreconditioner.scheme env A).nrow)
    (hkind : ∀ i, i < (self.toGeneralPurposeBlockPreconditioner.scheme env A).nblock_types →
      created_kind self.Subsidiary_preconditioner_function_pt (w.factory_calls + i) =
        some (kind i))
    (hlinear : ∀ i, i < (self.toGeneralPurposeBlockPreconditioner.scheme env A).nblock_types →
      ∀ x y : List K,
        x.length = (self.toGeneralPurposeBlockPreconditioner.scheme env A).block_dimension i →
        y.length = (self.toGeneralPurposeBlockPreconditioner.scheme env A).block_dimension i →
        ∀ k, vget (env.solve (kind i)
            ((self.toGeneralPurposeBlockPreconditioner.scheme env A).block A i i)
            (axpby a x b y)) k =
          a * vget (env.solve (kind i)
            ((self.toGeneralPurposeBlockPreconditioner.scheme env A).block A i i) x) k +
          b * vget (env.solve (kind i)
            ((self.toGeneralPurposeBlockPreconditioner.scheme env A).block A i i) y) k) :
    (∀ i j (x y : List K) (k : ℕ),
      vget (((self.toGeneralPurposeBlockPreconditioner.scheme env A).block A i j).multiply
        (axpby a x b y)) k =
      a * vget (((self.toGeneralPurposeBlockPreconditioner.scheme env A).block A i j).multiply
        x) k +
      b * vget (((self.toGeneralPurposeBlockPreconditioner.scheme env A).block A i j).multiply
        y) k) ∧
    ∃ (w1 : World K) (self1 : BlockTriangularPreconditioner K) (z_r z_s : List K),
      self.setup env w problem_pt (some (DoubleMatrixBase.block_capable A)) =
        Except.ok (w1, self1) ∧
      self1.Upper_triangular = self.Upper_triangular ∧
      self1.preconditioner_solve env w1 fuel (DoubleVector.built r) (DoubleVector.built zs) =
        Except.ok (DoubleVector.built z_r) ∧
      self1.preconditioner_solve env w1 fuel (DoubleVector.built s) (DoubleVector.built zs) =
        Except.ok (DoubleVector.built z_s) ∧
      self1.preconditioner_solve env w1 fuel (DoubleVector.built (axpby a r b s))
          (DoubleVector.built zs) =
        Except.ok (DoubleVector.built (axpby a z_r b z_s)) := by
  refine ⟨fun i j x y k => CRDoubleMatrix.multiply_linear _ a b _ _ _
    (fun l => vget_axpby a b x y l) k, ?_⟩
  obtain ⟨w1, self1, D1, Zr, hset, hL1, hU1, -, -, -, -, hrunr, hupr, hlowr⟩ :=
    self.setup_then_solve_blocks env w problem_pt A kind r fuel hsound hN hfuel hkind
  obtain ⟨w2, self2, D2, Zs, hset2, -, -, -, -, -, -, hruns, hups, hlows⟩ :=
    self.setup_then_solve_blocks env w problem_pt A kind s fuel hsound hN hfuel hkind
  rw [hset] at hset2
  cases hset2
  obtain ⟨w3, self3, D3, Z, hset3, -, -, -, -, -, -, hrun, hup, hlow⟩ :=
    self.setup_then_solve_blocks env w problem_pt A kind (axpby a r b s) fuel hsound hN hfuel
      hkind
  rw [hset] at hset3
  cases hset3
  set L := self.toGeneralPurposeBlockPreconditioner.scheme env A with hLdef
  have hZ : ∀ i, i < L.nblock_types → ∀ k,
      vget (Z i) k = a * vget (Zr i) k + b * vget (Zs i) k := by
    cases hU : self.Upper_triangular
    · -- lower mode: by induction on the block
      intro i
      induction i using Nat.strong_induction_on with
      | _ i ih =>
        intro hi k
        rw [hlow hU i hi, hlowr hU i hi, hlows hU i hi]
        exact substitution_step_linear a b _ _ (hlinear i hi) _ (fun j => L.block A i j) _ _ _
          (fun x => vget_axpby a b r s _) Z Zr Zs
          (fun j hj => ih j (Finset.mem_range.mp hj) (by have := Finset.mem_range.mp hj; omega))
          k
    · -- upper mode: by induction on the number of blocks after the block
      have hall : ∀ t i, i < L.nblock_types → L.nblock_types - 1 - i = t → ∀ k,
          vget (Z i) k = a * vget (Zr i) k + b * vget (Zs i) k := by
        intro t
        induction t using Nat.strong_induction_on with
        | _ t ih =>
          intro i hi ht k
          rw [hup hU i hi, hupr hU i hi, hups hU i hi]
          exact substitution_step_linear a b _ _ (hlinear i hi) _ (fun j => L.block A i j) _ _ _
            (fun x => vget_axpby a b r s _) Z Zr Zs
            (fun j hj => by
              have hj1 := Finset.mem_Ioo.mp hj
              exact ih (L.nblock_types - 1 - j) (by omega) j hj1.2 rfl)
            k
      intro i hi k
      exact hall _ i hi rfl k
  refine ⟨w1, self1, L.return_block_vectors (vec L.nblock_types Zr) zs,
    L.return_block_vectors (vec L.nblock_types Zs) zs, hset, hU1, ?_, ?_, ?_⟩
  · simp only [BlockTriangularPreconditioner.preconditioner_solve, hrunr, bind_ok,
      BlockPreconditioner.return_block_vectors, BlockPreconditioner.lookup, hL1, hzs, if_true]
  · simp only [BlockTriangularPreconditioner.preconditioner_solve, hruns, bind_ok,
      BlockPreconditioner.return_block_vectors, BlockPreconditioner.lookup, hL1, hzs, if_true]
  · simp only [BlockTriangularPreconditioner.preconditioner_solve, hrun, bind_ok,
      BlockPreconditioner.return_block_vectors, BlockPreconditioner.lookup, hL1, hzs, if_true]
    rw [L.return_block_vectors_linear a b Z Zr Zs zs hzs hZ]

/-- The statement of C27 in upper mode at the matrix `upper_matrix` on two
blocks, which has coupling, with subsidiary solves that return their input,
for `2 r + 3 s` with `r = [8, 10]` and `s = [1, 1]`. -/
theorem BlockTriangularPreconditioner.solve_is_linear_witness :
    axpby 2 [8, 10] 3 [1, 1] = ([19, 23] : List ℤ) ∧
    ((∀ i j (x y : List ℤ) (k : ℕ),
      vget ((two_blocks.block upper_matrix i j).multiply (axpby 2 x 3 y)) k =
      2 * vget ((two_blocks.block upper_matrix i j).multiply x) k +
      3 * vget ((two_blocks.block upper_matrix i j).multiply y) k) ∧
    ∃ (w1 : World ℤ) (self1 : BlockTriangularPreconditioner ℤ) (z_r z_s : List ℤ),
      (BlockTriangularPreconditioner.ctor : BlockTriangularPreconditioner ℤ).setup paranoid_env
          World.empty 0 (some (DoubleMatrixBase.block_capable upper_matrix)) =
        Except.ok (w1, self1) ∧
      self1.Upper_triangular =
        (BlockTriangularPreconditioner.ctor : BlockTriangularPreconditioner ℤ).Upper_triangular ∧
      self1.preconditioner_solve paranoid_env w1 2 (DoubleVector.built [8, 10])
          (DoubleVector.built [0, 0]) = Except.ok (DoubleVector.built z_r) ∧
      self1.preconditioner_solve paranoid_env w1 2 (DoubleVector.built [1, 1])
          (DoubleVector.built [0, 0]) = Except.ok (DoubleVector.built z_s) ∧
      self1.preconditioner_solve paranoid_env w1 2 (DoubleVector.built (axpby 2 [8, 10] 3 [1, 1]))
          (DoubleVector.built [0, 0]) =
        Except.ok (DoubleVector.built (axpby 2 z_r 3 z_s))) :=
  ⟨by decide,
    BlockTriangularPreconditioner.solve_is_linear paranoid_env World.empty
      BlockTriangularPreconditioner.ctor 0 upper_matrix
      (fun _ => PrecKind.SuperLUPreconditioner) 2 3 [8, 10] [1, 1] [0, 0] 2
      (BlockTriangularPreconditioner.triangular_ctor_sound _) (by decide) (le_refl 2) rfl
      (fun _ _ => rfl) (fun _ _ x y _ _ k => vget_axpby 2 3 x y k)⟩


/-! ### C21: the blocks of the exact block preconditioner -/

/-- The trace of `get_blocks` with every block required, in a run that
returns: one extraction for every pair `(i,j)`, row by row, and nothing else. -/
theorem BlockPreconditioner.get_blocks_log {K : Type} (self : BlockPreconditioner K)
    (L : BlockLookup) (hL : self.Lookup = some L) (w : World K) (tbl : DenseMatrix ℕ)
    (g : World K × DenseMatrix ℕ)
    (h : self.get_blocks w (ExactBlockPreconditioner.required_blocks L.nblock_types) tbl =
      Except.ok g) :
    g.1.log = w.log ++ all_blocks_extracted L.nblock_types := by
  have hN : self.nblock_types = L.nblock_types := by
    simp [BlockPreconditioner.nblock_types, hL]
  simp only [BlockPreconditioner.get_blocks, hN, ExactBlockPreconditioner.required_blocks] at h
  have hrun := for_range_of_ok _
    (fun k (t : World K × DenseMatrix ℕ) =>
      t.1.log = w.log ++ (List.range (k * L.nblock_types)).map
        (fun p => Event.get_block (p / L.nblock_types) (p % L.nblock_types)))
    0 L.nblock_types (w, tbl) g (Nat.zero_le _) (by simp)
    (fun k t t1 _ hk hI hb => by
      simp only [BlockPreconditioner.get_blocks_row, hN] at hb
      have hrow := for_range_of_ok _
        (fun m (v : World K × DenseMatrix ℕ) =>
          v.1.log = w.log ++ (List.range (k * L.nblock_types + m)).map
            (fun p => Event.get_block (p / L.nblock_types) (p % L.nblock_types)))
        0 L.nblock_types t t1 (Nat.zero_le _) (by simpa using hI)
        (fun m v v1 _ hm hJ hb1 => by
          rw [BlockPreconditioner.get_blocks_entry, DenseMatrix.entry_nat _ _ _ _ _ hk hm] at hb1
          simp only at hb1
          cases hgb : self.get_block v.1 k m with
          | error e => rw [hgb] at hb1; cases hb1
          | ok r =>
            rw [hgb] at hb1
            simp only at hb1
            obtain ⟨L1, A, -, -, -, -, rfl⟩ := World.get_block_of_ok v.1 self k m r hgb
            cases hd : v.2.assign (k : ℤ) (m : ℤ) v.1.matrices.next with
            | error e => rw [hd] at hb1; cases hb1
            | ok d =>
              rw [hd] at hb1
              cases hb1
              simp only
              have e1 : (k * L.nblock_types + m) / L.nblock_types = k := by
                rw [Nat.mul_comm, Nat.mul_add_div (by omega), Nat.div_eq_of_lt hm, add_zero]
              have e2 : (k * L.nblock_types + m) % L.nblock_types = m := by
                rw [Nat.mul_comm, Nat.mul_add_mod, Nat.mod_eq_of_lt hm]
              rw [hJ, ← Nat.add_assoc, List.range_succ, List.map_append, List.map_singleton,
                e1, e2, List.append_assoc]) hb
      rw [hrow, Nat.succ_mul])
    h
  rw [hrun]
  rfl

theorem mem_all_blocks_extracted (n i j : ℕ) :
    Event.get_block i j ∈ all_blocks_extracted n ↔ i < n ∧ j < n := by
  simp only [all_blocks_extracted, List.mem_map, List.mem_range, Event.get_block.injEq]
  constructor
  · rintro ⟨p, hp, rfl, rfl⟩
    have hn : 0 < n := by
      rcases Nat.eq_zero_or_pos n with rfl | h
      · simp at hp
      · exact h
    exact ⟨(Nat.div_lt_iff_lt_mul hn).mpr hp, Nat.mod_lt _ hn⟩
  · rintro ⟨hi, hj⟩
    refine ⟨i * n + j, ?_, ?_, ?_⟩
    · calc i * n + j < i * n + n := by omega
        _ = (i + 1) * n := by ring
        _ ≤ n * n := Nat.mul_le_mul_right n hi
    · rw [Nat.mul_comm, Nat.mul_add_div (by omega), Nat.div_eq_of_lt hj, add_zero]
    · rw [Nat.mul_comm, Nat.mul_add_mod, Nat.mod_eq_of_lt hj]

theorem all_blocks_extracted_nodup (n : ℕ) : (all_blocks_extracted n).Nodup := by
  unfold all_blocks_extracted
  apply List.Nodup.map_on _ (List.nodup_range _)
  intro p _ q _ h
  simp only [Event.get_block.injEq] at h
  rw [← Nat.div_add_mod p n, ← Nat.div_add_mod q n, h.1, h.2]

/-- Every pair `(i,j)` of blocks is extracted exactly once. -/
theorem count_all_blocks_extracted (n i j : ℕ) (hi : i < n) (hj : j < n) :
    (all_blocks_extracted n).count (Event.get_block i j) = 1 :=
  List.count_eq_one_of_mem (all_blocks_extracted_nodup n)
    ((mem_all_blocks_extracted n i j).mpr ⟨hi, hj⟩)

/-- The trace of a run of `ExactBlockPreconditioner::setup` that returns: the
extractions are those of `get_blocks`, one for every pair of blocks, followed
by the assembly of the preconditioner matrix. -/
theorem ExactBlockPreconditioner.exact_setup_log {K : Type} [Zero K] (env : Env K)
    (w : World K) (self : ExactBlockPreconditioner K) (problem_pt : ℕ)
    (matrix_pt : Option (DoubleMatrixBase K)) (st : World K × ExactBlockPreconditioner K)
    (h : self.setup env w problem_pt matrix_pt = Except.ok st) :
    ∃ (L : BlockLookup) (pre more : List Event), st.2.Lookup = some L ∧
      st.1.log = w.log ++ pre ++ all_blocks_extracted L.nblock_types ++
        [Event.build_preconditioner_matrix] ++ more ∧
      (∀ e, e ∈ pre → e.is_get_block = false) ∧
      (∀ e, e ∈ more → e.is_get_block = false) := by
  simp only [ExactBlockPreconditioner.setup, bind_eq_ok] at h
  obtain ⟨w0, hw0, h⟩ := h
  obtain ⟨-, -, c3⟩ := World.delete_preconditioner_frame _ _ _ hw0
  split at h
  · simp at h
  · simp only [pure_eq_ok, bind_ok, bind_eq_ok, Except.ok.injEq] at h
    obtain ⟨r, hr, g, hg, e, he, t, ht, w1, hw1, w2, hw2, rfl⟩ := h
    cases hcast : dynamic_cast_MATRIX matrix_pt with
    | none =>
      rw [hcast, GeneralPurposeBlockPreconditioner.block_setup_null] at hr
      cases hr
    | some A =>
      rw [hcast, GeneralPurposeBlockPreconditioner.block_setup_spec] at hr
      cases hr
      set L := GeneralPurposeBlockPreconditioner.scheme env
        ({ self with Preconditioner_pt := 0, Problem_pt := problem_pt } :
          ExactBlockPreconditioner K).toGeneralPurposeBlockPreconditioner A with hLdef
      have g1 := BlockPreconditioner.get_blocks_log _ L rfl _ _ g hg
      obtain ⟨-, -, -, -, -, -, g7⟩ := BlockPreconditioner.get_blocks_trace _ L rfl _ _ g
        (fun _ _ => Or.inl rfl) hg
      simp only [World.record] at g1 g7
      obtain ⟨B, rfl⟩ := BlockPreconditioner.build_preconditioner_matrix_of_ok _ _ _ e he
      obtain ⟨-, -, -, d4⟩ := ExactBlockPreconditioner.delete_blocks_trace L.nblock_types
        w0.matrices
        ((⟨g.1.preconditioners, g.1.matrix_vector_products, (g.1.matrices.new B).2,
          g.1.log ++ [Event.build_preconditioner_matrix]⟩ : World K), g.2) t g7 ht
      simp only at d4 hw1 hw2
      obtain ⟨more, f5, f6⟩ := World.create_log t.1
        self.Subsidiary_preconditioner_function_pt
      obtain ⟨-, -, q3, -⟩ := World.preconditioner_setup_of_ok _ _ _ _ hw1
      obtain ⟨-, -, -, e4⟩ := World.delete_matrix_of_ok _ _ _ hw2
      refine ⟨L, [Event.block_setup self.Prec_mesh_pt.length self.Prec_mesh_pt
        self.toGeneralPurposeBlockPreconditioner.map_in_use], more, rfl, ?_, ?_, f6⟩
      · rw [e4, q3, f5, d4, g1, c3]
        rfl
      · intro e he
        simp only [List.mem_singleton] at he
        subst he
        rfl

/-- C21. `ExactBlockPreconditioner::setup` requests every pairwise block. For
every matrix, with `n` block types: the table `required_blocks` has `n` rows
and `n` columns and marks every entry `(i,j)`, `i, j < n`, as required;
`setup` returns, and its trace is the one before the call followed by the
block setup, the extraction of every pair `(i,j)`, `i, j < n`, each exactly
once (`n * n` extractions, row by row), the assembly of the preconditioner
matrix, and no further extraction. Exactly one subsidiary preconditioner is
created; it is set up on the matrix assembled from exactly the blocks
`A(i,j)`; after `setup` the object owns it, it is live, and the one owned
before is destroyed, so that exactly one is owned; none of the extracted
matrices stays live. -/
theorem ExactBlockPreconditioner.setup_extracts_every_block {K : Type} [Zero K]
    (env : Env K) (w : World K) (self : ExactBlockPreconditioner K) (problem_pt : ℕ)
    (A : CRDoubleMatrix K) (kind : PrecKind)
    (hown : self.Sound w)
    (hkind : created_kind self.Subsidiary_preconditioner_function_pt w.factory_calls =
      some kind) :
    (ExactBlockPreconditioner.required_blocks
        (self.toGeneralPurposeBlockPreconditioner.scheme env A).nblock_types).N =
      (self.toGeneralPurposeBlockPreconditioner.scheme env A).nblock_types ∧
    (ExactBlockPreconditioner.required_blocks
        (self.toGeneralPurposeBlockPreconditioner.scheme env A).nblock_types).M =
      (self.toGeneralPurposeBlockPreconditioner.scheme env A).nblock_types ∧
    (∀ i j : ℕ, i < (self.toGeneralPurposeBlockPreconditioner.scheme env A).nblock_types →
      j < (self.toGeneralPurposeBlockPreconditioner.scheme env A).nblock_types →
      (ExactBlockPreconditioner.required_blocks
        (self.toGeneralPurposeBlockPreconditioner.scheme env A).nblock_types).entry i j =
        Except.ok true) ∧
    ∃ (w1 : World K) (self1 : ExactBlockPreconditioner K) (pre more : List Event),
      self.setup env w problem_pt (some (DoubleMatrixBase.block_capable A)) =
        Except.ok (w1, self1) ∧
      self1.nblock_types = (self.toGeneralPurposeBlockPreconditioner.scheme env A).nblock_types ∧
      w1.log = w.log ++ pre ++
        all_blocks_extracted (self.toGeneralPurposeBlockPreconditioner.scheme env A).nblock_types ++
        [Event.build_preconditioner_matrix] ++ more ∧
      (∀ e, e ∈ pre → e.is_get_block = false) ∧
      (∀ e, e ∈ more → e.is_get_block = false) ∧
      (all_blocks_extracted
          (self.toGeneralPurposeBlockPreconditioner.scheme env A).nblock_types).length =
        (self.toGeneralPurposeBlockPreconditioner.scheme env A).nblock_types *
          (self.toGeneralPurposeBlockPreconditioner.scheme env A).nblock_types ∧
      (∀ i j, Event.get_block i j ∈ all_blocks_extracted
          (self.toGeneralPurposeBlockPreconditioner.scheme env A).nblock_types ↔
        i < (self.toGeneralPurposeBlockPreconditioner.scheme env A).nblock_types ∧
        j < (self.toGeneralPurposeBlockPreconditioner.scheme env A).nblock_types) ∧
      (∀ i j, i < (self.toGeneralPurposeBlockPreconditioner.scheme env A).nblock_types →
        j < (self.toGeneralPurposeBlockPreconditioner.scheme env A).nblock_types →
        (all_blocks_extracted
          (self.toGeneralPurposeBlockPreconditioner.scheme env A).nblock_types).count
            (Event.get_block i j) = 1) ∧
      w1.extractions = w.extractions +
        (self.toGeneralPurposeBlockPreconditioner.scheme env A).nblock_types *
          (self.toGeneralPurposeBlockPreconditioner.scheme env A).nblock_types ∧
      w1.preconditioners.next = w.preconditioners.next + 1 ∧
      self1.Preconditioner_pt = w.preconditioners.next ∧
      self1.Preconditioner_pt ≠ 0 ∧
      w1.preconditioners.obj self1.Preconditioner_pt =
        some ⟨kind, some ((self.toGeneralPurposeBlockPreconditioner.scheme env A)
          |>.build_preconditioner_matrix
            ((self.toGeneralPurposeBlockPreconditioner.scheme env A).block A))⟩ ∧
      (self.Preconditioner_pt ≠ 0 → w1.preconditioners.obj self.Preconditioner_pt = none) ∧
      w1.preconditioners.live + (if self.Preconditioner_pt = 0 then 0 else 1) =
        w.preconditioners.live + 1 ∧
      w1.matrices.live = w.matrices.live := by
  refine ⟨rfl, rfl, fun i j hi hj => DenseMatrix.entry_nat _ _ _ i j hi hj, ?_⟩
  obtain ⟨w1, self1, hset, hL1, -, hp, -, -, -, hobj, hnext, hlive, hdead, -, hmat, -, -⟩ :=
    self.exact_setup_spec env w problem_pt A kind hown hkind
  obtain ⟨L, pre, more, hL, hlog, hpre, hmore⟩ :=
    self.exact_setup_log env w problem_pt _ _ hset
  simp only at hL hlog
  rw [hL1] at hL
  cases hL
  obtain ⟨L', hL', -, -, -, -, -, hext⟩ := self.exact_setup_trace env w problem_pt _ _ hset
  simp only at hL' hext
  rw [hL1] at hL'
  cases hL'
  refine ⟨w1, self1, pre, more, hset, ?_, hlog, hpre, hmore, ?_, mem_all_blocks_extracted _,
    count_all_blocks_extracted _, ?_, hnext, hp, ?_, ?_, hdead, hlive, hmat⟩
  · simp only [BlockPreconditioner.nblock_types, hL1]
  · simp [all_blocks_extracted]
  · exact hext.extractions
  · rw [hp]; exact Store.obj_ne_zero _ hobj
  · rw [hp]; exact hobj

/-- The statement of C21 at a freshly constructed preconditioner and a matrix
with two block types, from the world with no object: the four blocks
`(0,0)`, `(0,1)`, `(1,0)`, `(1,1)` are extracted. -/
theorem ExactBlockPreconditioner.setup_extracts_every_block_witness :
    all_blocks_extracted 2 =
      [Event.get_block 0 0, Event.get_block 0 1, Event.get_block 1 0, Event.get_block 1 1] ∧
    ((ExactBlockPreconditioner.required_blocks two_blocks.nblock_types).N =
      two_blocks.nblock_types ∧
    (ExactBlockPreconditioner.required_blocks two_blocks.nblock_types).M =
      two_blocks.nblock_types ∧
    (∀ i j : ℕ, i < two_blocks.nblock_types → j < two_blocks.nblock_types →
      (ExactBlockPreconditioner.required_blocks two_blocks.nblock_types).entry i j =
        Except.ok true) ∧
    ∃ (w1 : World ℤ) (self1 : ExactBlockPreconditioner ℤ) (pre more : List Event),
      (ExactBlockPreconditioner.ctor : ExactBlockPreconditioner ℤ).setup paranoid_env
          World.empty 0 (some (DoubleMatrixBase.block_capable upper_matrix)) =
        Except.ok (w1, self1) ∧
      self1.nblock_types = two_blocks.nblock_types ∧
      w1.log = (World.empty : World ℤ).log ++ pre ++
        all_blocks_extracted two_blocks.nblock_types ++
        [Event.build_preconditioner_matrix] ++ more ∧
      (∀ e, e ∈ pre → e.is_get_block = false) ∧
      (∀ e, e ∈ more → e.is_get_block = false) ∧
      (all_blocks_extracted two_blocks.nblock_types).length =
        two_blocks.nblock_types * two_blocks.nblock_types ∧
      (∀ i j, Event.get_block i j ∈ all_blocks_extracted two_blocks.nblock_types ↔
        i < two_blocks.nblock_types ∧ j < two_blocks.nblock_types) ∧
      (∀ i j, i < two_blocks.nblock_types → j < two_blocks.nblock_types →
        (all_blocks_extracted two_blocks.nblock_types).count (Event.get_block i j) = 1) ∧
      w1.extractions = (World.empty : World ℤ).extractions +
        two_blocks.nblock_types * two_blocks.nblock_types ∧
      w1.preconditioners.next = (World.empty : World ℤ).preconditioners.next + 1 ∧
      self1.Preconditioner_pt = (World.empty : World ℤ).preconditioners.next ∧
      self1.Preconditioner_pt ≠ 0 ∧
      w1.preconditioners.obj self1.Preconditioner_pt =
        some ⟨PrecKind.SuperLUPreconditioner,
          some (two_blocks.build_preconditioner_matrix (two_blocks.block upper_matrix))⟩ ∧
      ((ExactBlockPreconditioner.ctor : ExactBlockPreconditioner ℤ).Preconditioner_pt ≠ 0 →
        w1.preconditioners.obj
          (ExactBlockPreconditioner.ctor : ExactBlockPreconditioner ℤ).Preconditioner_pt = none) ∧
      w1.preconditioners.live +
          (if (ExactBlockPreconditioner.ctor : ExactBlockPreconditioner ℤ).Preconditioner_pt = 0
            then 0 else 1) =
        (World.empty : World ℤ).preconditioners.live + 1 ∧
      w1.matrices.live = (World.empty : World ℤ).matrices.live) :=
  ⟨by decide,
    ExactBlockPreconditioner.setup_extracts_every_block paranoid_env World.empty
      ExactBlockPreconditioner.ctor 0 upper_matrix PrecKind.SuperLUPreconditioner
      (ExactBlockPreconditioner.exact_ctor_sound _) rfl⟩


/-! ### Operators across calls of the mode toggles -/

theorem World.matrix_vector_product_setup_obj {K : Type} (w w1 : World K) (p b : ℕ)
    (h : w.matrix_vector_product_setup p b = Except.ok w1) :
    ∀ q, q ≠ p → w1.matrix_vector_products.obj q = w.matrix_vector_products.obj q := by
  simp only [World.matrix_vector_product_setup] at h
  split at h
  · split at h
    · rename_i s hs
      cases h
      obtain ⟨-, -, -, g4⟩ := Store.set_of_ok _ _ _ _ hs
      intro q hq
      simp only
      rw [g4, Function.update_noteq hq]
    · cases h
  · cases h
  · cases h

/-- One operator of `setup` leaves the operators that exist untouched. -/
theorem BlockTriangularPreconditioner.setup_off_diagonal_ops_frame {K : Type} (i j : ℕ)
    (u u1 : World K × BlockTriangularPreconditioner K)
    (h : BlockTriangularPreconditioner.setup_off_diagonal i j u = Except.ok u1) :
    u.1.matrix_vector_products.next ≤ u1.1.matrix_vector_products.next ∧
    ∀ q, q < u.1.matrix_vector_products.next →
      u1.1.matrix_vector_products.obj q = u.1.matrix_vector_products.obj q := by
  simp only [BlockTriangularPreconditioner.setup_off_diagonal, bind_eq_ok, pure_eq_ok,
    Except.ok.injEq] at h
  obtain ⟨b, hget, d, hd, w1, hw1, w2, hw2, rfl⟩ := h
  obtain ⟨L, A, -, -, -, -, rfl⟩ := World.get_block_of_ok u.1 u.2.toBlockPreconditioner i j b hget
  obtain ⟨-, -, -, q4, -⟩ := World.matrix_vector_product_setup_of_ok _ _ _ _ hw1
  have q6 := World.matrix_vector_product_setup_obj _ _ _ _ hw1
  obtain ⟨-, -, e3, -⟩ := World.delete_matrix_of_ok _ _ _ hw2
  simp only [World.new_MatrixVectorProduct, Store.new_next] at q4 q6
  simp only
  refine ⟨by rw [e3, q4]; omega, ?_⟩
  intro q hq
  rw [e3, q6 q (by simp only [Store.new]; omega), Store.new_obj, if_neg (by omega)]

/-- One row of `setup` leaves the operators that exist untouched. -/
theorem BlockTriangularPreconditioner.setup_row_ops_frame {K : Type} (N i : ℕ)
    (u u1 : World K × BlockTriangularPreconditioner K)
    (h : BlockTriangularPreconditioner.setup_row N i u = Except.ok u1) :
    u.1.matrix_vector_products.next ≤ u1.1.matrix_vector_products.next ∧
    ∀ q, q < u.1.matrix_vector_products.next →
      u1.1.matrix_vector_products.obj q = u.1.matrix_vector_products.obj q := by
  simp only [BlockTriangularPreconditioner.setup_row, bind_eq_ok] at h
  obtain ⟨v, -, b, hget, w1, hw1, w2, hw2, h⟩ := h
  obtain ⟨-, g2, -, -⟩ := World.create_frame u.1 u.2.Subsidiary_preconditioner_function_pt
  obtain ⟨L, A, -, -, -, -, rfl⟩ := World.get_block_of_ok _ _ i i b hget
  obtain ⟨-, q2, -, -⟩ := World.preconditioner_setup_of_ok _ _ _ _ hw1
  obtain ⟨-, -, e3, -⟩ := World.delete_matrix_of_ok _ _ _ hw2
  simp only at q2
  have hstart : w2.matrix_vector_products = u.1.matrix_vector_products := by
    rw [e3, q2, g2]
  have hkeep := for_range_keeps _
    (fun t : World K × BlockTriangularPreconditioner K =>
      u.1.matrix_vector_products.next ≤ t.1.matrix_vector_products.next ∧
      ∀ q, q < u.1.matrix_vector_products.next →
        t.1.matrix_vector_products.obj q = u.1.matrix_vector_products.obj q)
    _ _ _ u1 (by exact ⟨by rw [hstart], fun q _ => by rw [hstart]⟩)
    (fun m t t1 hI hb => by
      obtain ⟨k1, k2⟩ := BlockTriangularPreconditioner.setup_off_diagonal_ops_frame i m t t1 hb
      exact ⟨le_trans hI.1 k1, fun q hq => by rw [k2 q (by omega), hI.2 q hq]⟩) h
  exact hkeep

/-- A run of `BlockTriangularPreconditioner::setup` that returns leaves the
operators that exist after its clean-up untouched. -/
theorem BlockTriangularPreconditioner.triangular_setup_ops_frame {K : Type} (env : Env K)
    (w : World K) (self : BlockTriangularPreconditioner K) (problem_pt : ℕ)
    (matrix_pt : Option (DoubleMatrixBase K)) (st : World K × BlockTriangularPreconditioner K)
    (h : self.setup env w problem_pt matrix_pt = Except.ok st) :
    ∃ c, self.clean_memory w = Except.ok c ∧
      ∀ q, q < c.1.matrix_vector_products.next →
        st.1.matrix_vector_products.obj q = c.1.matrix_vector_products.obj q := by
  simp only [BlockTriangularPreconditioner.setup, bind_eq_ok] at h
  obtain ⟨c, hc, h⟩ := h
  refine ⟨c, hc, ?_⟩
  split at h
  · simp at h
  · simp only [pure_eq_ok, bind_ok, bind_eq_ok] at h
    obtain ⟨r, hr, h⟩ := h
    cases hcast : dynamic_cast_MATRIX matrix_pt with
    | none =>
      rw [hcast, GeneralPurposeBlockPreconditioner.block_setup_null] at hr
      cases hr
    | some A =>
      rw [hcast, GeneralPurposeBlockPreconditioner.block_setup_spec] at hr
      cases hr
      have hkeep := for_range_keeps _
        (fun t : World K × BlockTriangularPreconditioner K =>
          c.1.matrix_vector_products.next ≤ t.1.matrix_vector_products.next ∧
          ∀ q, q < c.1.matrix_vector_products.next →
            t.1.matrix_vector_products.obj q = c.1.matrix_vector_products.obj q)
        _ _ _ st (by exact ⟨le_rfl, fun q _ => rfl⟩)
        (fun m t t1 hI hb => by
          obtain ⟨k1, k2⟩ := BlockTriangularPreconditioner.setup_row_ops_frame _ m t t1 hb
          exact ⟨le_trans hI.1 k1, fun q hq => by rw [k2 q (by omega), hI.2 q hq]⟩) h
      exact hkeep.2


/-- The clean-up of a block triangular preconditioner, with what it leaves of the
operators: an operator is untouched unless its pointer is an entry of the
table on the side in use. -/
theorem BlockTriangularPreconditioner.clean_memory_ops_frame {K : Type} (w : World K)
    (self : BlockTriangularPreconditioner K) (n : ℕ) (f : ℕ → ℕ) (D : ℕ → ℕ → ℕ)
    (hD : self.Diagonal_block_preconditioner_pt = vec n f)
    (hO : self.Off_diagonal_matrix_vector_products = ⟨n, n, D⟩)
    (hown : Owned w.preconditioners n f)
    (hops : OwnedOps w.matrix_vector_products self.Upper_triangular n D) :
    ∃ (s1 : Store (Preconditioner K)) (t1 : Store (MatrixVectorProduct K)),
      self.clean_memory w = Except.ok
        ((⟨s1, t1, w.matrices, w.log⟩ : World K),
         { self with
           Diagonal_block_preconditioner_pt := vec n (fun _ => 0)
           Off_diagonal_matrix_vector_products :=
             ⟨n, n, cleared self.Upper_triangular n D n (first_column self.Upper_triangular n)⟩ }) ∧
      s1.next = w.preconditioners.next ∧
      s1.live + nonnull n f = w.preconditioners.live ∧
      (∀ i, i < n → f i ≠ 0 → s1.obj (f i) = none) ∧
      (∀ q, (∀ i, i < n → f i ≠ q) → s1.obj q = w.preconditioners.obj q) ∧
      t1.next = w.matrix_vector_products.next ∧
      (∀ q, ¬ (q ≠ 0 ∧ ∃ i j, visited self.Upper_triangular n n
          (first_column self.Upper_triangular n) i j ∧ D i j = q) →
        t1.obj q = w.matrix_vector_products.obj q) := by
  obtain ⟨st, hrun, s1, t1, rfl, h1, h2, h3, h4, h5, h6⟩ := for_range_inv
    (BlockTriangularPreconditioner.delete_row n)
    (fun k st => ∃ (s1 : Store (Preconditioner K)) (t1 : Store (MatrixVectorProduct K)),
      st = ((⟨s1, t1, w.matrices, w.log⟩ : World K),
        { self with
          Diagonal_block_preconditioner_pt := vec n (fun i => if i < k then 0 else f i)
          Off_diagonal_matrix_vector_products :=
            ⟨n, n, cleared self.Upper_triangular n D k (first_column self.Upper_triangular k)⟩ }) ∧
      s1.next = w.preconditioners.next ∧
      s1.live + nonnull k f = w.preconditioners.live ∧
      (∀ i, i < k → f i ≠ 0 → s1.obj (f i) = none) ∧
      (∀ q, (∀ i, i < k → f i ≠ q) → s1.obj q = w.preconditioners.obj q) ∧
      t1.next = w.matrix_vector_products.next ∧
      (∀ q, ¬ (q ≠ 0 ∧ ∃ i j, visited self.Upper_triangular n k
          (first_column self.Upper_triangular k) i j ∧ D i j = q) →
        t1.obj q = w.matrix_vector_products.obj q))
    0 n (w, self) (Nat.zero_le n)
    ⟨w.preconditioners, w.matrix_vector_products, (by
      cases self; simp only at hD hO; subst hD; subst hO
      simp only [Nat.not_lt_zero, if_false, cleared_start]), rfl, (by simp [nonnull]),
      (by intro i hi; omega), (fun _ _ => rfl), rfl, (fun _ _ => rfl)⟩
    (by
      rintro k st _ hk ⟨s1, t1, rfl, h1, h2, h3, h4, h5, h6⟩
      obtain ⟨s2, hdel, g1, g2, g3, g4⟩ :=
        Store.delete_owned_pointer w.preconditioners n f hown k hk s1 h1 h2 h3 h4
      obtain ⟨t2, hrow, e1, e2⟩ := BlockTriangularPreconditioner.delete_row_ops self n D
        w.matrix_vector_products hops s2 w.matrices w.log
        (vec n (fun i => if i < k + 1 then 0 else f i)) k hk t1 h5 h6
      refine ⟨_, ?_, s2, t2, rfl, g1, g2, g3, g4, e1, ?_⟩
      · have hv : vec n (Function.update (fun i => if i < k then 0 else f i) k 0) =
            vec n (fun i => if i < k + 1 then 0 else f i) := by
          apply vec_congr
          intro i _
          by_cases hik : i = k
          · subst hik; simp
          · rw [Function.update_noteq hik]
            by_cases h : i < k
            · rw [if_pos h, if_pos (by omega)]
            · rw [if_neg h, if_neg (by omega)]
        simp only [BlockTriangularPreconditioner.delete_row, Vector_at_vec _ _ _ hk, lt_irrefl,
          if_false, bind_ok, World.delete_preconditioner_eq _ _ _ _ _ _ hdel,
          Vector_assign_vec _ _ _ _ hk, hv]
        rw [← cleared_next_row]
        rw [← hrow]
        cases hU : self.Upper_triangular <;> simp [first_column, end_column, hU]
      · intro q hq
        apply e2 q
        rintro ⟨hq0, i, j, hv, he⟩
        exact hq ⟨hq0, i, j, (visited_next_row _ _ _ _ _).mp hv, he⟩)
  refine ⟨s1, t1, ?_, h1, h2, h3, h4, h5, h6⟩
  unfold BlockTriangularPreconditioner.clean_memory
  rw [hD, vec_length]
  simp only [hrun, bind_ok, pure_eq_ok, BlockPreconditioner.clean_up_memory]
  congr 2
  congr 1
  apply vec_congr
  intro i hi
  simp [hi]

theorem OwnedTable.ops {α : Type} {s : Store α} {n : ℕ} {D : ℕ → ℕ → ℕ}
    (h : OwnedTable s n D) (upper : Bool) : OwnedOps s upper n D := by
  intro i j hi h1 h2 hne
  have hj : j < n := lt_of_lt_of_le h2 (end_column_le upper n i hi)
  have hij : i ≠ j := (off_diagonal_ne upper n i j h1 h2).symm
  obtain ⟨g1, g2⟩ := h i j hi hj hij hne
  refine ⟨g1, fun i1 j1 hi1 k1 k2 he => ?_⟩
  exact g2 i1 j1 hi1 (lt_of_lt_of_le k2 (end_column_le upper n i1 hi1))
    (off_diagonal_ne upper n i1 j1 k1 k2).symm he


theorem BlockTriangularPreconditioner.SoundInEveryMode.sound {K : Type}
    {self : BlockTriangularPreconditioner K} {w : World K} (h : self.SoundInEveryMode w) :
    self.Sound w :=
  ⟨h.1, h.2.1, h.2.2.1, h.2.2.2.ops _⟩

/-- Calls of the mode toggles keep the pointers sound whatever the mode. -/
theorem BlockTriangularPreconditioner.SoundInEveryMode.toggled {K : Type}
    {self : BlockTriangularPreconditioner K} {w : World K} (h : self.SoundInEveryMode w)
    (calls : List ModeCall) : (self.toggles calls).SoundInEveryMode w := by
  rw [BlockTriangularPreconditioner.toggles_eq]
  exact h

/-- A newly constructed block triangular preconditioner holds no pointer. -/
theorem BlockTriangularPreconditioner.ctor_sound_in_every_mode {K : Type} (w : World K) :
    (BlockTriangularPreconditioner.ctor : BlockTriangularPreconditioner K).SoundInEveryMode w := by
  refine ⟨?_, rfl, rfl, ?_⟩
  · intro i hi
    simp [BlockTriangularPreconditioner.ctor] at hi
  · intro i j hi
    simp [BlockTriangularPreconditioner.ctor] at hi

/-- `BlockTriangularPreconditioner::setup` keeps the pointers sound whatever
the mode: the operators it builds are new, and those on the other side of the
diagonal, which it neither deletes nor overwrites, stay live. -/
theorem BlockTriangularPreconditioner.setup_keeps_sound_in_every_mode {K : Type} (env : Env K)
    (w w1 : World K) (self self1 : BlockTriangularPreconditioner K) (problem_pt : ℕ)
    (A : CRDoubleMatrix K) (hs : self.SoundInEveryMode w)
    (hfact : ∀ c, ∃ k, created_kind self.Subsidiary_preconditioner_function_pt c = some k)
    (hset : self.setup env w problem_pt (some (DoubleMatrixBase.block_capable A)) =
      Except.ok (w1, self1)) : self1.SoundInEveryMode w1 := by
  choose kindf hkindf using hfact
  have hsound := hs.sound
  obtain ⟨hD, hO⟩ := hsound.triangular_owned
  obtain ⟨hown, -, -, htab⟩ := hs
  obtain ⟨w2, self2, D1, hset2, hL1, -, hU1, hD1, hO1, -, -, -, hobj1, -, -, -, hbuilt, -⟩ :=
    self.triangular_setup_spec env w problem_pt A _ _ _ (fun i => kindf (w.factory_calls + i))
      hD hO hown (htab.ops _) (fun i _ => hkindf _)
  rw [hset] at hset2
  cases hset2
  obtain ⟨s1, t1, hclean, -, -, -, -, hc5, hcf⟩ :=
    self.clean_memory_ops_frame w _ _ _ hD hO hown (htab.ops _)
  obtain ⟨c, L, hc, hL, -, -, -, -, -, hDframe⟩ :=
    self.triangular_setup_trace env w problem_pt _ (w1, self1) hset
  rw [hclean] at hc
  cases hc
  simp only at hL hDframe
  rw [hL1] at hL
  cases hL
  obtain ⟨c', hc', hfr⟩ := self.triangular_setup_ops_frame env w problem_pt _ (w1, self1) hset
  rw [hclean] at hc'
  cases hc'
  simp only at hfr
  set n0 := self.Diagonal_block_preconditioner_pt.length with hn0
  set D0 := self.Off_diagonal_matrix_vector_products.data with hD0
  set n1 := (self.toGeneralPurposeBlockPreconditioner.scheme env A).nblock_types with hn1
  have hlen : (vec n1 (fun i => w.preconditioners.next + i)).length = n1 := vec_length _ _
  -- the entries off the side in use are those of before, and they are live
  have hoff : ∀ a b, a < n1 → b < n1 → a ≠ b →
      ¬ (first_column self.Upper_triangular a ≤ b ∧
        b < end_column self.Upper_triangular n1 a) → D1 a b ≠ 0 →
      a < n0 ∧ b < n0 ∧ D1 a b = D0 a b ∧ D0 a b < w.matrix_vector_products.next ∧
      ∃ x, w1.matrix_vector_products.obj (D0 a b) = some x := by
    intro a b ha hb hab' hside hne
    have e := hDframe a b (fun h => hside ⟨h.2.1, h.2.2⟩)
    rw [hO1] at e
    simp only [DenseMatrix.resize, cleared] at e
    by_cases hab : a < n0 ∧ b < n0
    · rw [if_pos hab] at e
      by_cases hv : visited self.Upper_triangular n0 n0 (first_column self.Upper_triangular n0) a b
      · rw [if_pos hv] at e
        exact absurd e hne
      · rw [if_neg hv] at e
        have hne0 : D0 a b ≠ 0 := by rw [← e]; exact hne
        obtain ⟨⟨x, hx⟩, hinj⟩ := htab a b hab.1 hab.2 hab' hne0
        have hlt : D0 a b < w.matrix_vector_products.next := Store.obj_lt_next _ hx
        refine ⟨hab.1, hab.2, e, hlt, x, ?_⟩
        rw [hfr _ (by rw [hc5]; exact hlt), hcf, hx]
        rintro ⟨-, i, j, hvij, he⟩
        have hj : j < n0 := lt_of_lt_of_le hvij.2.2.1 (end_column_le _ _ _ hvij.1)
        obtain ⟨rfl, rfl⟩ := hinj i j hvij.1 hj
          (off_diagonal_ne _ _ _ _ hvij.2.1 hvij.2.2.1).symm he
        exact hv hvij
    · rw [if_neg hab] at e
      exact absurd e hne
  unfold BlockTriangularPreconditioner.SoundInEveryMode
  rw [hD1, hO1, hlen]
  refine ⟨?_, rfl, rfl, ?_⟩
  · have h := Owned.fresh w1.preconditioners n1 w.preconditioners.next
      (fun i hi => ⟨_, hobj1 i hi⟩)
    intro i hi hne
    simp only [vec_getD, hi, if_true] at hne ⊢
    obtain ⟨h1, h2⟩ := h i hi hne
    refine ⟨h1, fun j hj he => h2 j hj ?_⟩
    simpa only [vec_getD, hj, if_true] using he
  · intro i j hi hj hij hne
    simp only at hne ⊢
    by_cases hside : first_column self.Upper_triangular i ≤ j ∧
        j < end_column self.Upper_triangular n1 i
    · obtain ⟨g1, -, g3, g4⟩ := hbuilt i j ⟨hi, hside.1, hside.2, Or.inl hi⟩
      refine ⟨⟨_, g3⟩, ?_⟩
      intro i1 j1 hi1 hj1 hij1 he
      by_cases hside1 : first_column self.Upper_triangular i1 ≤ j1 ∧
          j1 < end_column self.Upper_triangular n1 i1
      · exact g4 i1 j1 ⟨hi1, hside1.1, hside1.2, Or.inl hi1⟩ he
      · obtain ⟨-, -, k3, k4, -⟩ := hoff i1 j1 hi1 hj1 hij1 hside1 (by rw [he]; exact hne)
        rw [k3] at he
        omega
    · obtain ⟨k1, k2, k3, k4, k5⟩ := hoff i j hi hj hij hside hne
      rw [k3]
      refine ⟨k5, ?_⟩
      intro i1 j1 hi1 hj1 hij1 he
      by_cases hside1 : first_column self.Upper_triangular i1 ≤ j1 ∧
          j1 < end_column self.Upper_triangular n1 i1
      · obtain ⟨g1, -, -, -⟩ := hbuilt i1 j1 ⟨hi1, hside1.1, hside1.2, Or.inl hi1⟩
        omega
      · have hne1 : D1 i1 j1 ≠ 0 := by rw [he, ← k3]; exact hne
        obtain ⟨m1, m2, m3, -, -⟩ := hoff i1 j1 hi1 hj1 hij1 hside1 hne1
        rw [m3] at he
        have hne0 : D0 i j ≠ 0 := by rw [← k3]; exact hne
        exact (htab i j k1 k2 hij hne0).2 i1 j1 m1 m2 hij1 he


/-! ### C8: repeated setup, also across a change of the mode -/

/-- Calls of the mode toggles change neither the pointers nor the
configuration. -/
theorem BlockTriangularPreconditioner.toggles_fields {K : Type}
    (self : BlockTriangularPreconditioner K) (calls : List ModeCall) :
    (self.toggles calls).Diagonal_block_preconditioner_pt =
      self.Diagonal_block_preconditioner_pt ∧
    (self.toggles calls).Off_diagonal_matrix_vector_products =
      self.Off_diagonal_matrix_vector_products ∧
    (self.toggles calls).toGeneralPurposeBlockPreconditioner =
      self.toGeneralPurposeBlockPreconditioner := by
  rw [BlockTriangularPreconditioner.toggles_eq]
  exact ⟨rfl, rfl, rfl⟩

/-- Two successive calls of `BlockTriangularPreconditioner::setup` and the
destructor, with any calls of the mode toggles in between: the subsidiary
preconditioners of the first `setup` are deleted by the second, those of the
second by the destructor. -/
theorem BlockTriangularPreconditioner.triangular_setup_twice_any_mode {K : Type} (env : Env K)
    (w : World K) (self : BlockTriangularPreconditioner K) (p1 p2 : ℕ)
    (A1 A2 : CRDoubleMatrix K) (calls1 calls2 : List ModeCall)
    (hsound : self.SoundInEveryMode w)
    (hfact : ∀ c, ∃ k, created_kind self.Subsidiary_preconditioner_function_pt c = some k) :
    ∃ w1 self1 w2 self2 w3 self3,
      self.setup env w p1 (some (DoubleMatrixBase.block_capable A1)) = Except.ok (w1, self1) ∧
      (self1.toggles calls1).setup env w1 p2 (some (DoubleMatrixBase.block_capable A2)) =
        Except.ok (w2, self2) ∧
      (self2.toggles calls2).destructor w2 = Except.ok (w3, self3) ∧
      self1.Diagonal_block_preconditioner_pt =
        vec (self.toGeneralPurposeBlockPreconditioner.scheme env A1).nblock_types
          (fun i => w.preconditioners.next + i) ∧
      (∀ i, i < (self.toGeneralPurposeBlockPreconditioner.scheme env A1).nblock_types →
        (∃ a, w1.preconditioners.obj (w.preconditioners.next + i) = some a) ∧
        w2.preconditioners.obj (w.preconditioners.next + i) = none) ∧
      self2.Diagonal_block_preconditioner_pt =
        vec (self.toGeneralPurposeBlockPreconditioner.scheme env A2).nblock_types
          (fun i => w1.preconditioners.next + i) ∧
      (∀ i, i < (self.toGeneralPurposeBlockPreconditioner.scheme env A2).nblock_types →
        (∃ a, w2.preconditioners.obj (w1.preconditioners.next + i) = some a) ∧
        w3.preconditioners.obj (w1.preconditioners.next + i) = none) ∧
      w1.preconditioners.live + nonnull self.Diagonal_block_preconditioner_pt.length
          (fun i => self.Diagonal_block_preconditioner_pt.getD i 0) =
        w.preconditioners.live +
          (self.toGeneralPurposeBlockPreconditioner.scheme env A1).nblock_types ∧
      w2.preconditioners.live + nonnull self.Diagonal_block_preconditioner_pt.length
          (fun i => self.Diagonal_block_preconditioner_pt.getD i 0) =
        w.preconditioners.live +
          (self.toGeneralPurposeBlockPreconditioner.scheme env A2).nblock_types ∧
      w3.preconditioners.live + nonnull self.Diagonal_block_preconditioner_pt.length
          (fun i => self.Diagonal_block_preconditioner_pt.getD i 0) =
        w.preconditioners.live := by
  have hfact0 := hfact
  choose kindf hkindf using hfact
  have hs0 := hsound.sound
  obtain ⟨hD, hO⟩ := hs0.triangular_owned
  obtain ⟨hown, -, -, hops⟩ := hs0
  obtain ⟨w1, self1, D1, hset1, -, -, -, hD1, hO1, hF1, hP1, hM1, hobj1, hn1, hl1, -, -, -⟩ :=
    self.triangular_setup_spec env w p1 A1 _ _ _ (fun i => kindf (w.factory_calls + i)) hD hO
      hown hops (fun i _ => hkindf _)
  have hs1 := (BlockTriangularPreconditioner.setup_keeps_sound_in_every_mode env w w1 self self1
    p1 A1 hsound hfact0 hset1).toggled calls1
  obtain ⟨f1, f2, f3⟩ := self1.toggles_fields calls1
  have hF1' : (self1.toggles calls1).Subsidiary_preconditioner_function_pt =
      self.Subsidiary_preconditioner_function_pt := by rw [f3]; exact hF1
  have hs : (self1.toggles calls1).toGeneralPurposeBlockPreconditioner.scheme env A2 =
      self.toGeneralPurposeBlockPreconditioner.scheme env A2 := by
    rw [f3]
    exact GeneralPurposeBlockPreconditioner.scheme_congr env _ _ A2 hP1 hM1
  have hpos : 0 < w.preconditioners.next := w.preconditioners.next_pos
  have hpos1 : 0 < w1.preconditioners.next := w1.preconditioners.next_pos
  have hops1 := hs1.sound.2.2.2
  rw [f1, f2, hD1, hO1, vec_length] at hops1
  obtain ⟨w2, self2, D2, hset2, -, -, -, hD2, hO2, hF2, -, -, hobj2, hn2, hl2, hdead2, -, -⟩ :=
    (self1.toggles calls1).triangular_setup_spec env w1 p2 A2 _ _ D1
      (fun i => kindf (w1.factory_calls + i)) (f1.trans hD1) (f2.trans hO1)
      (Owned.fresh _ _ _ (fun i hi => ⟨_, hobj1 i hi⟩)) hops1
      (fun i _ => by rw [hF1']; exact hkindf _)
  have hs2 := (BlockTriangularPreconditioner.setup_keeps_sound_in_every_mode env w1 w2
    (self1.toggles calls1) self2 p2 A2 hs1 (fun c => by rw [hF1']; exact hfact0 c)
    hset2).toggled calls2
  rw [hs] at hD2 hobj2 hl2 hO2
  rw [nonnull_fresh _ _ hpos] at hl2
  obtain ⟨g1, g2, -⟩ := self2.toggles_fields calls2
  have hops2 := hs2.sound.2.2.2
  rw [g1, g2, hD2, hO2, vec_length] at hops2
  obtain ⟨s3, t3, hclean, -, hl3, hdead3, -⟩ :=
    (self2.toggles calls2).clean_memory_spec w2 _ _ D2 (g1.trans hD2) (g2.trans hO2)
      (Owned.fresh _ _ _ (fun i hi => ⟨_, hobj2 i hi⟩)) hops2
  rw [nonnull_fresh _ _ hpos1] at hl3
  refine ⟨w1, self1, w2, self2, _, _, hset1, hset2, hclean, hD1, ?_, hD2, ?_, hl1, ?_, ?_⟩
  · intro i hi
    exact ⟨⟨_, hobj1 i hi⟩, hdead2 i hi (by omega)⟩
  · intro i hi
    exact ⟨⟨_, hobj2 i hi⟩, hdead3 i hi (by omega)⟩
  · omega
  · simp only; omega


/-- C8. Repeated setup does not leak subsidiary preconditioners. For the block
diagonal (sequential path), the block triangular and the exact block
preconditioner, in any state with sound pointers and with a factory that
returns objects, for every two matrices, with block counts `n1` and `n2`: the
two successive `setup` calls and the destructor return, for the block
triangular preconditioner also with any calls of `upper_triangular()` and
`lower_triangular()` between the two `setup` calls and before the destructor.
Every subsidiary preconditioner created by the first `setup` is live after it
and destroyed after the second; those created by the second, `n2` of them (`1`
for Exact), are the ones the object holds after it, they are live, and
destroyed after the destructor. In numbers of live subsidiary preconditioners,
counted without those the object held at the start: `n1` after the first
`setup`, `n2` after the second, which is the number after the first when
`n1 = n2` and is not the sum `n1 + n2` (whenever the first `setup` created any,
`n1 ≥ 1`; with `n1 = 0` there is nothing to add), and `0` after the
destructor. -/
theorem setup_twice_does_not_leak {K : Type} [Zero K] (env : Env K) (w : World K)
    (diagonal : BlockDiagonalPreconditioner K) (triangular : BlockTriangularPreconditioner K)
    (exact : ExactBlockPreconditioner K) (p1 p2 : ℕ) (A1 A2 : CRDoubleMatrix K)
    (calls1 calls2 : List ModeCall)
    (hd : diagonal.Sound w) (ht : triangular.SoundInEveryMode w) (he : exact.Sound w)
    (hfd : ∀ c, ∃ k, created_kind diagonal.Subsidiary_preconditioner_function_pt c = some k)
    (hft : ∀ c, ∃ k, created_kind triangular.Subsidiary_preconditioner_function_pt c = some k)
    (hfe : ∀ c, ∃ k, created_kind exact.Subsidiary_preconditioner_function_pt c = some k) :
    (∃ w1 self1 w2 self2 w3 self3,
      diagonal.setup env w p1 (some (DoubleMatrixBase.block_capable A1)) =
        Except.ok (w1, self1) ∧
      self1.setup env w1 p2 (some (DoubleMatrixBase.block_capable A2)) =
        Except.ok (w2, self2) ∧
      self2.destructor w2 = Except.ok (w3, self3) ∧
      self1.Diagonal_block_preconditioner_pt =
        vec (diagonal.toGeneralPurposeBlockPreconditioner.scheme env A1).nblock_types
          (fun i => w.preconditioners.next + i) ∧
      self2.Diagonal_block_preconditioner_pt =
        vec (diagonal.toGeneralPurposeBlockPreconditioner.scheme env A2).nblock_types
          (fun i => w1.preconditioners.next + i) ∧
      NoLeak w.preconditioners w1.preconditioners w2.preconditioners w3.preconditioners
        (nonnull diagonal.Diagonal_block_preconditioner_pt.length
          (fun i => diagonal.Diagonal_block_preconditioner_pt.getD i 0))
        (diagonal.toGeneralPurposeBlockPreconditioner.scheme env A1).nblock_types
        (diagonal.toGeneralPurposeBlockPreconditioner.scheme env A2).nblock_types) ∧
    (∃ w1 self1 w2 self2 w3 self3,
      triangular.setup env w p1 (some (DoubleMatrixBase.block_capable A1)) =
        Except.ok (w1, self1) ∧
      (self1.toggles calls1).setup env w1 p2
          (some (DoubleMatrixBase.block_capable A2)) =
        Except.ok (w2, self2) ∧
      (self2.toggles calls2).destructor w2 = Except.ok (w3, self3) ∧
      self1.Diagonal_block_preconditioner_pt =
        vec (triangular.toGeneralPurposeBlockPreconditioner.scheme env A1).nblock_types
          (fun i => w.preconditioners.next + i) ∧
      self2.Diagonal_block_preconditioner_pt =
        vec (triangular.toGeneralPurposeBlockPreconditioner.scheme env A2).nblock_types
          (fun i => w1.preconditioners.next + i) ∧
      NoLeak w.preconditioners w1.preconditioners w2.preconditioners w3.preconditioners
        (nonnull triangular.Diagonal_block_preconditioner_pt.length
          (fun i => triangular.Diagonal_block_preconditioner_pt.getD i 0))
        (triangular.toGeneralPurposeBlockPreconditioner.scheme env A1).nblock_types
        (triangular.toGeneralPurposeBlockPreconditioner.scheme env A2).nblock_types) ∧
    (∃ w1 self1 w2 self2 w3 self3,
      exact.setup env w p1 (some (DoubleMatrixBase.block_capable A1)) =
        Except.ok (w1, self1) ∧
      self1.setup env w1 p2 (some (DoubleMatrixBase.block_capable A2)) =
        Except.ok (w2, self2) ∧
      self2.destructor w2 = Except.ok (w3, self3) ∧
      self1.Preconditioner_pt = w.preconditioners.next ∧
      self2.Preconditioner_pt = w1.preconditioners.next ∧
      NoLeak w.preconditioners w1.preconditioners w2.preconditioners w3.preconditioners
        (if exact.Preconditioner_pt = 0 then 0 else 1) 1 1) := by
  refine ⟨?_, ?_, ?_⟩
  · obtain ⟨w1, self1, w2, self2, w3, self3, g1, g2, g3, g4, g5, g6, g7, g8, g9, g10⟩ :=
      diagonal.diagonal_setup_twice env w p1 p2 A1 A2 hd hfd
    exact ⟨w1, self1, w2, self2, w3, self3, g1, g2, g3, g4, g6,
      NoLeak.of_counts _ _ _ _ _ _ _ g5 g7 g8 g9 g10⟩
  · obtain ⟨w1, self1, w2, self2, w3, self3, g1, g2, g3, g4, g5, g6, g7, g8, g9, g10⟩ :=
      triangular.triangular_setup_twice_any_mode env w p1 p2 A1 A2 calls1 calls2 ht hft
    exact ⟨w1, self1, w2, self2, w3, self3, g1, g2, g3, g4, g6,
      NoLeak.of_counts _ _ _ _ _ _ _ g5 g7 g8 g9 g10⟩
  · obtain ⟨w1, self1, w2, self2, w3, self3, g1, g2, g3, g4, g5, g6, g7, g8, g9, g10, g11, g12⟩ :=
      exact.exact_setup_twice env w p1 p2 A1 A2 he hfe
    refine ⟨w1, self1, w2, self2, w3, self3, g1, g2, g3, g4, g7,
      NoLeak.of_counts _ _ _ _ _ _ _ ?_ ?_ g10 g11 g12⟩
    · intro i hi
      obtain rfl : i = 0 := by omega
      exact ⟨g5, g6⟩
    · intro i hi
      obtain rfl : i = 0 := by omega
      exact ⟨g8, g9⟩

/-- The statement of C8 at freshly constructed preconditioners, no factory
installed, a first `setup` on `upper_matrix` and a second on
`identity_matrix`, both with two blocks; the block triangular preconditioner
is switched to lower mode between the two `setup` calls and back to upper mode
before the destructor. Evaluated, the numbers of live subsidiary
preconditioners after the first `setup`, the second `setup` and the destructor
are `2, 2, 0` for the block triangular preconditioner with these mode
switches. -/
theorem setup_twice_does_not_leak_witness :
    ((∃ w1 self1 w2 self2 w3 self3,
      (BlockDiagonalPreconditioner.ctor : BlockDiagonalPreconditioner ℤ).setup paranoid_env (World.empty : World ℤ) 0 (some (DoubleMatrixBase.block_capable upper_matrix)) =
        Except.ok (w1, self1) ∧
      self1.setup paranoid_env w1 0 (some (DoubleMatrixBase.block_capable identity_matrix)) =
        Except.ok (w2, self2) ∧
      self2.destructor w2 = Except.ok (w3, self3) ∧
      self1.Diagonal_block_preconditioner_pt =
        vec ((BlockDiagonalPreconditioner.ctor :
            BlockDiagonalPreconditioner ℤ).toGeneralPurposeBlockPreconditioner.scheme paranoid_env upper_matrix).nblock_types
          (fun i => (World.empty : World ℤ).preconditioners.next + i) ∧
      self2.Diagonal_block_preconditioner_pt =
        vec ((BlockDiagonalPreconditioner.ctor :
            BlockDiagonalPreconditioner ℤ).toGeneralPurposeBlockPreconditioner.scheme paranoid_env identity_matrix).nblock_types
          (fun i => w1.preconditioners.next + i) ∧
      NoLeak (World.empty : World ℤ).preconditioners w1.preconditioners w2.preconditioners w3.preconditioners
        (nonnull (BlockDiagonalPreconditioner.ctor : BlockDiagonalPreconditioner ℤ).Diagonal_block_preconditioner_pt.length
          (fun i => (BlockDiagonalPreconditioner.ctor : BlockDiagonalPreconditioner ℤ).Diagonal_block_preconditioner_pt.getD i 0))
        ((BlockDiagonalPreconditioner.ctor :
            BlockDiagonalPreconditioner ℤ).toGeneralPurposeBlockPreconditioner.scheme paranoid_env upper_matrix).nblock_types
        ((BlockDiagonalPreconditioner.ctor :
            BlockDiagonalPreconditioner ℤ).toGeneralPurposeBlockPreconditioner.scheme paranoid_env identity_matrix).nblock_types) ∧
    (∃ w1 self1 w2 self2 w3 self3,
      (BlockTriangularPreconditioner.ctor : BlockTriangularPreconditioner ℤ).setup paranoid_env (World.empty : World ℤ) 0 (some (DoubleMatrixBase.block_capable upper_matrix)) =
        Except.ok (w1, self1) ∧
      (self1.toggles [ModeCall.lower_triangular]).setup paranoid_env w1 0
          (some (DoubleMatrixBase.block_capable identity_matrix)) =
        Except.ok (w2, self2) ∧
      (self2.toggles [ModeCall.upper_triangular]).destructor w2 = Except.ok (w3, self3) ∧
      self1.Diagonal_block_preconditioner_pt =
        vec ((BlockTriangularPreconditioner.ctor :
            BlockTriangularPreconditioner ℤ).toGeneralPurposeBlockPreconditioner.scheme paranoid_env upper_matrix).nblock_types
          (fun i => (World.empty : World ℤ).preconditioners.next + i) ∧
      self2.Diagonal_block_preconditioner_pt =
        vec ((BlockTriangularPreconditioner.ctor :
            BlockTriangularPreconditioner ℤ).toGeneralPurposeBlockPreconditioner.scheme paranoid_env identity_matrix).nblock_types
          (fun i => w1.preconditioners.next + i) ∧
      NoLeak (World.empty : World ℤ).preconditioners w1.preconditioners w2.preconditioners w3.preconditioners
        (nonnull (BlockTriangularPreconditioner.ctor : BlockTriangularPreconditioner ℤ).Diagonal_block_preconditioner_pt.length
          (fun i => (BlockTriangularPreconditioner.ctor : BlockTriangularPreconditioner ℤ).Diagonal_block_preconditioner_pt.getD i 0))
        ((BlockTriangularPreconditioner.ctor :
            BlockTriangularPreconditioner ℤ).toGeneralPurposeBlockPreconditioner.scheme paranoid_env upper_matrix).nblock_types
        ((BlockTriangularPreconditioner.ctor :
            BlockTriangularPreconditioner ℤ).toGeneralPurposeBlockPreconditioner.scheme paranoid_env identity_matrix).nblock_types) ∧
    (∃ w1 self1 w2 self2 w3 self3,
      (ExactBlockPreconditioner.ctor : ExactBlockPreconditioner ℤ).setup paranoid_env (World.empty : World ℤ) 0 (some (DoubleMatrixBase.block_capable upper_matrix)) =
        Except.ok (w1, self1) ∧
      self1.setup paranoid_env w1 0 (some (DoubleMatrixBase.block_capable identity_matrix)) =
        Except.ok (w2, self2) ∧
      self2.destructor w2 = Except.ok (w3, self3) ∧
      self1.Preconditioner_pt = (World.empty : World ℤ).preconditioners.next ∧
      self2.Preconditioner_pt = w1.preconditioners.next ∧
      NoLeak (World.empty : World ℤ).preconditioners w1.preconditioners w2.preconditioners w3.preconditioners
        (if (ExactBlockPreconditioner.ctor : ExactBlockPreconditioner ℤ).Preconditioner_pt = 0 then 0 else 1) 1 1)) ∧
    (match BlockTriangularPreconditioner.ctor.setup paranoid_env World.empty 0
        (some (DoubleMatrixBase.block_capable upper_matrix)) with
     | Except.ok st1 =>
       match (st1.2.toggles [ModeCall.lower_triangular]).setup paranoid_env st1.1 0
          (some (DoubleMatrixBase.block_capable identity_matrix)) with
       | Except.ok st2 =>
         match BlockTriangularPreconditioner.destructor st2.1
            (st2.2.toggles [ModeCall.upper_triangular]) with
         | Except.ok st3 =>
           some (st1.1.preconditioners.live, st2.2.Upper_triangular,
                 st2.1.preconditioners.live, st3.1.preconditioners.live)
         | Except.error _ => none
       | Except.error _ => none
     | Except.error _ => none) = some (2, false, 2, 0) :=
  ⟨setup_twice_does_not_leak paranoid_env World.empty BlockDiagonalPreconditioner.ctor
    BlockTriangularPreconditioner.ctor ExactBlockPreconditioner.ctor 0 0 upper_matrix
    identity_matrix [ModeCall.lower_triangular] [ModeCall.upper_triangular]
    (BlockDiagonalPreconditioner.diagonal_ctor_sound _)
    (BlockTriangularPreconditioner.ctor_sound_in_every_mode _)
    (ExactBlockPreconditioner.exact_ctor_sound _)
    (fun _ => ⟨_, rfl⟩) (fun _ => ⟨_, rfl⟩) (fun _ => ⟨_, rfl⟩), rfl⟩

end oomph
